import Mathlib

/-! A verification development for the feed-forward training engine.

Shallow embedding of `Tensor.h`, `Tensor_operator.h`, `Tensor_factory.h`,
`ReLu.h`, `Sigmoid.h`, `Loss.h`, `Dense.h`, `Adam.h` and `NeuralNetwork.h`.

Conventions of the embedding.

* `double` is a type parameter `α` carrying the operations the code applies to
  it (`+`, `-`, `*`, `/`, unary minus, `<`, the literals).  A statement about
  exact arithmetic takes `α` to be a linearly ordered field (`ℚ`, `ℝ`); a
  statement about the arithmetic of the machine takes `α` to be `F64`, the
  model of IEEE-754 binary64 given below (round to nearest, ties to even,
  overflow to infinity, NaN).  A floating literal such as `1e-7` or `0.9` is
  written as a quotient of integers (`1 / 10 ^ 7`, `9 / 10`), which `F64` rounds
  once: it is the binary64 number nearest to the literal.  The libm functions
  `std::exp`, `std::log`, `std::sqrt` are parameters of the functions that call
  them.
* `int` is `Int`.  The functions above compute on it without wrap-around,
  which is what the program does as long as no result leaves the range of
  `int`; `numel`, `perhitungan_strides`, `flatten_index` and `at` are also
  given in 32-bit two's-complement arithmetic (namespace `Int32`), where every
  product and sum is reduced by `wrap32`.
* `std::vector` is `List`.  A read or write outside a vector is undefined
  behaviour in C++: the embedding returns `Err.outOfBounds` there.  A failed
  `assert` is `Err.shapeMismatch`, a `resize` to a negative size is
  `Err.badAlloc`.
* C++ objects are values: a method that mutates `*this` returns the new
  object.
* A counted `for` loop is the structural recursion `forLoop`; the two loops
  whose trip count is not of that form run on fuel (`loopUnroll4`, `loopFrom`)
  and are shown to need no more than the fuel they are given.
* `assert` is taken as enabled (no `NDEBUG`).
-/

set_option autoImplicit false

namespace Deeplearning

/-- Ways in which an operation of the program does not produce a value. -/
inductive Err where
  | shapeMismatch
  | outOfBounds
  | badAlloc
  | outOfFuel
deriving DecidableEq, Repr

/-- Counted loop `for (i = start; i < start + count; ++i) s = body(i, s)`. -/
def forLoop {σ : Type} (body : ℕ → σ → Except Err σ) : ℕ → ℕ → σ → Except Err σ
  | 0, _, s => .ok s
  | count + 1, i, s => body i s >>= fun s' => forLoop body count (i + 1) s'

/-- The loop `for (int i = 0; i < n; ++i)` with an `int` bound. -/
def forRange {σ : Type} (n : Int) (body : ℕ → σ → Except Err σ) (s : σ) : Except Err σ :=
  forLoop body n.toNat 0 s

/-- The loop `for (; k + 3 < n; k += 4)` whose body runs `step` at `k`, `k+1`,
`k+2`, `k+3`; returns the final `k` together with the state. -/
def loopUnroll4 {σ : Type} (n : Int) (step : ℕ → σ → Except Err σ) :
    ℕ → ℕ → σ → Except Err (ℕ × σ)
  | 0, k, s => if (k : Int) + 3 < n then .error .outOfFuel else .ok (k, s)
  | fuel + 1, k, s =>
    if (k : Int) + 3 < n then do
      let s ← step k s
      let s ← step (k + 1) s
      let s ← step (k + 2) s
      let s ← step (k + 3) s
      loopUnroll4 n step fuel (k + 4) s
    else .ok (k, s)

/-- The remainder loop `for (; k < n; ++k)` started at a given `k`. -/
def loopFrom {σ : Type} (n : Int) (step : ℕ → σ → Except Err σ) :
    ℕ → ℕ → σ → Except Err σ
  | 0, k, s => if (k : Int) < n then .error .outOfFuel else .ok s
  | fuel + 1, k, s =>
    if (k : Int) < n then step k s >>= fun s' => loopFrom n step fuel (k + 1) s'
    else .ok s

/-- The pair of loops `int k = 0; for (; k + 3 < n; k += 4) {...} for (; k < n; ++k) {...}`. -/
def unrolledLoop {σ : Type} (n : Int) (step : ℕ → σ → Except Err σ) (s : σ) : Except Err σ :=
  loopUnroll4 n step n.toNat 0 s >>= fun p => loopFrom n step n.toNat p.1 p.2

/-- The class `Tensor`: a flat buffer with shape and stride metadata. -/
structure Tensor (α : Type) where
  data : List α
  bentuk : List Int
  strides : List Int
  requires_grad : Bool
deriving DecidableEq, Repr

namespace Tensor

variable {α : Type}

/-- `numel(bentuk)`: `std::accumulate(begin, end, 1, multiplies)`. -/
def numelOf (bentuk : List Int) : Int :=
  bentuk.foldl (fun acc d => acc * d) 1

/-- `numel()` on the tensor's own shape. -/
def numel (t : Tensor α) : Int :=
  t.bentuk.foldl (fun acc d => acc * d) 1

/-- `perhitungan_strides`: a vector of `n` zeros, last entry set to one, then
`strides[i] = strides[i+1] * bentuk[i+1]` for `i = n-2` down to `0`. -/
def perhitungan_strides (bentuk : List Int) : List Int :=
  let n := bentuk.length
  let strides : List Int := List.replicate n 0
  if 0 < n then
    (List.range (n - 1)).reverse.foldl
      (fun s i => s.set i (s.getD (i + 1) 0 * bentuk.getD (i + 1) 0))
      (strides.set (n - 1) 1)
  else strides

/-- The default constructor `Tensor()`. -/
def default : Tensor α := ⟨[], [], [], false⟩

/-- The constructor `Tensor(bentuk_)`: `data.resize(numel(bentuk))` value-initialises. -/
def ofShape [Zero α] (bentuk_ : List Int) : Except Err (Tensor α) :=
  if numelOf bentuk_ < 0 then .error .badAlloc
  else .ok ⟨List.replicate (numelOf bentuk_).toNat 0, bentuk_, perhitungan_strides bentuk_, false⟩

/-- The constructor `Tensor(bentuk_, data_)`. -/
def ofShapeData (bentuk_ : List Int) (data_ : List α) : Tensor α :=
  ⟨data_, bentuk_, perhitungan_strides bentuk_, false⟩

/-- The accumulation loop of `flatten_index`. -/
def flatten_index.loop : List Int → List Int → Int → Except Err Int
  | [], _, index => .ok index
  | _ :: _, [], _ => .error .outOfBounds
  | i :: is, s :: ss, index => flatten_index.loop is ss (index + i * s)

/-- `flatten_index(indices, strides)`. -/
def flatten_index (indices strides : List Int) : Except Err Int :=
  flatten_index.loop indices strides 0

/-- Read through `operator[](int i)`, that is `data[i]`. -/
def index (t : Tensor α) (i : Int) : Except Err α :=
  if i < 0 then .error .outOfBounds
  else match t.data[i.toNat]? with
    | some x => .ok x
    | none => .error .outOfBounds

/-- Write through the reference returned by `operator[](int i)`. -/
def indexSet (t : Tensor α) (i : Int) (v : α) : Except Err (Tensor α) :=
  if i < 0 then .error .outOfBounds
  else if i.toNat < t.data.length then .ok { t with data := t.data.set i.toNat v }
  else .error .outOfBounds

end Tensor

/-- Read through `at(indices)`, that is `data[flatten_index(indices, strides)]`. -/
def Tensor.at {α : Type} (t : Tensor α) (indices : List Int) : Except Err α :=
  Tensor.flatten_index indices t.strides >>= fun k => t.index k

namespace Tensor

variable {α : Type}

/-- Write through the reference returned by `at(indices)`. -/
def atSet (t : Tensor α) (indices : List Int) (v : α) : Except Err (Tensor α) :=
  flatten_index indices t.strides >>= fun k => t.indexSet k v

/-- Body shared by `operator+=`, `-=`, `*=`, `/=` with a tensor right-hand side:
the assertion on the shapes, then `data[i] op= rhs.data[i]` for `i < data.size()`. -/
def compound (op : α → α → α) (lhs rhs : Tensor α) : Except Err (Tensor α) :=
  if lhs.bentuk = rhs.bentuk then
    forLoop (fun i (d : List α) =>
      match d[i]?, rhs.data[i]? with
      | some a, some b => .ok (d.set i (op a b))
      | _, _ => .error .outOfBounds) lhs.data.length 0 lhs.data
      >>= fun d => .ok { lhs with data := d }
  else .error .shapeMismatch

/-- Body shared by the compound operators with a scalar right-hand side:
`data[i] op= scalar` for `i < data.size()`. -/
def compoundScalar (op : α → α → α) (t : Tensor α) (scalar : α) : Except Err (Tensor α) :=
  forLoop (fun i (d : List α) =>
    match d[i]? with
    | some a => .ok (d.set i (op a scalar))
    | none => .error .outOfBounds) t.data.length 0 t.data
    >>= fun d => .ok { t with data := d }

/-- Body shared by the free functions that allocate `out(t.get_shape())` and run
`for (i < t.numel()) out[i] = f(t[i])`. -/
def mapNumel [Zero α] (f : α → α) (t : Tensor α) : Except Err (Tensor α) :=
  ofShape t.bentuk >>= fun out =>
    forRange t.numel (fun i out => t.index i >>= fun x => out.indexSet i (f x)) out

variable [Zero α] [One α] [Add α] [Sub α] [Mul α] [Div α] [Neg α] [LT α]
  [DecidableRel (fun a b : α => a < b)] [NatCast α] [IntCast α] [Pow α ℕ] [Pow α ℤ]

/-- `operator+=(const Tensor&)`. -/
def addAssign (lhs rhs : Tensor α) : Except Err (Tensor α) := compound (· + ·) lhs rhs
/-- `operator-=(const Tensor&)`. -/
def subAssign (lhs rhs : Tensor α) : Except Err (Tensor α) := compound (· - ·) lhs rhs
/-- `operator*=(const Tensor&)`. -/
def mulAssign (lhs rhs : Tensor α) : Except Err (Tensor α) := compound (· * ·) lhs rhs
/-- `operator/=(const Tensor&)`. -/
def divAssign (lhs rhs : Tensor α) : Except Err (Tensor α) := compound (· / ·) lhs rhs

/-- Unary `operator-()`: `result(bentuk)`, then `result.data[i] = -data[i]` for
`i < data.size()`. -/
def neg (t : Tensor α) : Except Err (Tensor α) :=
  ofShape t.bentuk >>= fun result =>
    forLoop (fun i (r : List α) =>
      match t.data[i]? with
      | some a => if i < r.length then .ok (r.set i (-a)) else .error .outOfBounds
      | none => .error .outOfBounds) t.data.length 0 result.data
      >>= fun d => .ok { result with data := d }

/-- `operator+=(double)`. -/
def addAssignScalar (t : Tensor α) (s : α) : Except Err (Tensor α) := compoundScalar (· + ·) t s
/-- `operator-=(double)`. -/
def subAssignScalar (t : Tensor α) (s : α) : Except Err (Tensor α) := compoundScalar (· - ·) t s
/-- `operator*=(double)`. -/
def mulAssignScalar (t : Tensor α) (s : α) : Except Err (Tensor α) := compoundScalar (· * ·) t s
/-- `operator/=(double)`. -/
def divAssignScalar (t : Tensor α) (s : α) : Except Err (Tensor α) := compoundScalar (· / ·) t s

/-- `operator+(Tensor lhs, const Tensor& rhs)`: `return lhs += rhs`. -/
def add (lhs rhs : Tensor α) : Except Err (Tensor α) := lhs.addAssign rhs
/-- `operator-(Tensor lhs, const Tensor& rhs)`. -/
def sub (lhs rhs : Tensor α) : Except Err (Tensor α) := lhs.subAssign rhs
/-- `operator*(Tensor lhs, const Tensor& rhs)`. -/
def mul (lhs rhs : Tensor α) : Except Err (Tensor α) := lhs.mulAssign rhs
/-- `operator/(Tensor lhs, const Tensor& rhs)`. -/
def div (lhs rhs : Tensor α) : Except Err (Tensor α) := lhs.divAssign rhs

/-- `operator+(double s, const Tensor& t)`. -/
def scalarAdd (s : α) (t : Tensor α) : Except Err (Tensor α) := mapNumel (fun x => s + x) t
/-- `operator-(double s, const Tensor& t)`. -/
def scalarSub (s : α) (t : Tensor α) : Except Err (Tensor α) := mapNumel (fun x => s - x) t
/-- `operator*(double s, const Tensor& t)`. -/
def scalarMul (s : α) (t : Tensor α) : Except Err (Tensor α) := mapNumel (fun x => s * x) t
/-- `operator/(double s, const Tensor& t)`. -/
def scalarDiv (s : α) (t : Tensor α) : Except Err (Tensor α) := mapNumel (fun x => s / x) t

/-- `operator+(Tensor t, double s)`: `return t += s`. -/
def addScalar (t : Tensor α) (s : α) : Except Err (Tensor α) := t.addAssignScalar s
/-- `operator-(Tensor t, double s)`. -/
def subScalar (t : Tensor α) (s : α) : Except Err (Tensor α) := t.subAssignScalar s
/-- `operator*(Tensor t, double s)`. -/
def mulScalar (t : Tensor α) (s : α) : Except Err (Tensor α) := t.mulAssignScalar s
/-- `operator/(Tensor t, double s)`. -/
def divScalar (t : Tensor α) (s : α) : Except Err (Tensor α) := t.divAssignScalar s

/-- The free function `exp(const Tensor&)`, over the scalar `std::exp`. -/
def exp (sexp : α → α) (t : Tensor α) : Except Err (Tensor α) := mapNumel sexp t
/-- The free function `sqrt(const Tensor&)`, over the scalar `std::sqrt`. -/
def sqrt (ssqrt : α → α) (t : Tensor α) : Except Err (Tensor α) := mapNumel ssqrt t
/-- The free function `log(const Tensor&)`, over the scalar `std::log`. -/
def log (slog : α → α) (t : Tensor α) : Except Err (Tensor α) := mapNumel slog t

end Tensor

namespace dl

variable {α : Type} [Zero α] [One α] [Add α] [Sub α] [Mul α] [Div α] [Neg α] [LT α]
  [DecidableRel (fun a b : α => a < b)] [NatCast α] [IntCast α] [Pow α ℕ] [Pow α ℤ]

/-- `dl::zeros(shape)`: `Tensor t(shape)`, then `t[i] = 0.0` for `i < t.numel()`. -/
def zeros (shape : List Int) : Except Err (Tensor α) :=
  Tensor.ofShape shape >>= fun t =>
    forRange t.numel (fun i t => t.indexSet i 0) t

end dl

/-- The scalar `std::max(a, b)`: `(a < b) ? b : a`. -/
def stdMax {α : Type} [LT α] [DecidableRel (fun a b : α => a < b)] (a b : α) : α :=
  if a < b then b else a

/-- The scalar `std::min(a, b)`: `(b < a) ? b : a`. -/
def stdMin {α : Type} [LT α] [DecidableRel (fun a b : α => a < b)] (a b : α) : α :=
  if b < a then b else a

/-- Read of `v[i]` on a `std::vector` of objects with an `int` index. -/
def vecGet {β : Type} (v : List β) (i : Int) : Except Err β :=
  if i < 0 then .error .outOfBounds
  else match v[i.toNat]? with
    | some x => .ok x
    | none => .error .outOfBounds

/-- Write of `v[i]` on a `std::vector` of objects with an `int` index. -/
def vecSet {β : Type} (v : List β) (i : Int) (x : β) : Except Err (List β) :=
  if i < 0 then .error .outOfBounds
  else if i.toNat < v.length then .ok (v.set i.toNat x)
  else .error .outOfBounds

/-- Counting-down loop `for (int i = n - 1; i >= 0; --i) s = body(i, s)`. -/
def forDown {σ : Type} (body : ℕ → σ → Except Err σ) : ℕ → σ → Except Err σ
  | 0, s => .ok s
  | n + 1, s => body n s >>= fun s' => forDown body n s'

namespace ReLu

variable {α : Type} [Zero α] [One α] [Add α] [Sub α] [Mul α] [Div α] [Neg α] [LT α]
  [DecidableRel (fun a b : α => a < b)] [NatCast α] [IntCast α] [Pow α ℕ] [Pow α ℤ]

/-- `ReLu::forward`: `out[i] = std::max(0.0, x[i])`. -/
def forward (x : Tensor α) : Except Err (Tensor α) :=
  Tensor.mapNumel (fun v => stdMax 0 v) x

/-- `ReLu::backward`: `out[i] = (x[i] > 0) ? 1.0 : 0.0`. -/
def backward (x : Tensor α) : Except Err (Tensor α) :=
  Tensor.mapNumel (fun v => if v > 0 then 1 else 0) x

end ReLu

namespace Sigmoid

variable {α : Type} [Zero α] [One α] [Add α] [Sub α] [Mul α] [Div α] [Neg α] [LT α]
  [DecidableRel (fun a b : α => a < b)] [NatCast α] [IntCast α] [Pow α ℕ] [Pow α ℤ]

/-- `Sigmoid::forward`: `1.0 / (1.0 + exp(-x))`. -/
def forward (sexp : α → α) (x : Tensor α) : Except Err (Tensor α) :=
  x.neg >>= fun nx =>
  Tensor.exp sexp nx >>= fun e =>
  Tensor.scalarAdd 1 e >>= fun d =>
  Tensor.scalarDiv 1 d

/-- `Sigmoid::backward`: `x * (1.0 - x)`. -/
def backward (x : Tensor α) : Except Err (Tensor α) :=
  Tensor.scalarSub 1 x >>= fun r => Tensor.mul x r

end Sigmoid

namespace BinaryCrossEnrtopy

variable {α : Type} [Zero α] [One α] [Add α] [Sub α] [Mul α] [Div α] [Neg α] [LT α]
  [DecidableRel (fun a b : α => a < b)] [NatCast α] [IntCast α] [Pow α ℕ] [Pow α ℤ]

/-- The constant `eps = 1e-7` of both passes. -/
def eps : α := 1 / 10 ^ 7

/-- The clamp `std::max(eps, std::min(1.0 - eps, v))`. -/
def clamp (v : α) : α := stdMax eps (stdMin (1 - eps) v)

/-- `BinaryCrossEnrtopy::forward`. -/
def forward (slog : α → α) (y_pred y_test : Tensor α) : Except Err (Tensor α) :=
  Tensor.ofShape y_pred.bentuk >>= fun out =>
    forRange y_pred.numel (fun i out =>
      y_pred.index i >>= fun yp =>
      let p := clamp yp
      y_test.index i >>= fun y =>
      out.indexSet i (-(y * slog p + (1 - y) * slog (1 - p)))) out

/-- `BinaryCrossEnrtopy::backward`. -/
def backward (y_pred y_test : Tensor α) : Except Err (Tensor α) :=
  Tensor.ofShape y_pred.bentuk >>= fun out =>
    forRange y_pred.numel (fun i out =>
      y_pred.index i >>= fun yp =>
      let p := clamp yp
      y_test.index i >>= fun y =>
      out.indexSet i ((p - y) / (p * (1 - p)))) out

end BinaryCrossEnrtopy

/-- The class `Dense`. -/
structure Dense (α : Type) where
  in_features : Int
  out_features : Int
  bobot : Tensor α
  bias : Tensor α
  grad_bobot : Tensor α
  grad_bias : Tensor α
  cached_input : Tensor α
  gunakan_bias : Bool

namespace Dense

variable {α : Type} [Zero α] [One α] [Add α] [Sub α] [Mul α] [Div α] [Neg α] [LT α]
  [DecidableRel (fun a b : α => a < b)] [NatCast α] [IntCast α] [Pow α ℕ] [Pow α ℤ]

/-- The constructor `Dense(in_features_, out_features_, gunakan_bias_)`.  The
tensor returned by `dl::kaiming_normal({out_features, in_features})` is random:
it is the argument `kaiming`. -/
def new (in_features_ out_features_ : Int) (gunakan_bias_ : Bool) (kaiming : Tensor α) :
    Except Err (Dense α) :=
  (if gunakan_bias_ then dl.zeros [out_features_] else .ok Tensor.default) >>= fun bias =>
  dl.zeros [out_features_, in_features_] >>= fun grad_bobot =>
  (if gunakan_bias_ then dl.zeros [out_features_] else .ok Tensor.default) >>= fun grad_bias =>
  .ok ⟨in_features_, out_features_, kaiming, bias, grad_bobot, grad_bias, Tensor.default,
    gunakan_bias_⟩

/-- One term of the dot product in `forward`: `sum += input.at({b,k}) * bobot.at({o,k})`. -/
def forwardTerm (L : Dense α) (input : Tensor α) (b o : ℕ) (k : ℕ) (sum : α) : Except Err α :=
  input.at [(b : Int), (k : Int)] >>= fun x =>
  L.bobot.at [(o : Int), (k : Int)] >>= fun w =>
  .ok (sum + x * w)

/-- `Dense::forward`; returns the layer (with its input cache) and the output. -/
def forward (L : Dense α) (input : Tensor α) : Except Err (Dense α × Tensor α) :=
  let L1 : Dense α := { L with cached_input := input }
  vecGet input.bentuk 0 >>= fun batch_size =>
  dl.zeros [batch_size, L1.out_features] >>= fun output =>
  forRange batch_size (fun b output =>
    forRange L1.out_features (fun o output =>
      unrolledLoop L1.in_features (forwardTerm L1 input b o) 0 >>= fun sum =>
      (if L1.gunakan_bias then L1.bias.index o >>= fun bo => .ok (sum + bo) else .ok sum)
        >>= fun sum =>
      output.atSet [(b : Int), (o : Int)] sum) output) output >>= fun output =>
  .ok (L1, output)

/-- One statement of the weight-gradient loop in `backward`:
`grad_bobot.at({o,i}) += grad_o * cached_input.at({b,i})`. -/
def gradBobotStep (cached_input : Tensor α) (grad_o : α) (b o : ℕ) (i : ℕ)
    (grad_bobot : Tensor α) : Except Err (Tensor α) :=
  grad_bobot.at [(o : Int), (i : Int)] >>= fun g =>
  cached_input.at [(b : Int), (i : Int)] >>= fun x =>
  grad_bobot.atSet [(o : Int), (i : Int)] (g + grad_o * x)

/-- One term of the input-gradient sum in `backward`:
`sum += grad_output.at({b,o}) * bobot.at({o,i})`. -/
def gradInputTerm (L : Dense α) (grad_output : Tensor α) (b i : ℕ) (o : ℕ) (sum : α) :
    Except Err α :=
  grad_output.at [(b : Int), (o : Int)] >>= fun g =>
  L.bobot.at [(o : Int), (i : Int)] >>= fun w =>
  .ok (sum + g * w)

/-- `Dense::backward`; returns the layer (with its gradients) and `grad_input`. -/
def backward (L : Dense α) (grad_output : Tensor α) : Except Err (Dense α × Tensor α) :=
  vecGet grad_output.bentuk 0 >>= fun batch_size =>
  dl.zeros [L.out_features, L.in_features] >>= fun grad_bobot0 =>
  (if L.gunakan_bias then dl.zeros [L.out_features] else .ok L.grad_bias) >>= fun grad_bias0 =>
  dl.zeros [batch_size, L.in_features] >>= fun grad_input0 =>
  forRange batch_size (fun b (st : Tensor α × Tensor α) =>
    forRange L.out_features (fun o (st : Tensor α × Tensor α) =>
      grad_output.at [(b : Int), (o : Int)] >>= fun grad_o =>
      (if L.gunakan_bias then
          st.2.index o >>= fun gb => st.2.indexSet o (gb + grad_o)
        else .ok st.2) >>= fun grad_bias =>
      unrolledLoop L.in_features (gradBobotStep L.cached_input grad_o b o) st.1
        >>= fun grad_bobot =>
      .ok (grad_bobot, grad_bias)) st) (grad_bobot0, grad_bias0) >>= fun st =>
  forRange batch_size (fun b grad_input =>
    forRange L.in_features (fun i grad_input =>
      unrolledLoop L.out_features (gradInputTerm L grad_output b i) 0 >>= fun sum =>
      grad_input.atSet [(b : Int), (i : Int)] sum) grad_input) grad_input0 >>= fun grad_input =>
  .ok ({ L with grad_bobot := st.1, grad_bias := st.2 }, grad_input)

/-- `Dense::update_bobot(learning_rate)`. -/
def update_bobot (L : Dense α) (learning_rate : α) : Except Err (Dense α) :=
  forRange L.bobot.numel (fun i bobot =>
    bobot.index i >>= fun w =>
    L.grad_bobot.index i >>= fun g =>
    bobot.indexSet i (w - learning_rate * g)) L.bobot >>= fun bobot =>
  (if L.gunakan_bias then
    forRange L.bias.numel (fun i bias =>
      bias.index i >>= fun w =>
      L.grad_bias.index i >>= fun g =>
      bias.indexSet i (w - learning_rate * g)) L.bias
   else .ok L.bias) >>= fun bias =>
  .ok { L with bobot := bobot, bias := bias }

/-- `Dense::set_bobot`. -/
def set_bobot (L : Dense α) (w : Tensor α) : Dense α := { L with bobot := w }

/-- `Dense::set_bias`. -/
def set_bias (L : Dense α) (b : Tensor α) : Dense α := { L with bias := b }

/-- `Dense::num_parameters`. -/
def num_parameters (L : Dense α) : Int :=
  if L.gunakan_bias then L.in_features * L.out_features + L.out_features
  else L.in_features * L.out_features

/-- `Dense::zero_grad`. -/
def zero_grad (L : Dense α) : Except Err (Dense α) :=
  dl.zeros [L.out_features, L.in_features] >>= fun grad_bobot =>
  (if L.gunakan_bias then dl.zeros [L.out_features] else .ok L.grad_bias) >>= fun grad_bias =>
  .ok { L with grad_bobot := grad_bobot, grad_bias := grad_bias }

end Dense

/-- The class `adam`. -/
structure adam (α : Type) where
  lr : α
  beta1 : α
  beta2 : α
  epsilon : α
  t : Int
  m_bobot : Tensor α
  v_bobot : Tensor α
  m_bias : Tensor α
  v_bias : Tensor α
  inisialisasi : Bool

namespace adam

variable {α : Type} [Zero α] [One α] [Add α] [Sub α] [Mul α] [Div α] [Neg α] [LT α]
  [DecidableRel (fun a b : α => a < b)] [NatCast α] [IntCast α] [Pow α ℕ] [Pow α ℤ]

/-- The constructor `adam(learning_rate, b1, b2, eps)`. -/
def new (learning_rate b1 b2 eps : α) : adam α :=
  ⟨learning_rate, b1, b2, eps, 0, Tensor.default, Tensor.default, Tensor.default,
    Tensor.default, false⟩

/-- The constructor with its default arguments `b1 = 0.9, b2 = 0.999, eps = 1e-8`. -/
def newDefault (learning_rate : α) : adam α :=
  new learning_rate (9 / 10) (999 / 1000) (1 / 10 ^ 8)

/-- The statement `m = beta * m + (1 - beta) * grad` of `update`. -/
def momentStep (beta : α) (m grad : Tensor α) : Except Err (Tensor α) :=
  Tensor.scalarMul beta m >>= fun a =>
  Tensor.scalarMul (1 - beta) grad >>= fun b =>
  Tensor.add a b

/-- The statement `v = beta * v + (1 - beta) * (grad * grad)` of `update`. -/
def secondMomentStep (beta : α) (v grad : Tensor α) : Except Err (Tensor α) :=
  Tensor.scalarMul beta v >>= fun a =>
  Tensor.mul grad grad >>= fun g2 =>
  Tensor.scalarMul (1 - beta) g2 >>= fun b =>
  Tensor.add a b

/-- The statement `param = param - lr * m_hat / (sqrt(v_hat) + epsilon)` of `update`. -/
def paramStep (ssqrt : α → α) (lr epsilon : α) (param m_hat v_hat : Tensor α) :
    Except Err (Tensor α) :=
  Tensor.scalarMul lr m_hat >>= fun num =>
  Tensor.sqrt ssqrt v_hat >>= fun r =>
  Tensor.addScalar r epsilon >>= fun den =>
  Tensor.div num den >>= fun q =>
  Tensor.sub param q

/-- `adam::update(bobot, grad_bobot, bias, grad_bias)`; returns the optimizer
and the two tensors it mutates through its reference arguments. -/
def update (ssqrt : α → α) (A : adam α) (bobot grad_bobot bias grad_bias : Tensor α) :
    Except Err (adam α × Tensor α × Tensor α) :=
  (if A.inisialisasi = false then
    dl.zeros bobot.bentuk >>= fun mb =>
    dl.zeros bobot.bentuk >>= fun vb =>
    dl.zeros bias.bentuk >>= fun mbi =>
    dl.zeros bias.bentuk >>= fun vbi =>
    .ok { A with m_bobot := mb, v_bobot := vb, m_bias := mbi, v_bias := vbi,
                 inisialisasi := true }
   else .ok A) >>= fun A1 =>
  let t := A1.t + 1
  momentStep A1.beta1 A1.m_bobot grad_bobot >>= fun m_bobot =>
  secondMomentStep A1.beta2 A1.v_bobot grad_bobot >>= fun v_bobot =>
  let koreksi_bias1 := 1 - A1.beta1 ^ t
  let koreksi_bias2 := 1 - A1.beta2 ^ t
  Tensor.divScalar m_bobot koreksi_bias1 >>= fun m_hat_bobot =>
  Tensor.divScalar v_bobot koreksi_bias2 >>= fun v_hat_bobot =>
  paramStep ssqrt A1.lr A1.epsilon bobot m_hat_bobot v_hat_bobot >>= fun bobot1 =>
  momentStep A1.beta1 A1.m_bias grad_bias >>= fun m_bias =>
  secondMomentStep A1.beta2 A1.v_bias grad_bias >>= fun v_bias =>
  Tensor.divScalar m_bias koreksi_bias1 >>= fun m_hat_bias =>
  Tensor.divScalar v_bias koreksi_bias2 >>= fun v_hat_bias =>
  paramStep ssqrt A1.lr A1.epsilon bias m_hat_bias v_hat_bias >>= fun bias1 =>
  .ok ({ A1 with t := t, m_bobot := m_bobot, v_bobot := v_bobot, m_bias := m_bias,
                 v_bias := v_bias }, bobot1, bias1)

end adam

/-- The enumeration `LayerType`. -/
inductive LayerType where
  | DENSE
  | RELU
  | SIGMOID
deriving DecidableEq, Repr

/-- The struct `LayerInfo`. -/
structure LayerInfo where
  type : LayerType
  dense_index : Int
deriving DecidableEq, Repr

/-- The class `NeuralNetwork`. -/
structure NeuralNetwork (α : Type) where
  dense_layers : List (Dense α)
  layer_order : List LayerInfo
  optimizers : List (adam α)
  activations : List (Tensor α)
  pre_activations : List (Tensor α)
  learning_rate : α

namespace NeuralNetwork

variable {α : Type} [Zero α] [One α] [Add α] [Sub α] [Mul α] [Div α] [Neg α] [LT α]
  [DecidableRel (fun a b : α => a < b)] [NatCast α] [IntCast α] [Pow α ℕ] [Pow α ℤ]

/-- The constructor `NeuralNetwork(lr)`. -/
def new (lr : α) : NeuralNetwork α := ⟨[], [], [], [], [], lr⟩

/-- `tambah_dense(in_features, out_features, gunakan_bias)`; `kaiming` is the
random weight tensor drawn by the `Dense` constructor. -/
def tambah_dense (N : NeuralNetwork α) (in_features out_features : Int) (gunakan_bias : Bool)
    (kaiming : Tensor α) : Except Err (NeuralNetwork α) :=
  Dense.new in_features out_features gunakan_bias kaiming >>= fun L =>
  let dense_layers := N.dense_layers ++ [L]
  let optimizers := N.optimizers ++ [adam.newDefault N.learning_rate]
  let info : LayerInfo := ⟨LayerType.DENSE, (dense_layers.length : Int) - 1⟩
  .ok { N with dense_layers := dense_layers, optimizers := optimizers,
               layer_order := N.layer_order ++ [info] }

/-- `tambah_relu()`. -/
def tambah_relu (N : NeuralNetwork α) : NeuralNetwork α :=
  { N with layer_order := N.layer_order ++ [⟨LayerType.RELU, -1⟩] }

/-- `tambah_sigmoid()`. -/
def tambah_sigmoid (N : NeuralNetwork α) : NeuralNetwork α :=
  { N with layer_order := N.layer_order ++ [⟨LayerType.SIGMOID, -1⟩] }

/-- The body of the loop of `forward` for stage `i`; the state is the network
and the local `current`. -/
def forwardStep (sexp : α → α) (i : ℕ) (st : NeuralNetwork α × Tensor α) :
    Except Err (NeuralNetwork α × Tensor α) :=
  match st.1.layer_order[i]? with
  | none => .error .outOfBounds
  | some info =>
    (match info.type with
     | LayerType.DENSE =>
       let N1 := { st.1 with pre_activations := st.1.pre_activations ++ [st.2] }
       vecGet N1.dense_layers info.dense_index >>= fun L =>
       L.forward st.2 >>= fun r =>
       vecSet N1.dense_layers info.dense_index r.1 >>= fun layers =>
       .ok ({ N1 with dense_layers := layers }, r.2)
     | LayerType.RELU =>
       let N1 := { st.1 with pre_activations := st.1.pre_activations ++ [st.2] }
       ReLu.forward st.2 >>= fun c => .ok (N1, c)
     | LayerType.SIGMOID =>
       let N1 := { st.1 with pre_activations := st.1.pre_activations ++ [st.2] }
       Sigmoid.forward sexp st.2 >>= fun c => .ok (N1, c)) >>= fun st1 =>
    .ok ({ st1.1 with activations := st1.1.activations ++ [st1.2] }, st1.2)

/-- `NeuralNetwork::forward`. -/
def forward (sexp : α → α) (N : NeuralNetwork α) (input : Tensor α) :
    Except Err (NeuralNetwork α × Tensor α) :=
  let N0 := { N with activations := [input], pre_activations := [] }
  forLoop (forwardStep sexp) N0.layer_order.length 0 (N0, input)

/-- The body of the loop of `backward` for stage `i`; the state is the network
and the local `grad`. -/
def backwardStep (i : ℕ) (st : NeuralNetwork α × Tensor α) :
    Except Err (NeuralNetwork α × Tensor α) :=
  match st.1.layer_order[i]? with
  | none => .error .outOfBounds
  | some info =>
    match info.type with
    | LayerType.DENSE =>
      vecGet st.1.dense_layers info.dense_index >>= fun L =>
      L.backward st.2 >>= fun r =>
      vecSet st.1.dense_layers info.dense_index r.1 >>= fun layers =>
      .ok ({ st.1 with dense_layers := layers }, r.2)
    | LayerType.RELU =>
      vecGet st.1.pre_activations (i : Int) >>= fun pre =>
      ReLu.backward pre >>= fun relu_grad =>
      Tensor.mul st.2 relu_grad >>= fun g => .ok (st.1, g)
    | LayerType.SIGMOID =>
      vecGet st.1.activations ((i : Int) + 1) >>= fun sig_output =>
      Sigmoid.backward sig_output >>= fun sig_grad =>
      Tensor.mul st.2 sig_grad >>= fun g => .ok (st.1, g)

/-- `NeuralNetwork::backward`; the C++ method returns nothing, the embedding
returns the network together with the final value of the local `grad`. -/
def backward (N : NeuralNetwork α) (y_pred y_true : Tensor α) :
    Except Err (NeuralNetwork α × Tensor α) :=
  BinaryCrossEnrtopy.backward y_pred y_true >>= fun grad =>
  forDown backwardStep N.layer_order.length (N, grad)

/-- The body of the loop of `optimisasi` for dense layer `i`. -/
def optimisasiStep (ssqrt : α → α) (i : ℕ) (N : NeuralNetwork α) :
    Except Err (NeuralNetwork α) :=
  vecGet N.dense_layers (i : Int) >>= fun L =>
  vecGet N.optimizers (i : Int) >>= fun A =>
  A.update ssqrt L.bobot L.grad_bobot L.bias L.grad_bias >>= fun r =>
  vecSet N.optimizers (i : Int) r.1 >>= fun optimizers =>
  vecSet N.dense_layers (i : Int) ((L.set_bobot r.2.1).set_bias r.2.2) >>= fun layers =>
  .ok { N with dense_layers := layers, optimizers := optimizers }

/-- `NeuralNetwork::optimisasi`. -/
def optimisasi (ssqrt : α → α) (N : NeuralNetwork α) : Except Err (NeuralNetwork α) :=
  forLoop (optimisasiStep ssqrt) N.dense_layers.length 0 N

/-- `NeuralNetwork::zero_grad`: `layer.zero_grad()` for every layer in order. -/
def zero_grad (N : NeuralNetwork α) : Except Err (NeuralNetwork α) :=
  N.dense_layers.mapM Dense.zero_grad >>= fun layers => .ok { N with dense_layers := layers }

/-- The reduction of `train_step`: the sum of `loss_tensor[i]` for
`i < loss_tensor.numel()`, divided by `loss_tensor.numel()`. -/
def meanLoss (loss_tensor : Tensor α) : Except Err α :=
  forRange loss_tensor.numel (fun i loss => loss_tensor.index i >>= fun v => .ok (loss + v)) 0
    >>= fun loss => .ok (loss / (loss_tensor.numel : α))

/-- `NeuralNetwork::train_step`. -/
def train_step (sexp slog ssqrt : α → α) (N : NeuralNetwork α) (input target : Tensor α) :
    Except Err (NeuralNetwork α × α) :=
  N.zero_grad >>= fun N1 =>
  N1.forward sexp input >>= fun fw =>
  BinaryCrossEnrtopy.forward slog fw.2 target >>= fun loss_tensor =>
  meanLoss loss_tensor >>= fun loss =>
  fw.1.backward fw.2 target >>= fun bw =>
  bw.1.optimisasi ssqrt >>= fun N4 =>
  .ok (N4, loss)

/-- `NeuralNetwork::train`; the state carries the loss of the last step (the
C++ method only prints it). -/
def train (sexp slog ssqrt : α → α) (N : NeuralNetwork α) (X y : Tensor α) (epochs : Int) :
    Except Err (NeuralNetwork α × α) :=
  forRange epochs (fun _ st => train_step sexp slog ssqrt st.1 X y) (N, 0)

/-- `NeuralNetwork::predict`. -/
def predict (sexp : α → α) (N : NeuralNetwork α) (input : Tensor α) :
    Except Err (NeuralNetwork α × Tensor α) :=
  N.forward sexp input

end NeuralNetwork

/-! ## The `int` computations of `Tensor.h` in 32-bit arithmetic -/

/-- The value a 32-bit two's-complement `int` holds for the result `x` of an
addition or a multiplication: `x` reduced modulo `2^32` into `[-2^31, 2^31)`. -/
def wrap32 (x : Int) : Int := (x + 2147483648) % 4294967296 - 2147483648

namespace Int32

/-- `numel(bentuk)`: `std::accumulate(begin, end, 1, multiplies<int>())`, every
product an `int`. -/
def numel (bentuk : List Int) : Int :=
  bentuk.foldl (fun acc d => wrap32 (acc * d)) 1

/-- `perhitungan_strides`: a vector of `n` zeros, last entry set to one, then
`strides[i] = strides[i+1] * bentuk[i+1]` for `i = n-2` down to `0`, every
product an `int`. -/
def perhitungan_strides (bentuk : List Int) : List Int :=
  let n := bentuk.length
  let strides : List Int := List.replicate n 0
  if 0 < n then
    (List.range (n - 1)).reverse.foldl
      (fun s i => s.set i (wrap32 (s.getD (i + 1) 0 * bentuk.getD (i + 1) 0)))
      (strides.set (n - 1) 1)
  else strides

/-- The accumulation loop of `flatten_index`: `index += indices[i] * strides[i]`,
the product and the sum each an `int`. -/
def flatten_index.loop : List Int → List Int → Int → Except Err Int
  | [], _, index => .ok index
  | _ :: _, [], _ => .error .outOfBounds
  | i :: is, s :: ss, index => flatten_index.loop is ss (wrap32 (index + wrap32 (i * s)))

/-- `flatten_index(indices, strides)`. -/
def flatten_index (indices strides : List Int) : Except Err Int :=
  flatten_index.loop indices strides 0

end Int32

/-- Read through `at(indices)`, that is `data[flatten_index(indices, strides)]`,
the offset an `int`. -/
def Int32.at {α : Type} (t : Tensor α) (indices : List Int) : Except Err α :=
  Int32.flatten_index indices t.strides >>= fun k => t.index k

/-! ## Binary64 arithmetic -/

/-- The values of an IEEE-754 binary64 `double`: a finite value (carried as the
rational number it denotes), one of the two infinities, or NaN.  The sign of
zero is not represented. -/
inductive F64 where
  | fin (q : ℚ)
  | inf (negative : Bool)
  | nan
deriving DecidableEq

namespace F64

/-- The nearest integer, ties to the even one. -/
def rne (x : ℚ) : ℤ :=
  if x - ⌊x⌋ < 1 / 2 then ⌊x⌋
  else if 1 / 2 < x - ⌊x⌋ then ⌊x⌋ + 1
  else if ⌊x⌋ % 2 = 0 then ⌊x⌋ else ⌊x⌋ + 1

/-- The exponent of the unit in the last place of binary64 at `q`: 53
significant bits, and no binade below that of `2^-1022` (the subnormal
numbers are the multiples of `2^-1074`). -/
def ulpExp (q : ℚ) : ℤ := max (Int.log 2 |q|) (-1022) - 52

/-- Rounding to nearest, ties to even, to a multiple of the unit in the last
place; the exponent is not bounded above. -/
def rnd (q : ℚ) : ℚ := rne (q / 2 ^ ulpExp q) * 2 ^ ulpExp q

/-- The `double` that an operation with the exact result `q` returns: the
rounded value, or the infinity of the sign of `q` when the rounded value
reaches `2^1024`. -/
def ofRat (q : ℚ) : F64 :=
  if 2 ^ 1024 ≤ |rnd q| then inf (decide (q < 0)) else fin (rnd q)

/-- Addition of two `double`s. -/
def add : F64 → F64 → F64
  | fin a, fin b => ofRat (a + b)
  | fin _, inf s => inf s
  | inf s, fin _ => inf s
  | inf s, inf t => if s = t then inf s else nan
  | _, _ => nan

/-- Unary minus. -/
def neg : F64 → F64
  | fin a => fin (-a)
  | inf s => inf (!s)
  | nan => nan

/-- Subtraction: the sum with the negated second operand. -/
def sub (x y : F64) : F64 := add x (neg y)

/-- Multiplication of two `double`s. -/
def mul : F64 → F64 → F64
  | fin a, fin b => ofRat (a * b)
  | fin a, inf s => if a = 0 then nan else inf (xor (decide (a < 0)) s)
  | inf s, fin b => if b = 0 then nan else inf (xor s (decide (b < 0)))
  | inf s, inf t => inf (xor s t)
  | _, _ => nan

/-- Division of two `double`s; a zero divisor counts as `+0`. -/
def div : F64 → F64 → F64
  | fin a, fin b =>
    if b = 0 then (if a = 0 then nan else inf (decide (a < 0))) else ofRat (a / b)
  | fin _, inf _ => fin 0
  | inf s, fin b => inf (xor s (decide (b < 0)))
  | inf _, inf _ => nan
  | _, _ => nan

/-- The comparison `<`: false as soon as an operand is NaN. -/
def lt : F64 → F64 → Prop
  | fin a, fin b => a < b
  | fin _, inf s => s = false
  | inf s, fin _ => s = true
  | inf s, inf t => s = true ∧ t = false
  | _, _ => False

/-- The comparison `<` is decidable. -/
def decLt : (a b : F64) → Decidable (lt a b)
  | fin a, fin b => inferInstanceAs (Decidable (a < b))
  | fin _, inf s => inferInstanceAs (Decidable (s = false))
  | inf s, fin _ => inferInstanceAs (Decidable (s = true))
  | inf s, inf t => inferInstanceAs (Decidable (s = true ∧ t = false))
  | fin _, nan => isFalse (fun h => h)
  | inf _, nan => isFalse (fun h => h)
  | nan, _ => isFalse (fun h => by cases h)

/-- `x^n` by repeated multiplication. -/
def npow (x : F64) : ℕ → F64
  | 0 => fin 1
  | n + 1 => mul (npow x n) x

/-- `std::pow(x, t)` for an integer `t`, taken as correctly rounded:
`pow(x, 0) = 1` for every `x`. -/
def zpow (x : F64) (t : ℤ) : F64 :=
  if t = 0 then fin 1
  else match x with
    | fin q => if q = 0 ∧ t < 0 then inf false else ofRat (q ^ t)
    | inf s => if t < 0 then fin 0 else inf (s && decide (t % 2 = 1))
    | nan => nan

end F64

instance : Zero F64 := ⟨F64.fin 0⟩
instance : One F64 := ⟨F64.fin 1⟩
instance : Add F64 := ⟨F64.add⟩
instance : Sub F64 := ⟨F64.sub⟩
instance : Mul F64 := ⟨F64.mul⟩
instance : Div F64 := ⟨F64.div⟩
instance : Neg F64 := ⟨F64.neg⟩
instance : LT F64 := ⟨F64.lt⟩
instance : DecidableRel (fun a b : F64 => a < b) := F64.decLt
instance : NatCast F64 := ⟨fun n => F64.ofRat n⟩
instance : IntCast F64 := ⟨fun n => F64.ofRat n⟩
instance : Pow F64 ℕ := ⟨F64.npow⟩
instance : Pow F64 ℤ := ⟨F64.zpow⟩

/-- A rational number is a binary64 number: rounding leaves it unchanged, and
its magnitude is below `2^1024`. -/
def F64.IsDouble (q : ℚ) : Prop := F64.rnd q = q ∧ |q| < 2 ^ 1024

instance : DecidablePred F64.IsDouble :=
  fun q => inferInstanceAs (Decidable (F64.rnd q = q ∧ |q| < 2 ^ 1024))

/-! ## Specification vocabulary -/

/-- The size invariant of the data model: `data.length == product(shape)`. -/
def Tensor.Sized {α : Type} (t : Tensor α) : Prop := (t.data.length : Int) = t.numel

/-- The well-formed tensor of shape `[m, n]` whose entry `(i, j)` is `M i j`. -/
def matrix {α : Type} (m n : ℕ) (M : ℕ → ℕ → α) : Tensor α :=
  ⟨(List.range (m * n)).map (fun idx => M (idx / n) (idx % n)), [(m : Int), (n : Int)],
    [(n : Int), 1], false⟩

/-- The well-formed tensor of shape `[n]` whose entry `i` is `v i`. -/
def vector {α : Type} (n : ℕ) (v : ℕ → α) : Tensor α :=
  ⟨(List.range n).map v, [(n : Int)], [1], false⟩

/-- The value `forward` stores at `{b, o}`. -/
def Dense.forwardValue {α : Type} [LinearOrderedField α] (useBias : Bool) (inF : ℕ)
    (X W : ℕ → ℕ → α) (B : ℕ → α) (b o : ℕ) : α :=
  if useBias then (∑ k in Finset.range inF, X b k * W o k) + B o
  else ∑ k in Finset.range inF, X b k * W o k

/-- The bias gradient after the first pass of `backward` has handled `b` rows. -/
def Dense.biasGradAfter {α : Type} [LinearOrderedField α] (useBias : Bool) (outF : ℕ)
    (G : ℕ → ℕ → α) (old : Tensor α) (b : ℕ) : Tensor α :=
  if useBias then vector outF (fun o => ∑ b' in Finset.range b, G b' o) else old

/-- A fresh tensor of the shape of `t` holding `f` of every element of `t`. -/
def Tensor.mapData {α : Type} (f : α → α) (t : Tensor α) : Tensor α :=
  ⟨t.data.map f, t.bentuk, Tensor.perhitungan_strides t.bentuk, false⟩

/-- A fresh tensor of the shape of `a` holding `f a[i] b[i]` at every position. -/
def Tensor.zipData {α : Type} (f : α → α → α) (a b : Tensor α) : Tensor α :=
  ⟨List.zipWith f a.data b.data, a.bentuk, Tensor.perhitungan_strides a.bentuk, false⟩

/-- The logistic function over a scalar exponential. -/
def Sigmoid.value {α : Type} [One α] [Add α] [Div α] [Neg α] (sexp : α → α) (v : α) : α :=
  1 / (1 + sexp (-v))

/-- The per-element loss: `-(y log p + (1 - y) log (1 - p))` at the clamped `p`. -/
def BinaryCrossEnrtopy.lossValue {α : Type} [LinearOrderedField α] (slog : α → α) (v y : α) : α :=
  -(y * slog (max (1 / 10 ^ 7) (min (1 - 1 / 10 ^ 7) v))
    + (1 - y) * slog (1 - max (1 / 10 ^ 7) (min (1 - 1 / 10 ^ 7) v)))

/-- The per-element gradient: `(p - y) / (p (1 - p))` at the clamped `p`. -/
def BinaryCrossEnrtopy.gradValue {α : Type} [LinearOrderedField α] (v y : α) : α :=
  (max (1 / 10 ^ 7) (min (1 - 1 / 10 ^ 7) v) - y)
    / (max (1 / 10 ^ 7) (min (1 - 1 / 10 ^ 7) v)
        * (1 - max (1 / 10 ^ 7) (min (1 - 1 / 10 ^ 7) v)))

/-- The first-moment update of Adam for one element. -/
def adam.mValue {α : Type} [LinearOrderedField α] (beta m g : α) : α :=
  beta * m + (1 - beta) * g

/-- The second-moment update of Adam for one element. -/
def adam.vValue {α : Type} [LinearOrderedField α] (beta v g : α) : α :=
  beta * v + (1 - beta) * (g * g)

/-- The optimizer as `update` sees it after its lazy initialisation: unchanged
when the moment buffers exist, otherwise with zero buffers of the shapes of the
weight and the bias. -/
def adam.atEntry {α : Type} [LinearOrderedField α] (A : adam α) (bobot bias : Tensor α) : adam α :=
  if A.inisialisasi then A
  else { A with m_bobot := Tensor.mapData (fun _ => 0) bobot,
                v_bobot := Tensor.mapData (fun _ => 0) bobot,
                m_bias := Tensor.mapData (fun _ => 0) bias,
                v_bias := Tensor.mapData (fun _ => 0) bias,
                inisialisasi := true }

/-- The parameter tensor after one Adam step, given the new moments `m` and `v`:
`param - lr * (m / k1) / (sqrt (v / k2) + epsilon)` element by element. -/
def adam.newParam {α : Type} [LinearOrderedField α] (ssqrt : α → α) (lr epsilon k1 k2 : α)
    (param m v : Tensor α) : Tensor α :=
  { param with
    data :=
      List.zipWith (fun p q => p - q) param.data
        (List.zipWith (fun a b => a / b)
          (m.data.map (fun x => lr * (x / k1)))
          (v.data.map (fun x => ssqrt (x / k2) + epsilon))) }

/-- Two tensors have the same shape and both satisfy the size invariant. -/
def Tensor.Alike {α : Type} (a b : Tensor α) : Prop :=
  a.bentuk = b.bentuk ∧ a.Sized ∧ b.Sized

/-- A dense layer with its input cache cleared: the fields `forward` reads. -/
def Dense.eraseCache {α : Type} (L : Dense α) : Dense α :=
  { L with cached_input := Tensor.default }

/-- The transform of one stage of the network, on the dense layers `layers`:
`Dense.forward` of the indexed layer, `ReLu.forward` or `Sigmoid.forward`. -/
def NeuralNetwork.stageOutput {α : Type} [Zero α] [One α] [Add α] [Mul α] [Div α] [Neg α] [LT α]
    [DecidableRel (fun a b : α => a < b)] (sexp : α → α)
    (layers : List (Dense α)) (info : LayerInfo) (x : Tensor α) : Except Err (Tensor α) :=
  match info.type with
  | LayerType.DENSE => vecGet layers info.dense_index >>= fun L => L.forward x >>= fun r => .ok r.2
  | LayerType.RELU => ReLu.forward x
  | LayerType.SIGMOID => Sigmoid.forward sexp x

/-- The outputs of the stages `stages` run in order from the input `x`. -/
def NeuralNetwork.forwardTrace {α : Type} [Zero α] [One α] [Add α] [Mul α] [Div α] [Neg α] [LT α]
    [DecidableRel (fun a b : α => a < b)] (sexp : α → α)
    (layers : List (Dense α)) : List LayerInfo → Tensor α → Except Err (List (Tensor α))
  | [], _ => .ok []
  | info :: rest, x =>
    NeuralNetwork.stageOutput sexp layers info x >>= fun y =>
    NeuralNetwork.forwardTrace sexp layers rest y >>= fun ys => .ok (y :: ys)

/-- What one stage does to the running gradient in the backward pass, as the
specification words it: a Dense stage replaces the gradient by its layer's
`Dense.backward` (and stores the layer with its new gradients); a ReLU stage `i`
multiplies it by `ReLu.backward(pre_activations[i])`; a Sigmoid stage `i`
multiplies it by `Sigmoid.backward(activations[i+1])`.  The caches are those of
the network `N` on which `backward` was called. -/
def NeuralNetwork.backwardStage {α : Type} [LinearOrderedField α] (N : NeuralNetwork α)
    (i : ℕ) (info : LayerInfo) (st : List (Dense α) × Tensor α) :
    Except Err (List (Dense α) × Tensor α) :=
  match info.type with
  | LayerType.DENSE =>
    vecGet st.1 info.dense_index >>= fun L =>
    L.backward st.2 >>= fun r =>
    vecSet st.1 info.dense_index r.1 >>= fun layers => .ok (layers, r.2)
  | LayerType.RELU =>
    vecGet N.pre_activations (i : Int) >>= fun pre =>
    ReLu.backward pre >>= fun d =>
    Tensor.mul st.2 d >>= fun g => .ok (st.1, g)
  | LayerType.SIGMOID =>
    vecGet N.activations ((i : Int) + 1) >>= fun y =>
    Sigmoid.backward y >>= fun d =>
    Tensor.mul st.2 d >>= fun g => .ok (st.1, g)

/-- The backward pass as the specification words it: a fold over the stage list
in reverse index order, started from `BCE.backward(y_pred, y_true)`. -/
def NeuralNetwork.backwardFold {α : Type} [LinearOrderedField α] (N : NeuralNetwork α)
    (y_pred y_true : Tensor α) : Except Err (NeuralNetwork α × Tensor α) :=
  BinaryCrossEnrtopy.backward y_pred y_true >>= fun grad =>
  (N.layer_order.enum.reverse).foldlM
    (fun st p => NeuralNetwork.backwardStage N p.1 p.2 st) (N.dense_layers, grad) >>= fun r =>
  .ok ({ N with dense_layers := r.1 }, r.2)

/-- The fields of a dense layer that `forward` reads to compute its output. -/
def Dense.params {α : Type} (L : Dense α) : Int × Int × Tensor α × Tensor α × Bool :=
  (L.in_features, L.out_features, L.bobot, L.bias, L.gunakan_bias)

/-! ## Concrete inputs -/

/-- A dense layer without bias whose weight is the 2 × 2 identity. -/
def exIdentity : Dense ℚ :=
  ⟨2, 2, ⟨[1, 0, 0, 1], [2, 2], [2, 1], false⟩, Tensor.default,
    ⟨[0, 0, 0, 0], [2, 2], [2, 1], false⟩, Tensor.default, Tensor.default, false⟩

/-- The input `[[3, 4]]`. -/
def exRow : Tensor ℚ := ⟨[3, 4], [1, 2], [2, 1], false⟩

/-- The output gradient `[[1, 1]]`. -/
def exOnes : Tensor ℚ := ⟨[1, 1], [1, 2], [2, 1], false⟩

/-- A fresh optimizer with `lr = 0.1` and the default `beta1`, `beta2`, `epsilon`. -/
def exAdam : adam ℚ := adam.newDefault (1 / 10)

/-- The one-element tensor `[v]`. -/
def exScalar (v : ℚ) : Tensor ℚ := ⟨[v], [1], [1], false⟩

/-- An optimizer after its first step: counter at one, moment buffers of shape `[1]`. -/
def exAdamWarm : adam ℚ :=
  ⟨1 / 10, 9 / 10, 999 / 1000, 1 / 10 ^ 8, 1, exScalar (1 / 10), exScalar (1 / 1000),
    exScalar (1 / 10), exScalar (1 / 1000), true⟩

/-- The network `Dense(2, 2) → ReLU` over the identity layer. -/
def exNet : NeuralNetwork ℚ :=
  ⟨[exIdentity], [⟨LayerType.DENSE, 0⟩, ⟨LayerType.RELU, -1⟩], [exAdam], [], [], 1 / 10⟩

/-- A dense layer `Dense(1, 1)` with bias: weight `[[1]]`, bias `[0]`. -/
def exBiased : Dense ℚ :=
  ⟨1, 1, ⟨[1], [1, 1], [1, 1], false⟩, ⟨[0], [1], [1], false⟩,
    ⟨[0], [1, 1], [1, 1], false⟩, ⟨[0], [1], [1], false⟩, Tensor.default, true⟩

/-- The network made of the single stage `Dense(1, 1)`. -/
def exTrainNet : NeuralNetwork ℚ :=
  ⟨[exBiased], [⟨LayerType.DENSE, 0⟩], [exAdam], [], [], 1 / 10⟩

/-- The `1 × 1` tensor `[[v]]`. -/
def exCell (v : ℚ) : Tensor ℚ := ⟨[v], [1, 1], [1, 1], false⟩

/-- A tensor of shape `[2, 3]` holding `10 .. 15` in row-major order. -/
def exGrid : Tensor ℚ := Tensor.ofShapeData [2, 3] [10, 11, 12, 13, 14, 15]

/-- The rule of an element-wise binary operator `f` with compound form `g` and
scalar operation `op`, at the operands `a` and `b`: `f` is `g` on a copy, it
fails with the shape-mismatch error exactly when the shapes differ, and on
operands of one shape that satisfy the size invariant it returns `a` with
element `i` replaced by `op a[i] b[i]`. -/
def Tensor.ElementwiseRule {α : Type} (f g : Tensor α → Tensor α → Except Err (Tensor α))
    (op : α → α → α) (a b : Tensor α) : Prop :=
  f a b = g a b
  ∧ (f a b = .error .shapeMismatch ↔ a.bentuk ≠ b.bentuk)
  ∧ (a.bentuk = b.bentuk → a.Sized → b.Sized →
      f a b = .ok { a with data := List.zipWith op a.data b.data })

/-- The vector `[1, 2]`. -/
def exPair : Tensor ℚ := ⟨[1, 2], [2], [1], false⟩

/-- The vector `[3, 4]`. -/
def exPair2 : Tensor ℚ := ⟨[3, 4], [2], [1], false⟩

/-- The copy constructor `Tensor(const Tensor& other)`. -/
def Tensor.copy {α : Type} (other : Tensor α) : Tensor α :=
  ⟨other.data, other.bentuk, other.strides, other.requires_grad⟩

/-- The gradient-shape invariant of a dense layer:
`shape(weight_grad) == shape(weight)` and `shape(bias_grad) == shape(bias)`. -/
def Dense.GradShapes {α : Type} (L : Dense α) : Prop :=
  L.grad_bobot.bentuk = L.bobot.bentuk ∧ L.grad_bias.bentuk = L.bias.bentuk

/-- The weight of a dense layer has the shape `[out_features, in_features]` and,
when the bias is enabled, the bias has the shape `[out_features]`. -/
def Dense.Shaped {α : Type} (L : Dense α) : Prop :=
  L.bobot.bentuk = [L.out_features, L.in_features]
  ∧ (L.gunakan_bias = true → L.bias.bentuk = [L.out_features])

/-- The identity layer holding the cached input `[[3, 4], [5, 6]]` of two rows. -/
def exCachedTwo : Dense ℚ :=
  { exIdentity with cached_input := ⟨[3, 4, 5, 6], [2, 2], [2, 1], false⟩ }

/-- The identity layer holding the cached input `[[3, 4]]` of one row. -/
def exCachedOne : Dense ℚ := { exIdentity with cached_input := exRow }

/-- The output gradient `[[1, 1], [1, 1]]` of two rows. -/
def exOnesTwo : Tensor ℚ := ⟨[1, 1, 1, 1], [2, 2], [2, 1], false⟩

/-- The layer `exBiased` holding the cached input `[[3]]`. -/
def exBiasedCached : Dense ℚ := { exBiased with cached_input := exCell 3 }

/-- The state of the loop of `optimisasi` on the network `N` after it has
handled the dense layers below `k`: layer `i < k` holds the weight and bias
returned by `optimizers[i].update` on the layer's weight, weight gradient, bias
and bias gradient, optimizer `i < k` is the one `update` leaves, every layer and
optimizer from `k` on is untouched, and so are the stage list, the forward
caches and the learning rate. -/
def NeuralNetwork.OptimizedUpTo {α : Type} [LinearOrderedField α] (ssqrt : α → α)
    (N : NeuralNetwork α) (k : ℕ) (M : NeuralNetwork α) : Prop :=
  M.layer_order = N.layer_order ∧ M.activations = N.activations
  ∧ M.pre_activations = N.pre_activations ∧ M.learning_rate = N.learning_rate
  ∧ M.dense_layers.length = N.dense_layers.length
  ∧ M.optimizers.length = N.optimizers.length
  ∧ (∀ (i : ℕ) (L : Dense α), i < k → N.dense_layers[i]? = some L →
      ∃ A r, N.optimizers[i]? = some A
        ∧ A.update ssqrt L.bobot L.grad_bobot L.bias L.grad_bias = .ok r
        ∧ M.dense_layers[i]? = some { L with bobot := r.2.1, bias := r.2.2 }
        ∧ M.optimizers[i]? = some r.1)
  ∧ (∀ i : ℕ, k ≤ i →
      M.dense_layers[i]? = N.dense_layers[i]? ∧ M.optimizers[i]? = N.optimizers[i]?)

/-- One call of the construction interface of the network: `tambah_dense` (with
the weight tensor that the `Dense` constructor draws), `tambah_relu` or
`tambah_sigmoid`. -/
inductive BuildCall (α : Type) where
  | dense (in_features out_features : Int) (gunakan_bias : Bool) (kaiming : Tensor α)
  | relu
  | sigmoid

/-- The network after one construction call. -/
def NeuralNetwork.call {α : Type} [LinearOrderedField α] (N : NeuralNetwork α) :
    BuildCall α → Except Err (NeuralNetwork α)
  | .dense i o b k => N.tambah_dense i o b k
  | .relu => .ok N.tambah_relu
  | .sigmoid => .ok N.tambah_sigmoid

/-- The network after a sequence of construction calls made in order. -/
def NeuralNetwork.calls {α : Type} [LinearOrderedField α] :
    NeuralNetwork α → List (BuildCall α) → Except Err (NeuralNetwork α)
  | N, [] => .ok N
  | N, c :: cs => N.call c >>= fun N1 => NeuralNetwork.calls N1 cs

/-- The dense indices carried by the Dense-tagged stages, in stage order. -/
def NeuralNetwork.denseIndices {α : Type} (N : NeuralNetwork α) : List Int :=
  (N.layer_order.filter (fun info => info.type = LayerType.DENSE)).map
    (fun info => info.dense_index)

/-- The construction invariant: as many optimizers as dense layers, and the
`k`-th Dense-tagged stage carries the dense index `k - 1`. -/
def NeuralNetwork.WellIndexed {α : Type} (N : NeuralNetwork α) : Prop :=
  N.optimizers.length = N.dense_layers.length
  ∧ N.denseIndices = (List.range N.dense_layers.length).map (fun (k : ℕ) => (k : Int))

/-- The network `Dense(2, 2) → ReLU → Sigmoid` as three construction calls. -/
def exCalls : List (BuildCall ℚ) :=
  [.dense 2 2 true ⟨[1, 0, 0, 1], [2, 2], [2, 1], false⟩, .relu, .sigmoid]

/-- A construction call of a network whose dense layers all have a bias: an
activation, or `tambah_dense` with the bias enabled, the weight drawn by the
constructor being a well-formed tensor of shape `[out_features, in_features]`
(what `dl::kaiming_normal` returns). -/
def BuildCall.Biased {α : Type} : BuildCall α → Prop
  | .dense i o b k => b = true ∧ k.bentuk = [o, i] ∧ k.Sized
  | .relu => True
  | .sigmoid => True

/-- The gradients of a dense layer are zero tensors of the shapes of its weight
and its bias. -/
def Dense.ZeroGrads {α : Type} [Zero α] (L : Dense α) : Prop :=
  L.bobot.Alike L.grad_bobot ∧ L.bias.Alike L.grad_bias
  ∧ (∀ g ∈ L.grad_bobot.data, g = 0) ∧ (∀ g ∈ L.grad_bias.data, g = 0)

/-- A network on which neither `backward` nor `optimisasi` has run since its
construction: one optimizer per dense layer, every gradient zero, every
optimizer at step 0 with its moment buffers not yet created. -/
def NeuralNetwork.Untrained {α : Type} [Zero α] (N : NeuralNetwork α) : Prop :=
  N.optimizers.length = N.dense_layers.length
  ∧ (∀ L ∈ N.dense_layers, L.ZeroGrads)
  ∧ (∀ A ∈ N.optimizers, A.inisialisasi = false ∧ A.t = 0)

/-- The single construction call `tambah_dense(2, 2, false)`, the drawn weight
being the identity. -/
def exCallsNoBias : List (BuildCall ℚ) :=
  [.dense 2 2 false ⟨[1, 0, 0, 1], [2, 2], [2, 1], false⟩]

/-- The stage list `Dense → Dense → ReLU → Sigmoid` that the demo driver builds. -/
def xorStages : List LayerInfo :=
  [⟨LayerType.DENSE, 0⟩, ⟨LayerType.DENSE, 1⟩, ⟨LayerType.RELU, -1⟩, ⟨LayerType.SIGMOID, -1⟩]

/-- The training inputs `X = [[0,0],[0,1],[1,0],[1,1]]`. -/
def xorX {α : Type} [LinearOrderedField α] : Tensor α :=
  ⟨[0, 0, 0, 1, 1, 0, 1, 1], [4, 2], [2, 1], false⟩

/-- The training targets `y = [0,1,1,0]`, of shape `[4, 1]`. -/
def xorY {α : Type} [LinearOrderedField α] : Tensor α :=
  ⟨[0, 1, 1, 0], [4, 1], [1, 1], false⟩

/-- The layer `Dense(inF, outF)` with bias as the constructor and `zero_grad`
leave it: weight `W`, zero bias, zero gradients; `cached` is its cached
input. -/
def plainLayer {α : Type} [LinearOrderedField α] (inF outF : ℕ) (W : ℕ → ℕ → α)
    (cached : Tensor α) : Dense α :=
  ⟨(inF : Int), (outF : Int), matrix outF inF W, vector outF (fun _ => 0),
    matrix outF inF (fun _ _ => 0), vector outF (fun _ => 0), cached, true⟩

/-- The network `Dense(2,4) → Dense(4,1) → ReLU → Sigmoid` with the weights
`W1`, `W2`, zero biases and zero gradients, as a function of its learning rate,
the cached inputs of its two layers, its two optimizers and its forward
caches. -/
def xorNet {α : Type} [LinearOrderedField α] (lr : α) (W1 W2 : ℕ → ℕ → α) (c1 c2 : Tensor α)
    (A1 A2 : adam α) (acts pres : List (Tensor α)) : NeuralNetwork α :=
  ⟨[plainLayer 2 4 W1 c1, plainLayer 4 1 W2 c2], xorStages, [A1, A2], acts, pres, lr⟩

/-- The four construction calls of the demo driver, the drawn weights being
`W1` and `W2`. -/
def xorCalls {α : Type} [LinearOrderedField α] (W1 W2 : ℕ → ℕ → α) : List (BuildCall α) :=
  [.dense 2 4 true (matrix 4 2 W1), .dense 4 1 true (matrix 1 4 W2), .relu, .sigmoid]

/-- The output of the first dense layer (zero bias) on the rows `X`. -/
def xorHidden {α : Type} [LinearOrderedField α] (X W1 : ℕ → ℕ → α) : ℕ → ℕ → α :=
  Dense.forwardValue true 2 X W1 (fun _ => 0)

/-- The output of the second dense layer (zero biases) on the rows `X`: the
input of the ReLU stage. -/
def xorPre {α : Type} [LinearOrderedField α] (X W1 W2 : ℕ → ℕ → α) : ℕ → ℕ → α :=
  Dense.forwardValue true 4 (xorHidden X W1) W2 (fun _ => 0)

/-- The weights leave the ReLU stage inactive on the four training rows: the
second dense layer outputs no positive value. -/
def xorDead {α : Type} [LinearOrderedField α] (X W1 W2 : ℕ → ℕ → α) : Prop :=
  ∀ b o : ℕ, b < 4 → o < 1 → xorPre X W1 W2 b o ≤ 0

/-- An optimizer that has seen only zero gradients for a weight and a bias of
the shapes of the zero tensors `w` and `b`: its buffers are not created yet, or
they are `w` and `b`. -/
def adam.OnZero {α : Type} (A : adam α) (w b : Tensor α) : Prop :=
  A.inisialisasi = false
  ∨ (A.inisialisasi = true ∧ A.m_bobot = w ∧ A.v_bobot = w ∧ A.m_bias = b ∧ A.v_bias = b)

/-- The optimizer after one more step on zero gradients. -/
def adam.zeroNext {α : Type} (A : adam α) (w b : Tensor α) : adam α :=
  { A with t := A.t + 1, m_bobot := w, v_bobot := w, m_bias := b, v_bias := b,
           inisialisasi := true }

/-- The weights `W1 = 1` everywhere of the counterexample to monotone training. -/
def exOnesW {α : Type} [LinearOrderedField α] : ℕ → ℕ → α := fun _ _ => 1

/-- The weights `W2 = -1` everywhere of the counterexample to monotone training. -/
def exNegW {α : Type} [LinearOrderedField α] : ℕ → ℕ → α := fun _ _ => -1

/-- The entry `{i, j}` of the training inputs `xorX`. -/
def xorRows {α : Type} [LinearOrderedField α] : ℕ → ℕ → α :=
  fun i j => (xorX : Tensor α).data.getD (i * 2 + j) 0

/-- A multi-index within a shape: one index per dimension, and
`0 ≤ indices[k] < shape[k]` for every `k`. -/
def Tensor.InBounds (indices shape : List Int) : Prop :=
  indices.length = shape.length
  ∧ ∀ k, k < shape.length → 0 ≤ indices.getD k 0 ∧ indices.getD k 0 < shape.getD k 0

/-- The sum of the products of the elements of two tensors at the same
position, `sum_k a[k] * b[k]` over the flat buffers: for two tensors of one
two-dimensional shape this is `sum over r, c of a[r][c] * b[r][c]`. -/
def Tensor.dot {α : Type} [Zero α] [Add α] [Mul α] (a b : Tensor α) : α :=
  (List.zipWith (· * ·) a.data b.data).sum

/-- The stage list `Dense → Sigmoid` of a logistic-regression network. -/
def logitStages : List LayerInfo :=
  [⟨LayerType.DENSE, 0⟩, ⟨LayerType.SIGMOID, -1⟩]

/-- The prediction of the logistic-regression network at row `b`, output `o`:
the logistic function of the affine map of the dense layer. -/
def logitValue {α : Type} [LinearOrderedField α] (sexp : α → α) (inF : ℕ) (X W : ℕ → ℕ → α)
    (B : ℕ → α) (b o : ℕ) : α :=
  Sigmoid.value sexp (Dense.forwardValue true inF X W B b o)

/-- The layer `Dense(2, 1)` with bias: weight `[[1, -1]]`, bias `[0]`. -/
def exLogitLayer {α : Type} [LinearOrderedField α] : Dense α :=
  ⟨2, 1, ⟨[1, -1], [1, 2], [2, 1], false⟩, ⟨[0], [1], [1], false⟩,
    ⟨[0, 0], [1, 2], [2, 1], false⟩, ⟨[0], [1], [1], false⟩, Tensor.default, true⟩

/-- The network `Dense(2, 1) → Sigmoid` over `exLogitLayer`. -/
def exLogit {α : Type} [LinearOrderedField α] : NeuralNetwork α :=
  ⟨[exLogitLayer], logitStages, [adam.newDefault (1 / 10)], [], [], 1 / 10⟩

/-- A value that fits in a 32-bit `int`. -/
def Int32.Fits (x : Int) : Prop := -2147483648 ≤ x ∧ x < 2147483648

/-- The stride that `Int32.perhitungan_strides` gives the dimension in front of
the dimensions `l`: their product, taken from the last one, every product an
`int`. -/
def Int32.suffixProd : List Int → Int
  | [] => 1
  | d :: ds => wrap32 (Int32.suffixProd ds * d)

/-- A stand-in for `std::exp` with the values of `std::exp` at the arguments
that are evaluated in this development: `exp(0) = 1`,
`exp(-3) = 7175072721580207 / 2^57` and `exp(-40) = 1378669778355849 / 2^108`
(the binary64 numbers nearest to `e^-3` and `e^-40`), `exp(-∞) = 0`,
`exp(+∞) = +∞`, `exp(NaN) = NaN`.  At any other negative argument it returns
`0` and at any other positive argument `+∞`; no evaluation below reaches these
two cases. -/
def exExp : F64 → F64
  | .fin q =>
    if q = 0 then .fin 1
    else if q = -3 then .fin (7175072721580207 / 2 ^ 57)
    else if q = -40 then .fin (1378669778355849 / 2 ^ 108)
    else if q < 0 then .fin 0 else .inf false
  | .inf s => if s then .fin 0 else .inf false
  | .nan => .nan

/-- The layer `Dense(2, 1)` without bias and with the weight `[[1, 1]]`, as
`double`s. -/
def exWideLayer : Dense F64 :=
  ⟨2, 1, ⟨[F64.fin 1, F64.fin 1], [1, 2], [2, 1], false⟩, Tensor.default,
    ⟨[0, 0], [1, 2], [2, 1], false⟩, Tensor.default, Tensor.default, false⟩

/-- The input `[[2^54, 1.5]]`, as `double`s. -/
def exWideRow : Tensor F64 := ⟨[F64.fin 18014398509481984, F64.fin (3 / 2)], [1, 2], [2, 1], false⟩

/-- The output gradient `[[3]]`, as a `double`. -/
def exWideGrad : Tensor F64 := ⟨[F64.fin 3], [1, 1], [1, 1], false⟩

/-- A stand-in for `std::sqrt` with the values of `std::sqrt` at the arguments
that are evaluated in this development: `sqrt(0) = 0`, `sqrt(1) = 1`,
`sqrt(+∞) = +∞`, and NaN at `-∞` and at NaN.  At any other argument it returns
NaN; no evaluation below reaches that case. -/
def exSqrt : F64 → F64
  | .fin q => if q = 0 then .fin 0 else if q = 1 then .fin 1 else .nan
  | .inf s => if s then .nan else .inf false
  | .nan => .nan

/-- The network `Dense(1, 1) → Sigmoid` with bias, weight `[[3]]`, bias `[0]`
and zero gradients, as `double`s, with its optimizer. -/
def exLogitCell : NeuralNetwork F64 :=
  ⟨[⟨1, 1, ⟨[F64.fin 3], [1, 1], [1, 1], false⟩, ⟨[F64.fin 0], [1], [1], false⟩,
      ⟨[F64.fin 0], [1, 1], [1, 1], false⟩, ⟨[F64.fin 0], [1], [1], false⟩, Tensor.default, true⟩],
    logitStages, [adam.newDefault (F64.fin (1 / 8))], [], [], F64.fin (1 / 8)⟩

/-! ## Loops -/

@[simp] theorem ok_bind {β γ : Type} (a : β) (f : β → Except Err γ) :
    (Except.ok a >>= f) = f a := rfl

@[simp] theorem error_bind {β γ : Type} (e : Err) (f : β → Except Err γ) :
    ((Except.error e : Except Err β) >>= f) = Except.error e := rfl

theorem forLoop_succ {σ : Type} (body : ℕ → σ → Except Err σ) (n i : ℕ) (s : σ) :
    forLoop body (n + 1) i s = body i s >>= fun s' => forLoop body n (i + 1) s' := rfl

/-- A counted loop whose body maps `S j` to `S (j+1)` takes `S i` to `S (i+n)`. -/
theorem forLoop_trace {σ : Type} (body : ℕ → σ → Except Err σ) (S : ℕ → σ) :
    ∀ (n i : ℕ), (∀ j, i ≤ j → j < i + n → body j (S j) = .ok (S (j + 1))) →
      forLoop body n i (S i) = .ok (S (i + n))
  | 0, i, _ => by simp [forLoop]
  | n + 1, i, h => by
    have h1 : body i (S i) = .ok (S (i + 1)) := h i (le_refl i) (by omega)
    have h2 := forLoop_trace body S n (i + 1) (fun j hj1 hj2 => h j (by omega) (by omega))
    rw [forLoop_succ, h1, ok_bind, h2]
    congr 2
    omega

theorem forLoop_trace0 {σ : Type} (body : ℕ → σ → Except Err σ) (S : ℕ → σ) (n : ℕ)
    (h : ∀ j, j < n → body j (S j) = .ok (S (j + 1))) :
    forLoop body n 0 (S 0) = .ok (S n) := by
  have := forLoop_trace body S n 0 (fun j _ hj => h j (by omega))
  simpa using this

theorem forRange_trace {σ : Type} (body : ℕ → σ → Except Err σ) (S : ℕ → σ) (n : ℕ)
    (h : ∀ j, j < n → body j (S j) = .ok (S (j + 1))) :
    forRange (n : Int) body (S 0) = .ok (S n) := by
  simp only [forRange, Int.toNat_ofNat]
  exact forLoop_trace0 body S n h

theorem forLoop_congr {σ : Type} (f g : ℕ → σ → Except Err σ) :
    ∀ (n i : ℕ) (s : σ), (∀ j s, i ≤ j → j < i + n → f j s = g j s) →
      forLoop f n i s = forLoop g n i s
  | 0, _, _, _ => rfl
  | n + 1, i, s, h => by
    rw [forLoop_succ, forLoop_succ, h i s (le_refl i) (by omega)]
    congr 1
    funext s'
    exact forLoop_congr f g n (i + 1) s' (fun j s hj1 hj2 => h j s (by omega) (by omega))

theorem forLoop_four {σ : Type} (body : ℕ → σ → Except Err σ) (n i : ℕ) (s : σ) :
    forLoop body (n + 4) i s =
      body i s >>= fun s1 => body (i + 1) s1 >>= fun s2 => body (i + 2) s2 >>= fun s3 =>
        body (i + 3) s3 >>= fun s4 => forLoop body n (i + 4) s4 := rfl

theorem bind_assoc_ex {β γ δ : Type} (x : Except Err β) (f : β → Except Err γ)
    (g : γ → Except Err δ) : (x >>= f) >>= g = x >>= fun a => f a >>= g := by
  cases x <;> rfl

/-- With enough fuel the remainder loop is the counted loop over `k .. n-1`. -/
theorem loopFrom_eq_forLoop {σ : Type} (n : Int) (step : ℕ → σ → Except Err σ) :
    ∀ (fuel k : ℕ) (s : σ), n.toNat - k ≤ fuel →
      loopFrom n step fuel k s = forLoop step (n.toNat - k) k s
  | 0, k, s, h => by
    have hk : ¬ ((k : Int) < n) := by omega
    have h0 : n.toNat - k = 0 := by omega
    simp [loopFrom, hk, h0, forLoop]
  | fuel + 1, k, s, h => by
    by_cases hk : (k : Int) < n
    · have h1 : n.toNat - k = (n.toNat - (k + 1)) + 1 := by omega
      rw [h1, forLoop_succ]
      simp only [loopFrom, hk, if_true]
      congr 1
      funext s'
      exact loopFrom_eq_forLoop n step fuel (k + 1) s' (by omega)
    · have h0 : n.toNat - k = 0 := by omega
      simp [loopFrom, hk, h0, forLoop]

/-- With enough fuel the unrolled loop followed by the remainder loop is the
counted loop over `k .. n-1`: the same steps in the same order. -/
theorem loopUnroll4_eq_forLoop {σ : Type} (n : Int) (step : ℕ → σ → Except Err σ) (fuel2 : ℕ) :
    ∀ (fuel k : ℕ) (s : σ), n.toNat - k ≤ 4 * fuel → n.toNat ≤ fuel2 →
      (loopUnroll4 n step fuel k s >>= fun p => loopFrom n step fuel2 p.1 p.2)
        = forLoop step (n.toNat - k) k s
  | 0, k, s, h, h2 => by
    have hk : ¬ ((k : Int) + 3 < n) := by omega
    simp only [loopUnroll4, hk, if_false, ok_bind]
    exact loopFrom_eq_forLoop n step fuel2 k s (by omega)
  | fuel + 1, k, s, h, h2 => by
    by_cases hk : (k : Int) + 3 < n
    · have h1 : n.toNat - k = (n.toNat - (k + 4)) + 4 := by omega
      rw [h1, forLoop_four]
      simp only [loopUnroll4, hk, if_true, bind_assoc_ex]
      congr 1; funext s1
      congr 1; funext s2
      congr 1; funext s3
      congr 1; funext s4
      exact loopUnroll4_eq_forLoop n step fuel2 fuel (k + 4) s4 (by omega) h2
    · simp only [loopUnroll4, hk, if_false, ok_bind]
      exact loopFrom_eq_forLoop n step fuel2 k s (by omega)

/-- The unrolled pair of loops performs exactly the plain loop
`for (k = 0; k < n; ++k)`, for every `n` (multiple of four or not). -/
theorem unrolledLoop_eq_forLoop {σ : Type} (n : Int) (step : ℕ → σ → Except Err σ) (s : σ) :
    unrolledLoop n step s = forLoop step n.toNat 0 s := by
  have := loopUnroll4_eq_forLoop n step n.toNat n.toNat 0 s (by omega) (le_refl _)
  simpa [unrolledLoop] using this

/-! ## Lists written by index -/

theorem set_map_range {β : Type} (n j : ℕ) (g : ℕ → β) (v : β) :
    ((List.range n).map g).set j v = (List.range n).map (fun i => if i = j then v else g i) := by
  apply List.ext_getElem?
  intro i
  by_cases hi : i < n
  · by_cases hij : j = i
    · subst hij
      simp [List.getElem?_set, hi]
    · have hij2 : ¬ (i = j) := fun h => hij h.symm
      simp [List.getElem?_set, hi, hij, hij2]
  · have hn : (List.range n)[i]? = none := List.getElem?_eq_none (by simp; omega)
    by_cases hij : j = i
    · subst hij
      simp [List.getElem?_set, hi, hn]
    · simp [List.getElem?_set, hi, hij, hn]

theorem map_range_congr {β : Type} (n : ℕ) (f g : ℕ → β) (h : ∀ i, i < n → f i = g i) :
    (List.range n).map f = (List.range n).map g := by
  apply List.map_congr_left
  intro i hi
  exact h i (List.mem_range.mp hi)

theorem map_range_getD {β : Type} (l : List β) (d : β) :
    (List.range l.length).map (fun i => l.getD i d) = l := by
  apply List.ext_getElem?
  intro i
  by_cases hi : i < l.length
  · simp [hi, List.getD_eq_getElem?_getD, List.getElem?_eq_getElem hi]
  · have hn : (List.range l.length)[i]? = none := List.getElem?_eq_none (by simp; omega)
    simp [hn, List.getElem?_eq_none (not_lt.mp hi)]

theorem replicate_eq_map_range {β : Type} (n : ℕ) (a : β) :
    List.replicate n a = (List.range n).map (fun _ => a) := by
  apply List.ext_getElem?
  intro i
  by_cases hi : i < n <;> simp [hi, List.getElem?_replicate]

theorem getElem?_map_range {β : Type} (n i : ℕ) (g : ℕ → β) (hi : i < n) :
    ((List.range n).map g)[i]? = some (g i) := by
  simp [hi]

/-! ## Tensors: allocation and element access -/

theorem strides_pair (a b : Int) : Tensor.perhitungan_strides [a, b] = [b, 1] := by
  simp [Tensor.perhitungan_strides, List.range_succ]

theorem strides_single (a : Int) : Tensor.perhitungan_strides [a] = [1] := by
  simp [Tensor.perhitungan_strides]

theorem numelOf_pair (a b : Int) : Tensor.numelOf [a, b] = a * b := by
  simp [Tensor.numelOf]

theorem numelOf_single (a : Int) : Tensor.numelOf [a] = a := by
  simp [Tensor.numelOf]

theorem numel_eq_numelOf {α : Type} (t : Tensor α) : t.numel = Tensor.numelOf t.bentuk := rfl

theorem ofShape_eq {α : Type} [Zero α] (shape : List Int) (n : ℕ)
    (h : Tensor.numelOf shape = (n : Int)) :
    (Tensor.ofShape shape : Except Err (Tensor α)) =
      .ok ⟨(List.range n).map (fun _ => 0), shape, Tensor.perhitungan_strides shape, false⟩ := by
  have hn : ¬ ((n : Int) < 0) := by omega
  unfold Tensor.ofShape
  rw [h, if_neg hn, Int.toNat_ofNat, replicate_eq_map_range]

theorem index_map_range {α : Type} (n i : ℕ) (g : ℕ → α) (hi : i < n) (shape st : List Int)
    (rg : Bool) :
    (⟨(List.range n).map g, shape, st, rg⟩ : Tensor α).index (i : Int) = .ok (g i) := by
  have h0 : ¬ ((i : Int) < 0) := by omega
  simp [Tensor.index, h0, hi]

theorem indexSet_map_range {α : Type} (n i : ℕ) (g : ℕ → α) (v : α) (hi : i < n)
    (shape st : List Int) (rg : Bool) :
    (⟨(List.range n).map g, shape, st, rg⟩ : Tensor α).indexSet (i : Int) v =
      .ok ⟨(List.range n).map (fun k => if k = i then v else g k), shape, st, rg⟩ := by
  have h0 : ¬ ((i : Int) < 0) := by omega
  simp [Tensor.indexSet, h0, hi, set_map_range]

theorem index_of_lt {α : Type} (t : Tensor α) (i : ℕ) (hi : i < t.data.length) :
    t.index (i : Int) = .ok (t.data[i]) := by
  have h0 : ¬ ((i : Int) < 0) := by omega
  simp [Tensor.index, h0, List.getElem?_eq_getElem hi]

theorem zeros_eq {α : Type} [LinearOrderedField α] (shape : List Int) (n : ℕ)
    (h : Tensor.numelOf shape = (n : Int)) :
    (dl.zeros shape : Except Err (Tensor α)) =
      .ok ⟨(List.range n).map (fun _ => 0), shape, Tensor.perhitungan_strides shape, false⟩ := by
  unfold dl.zeros
  rw [ofShape_eq shape n h, ok_bind]
  have hn : (⟨(List.range n).map (fun _ => (0 : α)), shape,
      Tensor.perhitungan_strides shape, false⟩ : Tensor α).numel = (n : Int) := h
  rw [hn]
  have key := forRange_trace (fun i (t : Tensor α) => t.indexSet (i : Int) 0)
    (fun _ => (⟨(List.range n).map (fun _ => (0 : α)), shape,
      Tensor.perhitungan_strides shape, false⟩ : Tensor α)) n (fun j hj => by
    show Tensor.indexSet _ _ _ = _
    rw [indexSet_map_range n j _ 0 hj]
    simp)
  exact key

theorem zeros_pair {α : Type} [LinearOrderedField α] (m n : ℕ) :
    (dl.zeros [(m : Int), (n : Int)] : Except Err (Tensor α)) = .ok (matrix m n (fun _ _ => 0)) := by
  rw [zeros_eq _ (m * n) (by rw [numelOf_pair]; push_cast; ring), strides_pair]
  rfl

theorem zeros_single {α : Type} [LinearOrderedField α] (n : ℕ) :
    (dl.zeros [(n : Int)] : Except Err (Tensor α)) = .ok (vector n (fun _ => 0)) := by
  rw [zeros_eq _ n (numelOf_single _), strides_single]
  rfl

theorem flat_lt {m n i j : ℕ} (hi : i < m) (hj : j < n) : i * n + j < m * n := by
  calc i * n + j < i * n + n := by omega
    _ = (i + 1) * n := by ring
    _ ≤ m * n := Nat.mul_le_mul_right n hi

theorem flat_div {n i j : ℕ} (hj : j < n) : (i * n + j) / n = i := by
  have hn : 0 < n := by omega
  rw [Nat.add_comm, Nat.add_mul_div_right _ _ hn, Nat.div_eq_of_lt hj, Nat.zero_add]

theorem flat_mod {n i j : ℕ} (hj : j < n) : (i * n + j) % n = j := by
  rw [Nat.add_comm, Nat.add_mul_mod_self_right, Nat.mod_eq_of_lt hj]

theorem flat_iff {n i j idx : ℕ} (hj : j < n) :
    idx = i * n + j ↔ (idx / n = i ∧ idx % n = j) := by
  constructor
  · intro h
    subst h
    exact ⟨flat_div hj, flat_mod hj⟩
  · rintro ⟨h1, h2⟩
    have := Nat.div_add_mod idx n
    rw [h1, h2] at this
    rw [← this]
    ring

theorem matrix_congr {α : Type} (m n : ℕ) (F G : ℕ → ℕ → α)
    (h : ∀ i j, i < m → j < n → F i j = G i j) : matrix m n F = matrix m n G := by
  unfold matrix
  congr 1
  apply map_range_congr
  intro idx hidx
  have hn : 0 < n := by
    rcases Nat.eq_zero_or_pos n with h0 | h0
    · subst h0; simp at hidx
    · exact h0
  apply h
  · exact Nat.div_lt_of_lt_mul (by rw [Nat.mul_comm]; exact hidx)
  · exact Nat.mod_lt _ hn

theorem vector_congr {α : Type} (n : ℕ) (f g : ℕ → α) (h : ∀ i, i < n → f i = g i) :
    vector n f = vector n g := by
  unfold vector
  congr 1
  exact map_range_congr n f g h

theorem flatten_pair (i j : ℕ) (n : ℕ) :
    Tensor.flatten_index [(i : Int), (j : Int)] [(n : Int), 1] = .ok ((i * n + j : ℕ) : Int) := by
  simp [Tensor.flatten_index, Tensor.flatten_index.loop]

theorem matrix_at {α : Type} (m n : ℕ) (M : ℕ → ℕ → α) (i j : ℕ) (hi : i < m) (hj : j < n) :
    (matrix m n M).at [(i : Int), (j : Int)] = .ok (M i j) := by
  unfold Tensor.at matrix
  rw [flatten_pair, ok_bind, index_map_range _ _ _ (flat_lt hi hj), flat_div hj, flat_mod hj]

theorem matrix_atSet {α : Type} (m n : ℕ) (M : ℕ → ℕ → α) (i j : ℕ) (v : α)
    (hi : i < m) (hj : j < n) :
    (matrix m n M).atSet [(i : Int), (j : Int)] v =
      .ok (matrix m n (fun a b => if a = i ∧ b = j then v else M a b)) := by
  unfold Tensor.atSet matrix
  rw [flatten_pair, ok_bind, indexSet_map_range _ _ _ _ (flat_lt hi hj)]
  congr 2
  apply map_range_congr
  intro idx _
  by_cases h : idx = i * n + j
  · have h2 := (flat_iff hj).mp h
    simp [h, h2.1, h2.2, flat_div hj, flat_mod hj]
  · have h2 : ¬ (idx / n = i ∧ idx % n = j) := fun hh => h ((flat_iff hj).mpr hh)
    simp [h, h2]

theorem vector_index {α : Type} (n : ℕ) (v : ℕ → α) (i : ℕ) (hi : i < n) :
    (vector n v).index (i : Int) = .ok (v i) :=
  index_map_range n i v hi _ _ _

theorem vector_indexSet {α : Type} (n : ℕ) (v : ℕ → α) (i : ℕ) (x : α) (hi : i < n) :
    (vector n v).indexSet (i : Int) x = .ok (vector n (fun k => if k = i then x else v k)) :=
  indexSet_map_range n i v x hi _ _ _

/-! ## Nested loops that write a matrix cell by cell -/

/-- Two nested counted loops whose body stores `F b o` at `{b, o}` turn any
`m × n` matrix into the matrix of `F`. -/
theorem fill_matrix {α : Type} (m n : ℕ) (F G0 : ℕ → ℕ → α)
    (cell : ℕ → ℕ → Tensor α → Except Err (Tensor α))
    (hcell : ∀ b o (G : ℕ → ℕ → α), b < m → o < n →
      cell b o (matrix m n G) = (matrix m n G).atSet [(b : Int), (o : Int)] (F b o)) :
    forRange (m : Int) (fun b t => forRange (n : Int) (fun o t => cell b o t) t) (matrix m n G0)
      = .ok (matrix m n F) := by
  have hinner : ∀ b, b < m →
      forRange (n : Int) (fun o t => cell b o t)
        (matrix m n (fun b' o' => if b' < b then F b' o' else G0 b' o'))
      = .ok (matrix m n (fun b' o' => if b' < b + 1 then F b' o' else G0 b' o')) := by
    intro b hb
    have key := forRange_trace (fun o t => cell b o t)
      (fun o => matrix m n (fun b' o' =>
        if b' < b ∨ (b' = b ∧ o' < o) then F b' o' else G0 b' o')) n (fun o ho => by
        show cell b o _ = _
        rw [hcell b o _ hb ho, matrix_atSet m n _ b o _ hb ho]
        congr 1
        apply matrix_congr
        intro i j _ _
        by_cases h1 : i = b ∧ j = o
        · obtain ⟨hi, hj⟩ := h1
          subst hi; subst hj
          simp
        · by_cases h2 : i < b
          · simp [h1, h2]
          · by_cases h3 : i = b
            · subst h3
              have hj : ¬ (j = o) := fun h => h1 ⟨rfl, h⟩
              have e : (j < o + 1) = (j < o) := by
                apply propext; constructor <;> intro h <;> omega
              simp [hj, e]
            · simp [h1, h2, h3])
    have e0 : matrix m n (fun b' o' => if b' < b then F b' o' else G0 b' o')
        = matrix m n (fun b' o' => if b' < b ∨ (b' = b ∧ o' < 0) then F b' o' else G0 b' o') := by
      apply matrix_congr; intro i j _ _; simp
    have e1 : matrix m n (fun b' o' => if b' < b + 1 then F b' o' else G0 b' o')
        = matrix m n (fun b' o' => if b' < b ∨ (b' = b ∧ o' < n) then F b' o' else G0 b' o') := by
      apply matrix_congr; intro i j _ hj
      have e : (i < b + 1) = (i < b ∨ (i = b ∧ j < n)) := by
        apply propext; constructor
        · intro h
          by_cases h2 : i < b
          · exact Or.inl h2
          · exact Or.inr ⟨by omega, hj⟩
        · rintro (h | ⟨h, _⟩) <;> omega
      simp only [e]
    rw [e0, e1]
    exact key
  have key := forRange_trace (fun b t => forRange (n : Int) (fun o t => cell b o t) t)
    (fun b => matrix m n (fun b' o' => if b' < b then F b' o' else G0 b' o')) m hinner
  have e0 : matrix m n G0 = matrix m n (fun b' o' => if b' < 0 then F b' o' else G0 b' o') := by
    apply matrix_congr; intro i j _ _; simp
  have e1 : matrix m n F = matrix m n (fun b' o' => if b' < m then F b' o' else G0 b' o') := by
    apply matrix_congr; intro i j hi _; simp [hi]
  rw [e0, e1]
  exact key

/-- A counted loop that adds `f k` to an accumulator computes the finite sum. -/
theorem forLoop_sum {α : Type} [LinearOrderedField α] (n : ℕ) (f : ℕ → α)
    (term : ℕ → α → Except Err α) (hterm : ∀ k s, k < n → term k s = .ok (s + f k)) (s0 : α) :
    forLoop term n 0 s0 = .ok (s0 + ∑ k in Finset.range n, f k) := by
  have key := forLoop_trace0 term (fun k => s0 + ∑ j in Finset.range k, f j) n (fun k hk => by
    show term k _ = _
    rw [hterm k _ hk]
    simp only [Finset.sum_range_succ, add_assoc])
  simpa using key

/-! ## The dense layer -/

theorem vecGet_pair_zero (a b : Int) : vecGet [a, b] 0 = .ok a := by
  simp [vecGet]

/-- The dot product of `forward`, computed by the unrolled loop. -/
theorem Dense.forward_dot {α : Type} [LinearOrderedField α] (L : Dense α)
    (batch inF outF : ℕ) (X W : ℕ → ℕ → α) (hW : L.bobot = matrix outF inF W)
    (b o : ℕ) (hb : b < batch) (ho : o < outF) :
    unrolledLoop (inF : Int) (Dense.forwardTerm L (matrix batch inF X) b o) 0
      = .ok (∑ k in Finset.range inF, X b k * W o k) := by
  rw [unrolledLoop_eq_forLoop, Int.toNat_ofNat,
    forLoop_sum inF (fun k => X b k * W o k) _ (fun k s hk => by
      unfold Dense.forwardTerm
      rw [matrix_at batch inF X b k hb hk, ok_bind, hW, matrix_at outF inF W o k ho hk, ok_bind])]
  simp

theorem Dense.forward_matrix {α : Type} [LinearOrderedField α] (L : Dense α)
    (batch inF outF : ℕ) (X W : ℕ → ℕ → α) (B : ℕ → α)
    (hin : L.in_features = (inF : Int)) (hout : L.out_features = (outF : Int))
    (hW : L.bobot = matrix outF inF W)
    (hB : L.gunakan_bias = true → L.bias = vector outF B) :
    L.forward (matrix batch inF X) =
      .ok ({ L with cached_input := matrix batch inF X },
           matrix batch outF (Dense.forwardValue L.gunakan_bias inF X W B)) := by
  obtain ⟨inf, outf, bobot, bias, gbobot, gbias, cinput, useBias⟩ := L
  simp only at hin hout hW hB
  subst hin hout hW
  unfold Dense.forward
  have hshape : (matrix batch inF X).bentuk = [(batch : Int), (inF : Int)] := rfl
  simp only [hshape, vecGet_pair_zero, ok_bind, zeros_pair]
  rw [fill_matrix batch outF (Dense.forwardValue useBias inF X W B) (fun _ _ => 0)]
  · rfl
  · intro b o G hb ho
    rw [Dense.forward_dot _ batch inF outF X W rfl b o hb ho, ok_bind]
    cases useBias
    · simp [Dense.forwardValue]
    · rw [hB rfl, if_pos rfl, vector_index outF B o ho]
      simp [Dense.forwardValue]

/-- The innermost loop of the first pass of `backward`: row `o` of the weight
gradient receives `c * X b i` at every column. -/
theorem Dense.gradBobot_row {α : Type} [LinearOrderedField α] (batch inF outF : ℕ)
    (X base : ℕ → ℕ → α) (c : α) (b o : ℕ) (hb : b < batch) (ho : o < outF) :
    unrolledLoop (inF : Int) (Dense.gradBobotStep (matrix batch inF X) c b o)
        (matrix outF inF base)
      = .ok (matrix outF inF (fun o' i' => if o' = o then base o' i' + c * X b i'
                                            else base o' i')) := by
  rw [unrolledLoop_eq_forLoop, Int.toNat_ofNat]
  have key := forLoop_trace0 (Dense.gradBobotStep (matrix batch inF X) c b o)
    (fun i => matrix outF inF (fun o' i' =>
      if o' = o ∧ i' < i then base o' i' + c * X b i' else base o' i')) inF (fun i hi => by
      show Dense.gradBobotStep _ _ _ _ _ _ = _
      unfold Dense.gradBobotStep
      rw [matrix_at outF inF _ o i ho hi, ok_bind, matrix_at batch inF X b i hb hi, ok_bind,
        matrix_atSet outF inF _ o i _ ho hi]
      congr 1
      apply matrix_congr
      intro a j _ _
      by_cases h1 : a = o
      · subst h1
        by_cases h2 : j = i
        · subst h2; simp
        · have e : (j < i + 1) = (j < i) := by
            apply propext; constructor <;> intro h <;> omega
          simp [h2, e]
      · simp [h1])
  have e0 : matrix outF inF base = matrix outF inF (fun o' i' =>
      if o' = o ∧ i' < 0 then base o' i' + c * X b i' else base o' i') := by
    apply matrix_congr; intro a j _ _; simp
  have e1 : matrix outF inF (fun o' i' => if o' = o then base o' i' + c * X b i'
      else base o' i') = matrix outF inF (fun o' i' =>
      if o' = o ∧ i' < inF then base o' i' + c * X b i' else base o' i') := by
    apply matrix_congr; intro a j _ hj; simp [hj]
  rw [e0, e1]
  exact key

/-- The first pass of `backward` for one batch row `b`. -/
theorem Dense.gradPass_row {α : Type} [LinearOrderedField α] (useBias : Bool)
    (batch inF outF : ℕ) (X G base : ℕ → ℕ → α) (bv : ℕ → α) (old : Tensor α)
    (b : ℕ) (hb : b < batch) :
    forRange (outF : Int) (fun o (st : Tensor α × Tensor α) =>
      (matrix batch outF G).at [(b : Int), (o : Int)] >>= fun grad_o =>
      (if useBias = true then
          st.2.index o >>= fun gb => st.2.indexSet o (gb + grad_o)
        else .ok st.2) >>= fun grad_bias =>
      unrolledLoop (inF : Int) (Dense.gradBobotStep (matrix batch inF X) grad_o b o) st.1
        >>= fun grad_bobot =>
      .ok (grad_bobot, grad_bias))
      (matrix outF inF base, if useBias then vector outF bv else old)
    = .ok (matrix outF inF (fun o i => base o i + G b o * X b i),
           if useBias then vector outF (fun o => bv o + G b o) else old) := by
  have key := forRange_trace (fun o (st : Tensor α × Tensor α) =>
      (matrix batch outF G).at [(b : Int), (o : Int)] >>= fun grad_o =>
      (if useBias = true then
          st.2.index o >>= fun gb => st.2.indexSet o (gb + grad_o)
        else .ok st.2) >>= fun grad_bias =>
      unrolledLoop (inF : Int) (Dense.gradBobotStep (matrix batch inF X) grad_o b o) st.1
        >>= fun grad_bobot =>
      .ok (grad_bobot, grad_bias))
    (fun o => (matrix outF inF (fun o' i => if o' < o then base o' i + G b o' * X b i
                                            else base o' i),
               if useBias then vector outF (fun o' => if o' < o then bv o' + G b o' else bv o')
               else old)) outF (fun o ho => by
      show ((matrix batch outF G).at _ >>= _) = _
      rw [matrix_at batch outF G b o hb ho, ok_bind]
      simp only []
      rw [Dense.gradBobot_row batch inF outF X _ (G b o) b o hb ho]
      have em : matrix outF inF (fun o' i' =>
            if o' = o then (if o' < o then base o' i' + G b o' * X b i' else base o' i')
                + G b o * X b i'
            else (if o' < o then base o' i' + G b o' * X b i' else base o' i'))
          = matrix outF inF (fun o' i => if o' < o + 1 then base o' i + G b o' * X b i
                                            else base o' i) := by
        apply matrix_congr
        intro a j _ _
        by_cases h1 : a = o
        · subst h1; simp
        · by_cases h2 : a < o
          · have h3 : a < o + 1 := by omega
            simp [h1, h2, h3]
          · have h3 : ¬ (a < o + 1) := by omega
            simp [h1, h2, h3]
      rw [em]
      cases useBias
      · simp
      · simp only [if_true]
        rw [vector_index outF _ o ho, ok_bind, vector_indexSet outF _ o _ ho, ok_bind, ok_bind]
        congr 2
        apply vector_congr
        intro a _
        by_cases h1 : a = o
        · subst h1; simp
        · by_cases h2 : a < o
          · have h3 : a < o + 1 := by omega
            simp [h1, h2, h3]
          · have h3 : ¬ (a < o + 1) := by omega
            simp [h1, h2, h3])
  have e0 : (matrix outF inF base, if useBias then vector outF bv else old)
      = (matrix outF inF (fun o' i => if o' < 0 then base o' i + G b o' * X b i
                                            else base o' i),
         if useBias then vector outF (fun o' => if o' < 0 then bv o' + G b o' else bv o')
         else old) := by
    simp
  have e1 : (matrix outF inF (fun o i => base o i + G b o * X b i),
           if useBias then vector outF (fun o => bv o + G b o) else old)
      = (matrix outF inF (fun o' i => if o' < outF then base o' i + G b o' * X b i
                                            else base o' i),
         if useBias then vector outF (fun o' => if o' < outF then bv o' + G b o' else bv o')
         else old) := by
    congr 1
    · apply matrix_congr; intro a j ha _; simp [ha]
    · cases useBias
      · rfl
      · simp only [if_true]
        apply vector_congr; intro a ha; simp [ha]
  rw [e0, e1]
  exact key
/-- The sum of `backward` for the input gradient, computed by the unrolled loop. -/
theorem Dense.gradInput_dot {α : Type} [LinearOrderedField α] (L : Dense α)
    (batch inF outF : ℕ) (G W : ℕ → ℕ → α) (hW : L.bobot = matrix outF inF W)
    (b i : ℕ) (hb : b < batch) (hi : i < inF) :
    unrolledLoop (outF : Int) (Dense.gradInputTerm L (matrix batch outF G) b i) 0
      = .ok (∑ o in Finset.range outF, G b o * W o i) := by
  rw [unrolledLoop_eq_forLoop, Int.toNat_ofNat,
    forLoop_sum outF (fun o => G b o * W o i) _ (fun o s ho => by
      unfold Dense.gradInputTerm
      rw [matrix_at batch outF G b o hb ho, ok_bind, hW, matrix_at outF inF W o i ho hi, ok_bind])]
  simp

theorem Dense.backward_matrix {α : Type} [LinearOrderedField α] (L : Dense α)
    (batch inF outF : ℕ) (X W G : ℕ → ℕ → α)
    (hin : L.in_features = (inF : Int)) (hout : L.out_features = (outF : Int))
    (hW : L.bobot = matrix outF inF W) (hX : L.cached_input = matrix batch inF X) :
    L.backward (matrix batch outF G) =
      .ok ({ L with
              grad_bobot := matrix outF inF (fun o i => ∑ b in Finset.range batch, G b o * X b i),
              grad_bias := Dense.biasGradAfter L.gunakan_bias outF G L.grad_bias batch },
           matrix batch inF (fun b i => ∑ o in Finset.range outF, G b o * W o i)) := by
  obtain ⟨inf, outf, bobot, bias, gbobot, gbias, cinput, useBias⟩ := L
  simp only at hin hout hW hX
  subst hin hout hW hX
  unfold Dense.backward
  have hshape : (matrix batch outF G).bentuk = [(batch : Int), (outF : Int)] := rfl
  have hz : ((if useBias = true then dl.zeros [(outF : Int)] else .ok gbias) : Except Err (Tensor α))
      = .ok (if useBias then vector outF (fun _ => 0) else gbias) := by
    cases useBias
    · rfl
    · simp only [if_true]; exact zeros_single outF
  simp only [hshape, vecGet_pair_zero, ok_bind, zeros_pair, hz]
  have pass1 := forRange_trace (fun b (st : Tensor α × Tensor α) =>
      forRange (outF : Int) (fun o (st : Tensor α × Tensor α) =>
        (matrix batch outF G).at [(b : Int), (o : Int)] >>= fun grad_o =>
        (if useBias = true then
            st.2.index o >>= fun gb => st.2.indexSet o (gb + grad_o)
          else .ok st.2) >>= fun grad_bias =>
        unrolledLoop (inF : Int) (Dense.gradBobotStep (matrix batch inF X) grad_o b o) st.1
          >>= fun grad_bobot =>
        .ok (grad_bobot, grad_bias)) st)
    (fun b => (matrix outF inF (fun o i => ∑ b' in Finset.range b, G b' o * X b' i),
               if useBias then vector outF (fun o => ∑ b' in Finset.range b, G b' o)
               else gbias)) batch (fun b hb => by
      show forRange _ _ _ = _
      rw [Dense.gradPass_row useBias batch inF outF X G _ _ gbias b hb]
      simp only [Finset.sum_range_succ])
  simp only [Finset.sum_range_zero] at pass1
  rw [pass1, ok_bind]
  rw [fill_matrix batch inF (fun b i => ∑ o in Finset.range outF, G b o * W o i) (fun _ _ => 0)]
  · rfl
  · intro b i G0 hb hi
    rw [Dense.gradInput_dot _ batch inF outF G W rfl b i hb hi, ok_bind]

/-! ## Element-wise loops -/

theorem getD_of_lt {β : Type} (l : List β) (d : β) (i : ℕ) (hi : i < l.length) :
    l.getD i d = l[i] := by
  simp [List.getD_eq_getElem?_getD, List.getElem?_eq_getElem hi]

theorem map_eq_map_range {β γ : Type} (l : List β) (d : β) (f : β → γ) :
    l.map f = (List.range l.length).map (fun i => f (l.getD i d)) := by
  conv_lhs => rw [← map_range_getD l d]
  rw [List.map_map]
  rfl

theorem zipWith_eq_map_range {β γ : Type} (l r : List β) (d : β) (f : β → β → γ)
    (h : l.length ≤ r.length) :
    List.zipWith f l r = (List.range l.length).map (fun i => f (l.getD i d) (r.getD i d)) := by
  apply List.ext_getElem?
  intro i
  by_cases hi : i < l.length
  · have hr : i < r.length := by omega
    simp [hi, List.getElem?_zipWith, List.getElem?_eq_getElem hi, List.getElem?_eq_getElem hr,
      getD_of_lt l d i hi, getD_of_lt r d i hr]
  · have hn : (List.range l.length)[i]? = none := List.getElem?_eq_none (by simp; omega)
    have hl : l[i]? = none := List.getElem?_eq_none (by omega)
    simp [hn, hl, List.getElem?_zipWith]

theorem zipWith_map_self {β : Type} (f : β → β → β) (g : β → β) (l : List β) :
    List.zipWith f l (l.map g) = l.map (fun x => f x (g x)) := by
  induction l with
  | nil => rfl
  | cons a l ih => simp [ih]

/-- The loop `for (i < n) out[i] = f(a[i], b[i])` over a fresh buffer. -/
theorem zipLoop_eq {α : Type} [Zero α] (f : α → α → α) (a b : Tensor α) (n : ℕ)
    (ha : a.data.length = n) (hb : n ≤ b.data.length) (shape st : List Int) (rg : Bool) :
    forLoop (fun i (out : Tensor α) =>
        a.index (i : Int) >>= fun x => b.index (i : Int) >>= fun y => out.indexSet (i : Int) (f x y))
      n 0 ⟨(List.range n).map (fun _ => 0), shape, st, rg⟩
      = .ok ⟨List.zipWith f a.data b.data, shape, st, rg⟩ := by
  have key := forLoop_trace0 (fun i (out : Tensor α) =>
        a.index (i : Int) >>= fun x => b.index (i : Int) >>= fun y => out.indexSet (i : Int) (f x y))
    (fun j => (⟨(List.range n).map (fun i =>
        if i < j then f (a.data.getD i 0) (b.data.getD i 0) else 0), shape, st, rg⟩ : Tensor α))
    n (fun j hj => by
      show (a.index _ >>= _) = _
      rw [index_of_lt a j (by omega), ok_bind, index_of_lt b j (by omega), ok_bind,
        indexSet_map_range n j _ _ hj]
      congr 2
      apply map_range_congr
      intro i _
      by_cases h1 : i = j
      · subst h1
        rw [getD_of_lt a.data 0 i (by omega), getD_of_lt b.data 0 i (by omega)]
        simp
      · by_cases h2 : i < j
        · have h3 : i < j + 1 := by omega
          simp [h1, h2, h3]
        · have h3 : ¬ (i < j + 1) := by omega
          simp [h1, h2, h3])
  have e0 : (List.range n).map (fun _ => (0 : α)) = (List.range n).map (fun i =>
      if i < 0 then f (a.data.getD i 0) (b.data.getD i 0) else 0) := by
    apply map_range_congr; intro i _; simp
  have e1 : List.zipWith f a.data b.data = (List.range n).map (fun i =>
      if i < n then f (a.data.getD i 0) (b.data.getD i 0) else 0) := by
    rw [zipWith_eq_map_range a.data b.data 0 f (by omega), ha]
    apply map_range_congr; intro i hi; simp [hi]
  rw [e0, e1]
  exact key

/-- The loop `for (i < n) out[i] = f(t[i])` over a fresh buffer. -/
theorem mapLoop_eq {α : Type} [Zero α] (f : α → α) (t : Tensor α) (n : ℕ)
    (ht : t.data.length = n) (shape st : List Int) (rg : Bool) :
    forLoop (fun i (out : Tensor α) =>
        t.index (i : Int) >>= fun x => out.indexSet (i : Int) (f x))
      n 0 ⟨(List.range n).map (fun _ => 0), shape, st, rg⟩
      = .ok ⟨t.data.map f, shape, st, rg⟩ := by
  have key := zipLoop_eq (fun x _ => f x) t t n ht (by omega) shape st rg
  have e : List.zipWith (fun x _ => f x) t.data t.data = t.data.map f := by
    simp
  rw [e] at key
  rw [← key]
  apply forLoop_congr
  intro j s _ _
  cases h : t.index (j : Int) <;> simp [h]

theorem mapNumel_eq {α : Type} [Zero α] (f : α → α) (t : Tensor α) (h : t.Sized) :
    Tensor.mapNumel f t = .ok (Tensor.mapData f t) := by
  unfold Tensor.mapNumel
  have hn : Tensor.numelOf t.bentuk = (t.data.length : Int) := h.symm
  rw [ofShape_eq t.bentuk t.data.length hn, ok_bind]
  unfold forRange
  have h2 : t.numel = (t.data.length : Int) := h.symm
  rw [h2, Int.toNat_ofNat]
  exact mapLoop_eq f t t.data.length rfl _ _ _

theorem mapData_sized {α : Type} (f : α → α) (t : Tensor α) (h : t.Sized) :
    (Tensor.mapData f t).Sized := by
  unfold Tensor.Sized Tensor.mapData Tensor.numel at *
  simpa using h

theorem mapData_mapData {α : Type} (f g : α → α) (t : Tensor α) :
    Tensor.mapData g (Tensor.mapData f t) = Tensor.mapData (fun x => g (f x)) t := by
  simp [Tensor.mapData]

/-- The in-place loop `for (i < data.size()) data[i] = op(data[i], rhs.data[i])`. -/
theorem compoundLoop_eq {α : Type} (op : α → α → α) (l r : List α) (h : l.length ≤ r.length) :
    forLoop (fun i (d : List α) =>
      match d[i]?, r[i]? with
      | some a, some b => .ok (d.set i (op a b))
      | _, _ => .error .outOfBounds) l.length 0 l
      = .ok (List.zipWith op l r) := by
  rcases l with _ | ⟨x0, l0⟩
  · simp [forLoop]
  have dflt : α := x0
  generalize hl : x0 :: l0 = l at h
  have key := forLoop_trace0 (fun i (d : List α) =>
      match d[i]?, r[i]? with
      | some a, some b => Except.ok (d.set i (op a b))
      | _, _ => Except.error Err.outOfBounds)
    (fun j => (List.range l.length).map (fun i =>
        if i < j then op (l.getD i dflt) (r.getD i dflt) else l.getD i dflt))
    l.length (fun j hj => by
      have hr : j < r.length := by omega
      simp only [getElem?_map_range l.length j _ hj, List.getElem?_eq_getElem hr,
        lt_irrefl, if_false, set_map_range]
      congr 1
      apply map_range_congr
      intro i _
      by_cases h1 : i = j
      · subst h1
        rw [getD_of_lt r dflt i hr]
        simp
      · by_cases h2 : i < j
        · have h3 : i < j + 1 := by omega
          simp [h1, h2, h3]
        · have h3 : ¬ (i < j + 1) := by omega
          simp [h1, h2, h3])
  have e0 : l = (List.range l.length).map (fun i =>
      if i < 0 then op (l.getD i dflt) (r.getD i dflt) else l.getD i dflt) := by
    conv_lhs => rw [← map_range_getD l dflt]
    apply map_range_congr; intro i _; simp
  have e1 : List.zipWith op l r = (List.range l.length).map (fun i =>
      if i < l.length then op (l.getD i dflt) (r.getD i dflt) else l.getD i dflt) := by
    rw [zipWith_eq_map_range l r dflt op h]
    apply map_range_congr; intro i hi; simp [hi]
  rw [e1]
  beta_reduce at key
  rw [← e0] at key
  exact key

theorem compound_eq {α : Type} (op : α → α → α) (lhs rhs : Tensor α)
    (hs : lhs.bentuk = rhs.bentuk) (hl : lhs.data.length ≤ rhs.data.length) :
    Tensor.compound op lhs rhs = .ok { lhs with data := List.zipWith op lhs.data rhs.data } := by
  unfold Tensor.compound
  rw [if_pos hs, compoundLoop_eq op lhs.data rhs.data hl, ok_bind]

theorem compound_mismatch {α : Type} (op : α → α → α) (lhs rhs : Tensor α)
    (hs : lhs.bentuk ≠ rhs.bentuk) :
    Tensor.compound op lhs rhs = .error .shapeMismatch := by
  unfold Tensor.compound
  rw [if_neg hs]

theorem compoundScalar_eq {α : Type} (op : α → α → α) (t : Tensor α) (s : α) :
    Tensor.compoundScalar op t s = .ok { t with data := t.data.map (fun x => op x s) } := by
  unfold Tensor.compoundScalar
  have key := compoundLoop_eq (fun x _ => op x s) t.data t.data (le_refl _)
  have e : List.zipWith (fun x _ => op x s) t.data t.data = t.data.map (fun x => op x s) := by
    simp
  rw [e] at key
  have e2 : forLoop (fun i (d : List α) =>
      match d[i]? with
      | some a => Except.ok (d.set i (op a s))
      | none => Except.error Err.outOfBounds) t.data.length 0 t.data
      = .ok (t.data.map (fun x => op x s)) := by
    rw [← key]
    apply forLoop_congr
    intro j d _ hj
    have h2 : t.data[j]? = some t.data[j] := List.getElem?_eq_getElem (by omega)
    rw [h2]
    cases h1 : d[j]? <;> rfl
  rw [e2, ok_bind]

theorem negLoop_eq {α : Type} [Zero α] [Neg α] (l : List α) :
    forLoop (fun i (r : List α) =>
      match l[i]? with
      | some a => if i < r.length then .ok (r.set i (-a)) else .error .outOfBounds
      | none => .error .outOfBounds) l.length 0 ((List.range l.length).map (fun _ => (0 : α)))
      = .ok (l.map (fun x => -x)) := by
  have key := forLoop_trace0 (fun i (r : List α) =>
      match l[i]? with
      | some a => if i < r.length then Except.ok (r.set i (-a)) else Except.error Err.outOfBounds
      | none => Except.error Err.outOfBounds)
    (fun j => (List.range l.length).map (fun i => if i < j then -(l.getD i 0) else 0))
    l.length (fun j hj => by
      simp only [List.getElem?_eq_getElem hj, List.length_map, List.length_range, hj, if_true,
        set_map_range]
      congr 1
      apply map_range_congr
      intro i _
      by_cases h1 : i = j
      · subst h1
        rw [getD_of_lt l 0 i hj]
        simp
      · by_cases h2 : i < j
        · have h3 : i < j + 1 := by omega
          simp [h1, h2, h3]
        · have h3 : ¬ (i < j + 1) := by omega
          simp [h1, h2, h3])
  have e0 : (List.range l.length).map (fun _ => (0 : α)) = (List.range l.length).map (fun i =>
      if i < 0 then -(l.getD i 0) else 0) := by
    apply map_range_congr; intro i _; simp
  have e1 : l.map (fun x => -x) = (List.range l.length).map (fun i =>
      if i < l.length then -(l.getD i 0) else 0) := by
    rw [map_eq_map_range l 0]
    apply map_range_congr; intro i hi; simp [hi]
  rw [e0, e1]
  exact key

theorem neg_eq {α : Type} [Zero α] [Neg α] (t : Tensor α) (h : t.Sized) :
    t.neg = .ok (Tensor.mapData (fun x => -x) t) := by
  unfold Tensor.neg
  have hn : Tensor.numelOf t.bentuk = (t.data.length : Int) := h.symm
  rw [ofShape_eq t.bentuk t.data.length hn, ok_bind]
  simp only []
  rw [negLoop_eq t.data, ok_bind]
  rfl

theorem Sigmoid.sigmoid_forward_eq {α : Type} [Zero α] [One α] [Add α] [Div α] [Neg α] (sexp : α → α) (x : Tensor α)
    (h : x.Sized) :
    Sigmoid.forward sexp x = .ok (Tensor.mapData (Sigmoid.value sexp) x) := by
  unfold Sigmoid.forward Tensor.exp Tensor.scalarAdd Tensor.scalarDiv
  rw [neg_eq x h, ok_bind, mapNumel_eq _ _ (mapData_sized _ x h), ok_bind,
    mapNumel_eq _ _ (mapData_sized _ _ (mapData_sized _ x h)), ok_bind,
    mapNumel_eq _ _ (mapData_sized _ _ (mapData_sized _ _ (mapData_sized _ x h)))]
  simp only [mapData_mapData]
  rfl

theorem mul_eq {α : Type} [Mul α] (lhs rhs : Tensor α)
    (hs : lhs.bentuk = rhs.bentuk) (hl : lhs.data.length ≤ rhs.data.length) :
    Tensor.mul lhs rhs = .ok { lhs with data := List.zipWith (· * ·) lhs.data rhs.data } :=
  compound_eq _ lhs rhs hs hl

theorem Sigmoid.sigmoid_backward_eq {α : Type} [LinearOrderedField α] (x : Tensor α) (h : x.Sized) :
    Sigmoid.backward x = .ok { x with data := x.data.map (fun v => v * (1 - v)) } := by
  unfold Sigmoid.backward Tensor.scalarSub
  rw [mapNumel_eq _ _ h, ok_bind,
    mul_eq x (Tensor.mapData (fun v => 1 - v) x) rfl (by simp [Tensor.mapData])]
  simp only [Tensor.mapData, zipWith_map_self]

theorem stdMax_eq_max {α : Type} [LinearOrderedField α] (a b : α) : stdMax a b = max a b := by
  unfold stdMax
  by_cases h : a < b
  · rw [if_pos h, max_eq_right (le_of_lt h)]
  · rw [if_neg h, max_eq_left (not_lt.mp h)]

theorem stdMin_eq_min {α : Type} [LinearOrderedField α] (a b : α) : stdMin a b = min a b := by
  unfold stdMin
  by_cases h : b < a
  · rw [if_pos h, min_eq_right (le_of_lt h)]
  · rw [if_neg h, min_eq_left (not_lt.mp h)]

theorem BinaryCrossEnrtopy.clamp_eq {α : Type} [LinearOrderedField α] (v : α) :
    BinaryCrossEnrtopy.clamp v = max (1 / 10 ^ 7) (min (1 - 1 / 10 ^ 7) v) := by
  unfold BinaryCrossEnrtopy.clamp BinaryCrossEnrtopy.eps
  rw [stdMax_eq_max, stdMin_eq_min]

theorem BinaryCrossEnrtopy.bce_forward_eq {α : Type} [LinearOrderedField α] (slog : α → α)
    (y_pred y_test : Tensor α) (hp : y_pred.Sized)
    (hl : y_pred.data.length ≤ y_test.data.length) :
    BinaryCrossEnrtopy.forward slog y_pred y_test
      = .ok (Tensor.zipData (BinaryCrossEnrtopy.lossValue slog) y_pred y_test) := by
  unfold BinaryCrossEnrtopy.forward
  have hn : Tensor.numelOf y_pred.bentuk = (y_pred.data.length : Int) := hp.symm
  have h2 : y_pred.numel = (y_pred.data.length : Int) := hp.symm
  rw [ofShape_eq y_pred.bentuk y_pred.data.length hn, ok_bind]
  unfold forRange
  rw [h2, Int.toNat_ofNat]
  simp only [BinaryCrossEnrtopy.clamp_eq]
  exact zipLoop_eq (BinaryCrossEnrtopy.lossValue slog) y_pred y_test _ rfl hl _ _ _

theorem BinaryCrossEnrtopy.bce_backward_eq {α : Type} [LinearOrderedField α]
    (y_pred y_test : Tensor α) (hp : y_pred.Sized)
    (hl : y_pred.data.length ≤ y_test.data.length) :
    BinaryCrossEnrtopy.backward y_pred y_test
      = .ok (Tensor.zipData BinaryCrossEnrtopy.gradValue y_pred y_test) := by
  unfold BinaryCrossEnrtopy.backward
  have hn : Tensor.numelOf y_pred.bentuk = (y_pred.data.length : Int) := hp.symm
  have h2 : y_pred.numel = (y_pred.data.length : Int) := hp.symm
  rw [ofShape_eq y_pred.bentuk y_pred.data.length hn, ok_bind]
  unfold forRange
  rw [h2, Int.toNat_ofNat]
  simp only [BinaryCrossEnrtopy.clamp_eq]
  exact zipLoop_eq BinaryCrossEnrtopy.gradValue y_pred y_test _ rfl hl _ _ _

theorem sized_length_eq {α : Type} (a b : Tensor α) (ha : a.Sized) (hb : b.Sized)
    (hs : a.bentuk = b.bentuk) : a.data.length = b.data.length := by
  unfold Tensor.Sized Tensor.numel at ha hb
  rw [hs] at ha
  have : (a.data.length : Int) = (b.data.length : Int) := by rw [ha, hb]
  exact_mod_cast this

/-! ## The Adam update -/

theorem alike_length {α : Type} (a b : Tensor α) (h : a.Alike b) :
    a.data.length = b.data.length :=
  sized_length_eq a b h.2.1 h.2.2 h.1

theorem zipData_sized {α : Type} (f : α → α → α) (a b : Tensor α) (h : a.Alike b) :
    (Tensor.zipData f a b).Sized := by
  have hl := alike_length a b h
  have ha := h.2.1
  unfold Tensor.Sized Tensor.zipData Tensor.numel at *
  simp only [List.length_zipWith, ← hl, min_self]
  exact ha

theorem add_eq {α : Type} [Add α] (lhs rhs : Tensor α)
    (hs : lhs.bentuk = rhs.bentuk) (hl : lhs.data.length ≤ rhs.data.length) :
    Tensor.add lhs rhs = .ok { lhs with data := List.zipWith (· + ·) lhs.data rhs.data } :=
  compound_eq _ lhs rhs hs hl

theorem sub_eq {α : Type} [Sub α] (lhs rhs : Tensor α)
    (hs : lhs.bentuk = rhs.bentuk) (hl : lhs.data.length ≤ rhs.data.length) :
    Tensor.sub lhs rhs = .ok { lhs with data := List.zipWith (· - ·) lhs.data rhs.data } :=
  compound_eq _ lhs rhs hs hl

theorem div_eq {α : Type} [Div α] (lhs rhs : Tensor α)
    (hs : lhs.bentuk = rhs.bentuk) (hl : lhs.data.length ≤ rhs.data.length) :
    Tensor.div lhs rhs = .ok { lhs with data := List.zipWith (· / ·) lhs.data rhs.data } :=
  compound_eq _ lhs rhs hs hl

theorem adam.momentStep_eq {α : Type} [LinearOrderedField α] (beta : α) (m grad : Tensor α)
    (h : m.Alike grad) :
    adam.momentStep beta m grad = .ok (Tensor.zipData (adam.mValue beta) m grad) := by
  have hl := alike_length m grad h
  unfold adam.momentStep Tensor.scalarMul
  rw [mapNumel_eq _ _ h.2.1, ok_bind, mapNumel_eq _ _ h.2.2, ok_bind,
    add_eq _ _ (by simpa [Tensor.mapData] using h.1) (by simp [Tensor.mapData, hl])]
  simp only [Tensor.mapData, Tensor.zipData, List.zipWith_map]
  rfl

theorem zipWith_same {β γ : Type} (f : β → β → γ) (l : List β) :
    List.zipWith f l l = l.map (fun a => f a a) := by
  induction l with
  | nil => rfl
  | cons a l ih => simp [ih]

theorem adam.secondMomentStep_eq {α : Type} [LinearOrderedField α] (beta : α)
    (v grad : Tensor α) (h : v.Alike grad) :
    adam.secondMomentStep beta v grad = .ok (Tensor.zipData (adam.vValue beta) v grad) := by
  have hl := alike_length v grad h
  have hg2 : ({ grad with data := List.zipWith (· * ·) grad.data grad.data } : Tensor α).Sized := by
    have := h.2.2
    unfold Tensor.Sized Tensor.numel at *
    simpa using this
  unfold adam.secondMomentStep Tensor.scalarMul
  rw [mapNumel_eq _ _ h.2.1, ok_bind, mul_eq grad grad rfl (le_refl _), ok_bind,
    mapNumel_eq _ _ hg2, ok_bind,
    add_eq _ _ (by simpa [Tensor.mapData] using h.1) (by simp [Tensor.mapData, hl])]
  simp only [Tensor.mapData, Tensor.zipData, List.zipWith_map, zipWith_same, List.map_map]
  rfl

theorem divScalar_eq {α : Type} [LinearOrderedField α] (t : Tensor α) (s : α) :
    Tensor.divScalar t s = .ok { t with data := t.data.map (fun x => x / s) } :=
  compoundScalar_eq _ t s

theorem addScalar_eq {α : Type} [Add α] (t : Tensor α) (s : α) :
    Tensor.addScalar t s = .ok { t with data := t.data.map (fun x => x + s) } :=
  compoundScalar_eq _ t s

theorem adam.paramStep_eq {α : Type} [LinearOrderedField α] (ssqrt : α → α)
    (lr epsilon k1 k2 : α) (param m v : Tensor α) (hm : param.Alike m) (hv : param.Alike v) :
    adam.paramStep ssqrt lr epsilon param
        { m with data := m.data.map (fun x => x / k1) }
        { v with data := v.data.map (fun x => x / k2) }
      = .ok (adam.newParam ssqrt lr epsilon k1 k2 param m v) := by
  have hlm := alike_length param m hm
  have hlv := alike_length param v hv
  have sm : ({ m with data := m.data.map (fun x => x / k1) } : Tensor α).Sized := by
    have := hm.2.2
    unfold Tensor.Sized Tensor.numel at *
    simpa using this
  have sv : ({ v with data := v.data.map (fun x => x / k2) } : Tensor α).Sized := by
    have := hv.2.2
    unfold Tensor.Sized Tensor.numel at *
    simpa using this
  unfold adam.paramStep Tensor.scalarMul Tensor.sqrt
  rw [mapNumel_eq _ _ sm, ok_bind, mapNumel_eq _ _ sv, ok_bind, addScalar_eq, ok_bind,
    div_eq _ _ (by simp only [Tensor.mapData]; rw [← hm.1, ← hv.1])
      (by simp [Tensor.mapData, ← hlm, ← hlv]), ok_bind,
    sub_eq _ _ (by simp only [Tensor.mapData]; exact hm.1)
      (by simp [Tensor.mapData, ← hlm, ← hlv])]
  simp only [Tensor.mapData, adam.newParam, List.map_map]
  rfl

/-- `update` on an optimizer whose buffers exist. -/
theorem adam.update_initialised {α : Type} [LinearOrderedField α] (ssqrt : α → α) (A : adam α)
    (bobot grad_bobot bias grad_bias : Tensor α) (hi : A.inisialisasi = true)
    (hgw : bobot.Alike grad_bobot) (hgb : bias.Alike grad_bias)
    (hmw : bobot.Alike A.m_bobot) (hvw : bobot.Alike A.v_bobot)
    (hmb : bias.Alike A.m_bias) (hvb : bias.Alike A.v_bias) :
    A.update ssqrt bobot grad_bobot bias grad_bias =
      .ok ({ A with
              t := A.t + 1,
              m_bobot := Tensor.zipData (adam.mValue A.beta1) A.m_bobot grad_bobot,
              v_bobot := Tensor.zipData (adam.vValue A.beta2) A.v_bobot grad_bobot,
              m_bias := Tensor.zipData (adam.mValue A.beta1) A.m_bias grad_bias,
              v_bias := Tensor.zipData (adam.vValue A.beta2) A.v_bias grad_bias },
           adam.newParam ssqrt A.lr A.epsilon (1 - A.beta1 ^ (A.t + 1)) (1 - A.beta2 ^ (A.t + 1))
             bobot (Tensor.zipData (adam.mValue A.beta1) A.m_bobot grad_bobot)
             (Tensor.zipData (adam.vValue A.beta2) A.v_bobot grad_bobot),
           adam.newParam ssqrt A.lr A.epsilon (1 - A.beta1 ^ (A.t + 1)) (1 - A.beta2 ^ (A.t + 1))
             bias (Tensor.zipData (adam.mValue A.beta1) A.m_bias grad_bias)
             (Tensor.zipData (adam.vValue A.beta2) A.v_bias grad_bias)) := by
  have a1 : A.m_bobot.Alike grad_bobot := ⟨hmw.1.symm.trans hgw.1, hmw.2.2, hgw.2.2⟩
  have a2 : A.v_bobot.Alike grad_bobot := ⟨hvw.1.symm.trans hgw.1, hvw.2.2, hgw.2.2⟩
  have a3 : A.m_bias.Alike grad_bias := ⟨hmb.1.symm.trans hgb.1, hmb.2.2, hgb.2.2⟩
  have a4 : A.v_bias.Alike grad_bias := ⟨hvb.1.symm.trans hgb.1, hvb.2.2, hgb.2.2⟩
  have b1 : bobot.Alike (Tensor.zipData (adam.mValue A.beta1) A.m_bobot grad_bobot) :=
    ⟨hmw.1, hmw.2.1, zipData_sized _ _ _ a1⟩
  have b2 : bobot.Alike (Tensor.zipData (adam.vValue A.beta2) A.v_bobot grad_bobot) :=
    ⟨hvw.1, hvw.2.1, zipData_sized _ _ _ a2⟩
  have b3 : bias.Alike (Tensor.zipData (adam.mValue A.beta1) A.m_bias grad_bias) :=
    ⟨hmb.1, hmb.2.1, zipData_sized _ _ _ a3⟩
  have b4 : bias.Alike (Tensor.zipData (adam.vValue A.beta2) A.v_bias grad_bias) :=
    ⟨hvb.1, hvb.2.1, zipData_sized _ _ _ a4⟩
  unfold adam.update
  have hne : ¬ (A.inisialisasi = false) := by simp [hi]
  rw [if_neg hne, ok_bind]
  simp only []
  rw [adam.momentStep_eq _ _ _ a1, ok_bind, adam.secondMomentStep_eq _ _ _ a2, ok_bind,
    divScalar_eq, ok_bind, divScalar_eq, ok_bind,
    adam.paramStep_eq ssqrt _ _ _ _ bobot _ _ b1 b2, ok_bind,
    adam.momentStep_eq _ _ _ a3, ok_bind, adam.secondMomentStep_eq _ _ _ a4, ok_bind,
    divScalar_eq, ok_bind, divScalar_eq, ok_bind,
    adam.paramStep_eq ssqrt _ _ _ _ bias _ _ b3 b4, ok_bind]

theorem zeros_like {α : Type} [LinearOrderedField α] (t : Tensor α) (h : t.Sized) :
    (dl.zeros t.bentuk : Except Err (Tensor α)) = .ok (Tensor.mapData (fun _ => 0) t) := by
  rw [zeros_eq t.bentuk t.data.length h.symm]
  unfold Tensor.mapData
  rw [map_eq_map_range t.data 0]

theorem alike_zero {α : Type} [LinearOrderedField α] (t : Tensor α) (h : t.Sized) :
    t.Alike (Tensor.mapData (fun _ => 0) t) :=
  ⟨rfl, h, mapData_sized _ t h⟩

/-- `update` in general: the lazy initialisation, then the step on the
optimizer `A.atEntry bobot bias`. -/
theorem adam.update_eq {α : Type} [LinearOrderedField α] (ssqrt : α → α) (A : adam α)
    (bobot grad_bobot bias grad_bias : Tensor α)
    (hgw : bobot.Alike grad_bobot) (hgb : bias.Alike grad_bias)
    (hm : A.inisialisasi = true →
      bobot.Alike A.m_bobot ∧ bobot.Alike A.v_bobot ∧ bias.Alike A.m_bias ∧ bias.Alike A.v_bias) :
    A.update ssqrt bobot grad_bobot bias grad_bias =
      .ok ({ A.atEntry bobot bias with
              t := A.t + 1,
              m_bobot := Tensor.zipData (adam.mValue A.beta1) (A.atEntry bobot bias).m_bobot
                grad_bobot,
              v_bobot := Tensor.zipData (adam.vValue A.beta2) (A.atEntry bobot bias).v_bobot
                grad_bobot,
              m_bias := Tensor.zipData (adam.mValue A.beta1) (A.atEntry bobot bias).m_bias
                grad_bias,
              v_bias := Tensor.zipData (adam.vValue A.beta2) (A.atEntry bobot bias).v_bias
                grad_bias },
           adam.newParam ssqrt A.lr A.epsilon (1 - A.beta1 ^ (A.t + 1)) (1 - A.beta2 ^ (A.t + 1))
             bobot (Tensor.zipData (adam.mValue A.beta1) (A.atEntry bobot bias).m_bobot grad_bobot)
             (Tensor.zipData (adam.vValue A.beta2) (A.atEntry bobot bias).v_bobot grad_bobot),
           adam.newParam ssqrt A.lr A.epsilon (1 - A.beta1 ^ (A.t + 1)) (1 - A.beta2 ^ (A.t + 1))
             bias (Tensor.zipData (adam.mValue A.beta1) (A.atEntry bobot bias).m_bias grad_bias)
             (Tensor.zipData (adam.vValue A.beta2) (A.atEntry bobot bias).v_bias grad_bias)) := by
  cases hi : A.inisialisasi
  · have e : A.update ssqrt bobot grad_bobot bias grad_bias
        = (A.atEntry bobot bias).update ssqrt bobot grad_bobot bias grad_bias := by
      unfold adam.update adam.atEntry
      simp only [hi, if_true, zeros_like bobot hgw.2.1, zeros_like bias hgb.2.1, ok_bind,
        Bool.false_eq_true, if_false]
      rfl
    rw [e]
    have hi1 : (A.atEntry bobot bias).inisialisasi = true := by
      unfold adam.atEntry; simp [hi]
    have := adam.update_initialised ssqrt (A.atEntry bobot bias) bobot grad_bobot bias grad_bias
      hi1 hgw hgb
      (by unfold adam.atEntry; simp only [hi, Bool.false_eq_true, if_false]
          exact alike_zero bobot hgw.2.1)
      (by unfold adam.atEntry; simp only [hi, Bool.false_eq_true, if_false]
          exact alike_zero bobot hgw.2.1)
      (by unfold adam.atEntry; simp only [hi, Bool.false_eq_true, if_false]
          exact alike_zero bias hgb.2.1)
      (by unfold adam.atEntry; simp only [hi, Bool.false_eq_true, if_false]
          exact alike_zero bias hgb.2.1)
    rw [this]
    unfold adam.atEntry
    simp only [hi, Bool.false_eq_true, if_false]
  · obtain ⟨h1, h2, h3, h4⟩ := hm hi
    have e : A.atEntry bobot bias = A := by
      unfold adam.atEntry; simp [hi]
    rw [e]
    exact adam.update_initialised ssqrt A bobot grad_bobot bias grad_bias hi hgw hgb h1 h2 h3 h4

/-! ## The network: forward pass -/

theorem bind_eq_ok {β γ : Type} (x : Except Err β) (f : β → Except Err γ) (c : γ)
    (h : (x >>= f) = .ok c) : ∃ a, x = .ok a ∧ f a = .ok c := by
  cases x with
  | error e => simp at h
  | ok a => exact ⟨a, rfl, h⟩

theorem Dense.forward_fst {α : Type} [Zero α] [Add α] [Mul α] (L : Dense α) (x : Tensor α)
    (r : Dense α × Tensor α) (h : L.forward x = .ok r) :
    r.1 = { L with cached_input := x } := by
  unfold Dense.forward at h
  obtain ⟨a, _, h⟩ := bind_eq_ok _ _ _ h
  obtain ⟨b, _, h⟩ := bind_eq_ok _ _ _ h
  obtain ⟨c, _, h⟩ := bind_eq_ok _ _ _ h
  cases h
  rfl

theorem Dense.forward_eraseCache {α : Type} [Zero α] [Add α] [Mul α] (L L' : Dense α)
    (x : Tensor α) (h : L.eraseCache = L'.eraseCache) : L.forward x = L'.forward x := by
  obtain ⟨a1, a2, a3, a4, a5, a6, a7, a8⟩ := L
  obtain ⟨b1, b2, b3, b4, b5, b6, b7, b8⟩ := L'
  simp only [Dense.eraseCache, Dense.mk.injEq] at h
  obtain ⟨h1, h2, h3, h4, h5, h6, _, h8⟩ := h
  subst h1 h2 h3 h4 h5 h6 h8
  rfl

theorem vecGet_eq_ok {β : Type} (v : List β) (i : Int) (x : β) (h : vecGet v i = .ok x) :
    0 ≤ i ∧ i.toNat < v.length ∧ v[i.toNat]? = some x := by
  unfold vecGet at h
  by_cases h0 : i < 0
  · simp [h0] at h
  · rw [if_neg h0] at h
    cases hx : v[i.toNat]? with
    | none => simp [hx] at h
    | some y =>
      simp [hx] at h
      subst h
      have hl : i.toNat < v.length := by
        by_contra hc
        rw [List.getElem?_eq_none (not_lt.mp hc)] at hx
        cases hx
      exact ⟨by omega, hl, rfl⟩

theorem vecGet_map {β γ : Type} (f : β → γ) (v : List β) (i : Int) :
    vecGet (v.map f) i = (vecGet v i).map f := by
  unfold vecGet
  by_cases h0 : i < 0
  · simp [h0, Except.map]
  · simp only [h0, if_false, List.getElem?_map]
    cases v[i.toNat]? <;> rfl

theorem vecSet_of_get {β : Type} (v : List β) (i : Int) (x y : β) (h : vecGet v i = .ok x) :
    vecSet v i y = .ok (v.set i.toNat y) := by
  obtain ⟨h0, hl, _⟩ := vecGet_eq_ok v i x h
  unfold vecSet
  have : ¬ (i < 0) := by omega
  simp [this, hl]

theorem map_set_same {β γ : Type} (f : β → γ) (v : List β) (k : ℕ) (x y : β)
    (hx : v[k]? = some x) (hf : f y = f x) : (v.set k y).map f = v.map f := by
  apply List.ext_getElem?
  intro i
  by_cases hik : k = i
  · subst hik
    by_cases hl : k < v.length
    · have hx2 : v[k] = x := by
        rw [List.getElem?_eq_getElem hl] at hx
        exact Option.some.inj hx
      simp [List.getElem?_set, hl, hf, hx2]
    · rw [List.getElem?_eq_none (not_lt.mp hl)] at hx
      cases hx
  · simp [List.getElem?_set, hik]

theorem NeuralNetwork.stageOutput_congr {α : Type} [Zero α] [One α] [Add α] [Mul α] [Div α] [Neg α] [LT α]
    [DecidableRel (fun a b : α => a < b)] (sexp : α → α)
    (layers layers' : List (Dense α)) (info : LayerInfo) (x : Tensor α)
    (h : layers.map Dense.eraseCache = layers'.map Dense.eraseCache) :
    NeuralNetwork.stageOutput sexp layers info x = NeuralNetwork.stageOutput sexp layers' info x := by
  unfold NeuralNetwork.stageOutput
  cases info.type
  · simp only []
    have hg := congrArg (fun v => vecGet v info.dense_index) h
    simp only [vecGet_map] at hg
    cases h1 : vecGet layers info.dense_index with
    | error e =>
      cases h2 : vecGet layers' info.dense_index with
      | error e' =>
        rw [h1, h2] at hg
        simp only [Except.map] at hg
        cases hg
        rfl
      | ok L' => rw [h1, h2] at hg; simp [Except.map] at hg
    | ok L =>
      cases h2 : vecGet layers' info.dense_index with
      | error e' => rw [h1, h2] at hg; simp [Except.map] at hg
      | ok L' =>
        rw [h1, h2] at hg
        simp only [Except.map, Except.ok.injEq] at hg
        simp only [ok_bind]
        rw [Dense.forward_eraseCache L L' x hg]
  · rfl
  · rfl

theorem NeuralNetwork.forwardTrace_congr {α : Type} [Zero α] [One α] [Add α] [Mul α] [Div α] [Neg α] [LT α]
    [DecidableRel (fun a b : α => a < b)] (sexp : α → α)
    (layers layers' : List (Dense α))
    (h : layers.map Dense.eraseCache = layers'.map Dense.eraseCache) :
    ∀ (stages : List LayerInfo) (x : Tensor α),
      NeuralNetwork.forwardTrace sexp layers stages x
        = NeuralNetwork.forwardTrace sexp layers' stages x
  | [], _ => rfl
  | info :: rest, x => by
    unfold NeuralNetwork.forwardTrace
    rw [NeuralNetwork.stageOutput_congr sexp layers layers' info x h]
    congr 1
    funext y
    rw [NeuralNetwork.forwardTrace_congr sexp layers layers' h rest y]

/-- One iteration of the loop of `forward` against the stage transform. -/
theorem NeuralNetwork.forwardStep_spec {α : Type} [Zero α] [One α] [Add α] [Mul α] [Div α] [Neg α] [LT α]
    [DecidableRel (fun a b : α => a < b)] (sexp : α → α)
    (M : NeuralNetwork α) (cur : Tensor α) (j : ℕ) (info : LayerInfo)
    (hj : M.layer_order[j]? = some info) :
    (∀ y, NeuralNetwork.stageOutput sexp M.dense_layers info cur = .ok y →
      ∃ M1, NeuralNetwork.forwardStep sexp j (M, cur) = .ok (M1, y)
        ∧ M1.activations = M.activations ++ [y]
        ∧ M1.pre_activations = M.pre_activations ++ [cur]
        ∧ M1.dense_layers.map Dense.eraseCache = M.dense_layers.map Dense.eraseCache
        ∧ M1.layer_order = M.layer_order ∧ M1.optimizers = M.optimizers
        ∧ M1.learning_rate = M.learning_rate)
    ∧ (∀ e, NeuralNetwork.stageOutput sexp M.dense_layers info cur = .error e →
      NeuralNetwork.forwardStep sexp j (M, cur) = .error e) := by
  unfold NeuralNetwork.forwardStep NeuralNetwork.stageOutput
  simp only [hj]
  cases info.type
  · simp only []
    cases h1 : vecGet M.dense_layers info.dense_index with
    | error e =>
      constructor
      · intro y hy; simp at hy
      · intro e' he; simp at he; subst he; rfl
    | ok L =>
      simp only [ok_bind]
      cases h2 : L.forward cur with
      | error e =>
        constructor
        · intro y hy; simp at hy
        · intro e' he; simp at he; subst he; rfl
      | ok r =>
        simp only [ok_bind, vecSet_of_get _ _ L r.1 h1]
        constructor
        · intro y hy
          simp only [Except.ok.injEq] at hy
          subst hy
          refine ⟨_, rfl, rfl, rfl, ?_, rfl, rfl, rfl⟩
          simp only []
          obtain ⟨_, _, hx⟩ := vecGet_eq_ok _ _ _ h1
          apply map_set_same Dense.eraseCache _ _ L r.1 hx
          rw [Dense.forward_fst L cur r h2]
          rfl
        · intro e he; simp at he
  · simp only []
    cases h1 : ReLu.forward cur with
    | error e =>
      constructor
      · intro y hy; simp at hy
      · intro e' he; simp at he; subst he; rfl
    | ok c =>
      constructor
      · intro y hy
        simp only [Except.ok.injEq] at hy
        subst hy
        exact ⟨_, rfl, rfl, rfl, rfl, rfl, rfl, rfl⟩
      · intro e he; simp at he
  · simp only []
    cases h1 : Sigmoid.forward sexp cur with
    | error e =>
      constructor
      · intro y hy; simp at hy
      · intro e' he; simp at he; subst he; rfl
    | ok c =>
      constructor
      · intro y hy
        simp only [Except.ok.injEq] at hy
        subst hy
        exact ⟨_, rfl, rfl, rfl, rfl, rfl, rfl, rfl⟩
      · intro e he; simp at he

/-- The loop of `forward` from stage `pre.length` on, against the trace of the
remaining stages. -/
theorem NeuralNetwork.forward_loop {α : Type} [Zero α] [One α] [Add α] [Mul α] [Div α] [Neg α] [LT α]
    [DecidableRel (fun a b : α => a < b)] (sexp : α → α) :
    ∀ (rest pre : List LayerInfo) (M : NeuralNetwork α) (cur : Tensor α),
      M.layer_order = pre ++ rest →
      (∀ ys, NeuralNetwork.forwardTrace sexp M.dense_layers rest cur = .ok ys →
        ∃ M1, forLoop (NeuralNetwork.forwardStep sexp) rest.length pre.length (M, cur)
            = .ok (M1, ys.getLastD cur)
          ∧ M1.activations = M.activations ++ ys
          ∧ M1.pre_activations = M.pre_activations ++ (cur :: ys).dropLast
          ∧ M1.dense_layers.map Dense.eraseCache = M.dense_layers.map Dense.eraseCache
          ∧ M1.layer_order = M.layer_order ∧ M1.optimizers = M.optimizers
          ∧ M1.learning_rate = M.learning_rate)
      ∧ (∀ e, NeuralNetwork.forwardTrace sexp M.dense_layers rest cur = .error e →
        forLoop (NeuralNetwork.forwardStep sexp) rest.length pre.length (M, cur) = .error e)
  | [], pre, M, cur, _ => by
    constructor
    · intro ys hys
      simp only [NeuralNetwork.forwardTrace, Except.ok.injEq] at hys
      subst hys
      exact ⟨M, rfl, by simp, by simp, rfl, rfl, rfl, rfl⟩
    · intro e he
      simp [NeuralNetwork.forwardTrace] at he
  | info :: rest, pre, M, cur, hM => by
    have hj : M.layer_order[pre.length]? = some info := by
      rw [hM, List.getElem?_append_right (le_refl _)]; simp
    obtain ⟨hok, herr⟩ := NeuralNetwork.forwardStep_spec sexp M cur pre.length info hj
    simp only [List.length_cons, forLoop_succ]
    unfold NeuralNetwork.forwardTrace
    cases h1 : NeuralNetwork.stageOutput sexp M.dense_layers info cur with
    | error e =>
      rw [herr e h1]
      constructor
      · intro ys hys; simp at hys
      · intro e' he; simp at he; subst he; rfl
    | ok y =>
      obtain ⟨M1, hstep, hact, hpre, hlay, hord, hopt, hlr⟩ := hok y h1
      rw [hstep, ok_bind, ok_bind]
      have hM1 : M1.layer_order = (pre ++ [info]) ++ rest := by
        rw [hord, hM]; simp
      obtain ⟨ihok, iherr⟩ := NeuralNetwork.forward_loop sexp rest (pre ++ [info]) M1 y hM1
      have hlen : (pre ++ [info]).length = pre.length + 1 := by simp
      rw [hlen] at ihok iherr
      rw [NeuralNetwork.forwardTrace_congr sexp M1.dense_layers M.dense_layers hlay] at ihok iherr
      cases h2 : NeuralNetwork.forwardTrace sexp M.dense_layers rest y with
      | error e =>
        rw [iherr e h2]
        constructor
        · intro ys hys; simp at hys
        · intro e' he; simp at he; subst he; rfl
      | ok ys =>
        obtain ⟨M2, hloop, hact2, hpre2, hlay2, hord2, hopt2, hlr2⟩ := ihok ys h2
        constructor
        · intro zs hzs
          simp only [ok_bind, Except.ok.injEq] at hzs
          subst hzs
          refine ⟨M2, ?_, ?_, ?_, hlay2.trans hlay, hord2.trans hord, hopt2.trans hopt,
            hlr2.trans hlr⟩
          · rw [hloop]
            cases ys <;> rfl
          · rw [hact2, hact]; simp
          · rw [hpre2, hpre]
            simp [List.dropLast]
        · intro e he; simp at he

/-! ## The network: backward pass -/

/-- One iteration of the loop of `backward` is the stage of the fold, on a
network that differs from `N` in its dense layers only. -/
theorem NeuralNetwork.backwardStep_stage {α : Type} [LinearOrderedField α]
    (N : NeuralNetwork α) (i : ℕ) (info : LayerInfo) (hi : N.layer_order[i]? = some info)
    (st : List (Dense α) × Tensor α) :
    NeuralNetwork.backwardStep i ({ N with dense_layers := st.1 }, st.2)
      = NeuralNetwork.backwardStage N i info st >>= fun r =>
          .ok ({ N with dense_layers := r.1 }, r.2) := by
  unfold NeuralNetwork.backwardStep NeuralNetwork.backwardStage
  simp only [hi]
  cases info.type
  · simp only [bind_assoc_ex, ok_bind]
  · simp only [bind_assoc_ex, ok_bind]
  · simp only [bind_assoc_ex, ok_bind]

theorem NeuralNetwork.backward_loop {α : Type} [LinearOrderedField α] (N : NeuralNetwork α) :
    ∀ (pre rest : List LayerInfo), N.layer_order = pre ++ rest →
      ∀ (st : List (Dense α) × Tensor α),
        forDown NeuralNetwork.backwardStep pre.length ({ N with dense_layers := st.1 }, st.2)
          = (pre.enum.reverse).foldlM
              (fun st p => NeuralNetwork.backwardStage N p.1 p.2 st) st >>= fun r =>
            .ok ({ N with dense_layers := r.1 }, r.2) := by
  intro pre
  induction pre using List.reverseRecOn with
  | nil =>
    intro rest _ st
    simp [forDown, pure, Except.pure]
  | append_singleton pre info ih =>
    intro rest h st
    have hi : N.layer_order[pre.length]? = some info := by
      rw [h, List.append_assoc, List.getElem?_append_right (le_refl _)]; simp
    have hlen : (pre ++ [info]).length = pre.length + 1 := by simp
    rw [hlen]
    simp only [forDown]
    rw [NeuralNetwork.backwardStep_stage N pre.length info hi st]
    rw [List.enum_append, List.reverse_append]
    simp only [List.enumFrom_singleton, List.reverse_cons, List.reverse_nil, List.nil_append,
      List.singleton_append, List.foldlM_cons, bind_assoc_ex, ok_bind]
    congr 1
    funext r
    exact ih ([info] ++ rest) (by rw [h]; simp) r

/-! ## The training step -/

/-- A property kept by every successful iteration holds after a successful loop. -/
theorem forLoop_inv_ok {σ : Type} (body : ℕ → σ → Except Err σ) (P : σ → Prop)
    (hstep : ∀ j s s', P s → body j s = .ok s' → P s') :
    ∀ (n i : ℕ) (s s' : σ), P s → forLoop body n i s = .ok s' → P s'
  | 0, _, s, s', hP, h => by
    simp only [forLoop, Except.ok.injEq] at h
    subst h
    exact hP
  | n + 1, i, s, s', hP, h => by
    rw [forLoop_succ] at h
    obtain ⟨s1, h1, h2⟩ := bind_eq_ok _ _ _ h
    exact forLoop_inv_ok body P hstep n (i + 1) s1 s' (hstep i s s1 hP h1) h2

theorem indexSet_ok {α : Type} (t t' : Tensor α) (i : Int) (v : α)
    (h : t.indexSet i v = .ok t') :
    t'.bentuk = t.bentuk ∧ t'.data.length = t.data.length := by
  unfold Tensor.indexSet at h
  by_cases h0 : i < 0
  · simp [h0] at h
  · by_cases h1 : i.toNat < t.data.length
    · simp only [h0, h1, if_true, if_false, Except.ok.injEq] at h
      subst h
      simp
    · simp [h0, h1] at h

theorem ofShape_ok {α : Type} [Zero α] (shape : List Int) (t : Tensor α)
    (h : Tensor.ofShape shape = .ok t) : t.bentuk = shape ∧ t.Sized := by
  unfold Tensor.ofShape at h
  by_cases h0 : Tensor.numelOf shape < 0
  · simp [h0] at h
  · simp only [h0, if_false, Except.ok.injEq] at h
    subst h
    refine ⟨rfl, ?_⟩
    unfold Tensor.Sized Tensor.numel
    simp only [List.length_replicate]
    have : 0 ≤ Tensor.numelOf shape := by omega
    rw [Int.toNat_of_nonneg this]
    rfl

/-- Whenever `BinaryCrossEnrtopy::forward` returns, its result has the shape of
`y_pred` and satisfies the size invariant. -/
theorem BinaryCrossEnrtopy.bce_forward_ok {α : Type} [LinearOrderedField α] (slog : α → α)
    (y_pred y_test L : Tensor α) (h : BinaryCrossEnrtopy.forward slog y_pred y_test = .ok L) :
    L.bentuk = y_pred.bentuk ∧ L.Sized := by
  unfold BinaryCrossEnrtopy.forward at h
  obtain ⟨out, h1, h2⟩ := bind_eq_ok _ _ _ h
  obtain ⟨hb, hs⟩ := ofShape_ok _ _ h1
  unfold forRange at h2
  have key := forLoop_inv_ok _ (fun (t : Tensor α) => t.bentuk = y_pred.bentuk ∧ t.Sized)
    (fun j s s' hP hs' => by
      obtain ⟨a, _, hs'⟩ := bind_eq_ok _ _ _ hs'
      obtain ⟨b, _, hs'⟩ := bind_eq_ok _ _ _ hs'
      obtain ⟨e1, e2⟩ := indexSet_ok _ _ _ _ hs'
      refine ⟨e1.trans hP.1, ?_⟩
      have := hP.2
      unfold Tensor.Sized Tensor.numel at *
      rw [e1, e2]
      exact this) _ _ out L ⟨hb, hs⟩ h2
  exact key

theorem sum_range_getD {α : Type} [LinearOrderedField α] (l : List α) :
    ∑ k in Finset.range l.length, l.getD k 0 = l.sum := by
  induction l with
  | nil => simp
  | cons a l ih =>
    rw [List.length_cons, Finset.sum_range_succ', List.sum_cons]
    simp only [List.getD_cons_succ, List.getD_cons_zero]
    rw [ih, add_comm]

/-- The reduction of `train_step` on a tensor that satisfies the size
invariant: the sum of its elements divided by their number. -/
theorem NeuralNetwork.meanLoss_eq {α : Type} [LinearOrderedField α] (L : Tensor α)
    (h : L.Sized) :
    NeuralNetwork.meanLoss L = .ok (L.data.sum / (L.data.length : α)) := by
  unfold NeuralNetwork.meanLoss forRange
  have hn : L.numel = (L.data.length : Int) := h.symm
  rw [hn, Int.toNat_ofNat,
    forLoop_sum L.data.length (fun k => L.data.getD k 0) _ (fun k s hk => by
      rw [index_of_lt L k hk, ok_bind]
      show _ = Except.ok (s + L.data.getD k 0)
      rw [getD_of_lt L.data 0 k hk]), ok_bind, sum_range_getD]
  simp

theorem Dense.forward_params {α : Type} [LinearOrderedField α] (L L' : Dense α)
    (x : Tensor α) (h : L.params = L'.params) :
    (L.forward x >>= fun r => Except.ok r.2) = (L'.forward x >>= fun r => Except.ok r.2) := by
  obtain ⟨a1, a2, a3, a4, a5, a6, a7, a8⟩ := L
  obtain ⟨b1, b2, b3, b4, b5, b6, b7, b8⟩ := L'
  simp only [Dense.params, Prod.mk.injEq] at h
  obtain ⟨h1, h2, h3, h4, h8⟩ := h
  subst h1 h2 h3 h4 h8
  unfold Dense.forward
  simp only [bind_assoc_ex, ok_bind]
  rfl

theorem NeuralNetwork.stageOutput_params {α : Type} [LinearOrderedField α] (sexp : α → α)
    (layers layers' : List (Dense α)) (info : LayerInfo) (x : Tensor α)
    (h : layers.map Dense.params = layers'.map Dense.params) :
    NeuralNetwork.stageOutput sexp layers info x = NeuralNetwork.stageOutput sexp layers' info x := by
  unfold NeuralNetwork.stageOutput
  cases info.type
  · simp only []
    have hg := congrArg (fun v => vecGet v info.dense_index) h
    simp only [vecGet_map] at hg
    cases h1 : vecGet layers info.dense_index with
    | error e =>
      cases h2 : vecGet layers' info.dense_index with
      | error e' =>
        rw [h1, h2] at hg
        simp only [Except.map] at hg
        cases hg
        rfl
      | ok L' => rw [h1, h2] at hg; simp [Except.map] at hg
    | ok L =>
      cases h2 : vecGet layers' info.dense_index with
      | error e' => rw [h1, h2] at hg; simp [Except.map] at hg
      | ok L' =>
        rw [h1, h2] at hg
        simp only [Except.map, Except.ok.injEq] at hg
        simp only [ok_bind]
        exact Dense.forward_params L L' x hg
  · rfl
  · rfl

theorem NeuralNetwork.forwardTrace_params {α : Type} [LinearOrderedField α] (sexp : α → α)
    (layers layers' : List (Dense α))
    (h : layers.map Dense.params = layers'.map Dense.params) :
    ∀ (stages : List LayerInfo) (x : Tensor α),
      NeuralNetwork.forwardTrace sexp layers stages x
        = NeuralNetwork.forwardTrace sexp layers' stages x
  | [], _ => rfl
  | info :: rest, x => by
    unfold NeuralNetwork.forwardTrace
    rw [NeuralNetwork.stageOutput_params sexp layers layers' info x h]
    congr 1
    funext y
    rw [NeuralNetwork.forwardTrace_params sexp layers layers' h rest y]

theorem Dense.zero_grad_params {α : Type} [LinearOrderedField α] (L L' : Dense α)
    (h : L.zero_grad = .ok L') : L'.params = L.params := by
  unfold Dense.zero_grad at h
  obtain ⟨a, _, h⟩ := bind_eq_ok _ _ _ h
  obtain ⟨b, _, h⟩ := bind_eq_ok _ _ _ h
  cases h
  rfl

theorem mapM_zero_grad_params {α : Type} [LinearOrderedField α] :
    ∀ (layers layers' : List (Dense α)), layers.mapM Dense.zero_grad = .ok layers' →
      layers'.map Dense.params = layers.map Dense.params
  | [], layers', h => by
    simp only [List.mapM_nil, pure, Except.pure, Except.ok.injEq] at h
    subst h
    rfl
  | L :: rest, layers', h => by
    rw [List.mapM_cons] at h
    obtain ⟨L1, h1, h⟩ := bind_eq_ok _ _ _ h
    obtain ⟨rest1, h2, h⟩ := bind_eq_ok _ _ _ h
    simp only [pure, Except.pure, Except.ok.injEq] at h
    subst h
    simp only [List.map_cons]
    rw [Dense.zero_grad_params L L1 h1, mapM_zero_grad_params rest rest1 h2]

/-- `forward` against the trace of its stages: it returns exactly when every
stage returns, with the caches holding the trace. -/
theorem NeuralNetwork.forward_eq_trace {α : Type} [Zero α] [One α] [Add α] [Mul α] [Div α] [Neg α] [LT α]
    [DecidableRel (fun a b : α => a < b)] (sexp : α → α)
    (N : NeuralNetwork α) (input : Tensor α) :
    (∀ ys, NeuralNetwork.forwardTrace sexp N.dense_layers N.layer_order input = .ok ys →
      ∃ N1, N.forward sexp input = .ok (N1, ys.getLastD input)
        ∧ N1.activations = input :: ys
        ∧ N1.pre_activations = (input :: ys).dropLast
        ∧ N1.dense_layers.map Dense.eraseCache = N.dense_layers.map Dense.eraseCache
        ∧ N1.layer_order = N.layer_order ∧ N1.optimizers = N.optimizers
        ∧ N1.learning_rate = N.learning_rate)
    ∧ (∀ e, NeuralNetwork.forwardTrace sexp N.dense_layers N.layer_order input = .error e →
      N.forward sexp input = .error e) := by
  have key := NeuralNetwork.forward_loop sexp N.layer_order []
    { N with activations := [input], pre_activations := [] } input rfl
  simpa [NeuralNetwork.forward] using key

theorem NeuralNetwork.forwardTrace_length {α : Type} [Zero α] [One α] [Add α] [Mul α] [Div α] [Neg α] [LT α]
    [DecidableRel (fun a b : α => a < b)] (sexp : α → α)
    (layers : List (Dense α)) :
    ∀ (stages : List LayerInfo) (x : Tensor α) (ys : List (Tensor α)),
      NeuralNetwork.forwardTrace sexp layers stages x = .ok ys → ys.length = stages.length
  | [], _, ys, h => by
    simp only [NeuralNetwork.forwardTrace, Except.ok.injEq] at h
    subst h
    rfl
  | info :: rest, x, ys, h => by
    unfold NeuralNetwork.forwardTrace at h
    obtain ⟨y, _, h⟩ := bind_eq_ok _ _ _ h
    obtain ⟨zs, h2, h⟩ := bind_eq_ok _ _ _ h
    simp only [Except.ok.injEq] at h
    subst h
    simp [NeuralNetwork.forwardTrace_length sexp layers rest y zs h2]

theorem NeuralNetwork.forwardTrace_chain {α : Type} [LinearOrderedField α] (sexp : α → α)
    (layers : List (Dense α)) :
    ∀ (stages : List LayerInfo) (x : Tensor α) (ys : List (Tensor α)),
      NeuralNetwork.forwardTrace sexp layers stages x = .ok ys →
      ∀ (i : ℕ) (info : LayerInfo), stages[i]? = some info →
        ∃ a a', (x :: ys)[i]? = some a ∧ (x :: ys)[i + 1]? = some a'
          ∧ NeuralNetwork.stageOutput sexp layers info a = .ok a'
  | [], _, _, _, i, info, hi => by simp at hi
  | s :: rest, x, ys, h, i, info, hi => by
    unfold NeuralNetwork.forwardTrace at h
    obtain ⟨y, h1, h⟩ := bind_eq_ok _ _ _ h
    obtain ⟨zs, h2, h⟩ := bind_eq_ok _ _ _ h
    simp only [Except.ok.injEq] at h
    subst h
    cases i with
    | zero =>
      simp only [List.getElem?_cons_zero, Option.some.injEq] at hi
      subst hi
      exact ⟨x, y, rfl, by simp, h1⟩
    | succ i =>
      simp only [List.getElem?_cons_succ] at hi
      obtain ⟨a, a', ha, ha', hs⟩ :=
        NeuralNetwork.forwardTrace_chain sexp layers rest y zs h2 i info hi
      exact ⟨a, a', by simpa using ha, by simpa using ha', hs⟩

theorem getElem?_length_cons {β : Type} (x : β) (ys : List β) :
    (x :: ys)[ys.length]? = some (ys.getLastD x) := by
  induction ys generalizing x with
  | nil => rfl
  | cons y ys ih =>
    simp only [List.length_cons, List.getElem?_cons_succ]
    rw [ih y]
    cases ys <;> rfl

theorem getElem?_dropLast_cons {β : Type} (x : β) (ys : List β) (i : ℕ) (hi : i < ys.length) :
    ((x :: ys).dropLast)[i]? = (x :: ys)[i]? := by
  rw [List.dropLast_eq_take, List.getElem?_take]
  simp only [List.length_cons, Nat.add_sub_cancel, hi, if_true]

/-- A successful `forward` is the trace of its stages on the layers of the
network it was called on. -/
theorem NeuralNetwork.forward_ok_trace {α : Type} [Zero α] [One α] [Add α] [Mul α] [Div α] [Neg α] [LT α]
    [DecidableRel (fun a b : α => a < b)] (sexp : α → α)
    (N N1 : NeuralNetwork α) (input out : Tensor α)
    (h : N.forward sexp input = .ok (N1, out)) :
    ∃ ys, NeuralNetwork.forwardTrace sexp N.dense_layers N.layer_order input = .ok ys
      ∧ out = ys.getLastD input
      ∧ N1.activations = input :: ys
      ∧ N1.pre_activations = (input :: ys).dropLast
      ∧ N1.dense_layers.map Dense.eraseCache = N.dense_layers.map Dense.eraseCache
      ∧ N1.layer_order = N.layer_order ∧ N1.optimizers = N.optimizers
      ∧ N1.learning_rate = N.learning_rate := by
  obtain ⟨hok, herr⟩ := NeuralNetwork.forward_eq_trace sexp N input
  cases ht : NeuralNetwork.forwardTrace sexp N.dense_layers N.layer_order input with
  | error e =>
    rw [herr e ht] at h
    cases h
  | ok ys =>
    obtain ⟨N2, h2, r⟩ := hok ys ht
    rw [h2] at h
    simp only [Except.ok.injEq, Prod.mk.injEq] at h
    obtain ⟨e1, e2⟩ := h
    subst e1 e2
    exact ⟨ys, rfl, rfl, r⟩

/-! ## Well-formed tensors are matrices and vectors -/

theorem matrix_sized {α : Type} (m n : ℕ) (M : ℕ → ℕ → α) : (matrix m n M).Sized := by
  unfold Tensor.Sized matrix Tensor.numel
  simp

theorem vector_sized {α : Type} (n : ℕ) (v : ℕ → α) : (vector n v).Sized := by
  unfold Tensor.Sized vector Tensor.numel
  simp

/-- Every tensor of shape `[m, n]` that satisfies the invariants of the data
model is `matrix m n M` for the function `M` that reads its buffer. -/
theorem eq_matrix {α : Type} [Zero α] (t : Tensor α) (m n : ℕ)
    (hb : t.bentuk = [(m : Int), (n : Int)])
    (hs : t.strides = Tensor.perhitungan_strides t.bentuk) (hz : t.Sized)
    (hr : t.requires_grad = false) :
    t = matrix m n (fun i j => t.data.getD (i * n + j) 0) := by
  obtain ⟨data, bentuk, strides, rg⟩ := t
  simp only at hb hs hr
  subst hb hr
  rw [strides_pair] at hs
  subst hs
  have hl : data.length = m * n := by
    unfold Tensor.Sized Tensor.numel at hz
    simp only [List.foldl_cons, List.foldl_nil, one_mul] at hz
    exact_mod_cast hz
  unfold matrix
  congr 1
  conv_lhs => rw [← map_range_getD data 0, hl]
  apply map_range_congr
  intro idx _
  have := Nat.div_add_mod idx n
  conv_lhs => rw [← this]
  congr 1
  ring

/-- Every tensor of shape `[n]` that satisfies the invariants of the data model
is `vector n v` for the function `v` that reads its buffer. -/
theorem eq_vector {α : Type} [Zero α] (t : Tensor α) (n : ℕ)
    (hb : t.bentuk = [(n : Int)])
    (hs : t.strides = Tensor.perhitungan_strides t.bentuk) (hz : t.Sized)
    (hr : t.requires_grad = false) :
    t = vector n (fun i => t.data.getD i 0) := by
  obtain ⟨data, bentuk, strides, rg⟩ := t
  simp only at hb hs hr
  subst hb hr
  rw [strides_single] at hs
  subst hs
  have hl : data.length = n := by
    unfold Tensor.Sized Tensor.numel at hz
    simp only [List.foldl_cons, List.foldl_nil, one_mul] at hz
    exact_mod_cast hz
  unfold vector
  congr 1
  rw [← hl, map_range_getD]

/-! ## Claims -/

/-- C2. After `forward(x)` on the `batch × inF` matrix `X`, `backward(g)` on
the `batch × outF` matrix `G` leaves `weight_grad[o][i]` equal to the sum over
`b` of `G b o * X b i`, leaves `bias_grad[o]` equal to the sum over `b` of
`G b o` when the bias is enabled, and returns the `batch × inF` matrix whose
entry `(b, i)` is the sum over `o` of `G b o * W o i`. -/
theorem Dense.backward_gradients {α : Type} [LinearOrderedField α] (L : Dense α)
    (batch inF outF : ℕ) (X W G : ℕ → ℕ → α) (B : ℕ → α)
    (hin : L.in_features = (inF : Int)) (hout : L.out_features = (outF : Int))
    (hW : L.bobot = matrix outF inF W)
    (hB : L.gunakan_bias = true → L.bias = vector outF B) :
    ∃ L1 out, L.forward (matrix batch inF X) = .ok (L1, out)
      ∧ L1.backward (matrix batch outF G) =
        .ok ({ L1 with
                grad_bobot :=
                  matrix outF inF (fun o i => ∑ b in Finset.range batch, G b o * X b i),
                grad_bias :=
                  if L.gunakan_bias then
                    vector outF (fun o => ∑ b in Finset.range batch, G b o)
                  else L.grad_bias },
             matrix batch inF (fun b i => ∑ o in Finset.range outF, G b o * W o i)) := by
  refine ⟨_, _, Dense.forward_matrix L batch inF outF X W B hin hout hW hB, ?_⟩
  rw [Dense.backward_matrix { L with cached_input := matrix batch inF X } batch inF outF X W G
    hin hout hW rfl]
  rfl

/-- Witness of C2: identity weight, `x = [[3, 4]]`, `g = [[1, 1]]` give
`weight_grad = [[3, 4], [3, 4]]` and `grad_input = [[1, 1]]`. -/
theorem Dense.backward_gradients_witness :
    ∃ L1 out, exIdentity.forward exRow = .ok (L1, out)
      ∧ L1.backward exOnes =
        .ok ({ L1 with grad_bobot := ⟨[3, 4, 3, 4], [2, 2], [2, 1], false⟩ }, exOnes) := by
  have hx : exRow = matrix 1 2 (fun _ k => if k = 0 then 3 else 4) := by
    simp [exRow, matrix, List.range_succ]
  have hg : exOnes = matrix 1 2 (fun _ _ => 1) := by
    simp [exOnes, matrix, List.range_succ]
  have hw : exIdentity.bobot = matrix 2 2 (fun o k => if o = k then 1 else 0) := by
    simp [exIdentity, matrix, List.range_succ]
  obtain ⟨L1, out, h1, h2⟩ := Dense.backward_gradients exIdentity 1 2 2
    (fun _ k => if k = 0 then 3 else 4) (fun o k => if o = k then 1 else 0) (fun _ _ => 1)
    (fun _ => 0) rfl rfl hw (by intro h; cases h)
  rw [← hx] at h1
  rw [← hg] at h2
  refine ⟨L1, out, h1, ?_⟩
  rw [h2]
  have e1 : matrix 2 2 (fun o i => ∑ b in Finset.range 1,
      (fun _ _ => (1 : ℚ)) b o * (fun _ k => if k = 0 then (3 : ℚ) else 4) b i)
      = ⟨[3, 4, 3, 4], [2, 2], [2, 1], false⟩ := by
    simp [matrix, List.range_succ]
  have e2 : matrix 1 2 (fun b i => ∑ o in Finset.range 2,
      (fun _ _ => (1 : ℚ)) b o * (fun o k => if o = k then (1 : ℚ) else 0) o i) = exOnes := by
    simp [exOnes, matrix, List.range_succ, Finset.sum_range_succ]
  rw [e1, e2]
  have e3 : (if exIdentity.gunakan_bias = true then
      vector 2 (fun o => ∑ b in Finset.range 1, (fun _ _ => (1 : ℚ)) b o)
      else exIdentity.grad_bias) = L1.grad_bias := by
    have hL1 := Dense.forward_fst exIdentity exRow (L1, out) h1
    simp only at hL1
    rw [hL1]
    rfl
  rw [e3]

theorem map_const_get {β γ : Type} (l : List β) (i : ℕ) (p : β) (c : γ) (hp : l[i]? = some p) :
    (l.map (fun _ => c))[i]? = some c := by
  rw [List.getElem?_map, hp]
  rfl

theorem adam.atEntry_get {α : Type} [LinearOrderedField α] (A : adam α) (bobot bias : Tensor α)
    (i : ℕ) (p m : α) (hp : bobot.data[i]? = some p)
    (hm : (if A.inisialisasi then A.m_bobot.data[i]? else some 0) = some m) :
    (A.atEntry bobot bias).m_bobot.data[i]? = some m := by
  unfold adam.atEntry
  cases hi : A.inisialisasi
  · simp only [hi, Bool.false_eq_true, if_false, Option.some.injEq] at hm ⊢
    subst hm
    exact map_const_get _ i p 0 hp
  · simpa [hi] using hm

theorem adam.atEntry_get_v {α : Type} [LinearOrderedField α] (A : adam α)
    (bobot bias : Tensor α) (i : ℕ) (p v : α) (hp : bobot.data[i]? = some p)
    (hv : (if A.inisialisasi then A.v_bobot.data[i]? else some 0) = some v) :
    (A.atEntry bobot bias).v_bobot.data[i]? = some v := by
  unfold adam.atEntry
  cases hi : A.inisialisasi
  · simp only [hi, Bool.false_eq_true, if_false, Option.some.injEq] at hv ⊢
    subst hv
    exact map_const_get _ i p 0 hp
  · simpa [hi] using hv

theorem adam.atEntry_get_bias {α : Type} [LinearOrderedField α] (A : adam α)
    (bobot bias : Tensor α) (i : ℕ) (p m : α) (hp : bias.data[i]? = some p)
    (hm : (if A.inisialisasi then A.m_bias.data[i]? else some 0) = some m) :
    (A.atEntry bobot bias).m_bias.data[i]? = some m := by
  unfold adam.atEntry
  cases hi : A.inisialisasi
  · simp only [hi, Bool.false_eq_true, if_false, Option.some.injEq] at hm ⊢
    subst hm
    exact map_const_get _ i p 0 hp
  · simpa [hi] using hm

theorem adam.atEntry_get_bias_v {α : Type} [LinearOrderedField α] (A : adam α)
    (bobot bias : Tensor α) (i : ℕ) (p v : α) (hp : bias.data[i]? = some p)
    (hv : (if A.inisialisasi then A.v_bias.data[i]? else some 0) = some v) :
    (A.atEntry bobot bias).v_bias.data[i]? = some v := by
  unfold adam.atEntry
  cases hi : A.inisialisasi
  · simp only [hi, Bool.false_eq_true, if_false, Option.some.injEq] at hv ⊢
    subst hv
    exact map_const_get _ i p 0 hp
  · simpa [hi] using hv

/-- Element `i` of the tensors produced by one Adam step on one parameter. -/
theorem adam.channel_get {α : Type} [LinearOrderedField α] (ssqrt : α → α)
    (lr epsilon beta1 beta2 k1 k2 : α) (param grad m0 v0 : Tensor α) (i : ℕ) (p g m v : α)
    (hp : param.data[i]? = some p) (hg : grad.data[i]? = some g)
    (hm : m0.data[i]? = some m) (hv : v0.data[i]? = some v) :
    (Tensor.zipData (adam.mValue beta1) m0 grad).data[i]? = some (beta1 * m + (1 - beta1) * g)
    ∧ (Tensor.zipData (adam.vValue beta2) v0 grad).data[i]?
        = some (beta2 * v + (1 - beta2) * g ^ 2)
    ∧ (adam.newParam ssqrt lr epsilon k1 k2 param
          (Tensor.zipData (adam.mValue beta1) m0 grad)
          (Tensor.zipData (adam.vValue beta2) v0 grad)).data[i]?
        = some (p - lr * ((beta1 * m + (1 - beta1) * g) / k1)
                  / (ssqrt ((beta2 * v + (1 - beta2) * g ^ 2) / k2) + epsilon)) := by
  refine ⟨?_, ?_, ?_⟩
  · simp [Tensor.zipData, List.getElem?_zipWith, hm, hg, adam.mValue]
  · simp [Tensor.zipData, List.getElem?_zipWith, hv, hg, adam.vValue, sq]
  · simp [adam.newParam, Tensor.zipData, List.getElem?_zipWith, hp, hm, hv, hg, adam.mValue,
      adam.vValue, sq]

/-- C3. Every call of `adam::update` on tensors that satisfy the data model
(parameter, gradient and existing moment buffers of one shape) increases the
step counter by exactly one and, with the new step `t`, sets for the weight and
independently for the bias `m = beta1*m + (1-beta1)*grad`,
`v = beta2*v + (1-beta2)*grad^2` and
`param = param - lr*(m/(1-beta1^t))/(sqrt(v/(1-beta2^t)) + epsilon)` element by
element; the moments before the first call are zero. -/
theorem adam.update_formula {α : Type} [LinearOrderedField α] (ssqrt : α → α) (A : adam α)
    (bobot grad_bobot bias grad_bias : Tensor α)
    (hgw : bobot.Alike grad_bobot) (hgb : bias.Alike grad_bias)
    (hm : A.inisialisasi = true →
      bobot.Alike A.m_bobot ∧ bobot.Alike A.v_bobot ∧ bias.Alike A.m_bias ∧ bias.Alike A.v_bias) :
    ∃ A1 bobot1 bias1, A.update ssqrt bobot grad_bobot bias grad_bias = .ok (A1, bobot1, bias1)
      ∧ A1.t = A.t + 1
      ∧ (A1.lr = A.lr ∧ A1.beta1 = A.beta1 ∧ A1.beta2 = A.beta2 ∧ A1.epsilon = A.epsilon)
      ∧ (bobot1.bentuk = bobot.bentuk ∧ bias1.bentuk = bias.bentuk)
      ∧ (∀ (i : ℕ) p g m v, bobot.data[i]? = some p → grad_bobot.data[i]? = some g →
          (if A.inisialisasi then A.m_bobot.data[i]? else some 0) = some m →
          (if A.inisialisasi then A.v_bobot.data[i]? else some 0) = some v →
          A1.m_bobot.data[i]? = some (A.beta1 * m + (1 - A.beta1) * g)
          ∧ A1.v_bobot.data[i]? = some (A.beta2 * v + (1 - A.beta2) * g ^ 2)
          ∧ bobot1.data[i]? =
              some (p - A.lr * ((A.beta1 * m + (1 - A.beta1) * g) / (1 - A.beta1 ^ (A.t + 1)))
                / (ssqrt ((A.beta2 * v + (1 - A.beta2) * g ^ 2) / (1 - A.beta2 ^ (A.t + 1)))
                    + A.epsilon)))
      ∧ (∀ (i : ℕ) p g m v, bias.data[i]? = some p → grad_bias.data[i]? = some g →
          (if A.inisialisasi then A.m_bias.data[i]? else some 0) = some m →
          (if A.inisialisasi then A.v_bias.data[i]? else some 0) = some v →
          A1.m_bias.data[i]? = some (A.beta1 * m + (1 - A.beta1) * g)
          ∧ A1.v_bias.data[i]? = some (A.beta2 * v + (1 - A.beta2) * g ^ 2)
          ∧ bias1.data[i]? =
              some (p - A.lr * ((A.beta1 * m + (1 - A.beta1) * g) / (1 - A.beta1 ^ (A.t + 1)))
                / (ssqrt ((A.beta2 * v + (1 - A.beta2) * g ^ 2) / (1 - A.beta2 ^ (A.t + 1)))
                    + A.epsilon))) := by
  have hfix : (A.atEntry bobot bias).t = A.t ∧ (A.atEntry bobot bias).lr = A.lr
      ∧ (A.atEntry bobot bias).beta1 = A.beta1 ∧ (A.atEntry bobot bias).beta2 = A.beta2
      ∧ (A.atEntry bobot bias).epsilon = A.epsilon := by
    unfold adam.atEntry
    cases A.inisialisasi <;> simp
  refine ⟨_, _, _, adam.update_eq ssqrt A bobot grad_bobot bias grad_bias hgw hgb hm, rfl,
    ⟨hfix.2.1, hfix.2.2.1, hfix.2.2.2.1, hfix.2.2.2.2⟩, ⟨rfl, rfl⟩, ?_, ?_⟩
  · intro i p g m v hp hg hm0 hv0
    exact adam.channel_get ssqrt A.lr A.epsilon A.beta1 A.beta2 _ _ bobot grad_bobot _ _ i p g m v
      hp hg (adam.atEntry_get A bobot bias i p m hp hm0)
      (adam.atEntry_get_v A bobot bias i p v hp hv0)
  · intro i p g m v hp hg hm0 hv0
    exact adam.channel_get ssqrt A.lr A.epsilon A.beta1 A.beta2 _ _ bias grad_bias _ _ i p g m v
      hp hg (adam.atEntry_get_bias A bobot bias i p m hp hm0)
      (adam.atEntry_get_bias_v A bobot bias i p v hp hv0)

/-- Witness of C3: an optimizer at step one with moments `m = 0.1`, `v = 0.001`,
weight `[5]`, bias `[7]`, both gradients `[1]`; the call returns with the step
counter at two and the first moment of the weight at `0.9*0.1 + 0.1*1`. -/
theorem adam.update_formula_witness :
    ∃ A1 bobot1 bias1,
      exAdamWarm.update (fun x => x) (exScalar 5) (exScalar 1) (exScalar 7) (exScalar 1)
        = .ok (A1, bobot1, bias1)
      ∧ A1.t = 2
      ∧ A1.m_bobot.data[0]? = some (9 / 10 * (1 / 10) + (1 - 9 / 10) * 1) := by
  obtain ⟨A1, b1, c1, h, ht, _, _, hw, _⟩ := adam.update_formula (fun x => x) exAdamWarm
    (exScalar 5) (exScalar 1) (exScalar 7) (exScalar 1)
    ⟨rfl, rfl, rfl⟩ ⟨rfl, rfl, rfl⟩
    (fun _ => ⟨⟨rfl, rfl, rfl⟩, ⟨rfl, rfl, rfl⟩, ⟨rfl, rfl, rfl⟩, ⟨rfl, rfl, rfl⟩⟩)
  exact ⟨A1, b1, c1, h, ht, (hw 0 5 1 (1 / 10) (1 / 1000) rfl rfl rfl rfl).1⟩

theorem zipData_get {α : Type} (f : α → α → α) (a b : Tensor α) (i : ℕ) (x y : α)
    (hx : a.data[i]? = some x) (hy : b.data[i]? = some y) :
    (Tensor.zipData f a b).data[i]? = some (f x y) := by
  simp [Tensor.zipData, List.getElem?_zipWith, hx, hy]

theorem zipData_length {α : Type} (f : α → α → α) (a b : Tensor α)
    (h : a.data.length = b.data.length) :
    (Tensor.zipData f a b).data.length = a.data.length := by
  simp [Tensor.zipData, List.length_zipWith, h]

/-- C7. For `y_pred` and `y_true` of equal shape (both satisfying the size
invariant) `BinaryCrossEnrtopy::forward` returns a tensor of the shape of
`y_pred` whose element `i` is `-(y*log(p) + (1-y)*log(1-p))` with
`y = y_true[i]` and `p = max(eps, min(1-eps, y_pred[i]))`, `eps = 1e-7`. -/
theorem BinaryCrossEnrtopy.bce_forward_formula {α : Type} [LinearOrderedField α] (slog : α → α)
    (y_pred y_test : Tensor α) (hp : y_pred.Sized) (ht : y_test.Sized)
    (hs : y_pred.bentuk = y_test.bentuk) :
    BinaryCrossEnrtopy.forward slog y_pred y_test
        = .ok (Tensor.zipData (BinaryCrossEnrtopy.lossValue slog) y_pred y_test)
    ∧ (Tensor.zipData (BinaryCrossEnrtopy.lossValue slog) y_pred y_test).bentuk = y_pred.bentuk
    ∧ (Tensor.zipData (BinaryCrossEnrtopy.lossValue slog) y_pred y_test).data.length
        = y_pred.data.length
    ∧ (∀ (i : ℕ) v y, y_pred.data[i]? = some v → y_test.data[i]? = some y →
        (Tensor.zipData (BinaryCrossEnrtopy.lossValue slog) y_pred y_test).data[i]?
          = some (-(y * slog (max (1 / 10 ^ 7) (min (1 - 1 / 10 ^ 7) v))
                    + (1 - y) * slog (1 - max (1 / 10 ^ 7) (min (1 - 1 / 10 ^ 7) v))))) := by
  have hl := sized_length_eq y_pred y_test hp ht hs
  refine ⟨BinaryCrossEnrtopy.bce_forward_eq slog y_pred y_test hp (le_of_eq hl), rfl,
    zipData_length _ _ _ hl, ?_⟩
  intro i v y hv hy
  rw [zipData_get _ _ _ i v y hv hy]
  rfl

/-- Witness of C7: `forward([0.5], [1.0]) = [-ln 0.5]` with the real logarithm. -/
theorem BinaryCrossEnrtopy.bce_forward_formula_witness :
    BinaryCrossEnrtopy.forward Real.log (⟨[1 / 2], [1], [1], false⟩ : Tensor ℝ)
        ⟨[1], [1], [1], false⟩
      = .ok ⟨[-Real.log (1 / 2)], [1], [1], false⟩ := by
  have h := (BinaryCrossEnrtopy.bce_forward_formula Real.log
    (⟨[1 / 2], [1], [1], false⟩ : Tensor ℝ) ⟨[1], [1], [1], false⟩ rfl rfl rfl).1
  rw [h]
  have e1 : min (1 - 1 / 10 ^ 7) (1 / 2 : ℝ) = 1 / 2 := min_eq_right (by norm_num)
  have e2 : max (1 / 10 ^ 7) (1 / 2 : ℝ) = 1 / 2 := max_eq_right (by norm_num)
  simp only [Tensor.zipData, BinaryCrossEnrtopy.lossValue, e1, e2, strides_single,
    List.zipWith_cons_cons, List.zipWith_nil_right]
  norm_num

/-- C8. For `y_pred` and `y_true` of equal shape (both satisfying the size
invariant) element `i` of `BinaryCrossEnrtopy::backward` is
`(p - y)/(p*(1-p))` with `y = y_true[i]` and
`p = max(eps, min(1-eps, y_pred[i]))`, `eps = 1e-7`. -/
theorem BinaryCrossEnrtopy.bce_backward_formula {α : Type} [LinearOrderedField α]
    (y_pred y_test : Tensor α) (hp : y_pred.Sized) (ht : y_test.Sized)
    (hs : y_pred.bentuk = y_test.bentuk) :
    BinaryCrossEnrtopy.backward y_pred y_test
        = .ok (Tensor.zipData BinaryCrossEnrtopy.gradValue y_pred y_test)
    ∧ (Tensor.zipData BinaryCrossEnrtopy.gradValue y_pred y_test).bentuk = y_pred.bentuk
    ∧ (Tensor.zipData BinaryCrossEnrtopy.gradValue y_pred y_test).data.length
        = y_pred.data.length
    ∧ (∀ (i : ℕ) v y, y_pred.data[i]? = some v → y_test.data[i]? = some y →
        (Tensor.zipData BinaryCrossEnrtopy.gradValue y_pred y_test).data[i]?
          = some ((max (1 / 10 ^ 7) (min (1 - 1 / 10 ^ 7) v) - y)
                  / (max (1 / 10 ^ 7) (min (1 - 1 / 10 ^ 7) v)
                      * (1 - max (1 / 10 ^ 7) (min (1 - 1 / 10 ^ 7) v))))) := by
  have hl := sized_length_eq y_pred y_test hp ht hs
  refine ⟨BinaryCrossEnrtopy.bce_backward_eq y_pred y_test hp (le_of_eq hl), rfl,
    zipData_length _ _ _ hl, ?_⟩
  intro i v y hv hy
  rw [zipData_get _ _ _ i v y hv hy]
  rfl

/-- Witness of C8: `backward([0.5], [1.0]) = [-2.0]`. -/
theorem BinaryCrossEnrtopy.bce_backward_formula_witness :
    BinaryCrossEnrtopy.backward (exScalar (1 / 2)) (exScalar 1) = .ok (exScalar (-2)) := by
  have h := (BinaryCrossEnrtopy.bce_backward_formula (exScalar (1 / 2)) (exScalar 1)
    rfl rfl rfl).1
  rw [h]
  have e1 : min (1 - 1 / 10 ^ 7) (1 / 2 : ℚ) = 1 / 2 := min_eq_right (by norm_num)
  have e2 : max (1 / 10 ^ 7) (1 / 2 : ℚ) = 1 / 2 := max_eq_right (by norm_num)
  simp only [Tensor.zipData, exScalar, BinaryCrossEnrtopy.gradValue, e1, e2, strides_single,
    List.zipWith_cons_cons, List.zipWith_nil_right]
  norm_num

/-- C9. For every tensor `x` that satisfies the size invariant
`Sigmoid::forward` returns a tensor of the shape of `x` whose element `i` is
`1/(1+exp(-x[i]))`; in particular `forward([0]) = [0.5]` as soon as
`exp(0) = 1`. -/
theorem Sigmoid.sigmoid_forward_formula {α : Type} [LinearOrderedField α] (sexp : α → α)
    (x : Tensor α) (hx : x.Sized) :
    Sigmoid.forward sexp x = .ok (Tensor.mapData (fun v => 1 / (1 + sexp (-v))) x)
    ∧ (Tensor.mapData (fun v => 1 / (1 + sexp (-v))) x).bentuk = x.bentuk
    ∧ (Tensor.mapData (fun v => 1 / (1 + sexp (-v))) x).data.length = x.data.length
    ∧ (∀ (i : ℕ) v, x.data[i]? = some v →
        (Tensor.mapData (fun v => 1 / (1 + sexp (-v))) x).data[i]?
          = some (1 / (1 + sexp (-v))))
    ∧ (sexp 0 = 1 →
        Sigmoid.forward sexp ⟨[0], [1], [1], false⟩ = .ok ⟨[1 / 2], [1], [1], false⟩) := by
  refine ⟨Sigmoid.sigmoid_forward_eq sexp x hx, rfl, by simp [Tensor.mapData], ?_, ?_⟩
  · intro i v hv
    simp [Tensor.mapData, hv]
  · intro h0
    rw [Sigmoid.sigmoid_forward_eq sexp (⟨[0], [1], [1], false⟩ : Tensor α) rfl]
    simp only [Tensor.mapData, Sigmoid.value, List.map_cons, List.map_nil, neg_zero, h0,
      strides_single]
    norm_num

/-- Witness of C9: with the real exponential, `forward([0]) = [0.5]`. -/
theorem Sigmoid.sigmoid_forward_formula_witness :
    Sigmoid.forward Real.exp (⟨[0], [1], [1], false⟩ : Tensor ℝ)
      = .ok ⟨[1 / 2], [1], [1], false⟩ :=
  (Sigmoid.sigmoid_forward_formula Real.exp (⟨[0], [1], [1], false⟩ : Tensor ℝ) rfl).2.2.2.2
    Real.exp_zero

theorem hasDerivAt_logistic (x : ℝ) :
    HasDerivAt (fun u : ℝ => 1 / (1 + Real.exp (-u)))
      ((1 / (1 + Real.exp (-x))) * (1 - 1 / (1 + Real.exp (-x)))) x := by
  have hpos : (1 + Real.exp (-x)) ≠ 0 := by
    have := Real.exp_pos (-x)
    linarith
  have h1 : HasDerivAt (fun u : ℝ => Real.exp (-u)) (Real.exp (-x) * (-1)) x :=
    (Real.hasDerivAt_exp (-x)).comp x (hasDerivAt_neg x)
  have h2 : HasDerivAt (fun u : ℝ => 1 + Real.exp (-u)) (Real.exp (-x) * (-1)) x := by
    simpa using h1.const_add 1
  have h3 := h2.inv hpos
  have e : (fun u : ℝ => 1 / (1 + Real.exp (-u))) = (fun u : ℝ => (1 + Real.exp (-u))⁻¹) := by
    funext u
    rw [one_div]
  rw [e]
  convert h3 using 1
  field_simp
  ring

/-- C10. `Sigmoid::backward` applied to a tensor `y` returns `y[i]*(1-y[i])`
element by element, and on the output of `Sigmoid::forward` this is the
derivative of the logistic function: for every real `x`,
`backward(forward([x])) = [d/dx 1/(1+exp(-x))]`, which is `0.25` at `x = 0`. -/
theorem Sigmoid.backward_is_derivative :
    (∀ (α : Type) [LinearOrderedField α] (y : Tensor α), y.Sized →
        Sigmoid.backward y = .ok { y with data := y.data.map (fun v => v * (1 - v)) })
    ∧ (∀ x : ℝ,
        (Sigmoid.forward Real.exp ⟨[x], [1], [1], false⟩ >>= fun y => Sigmoid.backward y)
          = .ok ⟨[deriv (fun u : ℝ => 1 / (1 + Real.exp (-u))) x], [1], [1], false⟩)
    ∧ deriv (fun u : ℝ => 1 / (1 + Real.exp (-u))) 0 = 1 / 4 := by
  refine ⟨fun α _ y hy => Sigmoid.sigmoid_backward_eq y hy, ?_, ?_⟩
  · intro x
    rw [Sigmoid.sigmoid_forward_eq Real.exp (⟨[x], [1], [1], false⟩ : Tensor ℝ) rfl, ok_bind,
      Sigmoid.sigmoid_backward_eq (Tensor.mapData (Sigmoid.value Real.exp)
        (⟨[x], [1], [1], false⟩ : Tensor ℝ)) rfl,
      (hasDerivAt_logistic x).deriv]
    simp [Tensor.mapData, Sigmoid.value, strides_single]
  · rw [(hasDerivAt_logistic 0).deriv]
    simp only [neg_zero, Real.exp_zero]
    norm_num

/-- Witness of C10: `backward([0.5]) = [0.25]`. -/
theorem Sigmoid.backward_is_derivative_witness :
    Sigmoid.backward (exScalar (1 / 2)) = .ok (exScalar (1 / 4)) := by
  have h := Sigmoid.backward_is_derivative.1 ℚ (exScalar (1 / 2)) rfl
  rw [h]
  simp only [exScalar, List.map_cons, List.map_nil]
  norm_num

theorem vecGet_nat {β : Type} (v : List β) (i : ℕ) (x : β) (h : v[i]? = some x) :
    vecGet v (i : Int) = .ok x := by
  unfold vecGet
  have h0 : ¬ ((i : Int) < 0) := by omega
  simp [h0, h]

theorem vecGet_nat_succ {β : Type} (v : List β) (i : ℕ) (x : β) (h : v[i + 1]? = some x) :
    vecGet v ((i : Int) + 1) = .ok x := by
  have := vecGet_nat v (i + 1) x h
  simpa using this

/-- C4. Whenever `forward(input)` returns on a network with `n` stages, and
whatever the caches held before, `activations` has `n+1` entries and
`pre_activations` has `n`; `activations[0]` is the input; for every stage `i`,
`pre_activations[i] = activations[i]` and `activations[i+1]` is the transform of
stage `i` applied to it; the returned tensor is `activations[n]`, the input
itself when `n = 0`.  And `forward` does return as soon as every stage
transform returns along the chain of values. -/
theorem NeuralNetwork.forward_caches {α : Type} [LinearOrderedField α] (sexp : α → α)
    (N : NeuralNetwork α) (input : Tensor α) :
    (∀ (N1 : NeuralNetwork α) (out : Tensor α), N.forward sexp input = .ok (N1, out) →
      N1.activations.length = N.layer_order.length + 1
      ∧ N1.pre_activations.length = N.layer_order.length
      ∧ N1.activations[0]? = some input
      ∧ (∀ i, i < N.layer_order.length → N1.pre_activations[i]? = N1.activations[i]?)
      ∧ (∀ (i : ℕ) (info : LayerInfo), N.layer_order[i]? = some info →
          ∃ a a', N1.activations[i]? = some a ∧ N1.activations[i + 1]? = some a'
            ∧ NeuralNetwork.stageOutput sexp N.dense_layers info a = .ok a')
      ∧ N1.activations[N.layer_order.length]? = some out
      ∧ (N.layer_order.length = 0 → out = input))
    ∧ ((∃ ys, NeuralNetwork.forwardTrace sexp N.dense_layers N.layer_order input = .ok ys) →
        ∃ N1 out, N.forward sexp input = .ok (N1, out)) := by
  constructor
  · intro N1 out h
    obtain ⟨ys, ht, hout, hact, hpre, _, _, _, _⟩ :=
      NeuralNetwork.forward_ok_trace sexp N N1 input out h
    have hlen := NeuralNetwork.forwardTrace_length sexp N.dense_layers N.layer_order input ys ht
    refine ⟨?_, ?_, ?_, ?_, ?_, ?_, ?_⟩
    · rw [hact, List.length_cons, hlen]
    · rw [hpre, List.length_dropLast, List.length_cons, hlen]
      rfl
    · rw [hact]
      simp
    · intro i hi
      rw [hpre, hact]
      exact getElem?_dropLast_cons input ys i (by omega)
    · intro i info hi
      rw [hact]
      exact NeuralNetwork.forwardTrace_chain sexp N.dense_layers N.layer_order input ys ht i
        info hi
    · rw [hact, hout, ← hlen]
      exact getElem?_length_cons input ys
    · intro h0
      rw [h0] at hlen
      rw [hout, List.length_eq_zero.mp hlen]
      rfl
  · rintro ⟨ys, ht⟩
    obtain ⟨N1, h1, _⟩ := (NeuralNetwork.forward_eq_trace sexp N input).1 ys ht
    exact ⟨N1, _, h1⟩

theorem exNet_forward :
    ∃ N1, exNet.forward (fun x => x) exRow = .ok (N1, exRow) := by
  have hx : exRow = matrix 1 2 (fun _ k => if k = 0 then 3 else 4) := by
    simp [exRow, matrix, List.range_succ]
  have hw : exIdentity.bobot = matrix 2 2 (fun o k => if o = k then 1 else 0) := by
    simp [exIdentity, matrix, List.range_succ]
  have hd : exIdentity.forward exRow = .ok ({ exIdentity with cached_input := exRow }, exRow) := by
    have h := Dense.forward_matrix exIdentity 1 2 2 (fun _ k => if k = 0 then 3 else 4)
      (fun o k => if o = k then 1 else 0) (fun _ => 0) rfl rfl hw (by intro h; cases h)
    rw [← hx] at h
    rw [h]
    have hy : matrix 1 2 (Dense.forwardValue exIdentity.gunakan_bias 2
        (fun _ k => if k = 0 then (3 : ℚ) else 4) (fun o k => if o = k then 1 else 0)
        (fun _ => 0)) = exRow := by
      simp [exRow, exIdentity, matrix, List.range_succ, Dense.forwardValue,
        Finset.sum_range_succ]
    rw [hy]
  have hr : ReLu.forward exRow = .ok exRow := by
    unfold ReLu.forward
    rw [mapNumel_eq _ exRow rfl]
    simp [Tensor.mapData, exRow, stdMax, strides_pair]
  have ht : NeuralNetwork.forwardTrace (fun x => x) exNet.dense_layers exNet.layer_order exRow
      = .ok [exRow, exRow] := by
    simp [NeuralNetwork.forwardTrace, NeuralNetwork.stageOutput, exNet, vecGet, hd, hr]
  obtain ⟨N1, h1, _⟩ := (NeuralNetwork.forward_eq_trace (fun x => x) exNet exRow).1 _ ht
  exact ⟨N1, h1⟩

/-- Witness of C4: on `Dense(2, 2) → ReLU` and the input `[[3, 4]]`, `forward`
returns and leaves three activations and two pre-activations. -/
theorem NeuralNetwork.forward_caches_witness :
    ∃ N1 out, exNet.forward (fun x => x) exRow = .ok (N1, out)
      ∧ N1.activations.length = 3 ∧ N1.pre_activations.length = 2 := by
  obtain ⟨N1, h⟩ := exNet_forward
  have hc := (NeuralNetwork.forward_caches (fun x => x) exNet exRow).1 N1 exRow h
  exact ⟨N1, exRow, h, hc.1, hc.2.1⟩

/-- C5. On the network left by a `forward` call, `backward(y_pred, y_true)` is
the fold over the stage list in reverse index order started from
`BCE.backward(y_pred, y_true)`: a Dense stage replaces the gradient by its
layer's `Dense.backward` and stores the layer, a ReLU stage `i` multiplies it by
`ReLu.backward(pre_activations[i])`, a Sigmoid stage `i` multiplies it by
`Sigmoid.backward(activations[i+1])`; and the two cache entries read at stage
`i` are the input and the output of stage `i` in that forward call. -/
theorem NeuralNetwork.backward_is_fold {α : Type} [LinearOrderedField α] (sexp : α → α)
    (N0 N : NeuralNetwork α) (x out y_pred y_true : Tensor α)
    (h : N0.forward sexp x = .ok (N, out)) :
    N.backward y_pred y_true = N.backwardFold y_pred y_true
    ∧ (∀ (i : ℕ) (info : LayerInfo), N.layer_order[i]? = some info →
        ∃ a a', vecGet N.pre_activations (i : Int) = .ok a
          ∧ vecGet N.activations ((i : Int) + 1) = .ok a'
          ∧ NeuralNetwork.stageOutput sexp N0.dense_layers info a = .ok a') := by
  constructor
  · unfold NeuralNetwork.backward NeuralNetwork.backwardFold
    congr 1
    funext grad
    have key := NeuralNetwork.backward_loop N N.layer_order [] (by simp) (N.dense_layers, grad)
    exact key
  · intro i info hi
    obtain ⟨ys, ht, _, hact, hpre, _, hord, _, _⟩ :=
      NeuralNetwork.forward_ok_trace sexp N0 N x out h
    rw [hord] at hi
    have hlen := NeuralNetwork.forwardTrace_length sexp N0.dense_layers N0.layer_order x ys ht
    have hil : i < ys.length := by
      rw [hlen]
      by_contra hc
      rw [List.getElem?_eq_none (not_lt.mp hc)] at hi
      cases hi
    obtain ⟨a, a', ha, ha', hs⟩ :=
      NeuralNetwork.forwardTrace_chain sexp N0.dense_layers N0.layer_order x ys ht i info hi
    refine ⟨a, a', ?_, ?_, hs⟩
    · apply vecGet_nat
      rw [hpre, getElem?_dropLast_cons x ys i hil]
      exact ha
    · apply vecGet_nat_succ
      rw [hact]
      exact ha'

/-- Witness of C5: after `forward([[3, 4]])` on `Dense(2, 2) → ReLU`, the
backward pass is the fold. -/
theorem NeuralNetwork.backward_is_fold_witness :
    ∃ N1, exNet.forward (fun x => x) exRow = .ok (N1, exRow)
      ∧ N1.backward exRow exOnes = N1.backwardFold exRow exOnes := by
  obtain ⟨N1, h⟩ := exNet_forward
  exact ⟨N1, h, (NeuralNetwork.backward_is_fold (fun x => x) exNet N1 exRow exRow exRow exOnes
    h).1⟩

/-- C6. Whenever `train_step(input, target)` returns, it has run `zero_grad`,
`forward`, the loss, `backward` and `optimisasi` in that order, each on the
network left by the one before, and the value it returns is the arithmetic mean
of the elements of `BCE.forward(forward(input), target)`, where the output of
`forward` is the one computed with the parameters the network held on entry,
before the optimizer update. -/
theorem NeuralNetwork.train_step_order {α : Type} [LinearOrderedField α]
    (sexp slog ssqrt : α → α) (N N' : NeuralNetwork α) (input target : Tensor α) (loss : α)
    (h : N.train_step sexp slog ssqrt input target = .ok (N', loss)) :
    ∃ N1 N2 out L N3 g,
      N.zero_grad = .ok N1
      ∧ N1.forward sexp input = .ok (N2, out)
      ∧ BinaryCrossEnrtopy.forward slog out target = .ok L
      ∧ N2.backward out target = .ok (N3, g)
      ∧ N3.optimisasi ssqrt = .ok N'
      ∧ loss = L.data.sum / (L.data.length : α)
      ∧ (∃ N0, N.forward sexp input = .ok (N0, out)) := by
  unfold NeuralNetwork.train_step at h
  obtain ⟨N1, h1, h⟩ := bind_eq_ok _ _ _ h
  obtain ⟨fw, h2, h⟩ := bind_eq_ok _ _ _ h
  obtain ⟨L, h3, h⟩ := bind_eq_ok _ _ _ h
  obtain ⟨l, h4, h⟩ := bind_eq_ok _ _ _ h
  obtain ⟨bw, h5, h⟩ := bind_eq_ok _ _ _ h
  obtain ⟨N4, h6, h⟩ := bind_eq_ok _ _ _ h
  simp only [Except.ok.injEq, Prod.mk.injEq] at h
  obtain ⟨e1, e2⟩ := h
  subst e1 e2
  refine ⟨N1, fw.1, fw.2, L, bw.1, bw.2, h1, h2, h3, h5, h6, ?_, ?_⟩
  · rw [NeuralNetwork.meanLoss_eq L (BinaryCrossEnrtopy.bce_forward_ok slog _ _ L h3).2] at h4
    simp only [Except.ok.injEq] at h4
    exact h4.symm
  · unfold NeuralNetwork.zero_grad at h1
    obtain ⟨layers, hz, h1⟩ := bind_eq_ok _ _ _ h1
    simp only [Except.ok.injEq] at h1
    subst h1
    have hp := mapM_zero_grad_params N.dense_layers layers hz
    obtain ⟨ys, ht, hout, _⟩ := NeuralNetwork.forward_ok_trace sexp _ fw.1 input fw.2 h2
    simp only [] at ht
    rw [NeuralNetwork.forwardTrace_params sexp layers N.dense_layers hp] at ht
    obtain ⟨N0, hN0, _⟩ := (NeuralNetwork.forward_eq_trace sexp N input).1 ys ht
    exact ⟨N0, by rw [hN0, hout]⟩

theorem zeros_cell : (dl.zeros [1, 1] : Except Err (Tensor ℚ)) = .ok (exCell 0) := by
  rw [zeros_eq [1, 1] 1 rfl, strides_pair]
  rfl

theorem zeros_scalar : (dl.zeros [1] : Except Err (Tensor ℚ)) = .ok (exScalar 0) := by
  rw [zeros_eq [1] 1 rfl, strides_single]
  rfl

theorem exCell_eq_matrix (v : ℚ) : exCell v = matrix 1 1 (fun _ _ => v) := by
  simp [exCell, matrix]

theorem exScalar_eq_vector (v : ℚ) : exScalar v = vector 1 (fun _ => v) := by
  simp [exScalar, vector]

theorem exTrainNet_zero_grad : exTrainNet.zero_grad = .ok exTrainNet := by
  have hz : exBiased.zero_grad = .ok exBiased := by
    unfold Dense.zero_grad
    have e1 : (dl.zeros [exBiased.out_features, exBiased.in_features] : Except Err (Tensor ℚ))
        = .ok (exCell 0) := zeros_cell
    have e2 : (dl.zeros [exBiased.out_features] : Except Err (Tensor ℚ)) = .ok (exScalar 0) :=
      zeros_scalar
    rw [e1, ok_bind]
    simp only [exBiased, if_true, e2, ok_bind]
    rfl
  unfold NeuralNetwork.zero_grad
  have hm : exTrainNet.dense_layers.mapM Dense.zero_grad = .ok [exBiased] := by
    show [exBiased].mapM Dense.zero_grad = .ok [exBiased]
    rw [List.mapM_cons, hz]
    rfl
  rw [hm]
  rfl

theorem exBiased_forward :
    exBiased.forward (exCell (1 / 2))
      = .ok ({ exBiased with cached_input := exCell (1 / 2) }, exCell (1 / 2)) := by
  have h := Dense.forward_matrix exBiased 1 1 1 (fun _ _ => 1 / 2) (fun _ _ => 1) (fun _ => 0)
    rfl rfl (exCell_eq_matrix 1) (fun _ => exScalar_eq_vector 0)
  rw [← exCell_eq_matrix] at h
  rw [h]
  have hy : matrix 1 1 (Dense.forwardValue exBiased.gunakan_bias 1
      (fun _ _ => (1 / 2 : ℚ)) (fun _ _ => 1) (fun _ => 0)) = exCell (1 / 2) := by
    simp [exCell, exBiased, matrix, Dense.forwardValue]
  rw [hy]

theorem exTrainNet_forward :
    exTrainNet.forward (fun x => x) (exCell (1 / 2))
      = .ok ({ exTrainNet with
                dense_layers := [{ exBiased with cached_input := exCell (1 / 2) }],
                activations := [exCell (1 / 2), exCell (1 / 2)],
                pre_activations := [exCell (1 / 2)] }, exCell (1 / 2)) := by
  have hv : vecGet [exBiased] 0 = .ok exBiased := rfl
  have hs : ∀ L : Dense ℚ, vecSet [exBiased] 0 L = .ok [L] := fun _ => rfl
  simp only [NeuralNetwork.forward, exTrainNet, List.length_cons, List.length_nil, forLoop,
    NeuralNetwork.forwardStep, List.getElem?_cons_zero, hv, hs, exBiased_forward, ok_bind,
    zero_add, List.nil_append, List.singleton_append]

theorem exGrad_eq :
    Tensor.zipData BinaryCrossEnrtopy.gradValue (exCell (1 / 2)) (exCell 1)
      = matrix 1 1 (fun _ _ => (-2 : ℚ)) := by
  have e1 : min (1 - 1 / 10 ^ 7) (1 / 2 : ℚ) = 1 / 2 := min_eq_right (by norm_num)
  have e2 : max (1 / 10 ^ 7) (1 / 2 : ℚ) = 1 / 2 := max_eq_right (by norm_num)
  rw [← exCell_eq_matrix]
  simp only [Tensor.zipData, exCell, BinaryCrossEnrtopy.gradValue, e1, e2, strides_pair,
    List.zipWith_cons_cons, List.zipWith_nil_right]
  norm_num

theorem exBiased_backward :
    ∃ L3 g, ({ exBiased with cached_input := exCell (1 / 2) } : Dense ℚ).backward
        (matrix 1 1 (fun _ _ => (-2 : ℚ))) = .ok (L3, g)
      ∧ L3.bobot.Alike L3.grad_bobot ∧ L3.bias.Alike L3.grad_bias := by
  have hb := Dense.backward_matrix ({ exBiased with cached_input := exCell (1 / 2) } : Dense ℚ)
    1 1 1 (fun _ _ => 1 / 2) (fun _ _ => 1) (fun _ _ => -2) rfl rfl (exCell_eq_matrix 1)
    (exCell_eq_matrix (1 / 2))
  exact ⟨_, _, hb, ⟨rfl, rfl, matrix_sized _ _ _⟩, ⟨rfl, rfl, vector_sized _ _⟩⟩

theorem exTrainNet_backward :
    ∃ L3 g, ({ exTrainNet with
                dense_layers := [{ exBiased with cached_input := exCell (1 / 2) }],
                activations := [exCell (1 / 2), exCell (1 / 2)],
                pre_activations := [exCell (1 / 2)] } : NeuralNetwork ℚ).backward
              (exCell (1 / 2)) (exCell 1)
        = .ok ({ exTrainNet with
                  dense_layers := [L3],
                  activations := [exCell (1 / 2), exCell (1 / 2)],
                  pre_activations := [exCell (1 / 2)] }, g)
      ∧ L3.bobot.Alike L3.grad_bobot ∧ L3.bias.Alike L3.grad_bias := by
  obtain ⟨L3, g, hb, hw, hbias⟩ := exBiased_backward
  have hg := BinaryCrossEnrtopy.bce_backward_eq (exCell (1 / 2)) (exCell 1) rfl (le_refl _)
  rw [exGrad_eq] at hg
  refine ⟨L3, g, ?_, hw, hbias⟩
  unfold NeuralNetwork.backward
  rw [hg, ok_bind]
  have hv : ∀ L : Dense ℚ, vecGet [L] 0 = .ok L := fun _ => rfl
  have hs : ∀ L L' : Dense ℚ, vecSet [L] 0 L' = .ok [L'] := fun _ _ => rfl
  simp only [exTrainNet, List.length_cons, List.length_nil, forDown,
    NeuralNetwork.backwardStep, List.getElem?_cons_zero, hv, hs, hb, ok_bind, zero_add]

theorem exTrainNet_optimisasi (L3 : Dense ℚ) (hw : L3.bobot.Alike L3.grad_bobot)
    (hb : L3.bias.Alike L3.grad_bias) :
    ∃ N4, ({ exTrainNet with
              dense_layers := [L3],
              activations := [exCell (1 / 2), exCell (1 / 2)],
              pre_activations := [exCell (1 / 2)] } : NeuralNetwork ℚ).optimisasi (fun x => x)
        = .ok N4 := by
  have hu := adam.update_eq (fun x => x) exAdam L3.bobot L3.grad_bobot L3.bias L3.grad_bias
    hw hb (by intro h; cases h)
  have hv : ∀ L : Dense ℚ, vecGet [L] ((0 : ℕ) : Int) = .ok L := fun _ => rfl
  have ha : vecGet [exAdam] ((0 : ℕ) : Int) = .ok exAdam := rfl
  have hs : ∀ L L' : Dense ℚ, vecSet [L] ((0 : ℕ) : Int) L' = .ok [L'] := fun _ _ => rfl
  have hsa : ∀ A : adam ℚ, vecSet [exAdam] ((0 : ℕ) : Int) A = .ok [A] := fun _ => rfl
  cases h : ({ exTrainNet with
              dense_layers := [L3],
              activations := [exCell (1 / 2), exCell (1 / 2)],
              pre_activations := [exCell (1 / 2)] } : NeuralNetwork ℚ).optimisasi (fun x => x) with
  | ok N4 => exact ⟨N4, rfl⟩
  | error e =>
    simp only [NeuralNetwork.optimisasi, exTrainNet, List.length_cons, List.length_nil, forLoop,
      NeuralNetwork.optimisasiStep, hv, ha, hs, hsa, hu, ok_bind, zero_add] at h
    cases h

/-- Witness of C6: one training step of the network `Dense(1, 1)` on the input
`[[0.5]]` with target `[[1]]` returns. -/
theorem NeuralNetwork.train_step_order_witness :
    ∃ N1 loss N2,
      exTrainNet.train_step (fun x => x) (fun x => x) (fun x => x) (exCell (1 / 2)) (exCell 1)
        = .ok (N1, loss)
      ∧ exTrainNet.zero_grad = .ok N2 := by
  obtain ⟨L3, g, hbw, hw, hb⟩ := exTrainNet_backward
  obtain ⟨N4, hopt⟩ := exTrainNet_optimisasi L3 hw hb
  have hL := BinaryCrossEnrtopy.bce_forward_eq (fun x => x) (exCell (1 / 2)) (exCell 1) rfl
    (le_refl _)
  have hM := NeuralNetwork.meanLoss_eq
    (Tensor.zipData (BinaryCrossEnrtopy.lossValue (fun x : ℚ => x)) (exCell (1 / 2)) (exCell 1))
    rfl
  have hstep : exTrainNet.train_step (fun x => x) (fun x => x) (fun x => x) (exCell (1 / 2))
      (exCell 1) = .ok (N4,
        (Tensor.zipData (BinaryCrossEnrtopy.lossValue (fun x : ℚ => x)) (exCell (1 / 2))
            (exCell 1)).data.sum
          / ((Tensor.zipData (BinaryCrossEnrtopy.lossValue (fun x : ℚ => x)) (exCell (1 / 2))
            (exCell 1)).data.length : ℚ)) := by
    unfold NeuralNetwork.train_step
    rw [exTrainNet_zero_grad, ok_bind, exTrainNet_forward, ok_bind]
    simp only []
    rw [hL, ok_bind, hM, ok_bind, hbw, ok_bind]
    simp only []
    rw [hopt, ok_bind]
  obtain ⟨N1, _, _, _, _, _, hz, _⟩ := NeuralNetwork.train_step_order (fun x => x) (fun x => x)
    (fun x => x) exTrainNet N4 (exCell (1 / 2)) (exCell 1) _ hstep
  exact ⟨N4, _, N1, hstep, hz⟩

/-! ## Activations, strides and indexing -/

/-- C11. For every tensor `x` that satisfies the size invariant,
`ReLu::forward(x)` has the shape of `x` with element `i` equal to
`max(0, x[i])`, and `ReLu::backward(x)` has the shape of `x` with element `i`
equal to `1` if `x[i] > 0` and `0` otherwise (so `0` at `x[i] = 0`). -/
theorem ReLu.relu_elementwise {α : Type} [LinearOrderedField α] (x : Tensor α) (hx : x.Sized) :
    ReLu.forward x = .ok (Tensor.mapData (fun v => max 0 v) x)
    ∧ ReLu.backward x = .ok (Tensor.mapData (fun v => if v > 0 then 1 else 0) x)
    ∧ (Tensor.mapData (fun v => max 0 v) x).bentuk = x.bentuk
    ∧ (Tensor.mapData (fun v => if v > 0 then (1 : α) else 0) x).bentuk = x.bentuk
    ∧ (∀ (i : ℕ) v, x.data[i]? = some v →
        (Tensor.mapData (fun v => max 0 v) x).data[i]? = some (max 0 v)
        ∧ (Tensor.mapData (fun v => if v > 0 then (1 : α) else 0) x).data[i]?
            = some (if v > 0 then 1 else 0)) := by
  refine ⟨?_, ?_, rfl, rfl, ?_⟩
  · unfold ReLu.forward
    rw [mapNumel_eq _ x hx]
    congr 2
    funext v
    exact stdMax_eq_max 0 v
  · unfold ReLu.backward
    rw [mapNumel_eq _ x hx]
  · intro i v hv
    simp [Tensor.mapData, hv]

/-- Witness of C11: `forward([-2,0,0,3]) = [0,0,0,3]` and
`backward([-2,0,0,3]) = [0,0,0,1]`. -/
theorem ReLu.relu_elementwise_witness :
    ReLu.forward (⟨[-2, 0, 0, 3], [4], [1], false⟩ : Tensor ℚ)
        = .ok ⟨[0, 0, 0, 3], [4], [1], false⟩
    ∧ ReLu.backward (⟨[-2, 0, 0, 3], [4], [1], false⟩ : Tensor ℚ)
        = .ok ⟨[0, 0, 0, 1], [4], [1], false⟩ := by
  have h := ReLu.relu_elementwise (⟨[-2, 0, 0, 3], [4], [1], false⟩ : Tensor ℚ) rfl
  refine ⟨?_, ?_⟩
  · rw [h.1]
    simp [Tensor.mapData, strides_single]
  · rw [h.2.1]
    simp [Tensor.mapData, strides_single]

theorem getD_map_range {β : Type} (n i : ℕ) (g : ℕ → β) (d : β) (hi : i < n) :
    ((List.range n).map g).getD i d = g i := by
  rw [List.getD_eq_getElem?_getD, getElem?_map_range n i g hi]
  rfl

theorem prod_drop_succ (l : List Int) (k : ℕ) (hk : k < l.length) :
    (l.drop k).prod = l.getD k 0 * (l.drop (k + 1)).prod := by
  rw [List.drop_eq_getElem_cons hk, List.prod_cons, getD_of_lt l 0 k hk]

/-- The loop of `perhitungan_strides`, started with the entries from `m` on
already final, ends with every entry final. -/
theorem strides_loop (bentuk : List Int) :
    ∀ m, m + 1 ≤ bentuk.length →
      (List.range m).reverse.foldl
        (fun s i => s.set i (s.getD (i + 1) 0 * bentuk.getD (i + 1) 0))
        ((List.range bentuk.length).map
          (fun k => if m ≤ k then (bentuk.drop (k + 1)).prod else 0))
      = (List.range bentuk.length).map (fun k => (bentuk.drop (k + 1)).prod)
  | 0, _ => by simp
  | m + 1, h => by
    rw [List.range_succ, List.reverse_append, List.reverse_singleton, List.singleton_append,
      List.foldl_cons]
    have hstep : ((List.range bentuk.length).map
          (fun k => if m + 1 ≤ k then (bentuk.drop (k + 1)).prod else 0)).set m
        (((List.range bentuk.length).map
          (fun k => if m + 1 ≤ k then (bentuk.drop (k + 1)).prod else 0)).getD (m + 1) 0
          * bentuk.getD (m + 1) 0)
        = (List.range bentuk.length).map
          (fun k => if m ≤ k then (bentuk.drop (k + 1)).prod else 0) := by
      rw [getD_map_range _ _ _ _ (by omega), set_map_range]
      apply map_range_congr
      intro i _
      by_cases h1 : i = m
      · subst h1
        simp only [if_true, le_refl]
        rw [prod_drop_succ bentuk (i + 1) (by omega)]
        ring
      · by_cases h2 : m + 1 ≤ i
        · have h3 : m ≤ i := by omega
          simp [h1, h2, h3]
        · have h3 : ¬ (m ≤ i) := by omega
          simp [h1, h2, h3]
    rw [hstep]
    exact strides_loop bentuk m (by omega)

/-- Entry `k` of `perhitungan_strides` is the product of the dimensions after `k`. -/
theorem strides_eq_suffix_prod (bentuk : List Int) :
    Tensor.perhitungan_strides bentuk
      = (List.range bentuk.length).map (fun k => (bentuk.drop (k + 1)).prod) := by
  unfold Tensor.perhitungan_strides
  by_cases hn : 0 < bentuk.length
  · simp only [hn, if_true]
    have h0 : (List.replicate bentuk.length (0 : Int)).set (bentuk.length - 1) 1
        = (List.range bentuk.length).map
          (fun k => if bentuk.length - 1 ≤ k then (bentuk.drop (k + 1)).prod else 0) := by
      rw [replicate_eq_map_range, set_map_range]
      apply map_range_congr
      intro i hi
      by_cases h1 : i = bentuk.length - 1
      · have h2 : bentuk.length - 1 ≤ i := by omega
        have h3 : bentuk.length ≤ i + 1 := by omega
        rw [if_pos h1, if_pos h2, List.drop_eq_nil_of_le h3]
        rfl
      · have h2 : ¬ (bentuk.length - 1 ≤ i) := by omega
        simp [h1, h2]
    rw [h0]
    exact strides_loop bentuk (bentuk.length - 1) (by omega)
  · have h0 : bentuk.length = 0 := by omega
    simp [hn, h0]

/-- A loop fails only with an error of its body. -/
theorem forLoop_err {σ : Type} (body : ℕ → σ → Except Err σ) (P : Err → Prop)
    (hb : ∀ j s e, body j s = .error e → P e) :
    ∀ (n i : ℕ) (s : σ) (e : Err), forLoop body n i s = .error e → P e
  | 0, _, _, _, h => by simp [forLoop] at h
  | n + 1, i, s, e, h => by
    rw [forLoop_succ] at h
    cases hs : body i s with
    | error e' =>
      rw [hs] at h
      simp only [error_bind, Except.error.injEq] at h
      subst h
      exact hb i s e' hs
    | ok s' =>
      rw [hs, ok_bind] at h
      exact forLoop_err body P hb n (i + 1) s' e h

theorem compound_mismatch_iff {α : Type} (op : α → α → α) (a b : Tensor α) :
    Tensor.compound op a b = .error .shapeMismatch ↔ a.bentuk ≠ b.bentuk := by
  constructor
  · intro h hs
    unfold Tensor.compound at h
    rw [if_pos hs] at h
    cases hl : forLoop (fun i (d : List α) =>
        match d[i]?, b.data[i]? with
        | some x, some y => Except.ok (d.set i (op x y))
        | _, _ => Except.error Err.outOfBounds) a.data.length 0 a.data with
    | ok d =>
      rw [hl] at h
      simp at h
    | error e =>
      rw [hl] at h
      simp only [error_bind, Except.error.injEq] at h
      subst h
      have := forLoop_err _ (fun e => e = Err.outOfBounds) (fun j d e he => by
        cases h1 : d[j]? <;> cases h2 : b.data[j]? <;> simp [h1, h2] at he <;> exact he.symm)
        _ _ _ _ hl
      cases this
  · intro hs
    exact compound_mismatch op a b hs

theorem compound_rule {α : Type} (op : α → α → α) (a b : Tensor α) :
    Tensor.ElementwiseRule (Tensor.compound op) (Tensor.compound op) op a b :=
  ⟨rfl, compound_mismatch_iff op a b, fun hs ha hb =>
    compound_eq op a b hs (le_of_eq (sized_length_eq a b ha hb hs))⟩

/-- C14. For each of `+`, `-`, `*`, `/` between two tensors (the free operator
and its compound form alike), the operation fails with the shape-mismatch error
exactly when the shapes differ, no broadcasting being performed, and on
operands of one shape that satisfy the size invariant the result has that shape
with element `i` equal to `a[i] op b[i]`. -/
theorem Tensor.arithmetic_shape_rule {α : Type} [LinearOrderedField α] (a b : Tensor α) :
    Tensor.ElementwiseRule Tensor.add Tensor.addAssign (· + ·) a b
    ∧ Tensor.ElementwiseRule Tensor.sub Tensor.subAssign (· - ·) a b
    ∧ Tensor.ElementwiseRule Tensor.mul Tensor.mulAssign (· * ·) a b
    ∧ Tensor.ElementwiseRule Tensor.div Tensor.divAssign (· / ·) a b :=
  ⟨compound_rule _ a b, compound_rule _ a b, compound_rule _ a b, compound_rule _ a b⟩

/-- Witness of C14: `[1,2] + [3,4] = [4,6]`, and adding the `1 × 2` tensor
`[[3,4]]` to the vector `[1,2]` fails with the shape-mismatch error. -/
theorem Tensor.arithmetic_shape_rule_witness :
    exPair.add exPair2 = .ok ⟨[4, 6], [2], [1], false⟩
    ∧ exPair.add exRow = .error .shapeMismatch := by
  have h := (Tensor.arithmetic_shape_rule exPair exPair2).1
  have h2 := (Tensor.arithmetic_shape_rule exPair exRow).1
  refine ⟨?_, h2.2.1.mpr (by decide)⟩
  rw [h.2.2 rfl rfl rfl]
  simp only [exPair, exPair2, List.zipWith_cons_cons, List.zipWith_nil_right]
  norm_num

theorem sized_of_same {α : Type} (t r : Tensor α) (hb : r.bentuk = t.bentuk)
    (hl : r.data.length = t.data.length) (ht : t.Sized) : r.Sized := by
  unfold Tensor.Sized Tensor.numel at *
  rw [hb, hl]
  exact ht

theorem compound_ok_sized {α : Type} (op : α → α → α) (a b r : Tensor α)
    (h : Tensor.compound op a b = .ok r) (ha : a.Sized) : r.Sized ∧ r.bentuk = a.bentuk := by
  unfold Tensor.compound at h
  by_cases hs : a.bentuk = b.bentuk
  · rw [if_pos hs] at h
    obtain ⟨d, hd, h⟩ := bind_eq_ok _ _ _ h
    simp only [Except.ok.injEq] at h
    subst h
    have hl := forLoop_inv_ok _ (fun (d : List α) => d.length = a.data.length)
      (fun j s s' hP hs' => by
        cases h1 : s[j]? <;> cases h2 : b.data[j]? <;> simp [h1, h2] at hs'
        subst hs'
        simpa using hP) _ _ a.data d rfl hd
    exact ⟨sized_of_same a _ rfl hl ha, rfl⟩
  · rw [if_neg hs] at h
    cases h

theorem compoundScalar_ok_sized {α : Type} (op : α → α → α) (t r : Tensor α) (s : α)
    (h : Tensor.compoundScalar op t s = .ok r) (ht : t.Sized) :
    r.Sized ∧ r.bentuk = t.bentuk := by
  rw [compoundScalar_eq op t s] at h
  simp only [Except.ok.injEq] at h
  subst h
  exact ⟨sized_of_same t _ rfl (by simp) ht, rfl⟩

theorem mapNumel_ok_sized {α : Type} [Zero α] (f : α → α) (t r : Tensor α)
    (h : Tensor.mapNumel f t = .ok r) : r.Sized ∧ r.bentuk = t.bentuk := by
  unfold Tensor.mapNumel at h
  obtain ⟨out, h1, h2⟩ := bind_eq_ok _ _ _ h
  obtain ⟨hb, hs⟩ := ofShape_ok _ _ h1
  unfold forRange at h2
  have key := forLoop_inv_ok _ (fun (u : Tensor α) => u.bentuk = t.bentuk ∧ u.Sized)
    (fun j s s' hP hs' => by
      obtain ⟨x, _, hs'⟩ := bind_eq_ok _ _ _ hs'
      obtain ⟨e1, e2⟩ := indexSet_ok _ _ _ _ hs'
      exact ⟨e1.trans hP.1, sized_of_same s s' e1 e2 hP.2⟩) _ _ out r ⟨hb, hs⟩ h2
  exact ⟨key.2, key.1⟩

theorem neg_ok_sized {α : Type} [LinearOrderedField α] (t r : Tensor α)
    (h : t.neg = .ok r) : r.Sized ∧ r.bentuk = t.bentuk := by
  unfold Tensor.neg at h
  obtain ⟨res, h1, h2⟩ := bind_eq_ok _ _ _ h
  obtain ⟨hb, hs⟩ := ofShape_ok _ _ h1
  obtain ⟨d, hd, h2⟩ := bind_eq_ok _ _ _ h2
  simp only [Except.ok.injEq] at h2
  subst h2
  have hl := forLoop_inv_ok _ (fun (d : List α) => d.length = res.data.length)
    (fun j s s' hP hs' => by
      cases h1 : t.data[j]? with
      | none => simp [h1] at hs'
      | some x =>
        by_cases h2 : j < s.length
        · simp only [h1, h2, if_true, Except.ok.injEq] at hs'
          subst hs'
          simpa using hP
        · simp [h1, h2] at hs') _ _ res.data d rfl hd
  exact ⟨sized_of_same res _ rfl hl hs, hb⟩

/-- The claim C15 fails on the code: the constructor from a shape and a data
list returns a tensor even when the data length differs from the product of
the shape; from the shape `[2, 3]` and two numbers it returns a tensor with a
buffer of length `2` and `numel() = 6`. -/
theorem Tensor.size_invariant_counterexample :
    (Tensor.ofShapeData [2, 3] [1, 2] : Tensor ℚ).data.length = 2
    ∧ (Tensor.ofShapeData [2, 3] [1, 2] : Tensor ℚ).numel = 6
    ∧ ¬ (Tensor.ofShapeData [2, 3] [1, 2] : Tensor ℚ).Sized := by
  refine ⟨rfl, rfl, ?_⟩
  unfold Tensor.Sized
  decide

/-- C15, amended. The constructor by shape, when it returns, gives a tensor of
that shape that satisfies `data.length == product(shape)`; the constructor from
a shape and a data list stores the data as given, so its result satisfies the
invariant exactly when the data length is the product of the shape; a copy of a
tensor that satisfies the invariant satisfies it; and every tensor returned by
an arithmetic operation (tensor with tensor and tensor with scalar on an
operand that satisfies the invariant, scalar with tensor, negation, `exp`,
`sqrt`, `log`) satisfies it and has the shape of its operand. -/
theorem Tensor.size_invariant_amended {α : Type} [LinearOrderedField α] :
    (∀ (shape : List Int) (t : Tensor α), Tensor.ofShape shape = .ok t →
        t.Sized ∧ t.bentuk = shape)
    ∧ (∀ (shape : List Int) (data : List α),
        (Tensor.ofShapeData shape data).Sized ↔ (data.length : Int) = Tensor.numelOf shape)
    ∧ (∀ t : Tensor α, t.Sized → t.copy.Sized ∧ t.copy = t)
    ∧ (∀ (a b r : Tensor α), a.Sized →
        (a.add b = .ok r ∨ a.sub b = .ok r ∨ a.mul b = .ok r ∨ a.div b = .ok r
          ∨ a.addAssign b = .ok r ∨ a.subAssign b = .ok r ∨ a.mulAssign b = .ok r
          ∨ a.divAssign b = .ok r) →
        r.Sized ∧ r.bentuk = a.bentuk)
    ∧ (∀ (t r : Tensor α) (s : α), t.Sized →
        (t.addScalar s = .ok r ∨ t.subScalar s = .ok r ∨ t.mulScalar s = .ok r
          ∨ t.divScalar s = .ok r) →
        r.Sized ∧ r.bentuk = t.bentuk)
    ∧ (∀ (t r : Tensor α) (s : α),
        (Tensor.scalarAdd s t = .ok r ∨ Tensor.scalarSub s t = .ok r
          ∨ Tensor.scalarMul s t = .ok r ∨ Tensor.scalarDiv s t = .ok r) →
        r.Sized ∧ r.bentuk = t.bentuk)
    ∧ (∀ (t r : Tensor α) (f : α → α),
        (t.neg = .ok r ∨ Tensor.exp f t = .ok r ∨ Tensor.sqrt f t = .ok r
          ∨ Tensor.log f t = .ok r) →
        r.Sized ∧ r.bentuk = t.bentuk) := by
  refine ⟨?_, ?_, ?_, ?_, ?_, ?_, ?_⟩
  · intro shape t h
    obtain ⟨hb, hs⟩ := ofShape_ok shape t h
    exact ⟨hs, hb⟩
  · intro shape data
    rfl
  · intro t ht
    exact ⟨ht, rfl⟩
  · intro a b r ha h
    rcases h with h | h | h | h | h | h | h | h <;> exact compound_ok_sized _ a b r h ha
  · intro t r s ht h
    rcases h with h | h | h | h <;> exact compoundScalar_ok_sized _ t r s h ht
  · intro t r s h
    rcases h with h | h | h | h <;> exact mapNumel_ok_sized _ t r h
  · intro t r f h
    rcases h with h | h | h | h
    · exact neg_ok_sized t r h
    · exact mapNumel_ok_sized _ t r h
    · exact mapNumel_ok_sized _ t r h
    · exact mapNumel_ok_sized _ t r h

/-- Witness of C15, amended: the tensor built from the shape `[2, 3]` and six
numbers satisfies the invariant, and so does the sum `[1,2] + [3,4]`. -/
theorem Tensor.size_invariant_amended_witness :
    exGrid.Sized ∧ ∃ r, exPair.add exPair2 = .ok r ∧ r.Sized := by
  have h := @Tensor.size_invariant_amended ℚ _
  refine ⟨(h.2.1 [2, 3] [10, 11, 12, 13, 14, 15]).mpr rfl, ?_⟩
  have hadd : exPair.add exPair2
      = .ok { exPair with data := List.zipWith (· + ·) exPair.data exPair2.data } :=
    add_eq exPair exPair2 rfl (le_refl _)
  exact ⟨_, hadd, (h.2.2.2.1 exPair exPair2 _ rfl (Or.inl hadd)).1⟩

theorem index_error_iff {α : Type} (t : Tensor α) (k : Int) :
    t.index k = .error .outOfBounds ↔ (k < 0 ∨ (t.data.length : Int) ≤ k) := by
  unfold Tensor.index
  by_cases h0 : k < 0
  · simp [h0]
  · simp only [h0, if_false, false_or]
    by_cases hl : k.toNat < t.data.length
    · rw [List.getElem?_eq_getElem hl]
      constructor
      · intro h; cases h
      · intro h; omega
    · rw [List.getElem?_eq_none (not_lt.mp hl)]
      constructor
      · intro _; omega
      · intro _; rfl

theorem forRange_inv_ok {σ : Type} (body : ℕ → σ → Except Err σ) (P : σ → Prop)
    (hstep : ∀ j s s', P s → body j s = .ok s' → P s') (n : Int) (s s' : σ) (hP : P s)
    (h : forRange n body s = .ok s') : P s' :=
  forLoop_inv_ok body P hstep _ _ s s' hP h

theorem unrolledLoop_inv_ok {σ : Type} (step : ℕ → σ → Except Err σ) (P : σ → Prop)
    (hstep : ∀ j s s', P s → step j s = .ok s' → P s') (n : Int) (s s' : σ) (hP : P s)
    (h : unrolledLoop n step s = .ok s') : P s' := by
  rw [unrolledLoop_eq_forLoop] at h
  exact forLoop_inv_ok step P hstep _ _ s s' hP h

theorem atSet_ok {α : Type} (t t' : Tensor α) (indices : List Int) (v : α)
    (h : t.atSet indices v = .ok t') :
    t'.bentuk = t.bentuk ∧ t'.data.length = t.data.length := by
  unfold Tensor.atSet at h
  obtain ⟨k, _, h⟩ := bind_eq_ok _ _ _ h
  exact indexSet_ok t t' k v h

theorem zeros_ok {α : Type} [LinearOrderedField α] (shape : List Int) (t : Tensor α)
    (h : dl.zeros shape = .ok t) : t.bentuk = shape ∧ t.Sized := by
  unfold dl.zeros at h
  obtain ⟨t0, h0, h⟩ := bind_eq_ok _ _ _ h
  obtain ⟨hb, hs⟩ := ofShape_ok shape t0 h0
  exact forRange_inv_ok _ (fun (u : Tensor α) => u.bentuk = shape ∧ u.Sized)
    (fun j s s' hP hs' => by
      obtain ⟨e1, e2⟩ := indexSet_ok _ _ _ _ hs'
      exact ⟨e1.trans hP.1, sized_of_same s s' e1 e2 hP.2⟩) _ t0 t ⟨hb, hs⟩ h

/-- Whenever `backward` returns, the weight gradient it leaves has the shape
`[out_features, in_features]`; the bias gradient has the shape `[out_features]`
when the bias is enabled and is the one held before otherwise. -/
theorem Dense.backward_ok_shapes {α : Type} [LinearOrderedField α] (L : Dense α)
    (g : Tensor α) (r : Dense α × Tensor α) (h : L.backward g = .ok r) :
    r.1.grad_bobot.bentuk = [L.out_features, L.in_features]
    ∧ (L.gunakan_bias = true → r.1.grad_bias.bentuk = [L.out_features])
    ∧ (L.gunakan_bias = false → r.1.grad_bias = L.grad_bias)
    ∧ r.1.bobot = L.bobot ∧ r.1.bias = L.bias ∧ r.1.gunakan_bias = L.gunakan_bias
    ∧ r.1.in_features = L.in_features ∧ r.1.out_features = L.out_features
    ∧ r.1.cached_input = L.cached_input := by
  unfold Dense.backward at h
  obtain ⟨batch, _, h⟩ := bind_eq_ok _ _ _ h
  obtain ⟨gw0, hgw0, h⟩ := bind_eq_ok _ _ _ h
  obtain ⟨gb0, hgb0, h⟩ := bind_eq_ok _ _ _ h
  obtain ⟨gi0, _, h⟩ := bind_eq_ok _ _ _ h
  obtain ⟨st, hst, h⟩ := bind_eq_ok _ _ _ h
  obtain ⟨gi, _, h⟩ := bind_eq_ok _ _ _ h
  simp only [Except.ok.injEq] at h
  subst h
  have hP := forRange_inv_ok _
    (fun (st : Tensor α × Tensor α) => st.1.bentuk = gw0.bentuk ∧ st.2.bentuk = gb0.bentuk
      ∧ (L.gunakan_bias = false → st.2 = gb0))
    (fun b s s' hP hs' =>
      forRange_inv_ok _
        (fun (st : Tensor α × Tensor α) => st.1.bentuk = gw0.bentuk ∧ st.2.bentuk = gb0.bentuk
          ∧ (L.gunakan_bias = false → st.2 = gb0))
        (fun o s s' hP hs' => by
          obtain ⟨go, _, hs'⟩ := bind_eq_ok _ _ _ hs'
          obtain ⟨gbias, hgbias, hs'⟩ := bind_eq_ok _ _ _ hs'
          obtain ⟨gbobot, hgbobot, hs'⟩ := bind_eq_ok _ _ _ hs'
          simp only [Except.ok.injEq] at hs'
          subst hs'
          have h1 : gbobot.bentuk = s.1.bentuk :=
            unrolledLoop_inv_ok _ (fun (u : Tensor α) => u.bentuk = s.1.bentuk)
              (fun i u u' hu hu' => by
                unfold Dense.gradBobotStep at hu'
                obtain ⟨x, _, hu'⟩ := bind_eq_ok _ _ _ hu'
                obtain ⟨y, _, hu'⟩ := bind_eq_ok _ _ _ hu'
                exact (atSet_ok _ _ _ _ hu').1.trans hu) _ s.1 gbobot rfl hgbobot
          have h2 : gbias.bentuk = s.2.bentuk ∧ (L.gunakan_bias = false → gbias = s.2) := by
            cases hb : L.gunakan_bias
            · simp only [hb, Bool.false_eq_true, if_false, Except.ok.injEq] at hgbias
              subst hgbias
              exact ⟨rfl, fun _ => rfl⟩
            · simp only [hb, if_true] at hgbias
              obtain ⟨x, _, hgbias⟩ := bind_eq_ok _ _ _ hgbias
              exact ⟨(indexSet_ok _ _ _ _ hgbias).1, fun hc => by cases hc⟩
          exact ⟨h1.trans hP.1, h2.1.trans hP.2.1, fun hc => (h2.2 hc).trans (hP.2.2 hc)⟩)
        _ s s' hP hs')
    _ (gw0, gb0) st ⟨rfl, rfl, fun _ => rfl⟩ hst
  refine ⟨hP.1.trans (zeros_ok _ _ hgw0).1, ?_, ?_, rfl, rfl, rfl, rfl, rfl, rfl⟩
  · intro hb
    simp only [hb, if_true] at hgb0
    exact hP.2.1.trans (zeros_ok _ _ hgb0).1
  · intro hb
    simp only [hb, Bool.false_eq_true, if_false, Except.ok.injEq] at hgb0
    subst hgb0
    exact hP.2.2 hb

theorem Dense.new_ok {α : Type} [LinearOrderedField α] (inF outF : Int) (ub : Bool)
    (kaiming : Tensor α) (L : Dense α) (h : Dense.new inF outF ub kaiming = .ok L) :
    L.bobot = kaiming ∧ L.in_features = inF ∧ L.out_features = outF ∧ L.gunakan_bias = ub
    ∧ L.grad_bobot.bentuk = [outF, inF]
    ∧ (ub = true → L.bias.bentuk = [outF] ∧ L.grad_bias.bentuk = [outF])
    ∧ (ub = false → L.bias = Tensor.default ∧ L.grad_bias = Tensor.default) := by
  unfold Dense.new at h
  obtain ⟨bias, hbias, h⟩ := bind_eq_ok _ _ _ h
  obtain ⟨gw, hgw, h⟩ := bind_eq_ok _ _ _ h
  obtain ⟨gb, hgb, h⟩ := bind_eq_ok _ _ _ h
  simp only [Except.ok.injEq] at h
  subst h
  refine ⟨rfl, rfl, rfl, rfl, (zeros_ok _ _ hgw).1, ?_, ?_⟩
  · intro hu
    simp only [hu, if_true] at hbias hgb
    exact ⟨(zeros_ok _ _ hbias).1, (zeros_ok _ _ hgb).1⟩
  · intro hu
    simp only [hu, Bool.false_eq_true, if_false, Except.ok.injEq] at hbias hgb
    exact ⟨hbias.symm, hgb.symm⟩

theorem Dense.zero_grad_ok {α : Type} [LinearOrderedField α] (L L' : Dense α)
    (h : L.zero_grad = .ok L') :
    L'.grad_bobot.bentuk = [L.out_features, L.in_features]
    ∧ (L.gunakan_bias = true → L'.grad_bias.bentuk = [L.out_features])
    ∧ (L.gunakan_bias = false → L'.grad_bias = L.grad_bias)
    ∧ L'.bobot = L.bobot ∧ L'.bias = L.bias ∧ L'.gunakan_bias = L.gunakan_bias
    ∧ L'.in_features = L.in_features ∧ L'.out_features = L.out_features := by
  unfold Dense.zero_grad at h
  obtain ⟨gw, hgw, h⟩ := bind_eq_ok _ _ _ h
  obtain ⟨gb, hgb, h⟩ := bind_eq_ok _ _ _ h
  simp only [Except.ok.injEq] at h
  subst h
  refine ⟨(zeros_ok _ _ hgw).1, ?_, ?_, rfl, rfl, rfl, rfl, rfl⟩
  · intro hu
    simp only [hu, if_true] at hgb
    exact (zeros_ok _ _ hgb).1
  · intro hu
    simp only [hu, Bool.false_eq_true, if_false, Except.ok.injEq] at hgb
    exact hgb.symm

theorem Dense.update_bobot_ok {α : Type} [LinearOrderedField α] (L L' : Dense α) (lr : α)
    (h : L.update_bobot lr = .ok L') :
    L'.bobot.bentuk = L.bobot.bentuk ∧ L'.bias.bentuk = L.bias.bentuk
    ∧ L'.grad_bobot = L.grad_bobot ∧ L'.grad_bias = L.grad_bias
    ∧ L'.gunakan_bias = L.gunakan_bias
    ∧ L'.in_features = L.in_features ∧ L'.out_features = L.out_features := by
  unfold Dense.update_bobot at h
  obtain ⟨w, hw, h⟩ := bind_eq_ok _ _ _ h
  obtain ⟨b, hb, h⟩ := bind_eq_ok _ _ _ h
  simp only [Except.ok.injEq] at h
  subst h
  have h1 : w.bentuk = L.bobot.bentuk :=
    forRange_inv_ok _ (fun (u : Tensor α) => u.bentuk = L.bobot.bentuk)
      (fun j s s' hP hs' => by
        obtain ⟨x, _, hs'⟩ := bind_eq_ok _ _ _ hs'
        obtain ⟨y, _, hs'⟩ := bind_eq_ok _ _ _ hs'
        exact (indexSet_ok _ _ _ _ hs').1.trans hP) _ L.bobot w rfl hw
  have h2 : b.bentuk = L.bias.bentuk := by
    cases hu : L.gunakan_bias
    · simp only [hu, Bool.false_eq_true, if_false, Except.ok.injEq] at hb
      rw [← hb]
    · simp only [hu, if_true] at hb
      exact forRange_inv_ok _ (fun (u : Tensor α) => u.bentuk = L.bias.bentuk)
        (fun j s s' hP hs' => by
          obtain ⟨x, _, hs'⟩ := bind_eq_ok _ _ _ hs'
          obtain ⟨y, _, hs'⟩ := bind_eq_ok _ _ _ hs'
          exact (indexSet_ok _ _ _ _ hs').1.trans hP) _ L.bias b rfl hb
  exact ⟨h1, h2, rfl, rfl, rfl, rfl, rfl⟩

theorem Dense.exNew_returns :
    ∃ L : Dense ℚ, Dense.new 2 2 true exIdentity.bobot = .ok L ∧ True := by
  cases h : (Dense.new 2 2 true exIdentity.bobot : Except Err (Dense ℚ)) with
  | error e =>
    have h1 : (dl.zeros [2] : Except Err (Tensor ℚ)) = .ok (vector 2 (fun _ => 0)) :=
      zeros_single 2
    have h2 : (dl.zeros [2, 2] : Except Err (Tensor ℚ)) = .ok (matrix 2 2 (fun _ _ => 0)) :=
      zeros_pair 2 2
    simp only [Dense.new, if_true, h1, h2, ok_bind] at h
    cases h
  | ok L => exact ⟨L, rfl, trivial⟩

/-- The claim C17 fails on the code: on the layer `Dense(2, 2)` as the
constructor leaves it the invariant holds, and after `set_bobot` with a tensor
of shape `[1]` the weight gradient still has the shape `[2, 2]`. -/
theorem Dense.grad_shape_counterexample :
    ∃ L : Dense ℚ, Dense.new 2 2 true exIdentity.bobot = .ok L
      ∧ L.GradShapes
      ∧ (L.set_bobot (exScalar 1)).grad_bobot.bentuk = [2, 2]
      ∧ (L.set_bobot (exScalar 1)).bobot.bentuk = [1]
      ∧ ¬ (L.set_bobot (exScalar 1)).GradShapes := by
  obtain ⟨L, h, _⟩ := Dense.exNew_returns
  · obtain ⟨hw, _, _, _, hg, hb, _⟩ := Dense.new_ok 2 2 true exIdentity.bobot L h
    have hgs : L.GradShapes := ⟨by rw [hg, hw]; rfl, by rw [(hb rfl).1, (hb rfl).2]⟩
    refine ⟨L, h, hgs, hg, rfl, ?_⟩
    intro hc
    have := hc.1
    simp only [Dense.set_bobot] at this
    rw [hg] at this
    revert this
    decide

/-- C17, amended. The invariant `shape(weight_grad) == shape(weight)` and
`shape(bias_grad) == shape(bias)` holds after construction (the drawn weight
having the shape `[out_features, in_features]`), and `forward`, `backward`,
`zero_grad` and `update_bobot` keep it on a layer whose weight has the shape
`[out_features, in_features]` and whose bias, when enabled, has the shape
`[out_features]`; `set_bobot(w)` and `set_bias(b)` store the given tensor
unchecked, so after them the invariant holds exactly when `w` (respectively
`b`) has the shape of the corresponding gradient. -/
theorem Dense.grad_shape_amended {α : Type} [LinearOrderedField α] :
    (∀ (inF outF : Int) (ub : Bool) (kaiming : Tensor α) (L : Dense α),
        kaiming.bentuk = [outF, inF] → Dense.new inF outF ub kaiming = .ok L →
        L.GradShapes ∧ L.Shaped)
    ∧ (∀ (L : Dense α) (x : Tensor α) (r : Dense α × Tensor α),
        L.Shaped → L.GradShapes → L.forward x = .ok r → r.1.GradShapes ∧ r.1.Shaped)
    ∧ (∀ (L : Dense α) (g : Tensor α) (r : Dense α × Tensor α),
        L.Shaped → L.GradShapes → L.backward g = .ok r → r.1.GradShapes ∧ r.1.Shaped)
    ∧ (∀ (L L' : Dense α),
        L.Shaped → L.GradShapes → L.zero_grad = .ok L' → L'.GradShapes ∧ L'.Shaped)
    ∧ (∀ (L L' : Dense α) (lr : α),
        L.Shaped → L.GradShapes → L.update_bobot lr = .ok L' → L'.GradShapes ∧ L'.Shaped)
    ∧ (∀ (L : Dense α) (w : Tensor α),
        (L.set_bobot w).GradShapes
          ↔ (L.grad_bobot.bentuk = w.bentuk ∧ L.grad_bias.bentuk = L.bias.bentuk))
    ∧ (∀ (L : Dense α) (b : Tensor α),
        (L.set_bias b).GradShapes
          ↔ (L.grad_bobot.bentuk = L.bobot.bentuk ∧ L.grad_bias.bentuk = b.bentuk)) := by
  refine ⟨?_, ?_, ?_, ?_, ?_, fun _ _ => Iff.rfl, fun _ _ => Iff.rfl⟩
  · intro inF outF ub kaiming L hk h
    obtain ⟨hw, hi, ho, hu, hg, hb1, hb0⟩ := Dense.new_ok inF outF ub kaiming L h
    refine ⟨⟨by rw [hg, hw, hk], ?_⟩, ⟨by rw [hw, hk, hi, ho], ?_⟩⟩
    · cases ub
      · rw [(hb0 rfl).1, (hb0 rfl).2]
      · rw [(hb1 rfl).1, (hb1 rfl).2]
    · intro hub
      rw [hu] at hub
      rw [(hb1 hub).1, ho]
  · intro L x r hS hG h
    rw [Dense.forward_fst L x r h]
    exact ⟨hG, hS⟩
  · intro L g r hS hG h
    obtain ⟨h1, h2, h3, hw, hb, hu, hi, ho, _⟩ := Dense.backward_ok_shapes L g r h
    refine ⟨⟨by rw [h1, hw, hS.1], ?_⟩, ⟨by rw [hw, hi, ho]; exact hS.1, ?_⟩⟩
    · cases hub : L.gunakan_bias
      · rw [h3 hub, hb]
        exact hG.2
      · rw [h2 hub, hb, hS.2 hub]
    · intro hub
      rw [hu] at hub
      rw [hb, ho]
      exact hS.2 hub
  · intro L L' hS hG h
    obtain ⟨h1, h2, h3, hw, hb, hu, hi, ho⟩ := Dense.zero_grad_ok L L' h
    refine ⟨⟨by rw [h1, hw, hS.1], ?_⟩, ⟨by rw [hw, hi, ho]; exact hS.1, ?_⟩⟩
    · cases hub : L.gunakan_bias
      · rw [h3 hub, hb]
        exact hG.2
      · rw [h2 hub, hb, hS.2 hub]
    · intro hub
      rw [hu] at hub
      rw [hb, ho]
      exact hS.2 hub
  · intro L L' lr hS hG h
    obtain ⟨hw, hb, hgw, hgb, hu, hi, ho⟩ := Dense.update_bobot_ok L L' lr h
    refine ⟨⟨by rw [hgw, hw]; exact hG.1, by rw [hgb, hb]; exact hG.2⟩,
      ⟨by rw [hw, hi, ho]; exact hS.1, ?_⟩⟩
    intro hub
    rw [hu] at hub
    rw [hb, ho]
    exact hS.2 hub

/-- Witness of C17, amended: the layer `Dense(2, 2)` as the constructor leaves
it satisfies the invariant. -/
theorem Dense.grad_shape_amended_witness :
    ∃ L : Dense ℚ, Dense.new 2 2 true exIdentity.bobot = .ok L ∧ L.GradShapes ∧ L.Shaped := by
  obtain ⟨L, h, _⟩ := Dense.exNew_returns
  exact ⟨L, h, (@Dense.grad_shape_amended ℚ _).1 2 2 true exIdentity.bobot L rfl h⟩

/-! ## The dense layer: rows read by `backward` -/

/-- The first pass of `backward` for one row `b`, the cached input having
`cb` rows and the output gradient `gb` rows. -/
theorem Dense.gradPass_row_gen {α : Type} [LinearOrderedField α] (useBias : Bool)
    (gb cb inF outF : ℕ) (X G base : ℕ → ℕ → α) (bv : ℕ → α) (old : Tensor α)
    (b : ℕ) (hb : b < gb) (hc : b < cb) :
    forRange (outF : Int) (fun o (st : Tensor α × Tensor α) =>
      (matrix gb outF G).at [(b : Int), (o : Int)] >>= fun grad_o =>
      (if useBias = true then
          st.2.index o >>= fun gb => st.2.indexSet o (gb + grad_o)
        else .ok st.2) >>= fun grad_bias =>
      unrolledLoop (inF : Int) (Dense.gradBobotStep (matrix cb inF X) grad_o b o) st.1
        >>= fun grad_bobot =>
      .ok (grad_bobot, grad_bias))
      (matrix outF inF base, if useBias then vector outF bv else old)
    = .ok (matrix outF inF (fun o i => base o i + G b o * X b i),
           if useBias then vector outF (fun o => bv o + G b o) else old) := by
  have key := forRange_trace (fun o (st : Tensor α × Tensor α) =>
      (matrix gb outF G).at [(b : Int), (o : Int)] >>= fun grad_o =>
      (if useBias = true then
          st.2.index o >>= fun gb => st.2.indexSet o (gb + grad_o)
        else .ok st.2) >>= fun grad_bias =>
      unrolledLoop (inF : Int) (Dense.gradBobotStep (matrix cb inF X) grad_o b o) st.1
        >>= fun grad_bobot =>
      .ok (grad_bobot, grad_bias))
    (fun o => (matrix outF inF (fun o' i => if o' < o then base o' i + G b o' * X b i
                                            else base o' i),
               if useBias then vector outF (fun o' => if o' < o then bv o' + G b o' else bv o')
               else old)) outF (fun o ho => by
      show ((matrix gb outF G).at _ >>= _) = _
      rw [matrix_at gb outF G b o hb ho, ok_bind]
      simp only []
      rw [Dense.gradBobot_row cb inF outF X _ (G b o) b o hc ho]
      have em : matrix outF inF (fun o' i' =>
            if o' = o then (if o' < o then base o' i' + G b o' * X b i' else base o' i')
                + G b o * X b i'
            else (if o' < o then base o' i' + G b o' * X b i' else base o' i'))
          = matrix outF inF (fun o' i => if o' < o + 1 then base o' i + G b o' * X b i
                                            else base o' i) := by
        apply matrix_congr
        intro a j _ _
        by_cases h1 : a = o
        · subst h1; simp
        · by_cases h2 : a < o
          · have h3 : a < o + 1 := by omega
            simp [h1, h2, h3]
          · have h3 : ¬ (a < o + 1) := by omega
            simp [h1, h2, h3]
      rw [em]
      cases useBias
      · simp
      · simp only [if_true]
        rw [vector_index outF _ o ho, ok_bind, vector_indexSet outF _ o _ ho, ok_bind, ok_bind]
        congr 2
        apply vector_congr
        intro a _
        by_cases h1 : a = o
        · subst h1; simp
        · by_cases h2 : a < o
          · have h3 : a < o + 1 := by omega
            simp [h1, h2, h3]
          · have h3 : ¬ (a < o + 1) := by omega
            simp [h1, h2, h3])
  have e0 : (matrix outF inF base, if useBias then vector outF bv else old)
      = (matrix outF inF (fun o' i => if o' < 0 then base o' i + G b o' * X b i
                                            else base o' i),
         if useBias then vector outF (fun o' => if o' < 0 then bv o' + G b o' else bv o')
         else old) := by
    simp
  have e1 : (matrix outF inF (fun o i => base o i + G b o * X b i),
           if useBias then vector outF (fun o => bv o + G b o) else old)
      = (matrix outF inF (fun o' i => if o' < outF then base o' i + G b o' * X b i
                                            else base o' i),
         if useBias then vector outF (fun o' => if o' < outF then bv o' + G b o' else bv o')
         else old) := by
    congr 1
    · apply matrix_congr; intro a j ha _; simp [ha]
    · cases useBias
      · rfl
      · simp only [if_true]
        apply vector_congr; intro a ha; simp [ha]
  rw [e0, e1]
  exact key

/-- `backward` when the output gradient has `gb` rows and the cached input `cb`
rows, `gb ≤ cb`: no check is made and the first `gb` rows are used. -/
theorem Dense.backward_matrix_gen {α : Type} [LinearOrderedField α] (L : Dense α)
    (gb cb inF outF : ℕ) (X W G : ℕ → ℕ → α) (hle : gb ≤ cb)
    (hin : L.in_features = (inF : Int)) (hout : L.out_features = (outF : Int))
    (hW : L.bobot = matrix outF inF W) (hX : L.cached_input = matrix cb inF X) :
    L.backward (matrix gb outF G) =
      .ok ({ L with
              grad_bobot := matrix outF inF (fun o i => ∑ b in Finset.range gb, G b o * X b i),
              grad_bias := Dense.biasGradAfter L.gunakan_bias outF G L.grad_bias gb },
           matrix gb inF (fun b i => ∑ o in Finset.range outF, G b o * W o i)) := by
  obtain ⟨inf, outf, bobot, bias, gbobot, gbias, cinput, useBias⟩ := L
  simp only at hin hout hW hX
  subst hin hout hW hX
  unfold Dense.backward
  have hshape : (matrix gb outF G).bentuk = [(gb : Int), (outF : Int)] := rfl
  have hz : ((if useBias = true then dl.zeros [(outF : Int)] else .ok gbias) : Except Err (Tensor α))
      = .ok (if useBias then vector outF (fun _ => 0) else gbias) := by
    cases useBias
    · rfl
    · simp only [if_true]; exact zeros_single outF
  simp only [hshape, vecGet_pair_zero, ok_bind, zeros_pair, hz]
  have pass1 := forRange_trace (fun b (st : Tensor α × Tensor α) =>
      forRange (outF : Int) (fun o (st : Tensor α × Tensor α) =>
        (matrix gb outF G).at [(b : Int), (o : Int)] >>= fun grad_o =>
        (if useBias = true then
            st.2.index o >>= fun gb => st.2.indexSet o (gb + grad_o)
          else .ok st.2) >>= fun grad_bias =>
        unrolledLoop (inF : Int) (Dense.gradBobotStep (matrix cb inF X) grad_o b o) st.1
          >>= fun grad_bobot =>
        .ok (grad_bobot, grad_bias)) st)
    (fun b => (matrix outF inF (fun o i => ∑ b' in Finset.range b, G b' o * X b' i),
               if useBias then vector outF (fun o => ∑ b' in Finset.range b, G b' o)
               else gbias)) gb (fun b hb => by
      show forRange _ _ _ = _
      rw [Dense.gradPass_row_gen useBias gb cb inF outF X G _ _ gbias b hb (by omega)]
      simp only [Finset.sum_range_succ])
  simp only [Finset.sum_range_zero] at pass1
  rw [pass1, ok_bind]
  rw [fill_matrix gb inF (fun b i => ∑ o in Finset.range outF, G b o * W o i) (fun _ _ => 0)]
  · rfl
  · intro b i G0 hb hi
    rw [Dense.gradInput_dot _ gb inF outF G W rfl b i hb hi, ok_bind]

/-- A counted loop whose body follows the trace `S` up to iteration `i + k` and
fails there fails with the same error. -/
theorem forLoop_fail {σ : Type} (body : ℕ → σ → Except Err σ) (S : ℕ → σ) (e : Err) :
    ∀ (k n i : ℕ), k < n →
      (∀ j, i ≤ j → j < i + k → body j (S j) = .ok (S (j + 1))) →
      body (i + k) (S (i + k)) = .error e →
      forLoop body n i (S i) = .error e
  | 0, n, i, hk, _, hf => by
    obtain ⟨m, rfl⟩ : ∃ m, n = m + 1 := ⟨n - 1, by omega⟩
    rw [forLoop_succ]
    rw [Nat.add_zero] at hf
    rw [hf]
    rfl
  | k + 1, n, i, hk, hpre, hf => by
    obtain ⟨m, rfl⟩ : ∃ m, n = m + 1 := ⟨n - 1, by omega⟩
    rw [forLoop_succ, hpre i (le_refl i) (by omega), ok_bind]
    apply forLoop_fail body S e k m (i + 1) (by omega)
    · intro j hj1 hj2
      exact hpre j (by omega) (by omega)
    · have e1 : i + 1 + k = i + (k + 1) := by omega
      rw [e1]
      exact hf

theorem forRange_fail {σ : Type} (body : ℕ → σ → Except Err σ) (S : ℕ → σ) (e : Err)
    (k n : ℕ) (hk : k < n) (hpre : ∀ j, j < k → body j (S j) = .ok (S (j + 1)))
    (hf : body k (S k) = .error e) : forRange (n : Int) body (S 0) = .error e := by
  unfold forRange
  rw [Int.toNat_ofNat]
  apply forLoop_fail body S e k n 0 hk
  · intro j _ hj
    exact hpre j (by omega)
  · rw [Nat.zero_add]
    exact hf

theorem matrix_at_below {α : Type} (m n : ℕ) (M : ℕ → ℕ → α) (i j : ℕ) (hi : m ≤ i) :
    (matrix m n M).at [(i : Int), (j : Int)] = .error .outOfBounds := by
  unfold Tensor.at
  rw [show (matrix m n M).strides = [(n : Int), 1] from rfl, flatten_pair, ok_bind,
    index_error_iff]
  right
  have h1 : m * n ≤ i * n := Nat.mul_le_mul_right n hi
  have h2 : (matrix m n M).data.length = m * n := by simp [matrix]
  rw [h2]
  exact_mod_cast (by omega : m * n ≤ i * n + j)

/-- `backward` when the output gradient has more rows than the cached input
(and the layer has at least one input and one output): the first pass reads
`cached_input` at row `cb`, outside its buffer. -/
theorem Dense.backward_reads_outside {α : Type} [LinearOrderedField α] (L : Dense α)
    (gb cb inF outF : ℕ) (X G : ℕ → ℕ → α) (hlt : cb < gb) (hi : 0 < inF) (ho : 0 < outF)
    (hin : L.in_features = (inF : Int)) (hout : L.out_features = (outF : Int))
    (hX : L.cached_input = matrix cb inF X) :
    L.backward (matrix gb outF G) = .error .outOfBounds := by
  obtain ⟨inf, outf, bobot, bias, gbobot, gbias, cinput, useBias⟩ := L
  simp only at hin hout hX
  subst hin hout hX
  unfold Dense.backward
  have hshape : (matrix gb outF G).bentuk = [(gb : Int), (outF : Int)] := rfl
  have hz : ((if useBias = true then dl.zeros [(outF : Int)] else .ok gbias) : Except Err (Tensor α))
      = .ok (if useBias then vector outF (fun _ => 0) else gbias) := by
    cases useBias
    · rfl
    · simp only [if_true]; exact zeros_single outF
  simp only [hshape, vecGet_pair_zero, ok_bind, zeros_pair, hz]
  have pass1 := forRange_fail (fun b (st : Tensor α × Tensor α) =>
      forRange (outF : Int) (fun o (st : Tensor α × Tensor α) =>
        (matrix gb outF G).at [(b : Int), (o : Int)] >>= fun grad_o =>
        (if useBias = true then
            st.2.index o >>= fun gb => st.2.indexSet o (gb + grad_o)
          else .ok st.2) >>= fun grad_bias =>
        unrolledLoop (inF : Int) (Dense.gradBobotStep (matrix cb inF X) grad_o b o) st.1
          >>= fun grad_bobot =>
        .ok (grad_bobot, grad_bias)) st)
    (fun b => (matrix outF inF (fun o i => ∑ b' in Finset.range b, G b' o * X b' i),
               if useBias then vector outF (fun o => ∑ b' in Finset.range b, G b' o)
               else gbias)) Err.outOfBounds cb gb hlt
    (fun b hb => by
      show forRange _ _ _ = _
      rw [Dense.gradPass_row_gen useBias gb cb inF outF X G _ _ gbias b (by omega) hb]
      simp only [Finset.sum_range_succ])
    (by
      show forRange _ _ _ = _
      unfold forRange
      rw [Int.toNat_ofNat]
      obtain ⟨m, rfl⟩ : ∃ m, outF = m + 1 := ⟨outF - 1, by omega⟩
      rw [forLoop_succ]
      have hstep : ((matrix gb (m + 1) G).at [(cb : Int), ((0 : ℕ) : Int)] >>= fun grad_o =>
          (if useBias = true then
              (if useBias then vector (m + 1) (fun o => ∑ b' in Finset.range cb, G b' o)
                else gbias).index ((0 : ℕ) : Int) >>= fun gb =>
              (if useBias then vector (m + 1) (fun o => ∑ b' in Finset.range cb, G b' o)
                else gbias).indexSet ((0 : ℕ) : Int) (gb + grad_o)
            else .ok (if useBias then vector (m + 1) (fun o => ∑ b' in Finset.range cb, G b' o)
                else gbias)) >>= fun grad_bias =>
          unrolledLoop (inF : Int) (Dense.gradBobotStep (matrix cb inF X) grad_o cb 0)
              (matrix (m + 1) inF (fun o i => ∑ b' in Finset.range cb, G b' o * X b' i))
            >>= fun grad_bobot =>
          (Except.ok (grad_bobot, grad_bias) : Except Err (Tensor α × Tensor α)))
          = .error .outOfBounds := by
        rw [matrix_at gb (m + 1) G cb 0 hlt (by omega), ok_bind]
        have hu : ∀ c : α, unrolledLoop (inF : Int)
            (Dense.gradBobotStep (matrix cb inF X) c cb 0)
            (matrix (m + 1) inF (fun o i => ∑ b' in Finset.range cb, G b' o * X b' i))
            = .error .outOfBounds := by
          intro c
          rw [unrolledLoop_eq_forLoop, Int.toNat_ofNat]
          obtain ⟨p, rfl⟩ : ∃ p, inF = p + 1 := ⟨inF - 1, by omega⟩
          rw [forLoop_succ]
          unfold Dense.gradBobotStep
          rw [matrix_at (m + 1) (p + 1) _ 0 0 (by omega) (by omega), ok_bind,
            matrix_at_below cb (p + 1) X cb 0 (le_refl _)]
          rfl
        cases useBias
        · simp only [Bool.false_eq_true, if_false, ok_bind, hu, error_bind]
        · simp only [if_true]
          rw [vector_index (m + 1) _ 0 (by omega), ok_bind,
            vector_indexSet (m + 1) _ 0 _ (by omega), ok_bind, hu, error_bind]
      rw [hstep]
      rfl)
  simp only [Finset.sum_range_zero] at pass1
  rw [pass1]
  rfl

/-! ## No path of `backward` reports a shape mismatch -/

theorem noMismatch_bind {β γ : Type} (x : Except Err β) (f : β → Except Err γ)
    (hx : x ≠ .error .shapeMismatch) (hf : ∀ a, f a ≠ .error .shapeMismatch) :
    (x >>= f) ≠ .error .shapeMismatch := by
  cases x with
  | error e =>
    intro h
    apply hx
    rw [error_bind] at h
    cases h
    rfl
  | ok a => rw [ok_bind]; exact hf a

theorem forLoop_noMismatch {σ : Type} (body : ℕ → σ → Except Err σ)
    (hb : ∀ i s, body i s ≠ .error .shapeMismatch) :
    ∀ (n i : ℕ) (s : σ), forLoop body n i s ≠ .error .shapeMismatch
  | 0, _, _ => by intro h; cases h
  | n + 1, i, s => by
    rw [forLoop_succ]
    exact noMismatch_bind _ _ (hb i s) (fun a => forLoop_noMismatch body hb n (i + 1) a)

theorem forRange_noMismatch {σ : Type} (n : Int) (body : ℕ → σ → Except Err σ)
    (hb : ∀ i s, body i s ≠ .error .shapeMismatch) (s : σ) :
    forRange n body s ≠ .error .shapeMismatch :=
  forLoop_noMismatch body hb _ _ _

theorem loopUnroll4_noMismatch {σ : Type} (n : Int) (step : ℕ → σ → Except Err σ)
    (hb : ∀ i s, step i s ≠ .error .shapeMismatch) :
    ∀ (fuel k : ℕ) (s : σ), loopUnroll4 n step fuel k s ≠ .error .shapeMismatch
  | 0, k, s => by
    unfold loopUnroll4
    split
    · intro h; cases h
    · intro h; cases h
  | fuel + 1, k, s => by
    unfold loopUnroll4
    split
    · exact noMismatch_bind _ _ (hb _ _) (fun a =>
        noMismatch_bind _ _ (hb _ _) (fun a =>
          noMismatch_bind _ _ (hb _ _) (fun a =>
            noMismatch_bind _ _ (hb _ _) (fun a =>
              loopUnroll4_noMismatch n step hb fuel (k + 4) a))))
    · intro h; cases h

theorem loopFrom_noMismatch {σ : Type} (n : Int) (step : ℕ → σ → Except Err σ)
    (hb : ∀ i s, step i s ≠ .error .shapeMismatch) :
    ∀ (fuel k : ℕ) (s : σ), loopFrom n step fuel k s ≠ .error .shapeMismatch
  | 0, k, s => by
    unfold loopFrom
    split
    · intro h; cases h
    · intro h; cases h
  | fuel + 1, k, s => by
    unfold loopFrom
    split
    · exact noMismatch_bind _ _ (hb _ _) (fun a => loopFrom_noMismatch n step hb fuel (k + 1) a)
    · intro h; cases h

theorem unrolledLoop_noMismatch {σ : Type} (n : Int) (step : ℕ → σ → Except Err σ)
    (hb : ∀ i s, step i s ≠ .error .shapeMismatch) (s : σ) :
    unrolledLoop n step s ≠ .error .shapeMismatch :=
  noMismatch_bind _ _ (loopUnroll4_noMismatch n step hb _ _ _)
    (fun _ => loopFrom_noMismatch n step hb _ _ _)

theorem index_noMismatch {α : Type} (t : Tensor α) (i : Int) :
    t.index i ≠ .error .shapeMismatch := by
  unfold Tensor.index
  split
  · intro h; cases h
  · split
    · intro h; cases h
    · intro h; cases h

theorem indexSet_noMismatch {α : Type} (t : Tensor α) (i : Int) (v : α) :
    t.indexSet i v ≠ .error .shapeMismatch := by
  unfold Tensor.indexSet
  split
  · intro h; cases h
  · split
    · intro h; cases h
    · intro h; cases h

theorem flatten_loop_noMismatch :
    ∀ (indices strides : List Int) (acc : Int),
      Tensor.flatten_index.loop indices strides acc ≠ .error .shapeMismatch
  | [], _, _ => by intro h; cases h
  | _ :: _, [], _ => by intro h; cases h
  | _ :: is, _ :: ss, _ => by
    unfold Tensor.flatten_index.loop
    exact flatten_loop_noMismatch is ss _

theorem at_noMismatch {α : Type} (t : Tensor α) (indices : List Int) :
    t.at indices ≠ .error .shapeMismatch :=
  noMismatch_bind _ _ (flatten_loop_noMismatch _ _ _) (fun k => index_noMismatch t k)

theorem atSet_noMismatch {α : Type} (t : Tensor α) (indices : List Int) (v : α) :
    t.atSet indices v ≠ .error .shapeMismatch :=
  noMismatch_bind _ _ (flatten_loop_noMismatch _ _ _) (fun k => indexSet_noMismatch t k v)

theorem vecGet_noMismatch {β : Type} (v : List β) (i : Int) :
    vecGet v i ≠ .error .shapeMismatch := by
  unfold vecGet
  split
  · intro h; cases h
  · split
    · intro h; cases h
    · intro h; cases h

theorem zeros_noMismatch {α : Type} [LinearOrderedField α] (shape : List Int) :
    (dl.zeros shape : Except Err (Tensor α)) ≠ .error .shapeMismatch := by
  unfold dl.zeros
  apply noMismatch_bind
  · unfold Tensor.ofShape
    split
    · intro h; cases h
    · intro h; cases h
  · intro t
    exact forRange_noMismatch _ _ (fun i s => indexSet_noMismatch s i 0) t

/-- `backward` has no path that reports a shape mismatch. -/
theorem Dense.backward_noMismatch {α : Type} [LinearOrderedField α] (L : Dense α)
    (g : Tensor α) : L.backward g ≠ .error .shapeMismatch := by
  unfold Dense.backward
  refine noMismatch_bind _ _ (vecGet_noMismatch _ _) (fun batch_size => ?_)
  refine noMismatch_bind _ _ (zeros_noMismatch _) (fun gw0 => ?_)
  refine noMismatch_bind _ _ ?_ (fun gb0 => ?_)
  · split
    · exact zeros_noMismatch _
    · intro h; cases h
  refine noMismatch_bind _ _ (zeros_noMismatch _) (fun gi0 => ?_)
  refine noMismatch_bind _ _ ?_ (fun st => ?_)
  · refine forRange_noMismatch _ _ (fun b st => ?_) _
    refine forRange_noMismatch _ _ (fun o st => ?_) _
    refine noMismatch_bind _ _ (at_noMismatch _ _) (fun grad_o => ?_)
    refine noMismatch_bind _ _ ?_ (fun gbias => ?_)
    · split
      · exact noMismatch_bind _ _ (index_noMismatch _ _) (fun a => indexSet_noMismatch _ _ _)
      · intro h; cases h
    refine noMismatch_bind _ _ ?_ (fun gw => by intro h; cases h)
    refine unrolledLoop_noMismatch _ _ (fun i s => ?_) _
    unfold Dense.gradBobotStep
    exact noMismatch_bind _ _ (at_noMismatch _ _) (fun a =>
      noMismatch_bind _ _ (at_noMismatch _ _) (fun x => atSet_noMismatch _ _ _))
  refine noMismatch_bind _ _ ?_ (fun gi => by intro h; cases h)
  refine forRange_noMismatch _ _ (fun b gi => ?_) _
  refine forRange_noMismatch _ _ (fun i gi => ?_) _
  refine noMismatch_bind _ _ ?_ (fun sum => atSet_noMismatch _ _ _)
  refine unrolledLoop_noMismatch _ _ (fun o s => ?_) _
  unfold Dense.gradInputTerm
  exact noMismatch_bind _ _ (at_noMismatch _ _) (fun a =>
    noMismatch_bind _ _ (at_noMismatch _ _) (fun x => by intro h; cases h))

/-! ## C18: `backward` and the batch dimension -/

/-- The claim C18 fails on the code: `forward` on the two-row input
`[[3, 4], [5, 6]]` leaves the layer `exCachedTwo`, whose cached input has two
rows; `backward` called next with an output gradient of one row returns
normally instead of reporting a shape mismatch, and the weight gradient
`[[3, 4], [3, 4]]` it leaves is computed from the first cached row only. -/
theorem Dense.backward_batch_counterexample :
    (exIdentity.forward ⟨[3, 4, 5, 6], [2, 2], [2, 1], false⟩).map Prod.fst = .ok exCachedTwo
    ∧ exCachedTwo.cached_input.bentuk = [2, 2] ∧ exOnes.bentuk = [1, 2]
    ∧ exCachedTwo.backward exOnes =
        .ok ({ exCachedTwo with grad_bobot := ⟨[3, 4, 3, 4], [2, 2], [2, 1], false⟩ }, exOnes) := by
  have hx : exCachedTwo.cached_input
      = matrix 2 2 (fun b k => if b = 0 then (if k = 0 then 3 else 4)
                                else (if k = 0 then 5 else 6)) := by
    simp [exCachedTwo, matrix, List.range_succ]
  have hg : exOnes = matrix 1 2 (fun _ _ => 1) := by
    simp [exOnes, matrix, List.range_succ]
  have hw : exCachedTwo.bobot = matrix 2 2 (fun o k => if o = k then 1 else 0) := by
    simp [exCachedTwo, exIdentity, matrix, List.range_succ]
  have hf := Dense.forward_matrix exIdentity 2 2 2
    (fun b k => if b = 0 then (if k = 0 then (3 : ℚ) else 4) else (if k = 0 then 5 else 6))
    (fun o k => if o = k then (1 : ℚ) else 0) (fun _ => 0) rfl rfl hw (by intro h; cases h)
  rw [← hx] at hf
  refine ⟨?_, rfl, rfl, ?_⟩
  · show (exIdentity.forward exCachedTwo.cached_input).map Prod.fst = .ok exCachedTwo
    rw [hf]
    rfl
  have h := Dense.backward_matrix_gen exCachedTwo 1 2 2 2 _ _ (fun _ _ => (1 : ℚ))
    (by decide) rfl rfl hw hx
  rw [← hg] at h
  rw [h]
  have e1 : matrix 2 2 (fun o i => ∑ b in Finset.range 1,
      (fun _ _ => (1 : ℚ)) b o * (fun b k => if b = 0 then (if k = 0 then (3 : ℚ) else 4)
                                else (if k = 0 then 5 else 6)) b i)
      = ⟨[3, 4, 3, 4], [2, 2], [2, 1], false⟩ := by
    simp [matrix, List.range_succ]
  have e2 : matrix 1 2 (fun b i => ∑ o in Finset.range 2,
      (fun _ _ => (1 : ℚ)) b o * (fun o k => if o = k then (1 : ℚ) else 0) o i) = exOnes := by
    simp [exOnes, matrix, List.range_succ, Finset.sum_range_succ]
  rw [e1, e2]
  rfl

/-- C18, amended. `backward` makes no check of the batch dimension and no call
of it reports a shape mismatch.  For a layer with an `outF × inF` weight `W`
and a cached input `X` of `cb` rows, called with an output gradient `G` of `gb`
rows: when `gb ≤ cb` it returns normally, the gradients being the sums over the
first `gb` rows only (`weight_grad[o][i] = Σ_{b < gb} G b o * X b i`,
`bias_grad[o] = Σ_{b < gb} G b o` when the bias is enabled) and the returned
input gradient having `gb` rows; when `gb > cb` and the layer has at least one
input and one output, it reads `cached_input` outside its buffer. -/
theorem Dense.backward_batch_amended {α : Type} [LinearOrderedField α] (L : Dense α)
    (gb cb inF outF : ℕ) (X W G : ℕ → ℕ → α)
    (hin : L.in_features = (inF : Int)) (hout : L.out_features = (outF : Int))
    (hW : L.bobot = matrix outF inF W) (hX : L.cached_input = matrix cb inF X) :
    (∀ g : Tensor α, L.backward g ≠ .error .shapeMismatch)
    ∧ (gb ≤ cb → L.backward (matrix gb outF G) =
        .ok ({ L with
                grad_bobot :=
                  matrix outF inF (fun o i => ∑ b in Finset.range gb, G b o * X b i),
                grad_bias :=
                  if L.gunakan_bias then vector outF (fun o => ∑ b in Finset.range gb, G b o)
                  else L.grad_bias },
             matrix gb inF (fun b i => ∑ o in Finset.range outF, G b o * W o i)))
    ∧ (cb < gb → 0 < inF → 0 < outF →
        L.backward (matrix gb outF G) = .error .outOfBounds) := by
  refine ⟨fun g => Dense.backward_noMismatch L g, fun hle => ?_, fun hlt hi ho => ?_⟩
  · rw [Dense.backward_matrix_gen L gb cb inF outF X W G hle hin hout hW hX]
    rfl
  · exact Dense.backward_reads_outside L gb cb inF outF X G hlt hi ho hin hout hX

/-- Witness of C18, amended: the identity layer with a cached input of one
row, called with an output gradient of one row (normal return) and of two rows
(read outside `cached_input`). -/
theorem Dense.backward_batch_amended_witness :
    exCachedOne.backward (matrix 1 2 (fun _ _ => (1 : ℚ))) =
        .ok ({ exCachedOne with
                grad_bobot := matrix 2 2 (fun _ i => ∑ _b in Finset.range 1,
                  (1 : ℚ) * (if i = 0 then 3 else 4)) },
             matrix 1 2 (fun _ i => ∑ o in Finset.range 2,
                  (1 : ℚ) * (if o = i then 1 else 0)))
    ∧ exCachedOne.backward (matrix 2 2 (fun _ _ => (1 : ℚ))) = .error .outOfBounds
    ∧ exCachedOne.backward exOnesTwo ≠ .error .shapeMismatch := by
  have hx : exCachedOne.cached_input = matrix 1 2 (fun _ k => if k = 0 then (3 : ℚ) else 4) := by
    simp [exCachedOne, exRow, matrix, List.range_succ]
  have hw : exCachedOne.bobot = matrix 2 2 (fun o k => if o = k then (1 : ℚ) else 0) := by
    simp [exCachedOne, exIdentity, matrix, List.range_succ]
  have h1 := Dense.backward_batch_amended exCachedOne 1 1 2 2
    (fun _ k => if k = 0 then (3 : ℚ) else 4) (fun o k => if o = k then (1 : ℚ) else 0)
    (fun _ _ => (1 : ℚ)) rfl rfl hw hx
  have h2 := Dense.backward_batch_amended exCachedOne 2 1 2 2
    (fun _ k => if k = 0 then (3 : ℚ) else 4) (fun o k => if o = k then (1 : ℚ) else 0)
    (fun _ _ => (1 : ℚ)) rfl rfl hw hx
  exact ⟨h1.2.1 (le_refl 1), h2.2.2 (by decide) (by decide) (by decide), h1.1 exOnesTwo⟩

/-! ## The dense layer: `backward` resets the gradients -/

/-- Replacing the gradients held before the call does not change the outcome
of `backward` (for a layer without bias the bias-gradient field is not touched
by `backward`, so it is kept the same). -/
theorem Dense.backward_prior_grads {α : Type} [LinearOrderedField α] (L : Dense α)
    (g gw gbias : Tensor α) (h : L.gunakan_bias = false → gbias = L.grad_bias) :
    ({ L with grad_bobot := gw, grad_bias := gbias } : Dense α).backward g = L.backward g := by
  obtain ⟨inf, outf, bobot, bias, gbobot, gbias0, cinput, useBias⟩ := L
  cases useBias
  · have e : gbias = gbias0 := h rfl
    subst e
    rfl
  · rfl

/-- The gradients left by a successful `backward(g)` are determined by `g`, the
cached input, the two dimensions and the bias flag of the layer. -/
theorem Dense.backward_grads_agree {α : Type} [LinearOrderedField α] (L L' : Dense α)
    (g : Tensor α) (r r' : Dense α × Tensor α)
    (h1 : L'.in_features = L.in_features) (h2 : L'.out_features = L.out_features)
    (h3 : L'.gunakan_bias = L.gunakan_bias) (h4 : L'.cached_input = L.cached_input)
    (h5 : L.gunakan_bias = false → L'.grad_bias = L.grad_bias)
    (hr : L.backward g = .ok r) (hr' : L'.backward g = .ok r') :
    r'.1.grad_bobot = r.1.grad_bobot ∧ r'.1.grad_bias = r.1.grad_bias := by
  obtain ⟨inf, outf, bobot, bias, gbobot, gbias, cinput, useBias⟩ := L
  obtain ⟨inf', outf', bobot', bias', gbobot', gbias', cinput', useBias'⟩ := L'
  simp only at h1 h2 h3 h4 h5
  subst h1 h2 h3 h4
  have hz : ((if useBias' = true then dl.zeros [outf'] else .ok gbias') : Except Err (Tensor α))
      = (if useBias' = true then dl.zeros [outf'] else .ok gbias) := by
    cases useBias'
    · rw [h5 rfl]
    · rfl
  unfold Dense.backward at hr hr'
  simp only [hz] at hr'
  obtain ⟨batch, hb, hr⟩ := bind_eq_ok _ _ _ hr
  obtain ⟨batch', hb', hr'⟩ := bind_eq_ok _ _ _ hr'
  rw [hb] at hb'
  cases hb'
  obtain ⟨gw0, hgw0, hr⟩ := bind_eq_ok _ _ _ hr
  obtain ⟨gw0', hgw0', hr'⟩ := bind_eq_ok _ _ _ hr'
  rw [hgw0] at hgw0'
  cases hgw0'
  obtain ⟨gb0, hgb0, hr⟩ := bind_eq_ok _ _ _ hr
  obtain ⟨gb0', hgb0', hr'⟩ := bind_eq_ok _ _ _ hr'
  rw [hgb0] at hgb0'
  cases hgb0'
  obtain ⟨gi0, hgi0, hr⟩ := bind_eq_ok _ _ _ hr
  obtain ⟨gi0', hgi0', hr'⟩ := bind_eq_ok _ _ _ hr'
  obtain ⟨st, hst, hr⟩ := bind_eq_ok _ _ _ hr
  obtain ⟨st', hst', hr'⟩ := bind_eq_ok _ _ _ hr'
  rw [hst] at hst'
  cases hst'
  obtain ⟨gi, _, hr⟩ := bind_eq_ok _ _ _ hr
  obtain ⟨gi', _, hr'⟩ := bind_eq_ok _ _ _ hr'
  cases hr
  cases hr'
  exact ⟨rfl, rfl⟩

/-- A second `backward(g)` right after a successful first one returns the same
layer and the same input gradient. -/
theorem Dense.backward_twice {α : Type} [LinearOrderedField α] (L : Dense α)
    (g : Tensor α) (r : Dense α × Tensor α) (hr : L.backward g = .ok r) :
    r.1.backward g = .ok r := by
  obtain ⟨_, _, h3, h4, h5, h6, h7, h8, h9⟩ := Dense.backward_ok_shapes L g r hr
  have e : r.1 = ({ L with grad_bobot := r.1.grad_bobot, grad_bias := r.1.grad_bias } : Dense α) := by
    obtain ⟨⟨inf', outf', bobot', bias', gbobot', gbias', cinput', useBias'⟩, gi⟩ := r
    obtain ⟨inf, outf, bobot, bias, gbobot, gbias, cinput, useBias⟩ := L
    simp only at h4 h5 h6 h7 h8 h9
    subst h4 h5 h6 h7 h8 h9
    rfl
  rw [e, Dense.backward_prior_grads L g _ _ h3]
  exact hr

/-! ## C19: `backward` overwrites the gradients -/

/-- C19. `backward(g)` resets the gradients before it accumulates.  Replacing
the gradients held before the call by any others leaves the whole outcome of
`backward(g)` unchanged (a layer without bias has no bias gradient: `backward`
does not touch that field, which holds the default-constructed tensor in every
state the class builds, so it is kept the same); the gradients left by two
successful calls on layers of the same dimensions and bias flag that hold the
same cached input are the same, whatever their weights, biases and previous
gradients; and a second `backward(g)` right after a successful first one leaves
the same layer and returns the same input gradient. -/
theorem Dense.backward_overwrites {α : Type} [LinearOrderedField α] (L : Dense α)
    (g gw gbias : Tensor α) (h : L.gunakan_bias = false → gbias = L.grad_bias) :
    ({ L with grad_bobot := gw, grad_bias := gbias } : Dense α).backward g = L.backward g
    ∧ (∀ (L' : Dense α) (r r' : Dense α × Tensor α),
        L'.in_features = L.in_features → L'.out_features = L.out_features →
        L'.gunakan_bias = L.gunakan_bias → L'.cached_input = L.cached_input →
        (L.gunakan_bias = false → L'.grad_bias = L.grad_bias) →
        L.backward g = .ok r → L'.backward g = .ok r' →
        r'.1.grad_bobot = r.1.grad_bobot ∧ r'.1.grad_bias = r.1.grad_bias)
    ∧ (∀ r, L.backward g = .ok r → r.1.backward g = .ok r) :=
  ⟨Dense.backward_prior_grads L g gw gbias h,
   fun L' r r' h1 h2 h3 h4 h5 hr hr' =>
     Dense.backward_grads_agree L L' g r r' h1 h2 h3 h4 h5 hr hr',
   fun r hr => Dense.backward_twice L g r hr⟩

/-- Witness of C19: the layer `Dense(1, 1)` with bias, cached input `[[3]]` and
stale gradients `[[7]]`, `[9]`: `backward([[2]])` leaves `weight_grad = [[6]]`,
`bias_grad = [2]`, and a second call leaves the same. -/
theorem Dense.backward_overwrites_witness :
    ({ exBiasedCached with grad_bobot := exCell 7, grad_bias := exScalar 9 } : Dense ℚ).backward
        (exCell 2)
      = .ok ({ exBiasedCached with grad_bobot := exCell 6, grad_bias := exScalar 2 }, exCell 2)
    ∧ ({ exBiasedCached with grad_bobot := exCell 6, grad_bias := exScalar 2 } : Dense ℚ).backward
        (exCell 2)
      = .ok ({ exBiasedCached with grad_bobot := exCell 6, grad_bias := exScalar 2 }, exCell 2) := by
  have hb : exBiasedCached.backward (exCell 2)
      = .ok ({ exBiasedCached with grad_bobot := exCell 6, grad_bias := exScalar 2 },
             exCell 2) := by
    have hw : exBiasedCached.bobot = matrix 1 1 (fun _ _ => (1 : ℚ)) := exCell_eq_matrix 1
    have hx : exBiasedCached.cached_input = matrix 1 1 (fun _ _ => (3 : ℚ)) := exCell_eq_matrix 3
    have h := Dense.backward_matrix_gen exBiasedCached 1 1 1 1 (fun _ _ => (3 : ℚ))
      (fun _ _ => (1 : ℚ)) (fun _ _ => (2 : ℚ)) (le_refl 1) rfl rfl hw hx
    rw [← exCell_eq_matrix 2] at h
    rw [h]
    have e1 : matrix 1 1 (fun _ _ => ∑ _b in Finset.range 1, (2 : ℚ) * 3) = exCell 6 := by
      rw [exCell_eq_matrix]
      apply matrix_congr
      intro _ _ _ _
      norm_num
    have e2 : Dense.biasGradAfter exBiasedCached.gunakan_bias 1 (fun _ _ => (2 : ℚ))
        exBiasedCached.grad_bias 1 = exScalar 2 := by
      rw [exScalar_eq_vector]
      show vector 1 _ = _
      apply vector_congr
      intro _ _
      simp
    have e3 : matrix 1 1 (fun _ _ => ∑ _o in Finset.range 1, (2 : ℚ) * 1) = exCell 2 := by
      rw [exCell_eq_matrix]
      apply matrix_congr
      intro _ _ _ _
      norm_num
    rw [e1, e2, e3]
  have h := Dense.backward_overwrites exBiasedCached (exCell 2) (exCell 7) (exScalar 9)
    (fun h => absurd h (by decide))
  have h2 := h.2.2 _ hb
  simp only at h2
  exact ⟨h.1.trans hb, h2⟩

/-! ## C20: the clamp of the binary cross-entropy -/

/-- C20. For every `v` the clamped value `p = std::max(eps, std::min(1 - eps, v))`
with `eps = 1e-7`, the `p` of both `BinaryCrossEnrtopy::forward` and
`BinaryCrossEnrtopy::backward`, is `max(eps, min(1 - eps, v))` and satisfies
`eps ≤ p ≤ 1 - eps`; hence the two logarithm arguments `p` and `1 - p` are
strictly positive and the divisor `p * (1 - p)` is strictly positive, never
zero. -/
theorem BinaryCrossEnrtopy.clamp_guard {α : Type} [LinearOrderedField α] (v : α) :
    (BinaryCrossEnrtopy.eps : α) = 1 / 10 ^ 7
    ∧ BinaryCrossEnrtopy.clamp v
        = max BinaryCrossEnrtopy.eps (min (1 - BinaryCrossEnrtopy.eps) v)
    ∧ BinaryCrossEnrtopy.eps ≤ BinaryCrossEnrtopy.clamp v
    ∧ BinaryCrossEnrtopy.clamp v ≤ 1 - BinaryCrossEnrtopy.eps
    ∧ 0 < BinaryCrossEnrtopy.clamp v
    ∧ 0 < 1 - BinaryCrossEnrtopy.clamp v
    ∧ 0 < BinaryCrossEnrtopy.clamp v * (1 - BinaryCrossEnrtopy.clamp v)
    ∧ BinaryCrossEnrtopy.clamp v * (1 - BinaryCrossEnrtopy.clamp v) ≠ 0 := by
  have he : (BinaryCrossEnrtopy.eps : α) = 1 / 10 ^ 7 := rfl
  have hpos : (0 : α) < BinaryCrossEnrtopy.eps := by
    rw [he]
    positivity
  have hhalf : (BinaryCrossEnrtopy.eps : α) ≤ 1 - BinaryCrossEnrtopy.eps := by
    rw [he]
    norm_num
  have hc : BinaryCrossEnrtopy.clamp v
      = max BinaryCrossEnrtopy.eps (min (1 - BinaryCrossEnrtopy.eps) v) := by
    rw [BinaryCrossEnrtopy.clamp_eq, he]
  have h1 : BinaryCrossEnrtopy.eps ≤ BinaryCrossEnrtopy.clamp v := by
    rw [hc]
    exact le_max_left _ _
  have h2 : BinaryCrossEnrtopy.clamp v ≤ 1 - BinaryCrossEnrtopy.eps := by
    rw [hc]
    exact max_le hhalf (min_le_left _ _)
  have h3 : 0 < BinaryCrossEnrtopy.clamp v := lt_of_lt_of_le hpos h1
  have h4 : 0 < 1 - BinaryCrossEnrtopy.clamp v := by linarith
  exact ⟨he, hc, h1, h2, h3, h4, mul_pos h3 h4, ne_of_gt (mul_pos h3 h4)⟩

/-! ## The first Adam step -/

/-- C23. `predict(input)` is `forward(input)`.  When it returns, the dense
layers differ from those before the call at most in their cached input (so
every weight, bias, gradient, dimension and bias flag is unchanged), and the
optimizers, the stage list and the learning rate are unchanged; a second
`predict(input)` on the network it leaves returns too, with the same output,
the same caches, and the same parameters. -/
theorem NeuralNetwork.predict_idempotent {α : Type} [LinearOrderedField α] (sexp : α → α)
    (N N1 : NeuralNetwork α) (input out : Tensor α)
    (h : N.predict sexp input = .ok (N1, out)) :
    N.predict sexp input = N.forward sexp input
    ∧ N1.dense_layers.map Dense.eraseCache = N.dense_layers.map Dense.eraseCache
    ∧ N1.optimizers = N.optimizers ∧ N1.layer_order = N.layer_order
    ∧ N1.learning_rate = N.learning_rate
    ∧ ∃ N2, N1.predict sexp input = .ok (N2, out)
        ∧ N2.activations = N1.activations ∧ N2.pre_activations = N1.pre_activations
        ∧ N2.dense_layers.map Dense.eraseCache = N.dense_layers.map Dense.eraseCache
        ∧ N2.optimizers = N.optimizers ∧ N2.layer_order = N.layer_order := by
  obtain ⟨ys, ht, ho, ha, hp, hd, hl, hopt, hlr⟩ :=
    NeuralNetwork.forward_ok_trace sexp N N1 input out h
  refine ⟨rfl, hd, hopt, hl, hlr, ?_⟩
  have ht1 : NeuralNetwork.forwardTrace sexp N1.dense_layers N1.layer_order input = .ok ys := by
    rw [hl, NeuralNetwork.forwardTrace_congr sexp N1.dense_layers N.dense_layers hd]
    exact ht
  obtain ⟨N2, h2, ha2, hp2, hd2, hl2, hopt2, _⟩ :=
    (NeuralNetwork.forward_eq_trace sexp N1 input).1 ys ht1
  refine ⟨N2, ?_, ha2.trans ha.symm, hp2.trans hp.symm, hd2.trans hd, hopt2.trans hopt,
    hl2.trans hl⟩
  rw [ho]
  exact h2

/-- Witness of C23: `predict` on `Dense(2, 2) → ReLU` with the input `[[3, 4]]`
returns `[[3, 4]]`, and so does a second call. -/
theorem NeuralNetwork.predict_idempotent_witness :
    ∃ N1 N2, exNet.predict (fun x => x) exRow = .ok (N1, exRow)
      ∧ N1.predict (fun x => x) exRow = .ok (N2, exRow)
      ∧ N1.optimizers = exNet.optimizers := by
  obtain ⟨N1, h⟩ := exNet_forward
  obtain ⟨_, _, ho, _, _, N2, h2, _⟩ :=
    NeuralNetwork.predict_idempotent (fun x => x) exNet N1 exRow exRow h
  exact ⟨N1, N2, h, h2, ho⟩

/-! ## Round trips of the element-wise operators in exact arithmetic -/

theorem zipWith_add_sub {α : Type} [LinearOrderedField α] :
    ∀ (l r : List α), l.length ≤ r.length →
      List.zipWith (· - ·) (List.zipWith (· + ·) l r) r = l
  | [], _, _ => by simp
  | _ :: _, [], h => by simp at h
  | a :: l, b :: r, h => by
    simp only [List.zipWith_cons_cons, add_sub_cancel_right]
    rw [zipWith_add_sub l r (by simpa using h)]

theorem zipWith_mul_div {α : Type} [LinearOrderedField α] :
    ∀ (l r : List α) (i : ℕ) (x y : α), l[i]? = some x → r[i]? = some y → y ≠ 0 →
      (List.zipWith (· / ·) (List.zipWith (· * ·) l r) r)[i]? = some x
  | [], _, i, x, y, hx, _, _ => by simp at hx
  | _ :: _, [], i, x, y, _, hy, _ => by simp at hy
  | a :: l, b :: r, 0, x, y, hx, hy, h0 => by
    simp only [List.getElem?_cons_zero, Option.some.injEq] at hx hy
    subst hx hy
    simp only [List.zipWith_cons_cons, List.getElem?_cons_zero, Option.some.injEq]
    exact mul_div_cancel_right₀ a h0
  | a :: l, b :: r, i + 1, x, y, hx, hy, h0 => by
    simp only [List.getElem?_cons_succ] at hx hy
    simp only [List.zipWith_cons_cons, List.getElem?_cons_succ]
    exact zipWith_mul_div l r i x y hx hy h0

/-- In exact arithmetic (a linearly ordered field in place of `double`), for
every tensor `t` and scalar `s`, `(t + s) - s` returns `t` itself (same shape,
same elements); and for every two tensors `a`, `b` of equal shape that satisfy
the size invariant (more generally, whenever the buffer of `b` is at least as
long as that of `a`), `(a + b) - b` returns `a` itself. -/
theorem Tensor.add_sub_field {α : Type} [LinearOrderedField α] (t a b : Tensor α) (s : α) :
    (t.addScalar s >>= fun u => u.subScalar s) = .ok t
    ∧ (a.bentuk = b.bentuk → a.data.length ≤ b.data.length →
        (a.add b >>= fun u => u.sub b) = .ok a)
    ∧ (a.bentuk = b.bentuk → a.Sized → b.Sized →
        (a.add b >>= fun u => u.sub b) = .ok a) := by
  have h2 : a.bentuk = b.bentuk → a.data.length ≤ b.data.length →
      (a.add b >>= fun u => u.sub b) = .ok a := by
    intro hs hl
    rw [add_eq a b hs hl, ok_bind,
      sub_eq { a with data := List.zipWith (· + ·) a.data b.data } b hs (by simp [hl])]
    simp only [zipWith_add_sub a.data b.data hl]
  refine ⟨?_, h2, fun hs ha hb => h2 hs (le_of_eq (sized_length_eq a b ha hb hs))⟩
  rw [addScalar_eq, ok_bind]
  unfold Tensor.subScalar Tensor.subAssignScalar
  rw [compoundScalar_eq]
  simp only [List.map_map]
  have e : ((fun x => x - s) ∘ fun x => x + s) = id := by
    funext x
    simp
  rw [e, List.map_id]

/-- Over the rational numbers, `([1, 2] + 5) - 5 = [1, 2]` and
`([1, 2] + [3, 4]) - [3, 4] = [1, 2]`. -/
theorem Tensor.add_sub_field_rat :
    (exPair.addScalar 5 >>= fun u => u.subScalar 5) = .ok exPair
    ∧ (exPair.add exPair2 >>= fun u => u.sub exPair2) = .ok exPair :=
  ⟨(Tensor.add_sub_field exPair exPair exPair2 5).1,
   (Tensor.add_sub_field exPair exPair exPair2 5).2.2 rfl rfl rfl⟩

/-- In exact arithmetic (a linearly ordered field in place of `double`), for
every two tensors `a`, `b` of equal shape that satisfy the size invariant,
`(a * b) / b` returns a tensor with the shape (and strides) of `a` and as many
elements, whose element `i` equals `a[i]` at every position `i` where
`b[i] ≠ 0`. -/
theorem Tensor.mul_div_field {α : Type} [LinearOrderedField α] (a b : Tensor α)
    (hs : a.bentuk = b.bentuk) (ha : a.Sized) (hb : b.Sized) :
    ∃ r, (a.mul b >>= fun u => u.div b) = .ok r
      ∧ r.bentuk = a.bentuk ∧ r.strides = a.strides ∧ r.data.length = a.data.length
      ∧ ∀ (i : ℕ) (x y : α), a.data[i]? = some x → b.data[i]? = some y → y ≠ 0 →
          r.data[i]? = some x := by
  have hl := sized_length_eq a b ha hb hs
  refine ⟨{ a with data := List.zipWith (· / ·) (List.zipWith (· * ·) a.data b.data) b.data },
    ?_, rfl, rfl, by simp [hl], fun i x y hx hy h0 => zipWith_mul_div a.data b.data i x y hx hy h0⟩
  rw [mul_eq a b hs (le_of_eq hl), ok_bind,
    div_eq { a with data := List.zipWith (· * ·) a.data b.data } b hs (by simp [hl])]

/-- Over the rational numbers, `([1, 2] * [3, 4]) / [3, 4]` has the elements
`1` and `2`. -/
theorem Tensor.mul_div_field_rat :
    ∃ r, (exPair.mul exPair2 >>= fun u => u.div exPair2) = .ok r
      ∧ r.bentuk = [2] ∧ r.data[0]? = some 1 ∧ r.data[1]? = some 2 := by
  obtain ⟨r, h, hb, _, _, he⟩ := Tensor.mul_div_field exPair exPair2 rfl rfl rfl
  exact ⟨r, h, hb, he 0 1 3 rfl rfl (by norm_num), he 1 2 4 rfl rfl (by norm_num)⟩

/-! ## The optimizer pass of the network -/

/-- An invariant indexed by the loop counter is carried through a counted loop
that returns. -/
theorem forLoop_inv_idx {σ : Type} (body : ℕ → σ → Except Err σ) (P : ℕ → σ → Prop) :
    ∀ (n i : ℕ) (s s' : σ),
      (∀ j t t', i ≤ j → j < i + n → P j t → body j t = .ok t' → P (j + 1) t') →
      P i s → forLoop body n i s = .ok s' → P (i + n) s'
  | 0, _, s, s', _, hP, h => by
    simp only [forLoop, Except.ok.injEq] at h
    subst h
    exact hP
  | n + 1, i, s, s', hstep, hP, h => by
    rw [forLoop_succ] at h
    obtain ⟨s1, h1, h2⟩ := bind_eq_ok _ _ _ h
    have := forLoop_inv_idx body P n (i + 1) s1 s'
      (fun j t t' hj1 hj2 => hstep j t t' (by omega) (by omega))
      (hstep i s s1 (le_refl i) (by omega) hP h1) h2
    have e : i + 1 + n = i + (n + 1) := by omega
    rw [e] at this
    exact this

/-- A counted loop returns when every iteration returns under an invariant
indexed by the loop counter. -/
theorem forLoop_total_idx {σ : Type} (body : ℕ → σ → Except Err σ) (P : ℕ → σ → Prop) :
    ∀ (n i : ℕ) (s : σ),
      (∀ j t, i ≤ j → j < i + n → P j t → ∃ t', body j t = .ok t' ∧ P (j + 1) t') →
      P i s → ∃ s', forLoop body n i s = .ok s' ∧ P (i + n) s'
  | 0, _, s, _, hP => ⟨s, rfl, hP⟩
  | n + 1, i, s, hstep, hP => by
    obtain ⟨s1, h1, hP1⟩ := hstep i s (le_refl i) (by omega) hP
    obtain ⟨s', h2, hP2⟩ := forLoop_total_idx body P n (i + 1) s1
      (fun j t hj1 hj2 => hstep j t (by omega) (by omega)) hP1
    have e : i + 1 + n = i + (n + 1) := by omega
    rw [e] at hP2
    exact ⟨s', by rw [forLoop_succ, h1, ok_bind, h2], hP2⟩

theorem vecSet_nat {β : Type} (v : List β) (i : ℕ) (x : β) (h : i < v.length) :
    vecSet v (i : Int) x = .ok (v.set i x) := by
  unfold vecSet
  have h0 : ¬ ((i : Int) < 0) := by omega
  simp [h0, h]

theorem vecGet_nat_ok {β : Type} (v : List β) (i : ℕ) (x : β) (h : vecGet v (i : Int) = .ok x) :
    i < v.length ∧ v[i]? = some x := by
  obtain ⟨_, h1, h2⟩ := vecGet_eq_ok v _ x h
  simpa using And.intro h1 h2

/-- One iteration of the loop of `optimisasi`, when the layer, the optimizer
and the result of `update` are known. -/
theorem NeuralNetwork.optimisasiStep_eq {α : Type} [LinearOrderedField α] (ssqrt : α → α)
    (i : ℕ) (M : NeuralNetwork α) (L : Dense α) (A : adam α) (r : adam α × Tensor α × Tensor α)
    (hL : M.dense_layers[i]? = some L) (hA : M.optimizers[i]? = some A)
    (hr : A.update ssqrt L.bobot L.grad_bobot L.bias L.grad_bias = .ok r) :
    NeuralNetwork.optimisasiStep ssqrt i M =
      .ok { M with dense_layers := M.dense_layers.set i { L with bobot := r.2.1, bias := r.2.2 },
                   optimizers := M.optimizers.set i r.1 } := by
  have hl1 : i < M.dense_layers.length := by
    by_contra hc
    rw [List.getElem?_eq_none (not_lt.mp hc)] at hL
    cases hL
  have hl2 : i < M.optimizers.length := by
    by_contra hc
    rw [List.getElem?_eq_none (not_lt.mp hc)] at hA
    cases hA
  unfold NeuralNetwork.optimisasiStep
  rw [vecGet_nat _ i L hL, ok_bind, vecGet_nat _ i A hA, ok_bind, hr, ok_bind,
    vecSet_nat _ i _ hl2, ok_bind, vecSet_nat _ i _ hl1, ok_bind]
  rfl

/-- One iteration of the loop of `optimisasi` that returns. -/
theorem NeuralNetwork.optimisasiStep_ok {α : Type} [LinearOrderedField α] (ssqrt : α → α)
    (i : ℕ) (M M' : NeuralNetwork α) (h : NeuralNetwork.optimisasiStep ssqrt i M = .ok M') :
    ∃ L A r, M.dense_layers[i]? = some L ∧ M.optimizers[i]? = some A
      ∧ A.update ssqrt L.bobot L.grad_bobot L.bias L.grad_bias = .ok r
      ∧ M' = { M with
                dense_layers := M.dense_layers.set i { L with bobot := r.2.1, bias := r.2.2 },
                optimizers := M.optimizers.set i r.1 } := by
  have h0 := h
  unfold NeuralNetwork.optimisasiStep at h
  obtain ⟨L, hL, h⟩ := bind_eq_ok _ _ _ h
  obtain ⟨A, hA, h⟩ := bind_eq_ok _ _ _ h
  obtain ⟨r, hr, _⟩ := bind_eq_ok _ _ _ h
  obtain ⟨_, hL2⟩ := vecGet_nat_ok _ i L hL
  obtain ⟨_, hA2⟩ := vecGet_nat_ok _ i A hA
  refine ⟨L, A, r, hL2, hA2, hr, ?_⟩
  rw [NeuralNetwork.optimisasiStep_eq ssqrt i M L A r hL2 hA2 hr] at h0
  exact (Except.ok.inj h0).symm

/-- One iteration of the loop of `optimisasi` extends the handled prefix. -/
theorem NeuralNetwork.optimizedUpTo_step {α : Type} [LinearOrderedField α] (ssqrt : α → α)
    (N : NeuralNetwork α) (k : ℕ) (M M' : NeuralNetwork α)
    (hP : NeuralNetwork.OptimizedUpTo ssqrt N k M)
    (h : NeuralNetwork.optimisasiStep ssqrt k M = .ok M') :
    NeuralNetwork.OptimizedUpTo ssqrt N (k + 1) M' := by
  obtain ⟨L, A, r, hL, hA, hr, rfl⟩ := NeuralNetwork.optimisasiStep_ok ssqrt k M M' h
  obtain ⟨p1, p2, p3, p4, p5, p6, p7, p8⟩ := hP
  have hl1 : k < M.dense_layers.length := by
    by_contra hc
    rw [List.getElem?_eq_none (not_lt.mp hc)] at hL
    cases hL
  have hl2 : k < M.optimizers.length := by
    by_contra hc
    rw [List.getElem?_eq_none (not_lt.mp hc)] at hA
    cases hA
  refine ⟨p1, p2, p3, p4, by simp [p5], by simp [p6], ?_, ?_⟩
  · intro i L0 hi hL0
    by_cases hik : i = k
    · subst hik
      have e1 := (p8 i (le_refl i)).1
      have e2 := (p8 i (le_refl i)).2
      rw [hL, hL0] at e1
      have e1' : L = L0 := Option.some.inj e1
      subst e1'
      refine ⟨A, r, by rw [← e2, hA], hr, ?_, ?_⟩
      · simp [List.getElem?_set, hl1]
      · simp [List.getElem?_set, hl2]
    · obtain ⟨A0, r0, q1, q2, q3, q4⟩ := p7 i L0 (by omega) hL0
      refine ⟨A0, r0, q1, q2, ?_, ?_⟩
      · simp only []
        rw [List.getElem?_set_ne (Ne.symm hik)]
        exact q3
      · simp only []
        rw [List.getElem?_set_ne (Ne.symm hik)]
        exact q4
  · intro i hi
    have hik : k ≠ i := by omega
    simp only []
    rw [List.getElem?_set_ne hik, List.getElem?_set_ne hik]
    exact p8 i (by omega)

/-- When `optimisasi` returns, every dense layer and its optimizer have been
handled. -/
theorem NeuralNetwork.optimisasi_ok {α : Type} [LinearOrderedField α] (ssqrt : α → α)
    (N N' : NeuralNetwork α) (h : N.optimisasi ssqrt = .ok N') :
    NeuralNetwork.OptimizedUpTo ssqrt N N.dense_layers.length N' := by
  have key := forLoop_inv_idx (NeuralNetwork.optimisasiStep ssqrt)
    (NeuralNetwork.OptimizedUpTo ssqrt N) N.dense_layers.length 0 N N'
    (fun j t t' _ _ hP hb => NeuralNetwork.optimizedUpTo_step ssqrt N j t t' hP hb)
    ⟨rfl, rfl, rfl, rfl, rfl, rfl, fun i L hi => absurd hi (by omega), fun i _ => ⟨rfl, rfl⟩⟩ h
  simpa using key

/-- `optimisasi` returns when there is an optimizer for every dense layer and
every `update` it makes returns. -/
theorem NeuralNetwork.optimisasi_total {α : Type} [LinearOrderedField α] (ssqrt : α → α)
    (N : NeuralNetwork α) (hlen : N.dense_layers.length ≤ N.optimizers.length)
    (hupd : ∀ (i : ℕ) (L : Dense α) (A : adam α), N.dense_layers[i]? = some L →
      N.optimizers[i]? = some A →
      ∃ r, A.update ssqrt L.bobot L.grad_bobot L.bias L.grad_bias = .ok r) :
    ∃ N', N.optimisasi ssqrt = .ok N' := by
  obtain ⟨N', h, _⟩ := forLoop_total_idx (NeuralNetwork.optimisasiStep ssqrt)
    (NeuralNetwork.OptimizedUpTo ssqrt N) N.dense_layers.length 0 N
    (fun j t hj1 hj2 hP => by
      have hj : j < N.dense_layers.length := by omega
      obtain ⟨e1, e2⟩ := hP.2.2.2.2.2.2.2 j (le_refl j)
      have hL : N.dense_layers[j]? = some N.dense_layers[j] := List.getElem?_eq_getElem hj
      have hA : N.optimizers[j]? = some (N.optimizers.get ⟨j, by omega⟩) :=
        List.getElem?_eq_getElem (by omega)
      obtain ⟨r, hr⟩ := hupd j _ _ hL hA
      have hs := NeuralNetwork.optimisasiStep_eq ssqrt j t _ _ r (e1.trans hL) (e2.trans hA) hr
      exact ⟨_, hs, NeuralNetwork.optimizedUpTo_step ssqrt N j t _ hP hs⟩)
    ⟨rfl, rfl, rfl, rfl, rfl, rfl, fun i L hi => absurd hi (by omega), fun i _ => ⟨rfl, rfl⟩⟩
  exact ⟨N', h⟩

/-! ## C27: `optimisasi` -/

/-- C27. Whenever `optimisasi()` returns, for every dense layer `i` the layer
holds the weight and bias that `optimizers[i].update` returns on that layer's
weight, weight gradient, bias and bias gradient as they were before the call,
every other field of the layer (gradients, cached input, dimensions, bias flag)
is unchanged, and optimizer `i` is the one that `update` leaves; optimizers
beyond the dense layers, the stage list, the forward caches and the learning
rate are unchanged.  And `optimisasi()` does return when there is an optimizer
for every dense layer and each of these `update` calls returns. -/
theorem NeuralNetwork.optimize_effect {α : Type} [LinearOrderedField α] (ssqrt : α → α)
    (N : NeuralNetwork α) :
    (∀ N', N.optimisasi ssqrt = .ok N' →
      (∀ (i : ℕ) (L : Dense α), N.dense_layers[i]? = some L →
        ∃ A r, N.optimizers[i]? = some A
          ∧ A.update ssqrt L.bobot L.grad_bobot L.bias L.grad_bias = .ok r
          ∧ N'.dense_layers[i]? = some { L with bobot := r.2.1, bias := r.2.2 }
          ∧ N'.optimizers[i]? = some r.1)
      ∧ N'.dense_layers.length = N.dense_layers.length
      ∧ N'.optimizers.length = N.optimizers.length
      ∧ (∀ j : ℕ, N.dense_layers.length ≤ j → N'.optimizers[j]? = N.optimizers[j]?)
      ∧ N'.layer_order = N.layer_order ∧ N'.activations = N.activations
      ∧ N'.pre_activations = N.pre_activations ∧ N'.learning_rate = N.learning_rate)
    ∧ (N.dense_layers.length ≤ N.optimizers.length →
        (∀ (i : ℕ) (L : Dense α) (A : adam α), N.dense_layers[i]? = some L →
          N.optimizers[i]? = some A →
          ∃ r, A.update ssqrt L.bobot L.grad_bobot L.bias L.grad_bias = .ok r) →
        ∃ N', N.optimisasi ssqrt = .ok N') := by
  refine ⟨fun N' h => ?_, fun hlen hupd => NeuralNetwork.optimisasi_total ssqrt N hlen hupd⟩
  obtain ⟨p1, p2, p3, p4, p5, p6, p7, p8⟩ := NeuralNetwork.optimisasi_ok ssqrt N N' h
  refine ⟨fun i L hL => ?_, p5, p6, fun j hj => (p8 j hj).2, p1, p2, p3, p4⟩
  have hi : i < N.dense_layers.length := by
    by_contra hc
    rw [List.getElem?_eq_none (not_lt.mp hc)] at hL
    cases hL
  exact p7 i L hi hL

/-- Witness of C27: on the network `Dense(1, 1)` with zero gradients and a
fresh optimizer, `optimisasi` returns and leaves one layer, one optimizer and
the stage list as they were. -/
theorem NeuralNetwork.optimize_effect_witness :
    ∃ N', exTrainNet.optimisasi (fun x => x) = .ok N'
      ∧ N'.dense_layers.length = 1 ∧ N'.optimizers.length = 1
      ∧ N'.layer_order = exTrainNet.layer_order := by
  have hT := NeuralNetwork.optimize_effect (fun x : ℚ => x) exTrainNet
  obtain ⟨N', h⟩ := hT.2 (le_refl _) (fun i L A hL hA => by
    cases i with
    | zero =>
      simp only [exTrainNet, List.getElem?_cons_zero, Option.some.injEq] at hL hA
      subst hL hA
      exact ⟨_, adam.update_eq (fun x => x) exAdam exBiased.bobot exBiased.grad_bobot
        exBiased.bias exBiased.grad_bias ⟨rfl, rfl, rfl⟩ ⟨rfl, rfl, rfl⟩ (by intro h; cases h)⟩
    | succ i => simp [exTrainNet] at hL)
  obtain ⟨_, h1, h2, _, h3, _⟩ := hT.1 N' h
  exact ⟨N', h, h1, h2, h3⟩

/-! ## Construction of the network -/

theorem NeuralNetwork.tambah_dense_ok {α : Type} [LinearOrderedField α] (M M' : NeuralNetwork α)
    (i o : Int) (b : Bool) (k : Tensor α) (h : M.tambah_dense i o b k = .ok M') :
    ∃ L, Dense.new i o b k = .ok L
      ∧ M'.dense_layers = M.dense_layers ++ [L]
      ∧ M'.optimizers = M.optimizers ++ [adam.newDefault M.learning_rate]
      ∧ M'.layer_order = M.layer_order ++ [⟨LayerType.DENSE, (M.dense_layers.length : Int)⟩]
      ∧ M'.activations = M.activations ∧ M'.pre_activations = M.pre_activations
      ∧ M'.learning_rate = M.learning_rate := by
  unfold NeuralNetwork.tambah_dense at h
  obtain ⟨L, hL, h⟩ := bind_eq_ok _ _ _ h
  simp only [Except.ok.injEq] at h
  subst h
  refine ⟨L, hL, rfl, rfl, ?_, rfl, rfl, rfl⟩
  simp

theorem NeuralNetwork.denseIndices_append {α : Type} (N : NeuralNetwork α) (info : LayerInfo)
    (M : NeuralNetwork α) (h : M.layer_order = N.layer_order ++ [info]) :
    M.denseIndices =
      N.denseIndices ++ (if info.type = LayerType.DENSE then [info.dense_index] else []) := by
  unfold NeuralNetwork.denseIndices
  rw [h, List.filter_append, List.map_append]
  congr 1
  by_cases ht : info.type = LayerType.DENSE
  · simp [ht]
  · simp [ht]

/-- Every construction call keeps the construction invariant. -/
theorem NeuralNetwork.wellIndexed_call {α : Type} [LinearOrderedField α] (M M' : NeuralNetwork α)
    (c : BuildCall α) (hM : M.WellIndexed) (h : M.call c = .ok M') : M'.WellIndexed := by
  obtain ⟨h1, h2⟩ := hM
  cases c with
  | dense i o b k =>
    obtain ⟨L, _, e1, e2, e3, _⟩ := NeuralNetwork.tambah_dense_ok M M' i o b k h
    refine ⟨by rw [e1, e2]; simp [h1], ?_⟩
    rw [NeuralNetwork.denseIndices_append M _ M' e3, h2, e1]
    simp [List.range_succ]
  | relu =>
    simp only [NeuralNetwork.call, Except.ok.injEq] at h
    subst h
    refine ⟨h1, ?_⟩
    rw [NeuralNetwork.denseIndices_append M ⟨LayerType.RELU, -1⟩ M.tambah_relu rfl, h2]
    simp [NeuralNetwork.tambah_relu]
  | sigmoid =>
    simp only [NeuralNetwork.call, Except.ok.injEq] at h
    subst h
    refine ⟨h1, ?_⟩
    rw [NeuralNetwork.denseIndices_append M ⟨LayerType.SIGMOID, -1⟩ M.tambah_sigmoid rfl, h2]
    simp [NeuralNetwork.tambah_sigmoid]

theorem NeuralNetwork.call_stage {α : Type} [LinearOrderedField α] (M M' : NeuralNetwork α)
    (c : BuildCall α) (h : M.call c = .ok M') :
    M'.layer_order.length = M.layer_order.length + 1 := by
  cases c with
  | dense i o b k =>
    obtain ⟨L, _, _, _, e3, _⟩ := NeuralNetwork.tambah_dense_ok M M' i o b k h
    rw [e3]
    simp
  | relu =>
    simp only [NeuralNetwork.call, Except.ok.injEq] at h
    subst h
    simp [NeuralNetwork.tambah_relu]
  | sigmoid =>
    simp only [NeuralNetwork.call, Except.ok.injEq] at h
    subst h
    simp [NeuralNetwork.tambah_sigmoid]

/-- A property kept by every construction call holds after any sequence of
calls. -/
theorem NeuralNetwork.calls_inv {α : Type} [LinearOrderedField α]
    (P : NeuralNetwork α → Prop) (Q : BuildCall α → Prop)
    (hstep : ∀ M M' c, Q c → P M → M.call c = .ok M' → P M') :
    ∀ (cs : List (BuildCall α)) (M M' : NeuralNetwork α), (∀ c ∈ cs, Q c) → P M →
      M.calls cs = .ok M' → P M'
  | [], M, M', _, hP, h => by
    simp only [NeuralNetwork.calls, Except.ok.injEq] at h
    subst h
    exact hP
  | c :: cs, M, M', hQ, hP, h => by
    unfold NeuralNetwork.calls at h
    obtain ⟨M1, h1, h2⟩ := bind_eq_ok _ _ _ h
    exact NeuralNetwork.calls_inv P Q hstep cs M1 M'
      (fun c' hc' => hQ c' (List.mem_cons_of_mem _ hc'))
      (hstep M M1 c (hQ c (List.mem_cons_self _ _)) hP h1) h2

theorem NeuralNetwork.calls_stages {α : Type} [LinearOrderedField α] :
    ∀ (cs : List (BuildCall α)) (M M' : NeuralNetwork α), M.calls cs = .ok M' →
      M'.layer_order.length = M.layer_order.length + cs.length
  | [], M, M', h => by
    simp only [NeuralNetwork.calls, Except.ok.injEq] at h
    subst h
    rfl
  | c :: cs, M, M', h => by
    unfold NeuralNetwork.calls at h
    obtain ⟨M1, h1, h2⟩ := bind_eq_ok _ _ _ h
    rw [NeuralNetwork.calls_stages cs M1 M' h2, NeuralNetwork.call_stage M M1 c h1]
    simp only [List.length_cons]
    omega

theorem NeuralNetwork.wellIndexed_valid {α : Type} (N : NeuralNetwork α) (h : N.WellIndexed)
    (info : LayerInfo) (hi : info ∈ N.layer_order) (ht : info.type = LayerType.DENSE) :
    0 ≤ info.dense_index ∧ info.dense_index < (N.dense_layers.length : Int) := by
  have hm : info.dense_index ∈ N.denseIndices := by
    unfold NeuralNetwork.denseIndices
    exact List.mem_map.mpr ⟨info, List.mem_filter.mpr ⟨hi, by simp [ht]⟩, rfl⟩
  rw [h.2] at hm
  obtain ⟨k, hk, e⟩ := List.mem_map.mp hm
  rw [List.mem_range] at hk
  rw [← e]
  omega

theorem NeuralNetwork.wellIndexed_nodup {α : Type} (N : NeuralNetwork α) (h : N.WellIndexed) :
    N.denseIndices.Nodup := by
  rw [h.2]
  exact List.Nodup.map (fun a b hab => by exact_mod_cast hab) (List.nodup_range _)

/-! ## C28: the construction invariant -/

/-- C28. After any sequence of `tambah_dense` / `tambah_relu` /
`tambah_sigmoid` calls on a new network (each call having returned), the number
of optimizers equals the number of dense layers; the dense indices of the
Dense-tagged stages, in stage order, are `0, 1, ..., n - 1` for `n` dense
layers, so each is a valid position in the dense-layer collection and they are
pairwise distinct; every call has appended exactly one stage; and
`tambah_relu` / `tambah_sigmoid` append exactly one stage (tagged ReLU,
respectively Sigmoid) and leave the dense layers and the optimizers
unchanged. -/
theorem NeuralNetwork.construction_invariant {α : Type} [LinearOrderedField α] (lr : α)
    (cs : List (BuildCall α)) (N : NeuralNetwork α)
    (h : (NeuralNetwork.new lr).calls cs = .ok N) :
    N.optimizers.length = N.dense_layers.length
    ∧ N.denseIndices = (List.range N.dense_layers.length).map (fun (k : ℕ) => (k : Int))
    ∧ (∀ info ∈ N.layer_order, info.type = LayerType.DENSE →
        0 ≤ info.dense_index ∧ info.dense_index < (N.dense_layers.length : Int))
    ∧ N.denseIndices.Nodup
    ∧ N.layer_order.length = cs.length
    ∧ (N.tambah_relu.layer_order = N.layer_order ++ [⟨LayerType.RELU, -1⟩]
        ∧ N.tambah_relu.dense_layers = N.dense_layers
        ∧ N.tambah_relu.optimizers = N.optimizers)
    ∧ (N.tambah_sigmoid.layer_order = N.layer_order ++ [⟨LayerType.SIGMOID, -1⟩]
        ∧ N.tambah_sigmoid.dense_layers = N.dense_layers
        ∧ N.tambah_sigmoid.optimizers = N.optimizers) := by
  have hW : N.WellIndexed :=
    NeuralNetwork.calls_inv NeuralNetwork.WellIndexed (fun _ => True)
      (fun M M' c _ hM hc => NeuralNetwork.wellIndexed_call M M' c hM hc) cs
      (NeuralNetwork.new lr) N (fun _ _ => trivial) ⟨rfl, rfl⟩ h
  have hlen := NeuralNetwork.calls_stages cs (NeuralNetwork.new lr) N h
  refine ⟨hW.1, hW.2, fun info hi ht => NeuralNetwork.wellIndexed_valid N hW info hi ht,
    NeuralNetwork.wellIndexed_nodup N hW, ?_, ⟨rfl, rfl, rfl⟩, ⟨rfl, rfl, rfl⟩⟩
  rw [hlen]
  simp [NeuralNetwork.new]

theorem exCalls_returns : ∃ N, (NeuralNetwork.new (1 / 10 : ℚ)).calls exCalls = .ok N := by
  obtain ⟨L, hL, _⟩ := Dense.exNew_returns
  have hL2 : Dense.new 2 2 true (⟨[1, 0, 0, 1], [2, 2], [2, 1], false⟩ : Tensor ℚ) = .ok L := hL
  cases h : (NeuralNetwork.new (1 / 10 : ℚ)).calls exCalls with
  | ok N => exact ⟨N, rfl⟩
  | error e =>
    simp only [exCalls, NeuralNetwork.calls, NeuralNetwork.call, NeuralNetwork.tambah_dense, hL2,
      ok_bind] at h
    cases h

/-- Witness of C28: the three calls `tambah_dense(2, 2)`, `tambah_relu()`,
`tambah_sigmoid()` leave one optimizer, one dense layer and three stages. -/
theorem NeuralNetwork.construction_invariant_witness :
    ∃ N, (NeuralNetwork.new (1 / 10 : ℚ)).calls exCalls = .ok N
      ∧ N.optimizers.length = N.dense_layers.length
      ∧ N.layer_order.length = 3 := by
  obtain ⟨N, h⟩ := exCalls_returns
  obtain ⟨h1, _, _, _, h5, _⟩ := NeuralNetwork.construction_invariant (1 / 10 : ℚ) exCalls N h
  exact ⟨N, h, h1, h5⟩

/-! ## The optimizer pass on zero gradients -/

theorem zeros_all_zero {α : Type} [LinearOrderedField α] (shape : List Int) (t : Tensor α)
    (h : dl.zeros shape = .ok t) : ∀ g ∈ t.data, g = 0 := by
  unfold dl.zeros at h
  obtain ⟨t0, h0, h⟩ := bind_eq_ok _ _ _ h
  have hinit : ∀ g ∈ t0.data, g = 0 := by
    unfold Tensor.ofShape at h0
    split at h0
    · cases h0
    · simp only [Except.ok.injEq] at h0
      subst h0
      intro g hg
      exact List.eq_of_mem_replicate hg
  exact forRange_inv_ok _ (fun (u : Tensor α) => ∀ g ∈ u.data, g = 0)
    (fun j s s' hP hs' => by
      unfold Tensor.indexSet at hs'
      split at hs'
      · cases hs'
      · split at hs'
        · simp only [Except.ok.injEq] at hs'
          subst hs'
          intro g hg
          rcases List.mem_or_eq_of_mem_set hg with h1 | h1
          · exact hP g h1
          · exact h1
        · cases hs') _ t0 t hinit h

/-- The constructor of a dense layer with bias leaves zero gradients of the
shapes of the weight and the bias. -/
theorem Dense.new_zeroGrads {α : Type} [LinearOrderedField α] (inF outF : Int)
    (kaiming : Tensor α) (L : Dense α) (hk : kaiming.bentuk = [outF, inF]) (hs : kaiming.Sized)
    (h : Dense.new inF outF true kaiming = .ok L) : L.ZeroGrads ∧ L.gunakan_bias = true := by
  unfold Dense.new at h
  simp only [if_true] at h
  obtain ⟨bias, hbias, h⟩ := bind_eq_ok _ _ _ h
  obtain ⟨gw, hgw, h⟩ := bind_eq_ok _ _ _ h
  obtain ⟨gb, hgb, h⟩ := bind_eq_ok _ _ _ h
  simp only [Except.ok.injEq] at h
  subst h
  obtain ⟨b1, s1⟩ := zeros_ok _ _ hbias
  obtain ⟨b2, s2⟩ := zeros_ok _ _ hgw
  obtain ⟨b3, s3⟩ := zeros_ok _ _ hgb
  exact ⟨⟨⟨hk.trans b2.symm, hs, s2⟩, ⟨b1.trans b3.symm, s1, s3⟩, zeros_all_zero _ _ hgw,
    zeros_all_zero _ _ hgb⟩, rfl⟩

theorem eq_replicate_zeros {α : Type} [Zero α] (l : List α) (h : ∀ g ∈ l, g = 0) :
    l = List.replicate l.length 0 :=
  List.eq_replicate_iff.mpr ⟨rfl, h⟩

/-- The data of a parameter after an Adam step from zero moments on a zero
gradient: unchanged. -/
theorem adam.zeroStep_data {α : Type} [LinearOrderedField α] (ssqrt : α → α)
    (lr b1 b2 eps k1 k2 : α) :
    ∀ (l : List α) (n : ℕ), l.length = n →
      List.zipWith (fun p q => p - q) l
        (List.zipWith (fun a b => a / b)
          ((List.zipWith (adam.mValue b1) (l.map (fun _ => (0 : α))) (List.replicate n 0)).map
            (fun x => lr * (x / k1)))
          ((List.zipWith (adam.vValue b2) (l.map (fun _ => (0 : α))) (List.replicate n 0)).map
            (fun x => ssqrt (x / k2) + eps)))
        = l
  | [], _, _ => rfl
  | p :: l, n, hn => by
    obtain ⟨m, rfl⟩ : ∃ m, n = m + 1 := ⟨l.length, by simpa using hn.symm⟩
    have hl : l.length = m := by simpa using hn
    have ih := adam.zeroStep_data ssqrt lr b1 b2 eps k1 k2 l m hl
    have e1 : adam.mValue b1 0 0 = 0 := by
      unfold adam.mValue
      rw [mul_zero, mul_zero, add_zero]
    rw [List.replicate_succ]
    simp only [List.map_cons, List.zipWith_cons_cons]
    rw [ih, e1, zero_div, mul_zero, zero_div, sub_zero]

/-- The first `update` of an optimizer whose buffers do not exist yet, on zero
gradients: the weight and the bias come back unchanged. -/
theorem adam.update_fresh_zero {α : Type} [LinearOrderedField α] (ssqrt : α → α) (A : adam α)
    (hA : A.inisialisasi = false) (bobot grad_bobot bias grad_bias : Tensor α)
    (hgw : bobot.Alike grad_bobot) (hgb : bias.Alike grad_bias)
    (h0w : ∀ g ∈ grad_bobot.data, g = 0) (h0b : ∀ g ∈ grad_bias.data, g = 0) :
    ∃ A' : adam α,
      A.update ssqrt bobot grad_bobot bias grad_bias = .ok (A', bobot, bias)
      ∧ A'.t = A.t + 1 ∧ A'.inisialisasi = true := by
  have hlw := alike_length _ _ hgw
  have hlb := alike_length _ _ hgb
  have ew := eq_replicate_zeros grad_bobot.data h0w
  have eb := eq_replicate_zeros grad_bias.data h0b
  rw [← hlw] at ew
  rw [← hlb] at eb
  have hat : A.atEntry bobot bias
      = { A with m_bobot := Tensor.mapData (fun _ => 0) bobot,
                 v_bobot := Tensor.mapData (fun _ => 0) bobot,
                 m_bias := Tensor.mapData (fun _ => 0) bias,
                 v_bias := Tensor.mapData (fun _ => 0) bias,
                 inisialisasi := true } := by
    unfold adam.atEntry
    simp [hA]
  rw [adam.update_eq ssqrt A bobot grad_bobot bias grad_bias hgw hgb
    (by intro h; rw [hA] at h; cases h)]
  have pw : ∀ k1 k2 : α, adam.newParam ssqrt A.lr A.epsilon k1 k2 bobot
      (Tensor.zipData (adam.mValue A.beta1) (A.atEntry bobot bias).m_bobot grad_bobot)
      (Tensor.zipData (adam.vValue A.beta2) (A.atEntry bobot bias).v_bobot grad_bobot)
      = bobot := by
    intro k1 k2
    rw [hat]
    have dw := adam.zeroStep_data ssqrt A.lr A.beta1 A.beta2 A.epsilon k1 k2 bobot.data _ rfl
    show ({ bobot with data := _ } : Tensor α) = { bobot with data := bobot.data }
    congr 1
    refine Eq.trans ?_ dw
    show List.zipWith _ _ (List.zipWith _ (List.map _ (List.zipWith _ _ grad_bobot.data))
      (List.map _ (List.zipWith _ _ grad_bobot.data))) = _
    rw [ew]
    rfl
  have pb : ∀ k1 k2 : α, adam.newParam ssqrt A.lr A.epsilon k1 k2 bias
      (Tensor.zipData (adam.mValue A.beta1) (A.atEntry bobot bias).m_bias grad_bias)
      (Tensor.zipData (adam.vValue A.beta2) (A.atEntry bobot bias).v_bias grad_bias)
      = bias := by
    intro k1 k2
    rw [hat]
    have db := adam.zeroStep_data ssqrt A.lr A.beta1 A.beta2 A.epsilon k1 k2 bias.data _ rfl
    show ({ bias with data := _ } : Tensor α) = { bias with data := bias.data }
    congr 1
    refine Eq.trans ?_ db
    show List.zipWith _ _ (List.zipWith _ (List.map _ (List.zipWith _ _ grad_bias.data))
      (List.map _ (List.zipWith _ _ grad_bias.data))) = _
    rw [eb]
    rfl
  rw [pw, pb]
  refine ⟨_, rfl, rfl, ?_⟩
  rw [hat]

/-- Every construction call of a network with bias keeps the network
untrained. -/
theorem NeuralNetwork.untrained_call {α : Type} [LinearOrderedField α] (M M' : NeuralNetwork α)
    (c : BuildCall α) (hc : c.Biased) (hM : M.Untrained) (h : M.call c = .ok M') :
    M'.Untrained := by
  obtain ⟨h1, h2, h3⟩ := hM
  cases c with
  | dense i o b k =>
    obtain ⟨hb, hk, hs⟩ := hc
    subst hb
    obtain ⟨L, hL, e1, e2, _⟩ := NeuralNetwork.tambah_dense_ok M M' i o true k h
    refine ⟨by rw [e1, e2]; simp [h1], ?_, ?_⟩
    · intro L' hL'
      rw [e1] at hL'
      rcases List.mem_append.mp hL' with hm | hm
      · exact h2 L' hm
      · rw [List.mem_singleton] at hm
        subst hm
        exact (Dense.new_zeroGrads i o k L' hk hs hL).1
    · intro A hA
      rw [e2] at hA
      rcases List.mem_append.mp hA with hm | hm
      · exact h3 A hm
      · rw [List.mem_singleton] at hm
        subst hm
        exact ⟨rfl, rfl⟩
  | relu =>
    simp only [NeuralNetwork.call, Except.ok.injEq] at h
    subst h
    exact ⟨h1, h2, h3⟩
  | sigmoid =>
    simp only [NeuralNetwork.call, Except.ok.injEq] at h
    subst h
    exact ⟨h1, h2, h3⟩

/-- On a network whose gradients are all zero and whose optimizers have not
created their buffers, `optimisasi` returns and leaves the dense layers as
they were. -/
theorem NeuralNetwork.optimisasi_untrained {α : Type} [LinearOrderedField α] (ssqrt : α → α)
    (M : NeuralNetwork α) (hM : M.Untrained) :
    ∃ M', M.optimisasi ssqrt = .ok M' ∧ M'.dense_layers = M.dense_layers
      ∧ M'.optimizers.length = M.optimizers.length
      ∧ (∀ A' ∈ M'.optimizers, A'.t = 1 ∧ A'.inisialisasi = true)
      ∧ M'.layer_order = M.layer_order ∧ M'.activations = M.activations
      ∧ M'.pre_activations = M.pre_activations ∧ M'.learning_rate = M.learning_rate := by
  obtain ⟨h1, h2, h3⟩ := hM
  have hupd : ∀ (i : ℕ) (L : Dense α) (A : adam α), M.dense_layers[i]? = some L →
      M.optimizers[i]? = some A →
      ∃ A' : adam α, A.update ssqrt L.bobot L.grad_bobot L.bias L.grad_bias
          = .ok (A', L.bobot, L.bias) ∧ A'.t = A.t + 1 ∧ A'.inisialisasi = true := by
    intro i L A hL hA
    obtain ⟨z1, z2, z3, z4⟩ := h2 L (List.getElem?_mem hL)
    exact adam.update_fresh_zero ssqrt A (h3 A (List.getElem?_mem hA)).1 _ _ _ _ z1 z2 z3 z4
  obtain ⟨M', h⟩ := NeuralNetwork.optimisasi_total ssqrt M (le_of_eq h1.symm)
    (fun i L A hL hA => by
      obtain ⟨A', hu, _⟩ := hupd i L A hL hA
      exact ⟨_, hu⟩)
  obtain ⟨p1, p2, p3, p4, p5, p6, p7, p8⟩ := NeuralNetwork.optimisasi_ok ssqrt M M' h
  refine ⟨M', h, ?_, p6, ?_, p1, p2, p3, p4⟩
  · apply List.ext_getElem?
    intro i
    by_cases hi : i < M.dense_layers.length
    · have hL : M.dense_layers[i]? = some M.dense_layers[i] := List.getElem?_eq_getElem hi
      obtain ⟨A, r, q1, q2, q3, _⟩ := p7 i _ hi hL
      obtain ⟨A', hu, _⟩ := hupd i _ A hL q1
      rw [hu] at q2
      cases q2
      rw [q3, hL]
    · exact (p8 i (not_lt.mp hi)).1
  · intro A' hA'
    obtain ⟨i, hA'i⟩ := List.mem_iff_getElem?.mp hA'
    have hi : i < M'.optimizers.length := by
      by_contra hc
      rw [List.getElem?_eq_none (not_lt.mp hc)] at hA'i
      cases hA'i
    have hi2 : i < M.dense_layers.length := by omega
    have hL : M.dense_layers[i]? = some M.dense_layers[i] := List.getElem?_eq_getElem hi2
    obtain ⟨A, r, q1, q2, _, q4⟩ := p7 i _ hi2 hL
    obtain ⟨A1, hu, ht, hin⟩ := hupd i _ A hL q1
    rw [hu] at q2
    cases q2
    rw [hA'i] at q4
    simp only [Option.some.injEq] at q4
    subst q4
    have e0 := (h3 A (List.getElem?_mem q1)).2
    rw [e0] at ht
    exact ⟨by simpa using ht, hin⟩

theorem Dense.zeroGrads_eraseCache {α : Type} [Zero α] (L L' : Dense α)
    (h : L'.eraseCache = L.eraseCache) (hz : L.ZeroGrads) : L'.ZeroGrads := by
  obtain ⟨a1, a2, a3, a4, a5, a6, a7, a8⟩ := L
  obtain ⟨b1, b2, b3, b4, b5, b6, b7, b8⟩ := L'
  simp only [Dense.eraseCache, Dense.mk.injEq] at h
  obtain ⟨_, _, h3, h4, h5, h6, _, _⟩ := h
  subst h3 h4 h5 h6
  exact hz

/-- A network that agrees with an untrained one on everything but the cached
inputs of its layers and the forward caches is untrained. -/
theorem NeuralNetwork.untrained_eraseCache {α : Type} [Zero α] (N M : NeuralNetwork α)
    (hN : N.Untrained)
    (h1 : M.dense_layers.map Dense.eraseCache = N.dense_layers.map Dense.eraseCache)
    (h2 : M.optimizers = N.optimizers) : M.Untrained := by
  obtain ⟨n1, n2, n3⟩ := hN
  have hlen : M.dense_layers.length = N.dense_layers.length := by
    have := congrArg List.length h1
    simpa using this
  refine ⟨by rw [h2, n1, hlen], ?_, by rw [h2]; exact n3⟩
  intro L' hL'
  have hm : L'.eraseCache ∈ N.dense_layers.map Dense.eraseCache := by
    rw [← h1]
    exact List.mem_map_of_mem _ hL'
  obtain ⟨L, hL, e⟩ := List.mem_map.mp hm
  exact Dense.zeroGrads_eraseCache L L' e.symm (n2 L hL)

/-! ## C26: `optimisasi` on a fresh network -/

/-- C26. Let `N` be built from a new network by `tambah_dense` (bias enabled,
the drawn weight a well-formed `[out_features, in_features]` tensor) /
`tambah_relu` / `tambah_sigmoid` calls, and let `M` be `N` itself or `N` after
calls that change only the cached inputs and the forward caches (`forward`,
`predict`), so that neither `backward` nor `optimisasi` has run: all gradients
are zero and all optimizers are at step 0.  Then `optimisasi()` returns and
leaves every dense layer exactly as it was, in particular every weight and
bias; the stage list and the forward caches are unchanged and every optimizer
is at step 1.  (The update subtracts `lr * 0 / (sqrt(0) + epsilon)`.) -/
theorem NeuralNetwork.optimize_fresh_noop {α : Type} [LinearOrderedField α] (ssqrt : α → α)
    (lr : α) (cs : List (BuildCall α)) (N M : NeuralNetwork α)
    (hcs : ∀ c ∈ cs, c.Biased) (h : (NeuralNetwork.new lr).calls cs = .ok N)
    (hd : M.dense_layers.map Dense.eraseCache = N.dense_layers.map Dense.eraseCache)
    (ho : M.optimizers = N.optimizers) :
    ∃ M', M.optimisasi ssqrt = .ok M'
      ∧ M'.dense_layers = M.dense_layers
      ∧ M'.dense_layers.map (fun L => (L.bobot, L.bias))
          = M.dense_layers.map (fun L => (L.bobot, L.bias))
      ∧ M'.optimizers.length = M.optimizers.length
      ∧ (∀ A' ∈ M'.optimizers, A'.t = 1)
      ∧ M'.layer_order = M.layer_order ∧ M'.activations = M.activations
      ∧ M'.pre_activations = M.pre_activations := by
  have h0 : (NeuralNetwork.new lr).Untrained := by
    refine ⟨rfl, fun L hL => ?_, fun A hA => ?_⟩
    · simp [NeuralNetwork.new] at hL
    · simp [NeuralNetwork.new] at hA
  have hN : N.Untrained :=
    NeuralNetwork.calls_inv NeuralNetwork.Untrained BuildCall.Biased
      (fun A B c hc hA hcall => NeuralNetwork.untrained_call A B c hc hA hcall) cs
      (NeuralNetwork.new lr) N hcs h0 h
  have hM : M.Untrained := NeuralNetwork.untrained_eraseCache N M hN hd ho
  obtain ⟨M', h1, h2, h3, h4, h5, h6, h7, _⟩ := NeuralNetwork.optimisasi_untrained ssqrt M hM
  exact ⟨M', h1, h2, by rw [h2], h3, fun A' hA' => (h4 A' hA').1, h5, h6, h7⟩

/-- Witness of C26: on the network built by `tambah_dense(2, 2)`,
`tambah_relu()`, `tambah_sigmoid()`, `optimisasi` returns and leaves the dense
layers as they were. -/
theorem NeuralNetwork.optimize_fresh_noop_witness :
    ∃ N M', (NeuralNetwork.new (1 / 10 : ℚ)).calls exCalls = .ok N
      ∧ N.optimisasi (fun x => x) = .ok M' ∧ M'.dense_layers = N.dense_layers := by
  obtain ⟨N, h⟩ := exCalls_returns
  obtain ⟨M', h1, h2, _⟩ := NeuralNetwork.optimize_fresh_noop (fun x : ℚ => x) (1 / 10) exCalls
    N N (fun c hc => by
      simp only [exCalls, List.mem_cons, List.mem_singleton, List.not_mem_nil, or_false] at hc
      rcases hc with rfl | rfl | rfl
      · exact ⟨rfl, rfl, rfl⟩
      · exact trivial
      · exact trivial) h rfl rfl
  exact ⟨N, M', h, h1, h2⟩

/-! ## The optimizer pass on a layer without bias -/

/-- The default-constructed tensor has no data but `numel() = 1`. -/
theorem default_numel {α : Type} :
    (Tensor.default : Tensor α).data = [] ∧ (Tensor.default : Tensor α).numel = 1 :=
  ⟨rfl, rfl⟩

/-- `s * t` on the default-constructed tensor reads `t[0]`, outside its empty
buffer. -/
theorem scalarMul_default {α : Type} [LinearOrderedField α] (s : α) :
    Tensor.scalarMul s (Tensor.default : Tensor α) = .error .outOfBounds := by
  rfl

theorem zeros_nil {α : Type} [LinearOrderedField α] :
    (dl.zeros ([] : List Int) : Except Err (Tensor α)) = .ok ⟨[0], [], [], false⟩ := by
  rfl

/-- The first `update` of an optimizer for a layer without bias: the layer's
bias and bias gradient are default-constructed tensors, and the statement
`m_bias = beta1 * m_bias + (1 - beta1) * grad_bias` reads `grad_bias[0]`. -/
theorem adam.update_default_bias {α : Type} [LinearOrderedField α] (ssqrt : α → α) (A : adam α)
    (hA : A.inisialisasi = false) (bobot grad_bobot : Tensor α)
    (hgw : bobot.Alike grad_bobot) :
    A.update ssqrt bobot grad_bobot Tensor.default Tensor.default = .error .outOfBounds := by
  have a1 : (Tensor.mapData (fun _ => (0 : α)) bobot).Alike grad_bobot :=
    ⟨hgw.1, mapData_sized _ _ hgw.2.1, hgw.2.2⟩
  have b1 : bobot.Alike (Tensor.zipData (adam.mValue A.beta1)
      (Tensor.mapData (fun _ => (0 : α)) bobot) grad_bobot) :=
    ⟨rfl, hgw.2.1, zipData_sized _ _ _ a1⟩
  have b2 : bobot.Alike (Tensor.zipData (adam.vValue A.beta2)
      (Tensor.mapData (fun _ => (0 : α)) bobot) grad_bobot) :=
    ⟨rfl, hgw.2.1, zipData_sized _ _ _ a1⟩
  have hm : adam.momentStep A.beta1 (⟨[0], [], [], false⟩ : Tensor α) Tensor.default
      = .error .outOfBounds := by
    rfl
  unfold adam.update
  rw [if_pos hA, zeros_like bobot hgw.2.1]
  simp only [ok_bind]
  rw [show (Tensor.default : Tensor α).bentuk = [] from rfl, zeros_nil]
  simp only [ok_bind]
  rw [adam.momentStep_eq _ _ _ a1, ok_bind, adam.secondMomentStep_eq _ _ _ a1, ok_bind,
    divScalar_eq, ok_bind, divScalar_eq, ok_bind,
    adam.paramStep_eq ssqrt _ _ _ _ bobot _ _ b1 b2, ok_bind, hm]
  rfl

/-- `optimisasi` on a network whose first dense layer has no bias (its bias and
bias gradient are default-constructed tensors) and whose first optimizer has
not created its buffers: the first `update` reads outside a buffer. -/
theorem NeuralNetwork.optimisasi_biasless {α : Type} [LinearOrderedField α] (ssqrt : α → α)
    (N : NeuralNetwork α) (L : Dense α) (A : adam α)
    (hL : N.dense_layers[0]? = some L) (hA : N.optimizers[0]? = some A)
    (hf : A.inisialisasi = false) (hb : L.bias = Tensor.default)
    (hg : L.grad_bias = Tensor.default) (hgw : L.bobot.Alike L.grad_bobot) :
    N.optimisasi ssqrt = .error .outOfBounds := by
  have hstep : NeuralNetwork.optimisasiStep ssqrt 0 N = .error .outOfBounds := by
    unfold NeuralNetwork.optimisasiStep
    rw [vecGet_nat _ 0 L hL, ok_bind, vecGet_nat _ 0 A hA, ok_bind, hb, hg,
      adam.update_default_bias ssqrt A hf _ _ hgw]
    rfl
  have hlen : 0 < N.dense_layers.length := by
    by_contra hc
    rw [List.getElem?_eq_none (not_lt.mp hc)] at hL
    cases hL
  obtain ⟨n, hn⟩ : ∃ n, N.dense_layers.length = n + 1 := ⟨N.dense_layers.length - 1, by omega⟩
  unfold NeuralNetwork.optimisasi
  rw [hn, forLoop_succ, hstep]
  rfl

/-! ## C29: the optimizer pass on a layer without bias -/

/-- C29, the code at the failing input. The network built by the single call
`tambah_dense(2, 2, false)` holds a layer whose bias gradient is the
default-constructed tensor (empty buffer, `numel() = 1`), and `optimisasi()` on
it reads outside a buffer, whatever the square root is: `adam::update`
evaluates `(1 - beta1) * grad_bias`, whose loop runs to `numel() = 1` and reads
`grad_bias[0]`. -/
theorem NeuralNetwork.biasless_optimize_reads_outside :
    ∃ N, (NeuralNetwork.new (1 / 10 : ℚ)).calls exCallsNoBias = .ok N
      ∧ (∀ L ∈ N.dense_layers,
          L.gunakan_bias = false ∧ L.grad_bias.data = [] ∧ L.grad_bias.numel = 1)
      ∧ (Tensor.scalarMul (1 - 9 / 10) (Tensor.default : Tensor ℚ) = .error .outOfBounds)
      ∧ ∀ ssqrt : ℚ → ℚ, N.optimisasi ssqrt = .error .outOfBounds := by
  have hz : (dl.zeros [2, 2] : Except Err (Tensor ℚ)) = .ok (matrix 2 2 (fun _ _ => 0)) :=
    zeros_pair 2 2
  have hnew : Dense.new 2 2 false (⟨[1, 0, 0, 1], [2, 2], [2, 1], false⟩ : Tensor ℚ)
      = .ok ⟨2, 2, ⟨[1, 0, 0, 1], [2, 2], [2, 1], false⟩, Tensor.default,
          matrix 2 2 (fun _ _ => 0), Tensor.default, Tensor.default, false⟩ := by
    simp only [Dense.new, hz, ok_bind]
    rfl
  cases h : (NeuralNetwork.new (1 / 10 : ℚ)).calls exCallsNoBias with
  | error e =>
    simp only [exCallsNoBias, NeuralNetwork.calls, NeuralNetwork.call, NeuralNetwork.tambah_dense,
      hnew, ok_bind] at h
    cases h
  | ok N =>
    have h' := h
    unfold exCallsNoBias NeuralNetwork.calls at h'
    obtain ⟨N1, h1, h2⟩ := bind_eq_ok _ _ _ h'
    simp only [NeuralNetwork.calls, Except.ok.injEq] at h2
    subst h2
    obtain ⟨L, hL, e1, e2, _⟩ := NeuralNetwork.tambah_dense_ok _ _ _ _ _ _ h1
    rw [hnew] at hL
    simp only [Except.ok.injEq] at hL
    subst hL
    have hd : N1.dense_layers = [⟨2, 2, ⟨[1, 0, 0, 1], [2, 2], [2, 1], false⟩, Tensor.default,
        matrix 2 2 (fun _ _ => 0), Tensor.default, Tensor.default, false⟩] := e1
    have ho : N1.optimizers = [adam.newDefault (1 / 10)] := e2
    refine ⟨N1, rfl, ?_, scalarMul_default _, ?_⟩
    · intro L hL
      rw [hd, List.mem_singleton] at hL
      subst hL
      exact ⟨rfl, rfl, rfl⟩
    · intro ssqrt
      exact NeuralNetwork.optimisasi_biasless ssqrt N1
        ⟨2, 2, ⟨[1, 0, 0, 1], [2, 2], [2, 1], false⟩, Tensor.default,
          matrix 2 2 (fun _ _ => 0), Tensor.default, Tensor.default, false⟩
        (adam.newDefault (1 / 10)) (by rw [hd]; rfl) (by rw [ho]; rfl)
        rfl rfl rfl ⟨rfl, rfl, matrix_sized 2 2 _⟩

/-! ## The ReLU → Sigmoid tail -/

/-- Every element of a tensor returned by an element-wise map satisfies a
property that holds of `0` (the value the buffer is created with) and of every
value of the mapped function. -/
theorem mapNumel_ok_all {α : Type} [Zero α] (f : α → α) (P : α → Prop) (h0 : P 0)
    (hf : ∀ x, P (f x)) (t r : Tensor α) (h : Tensor.mapNumel f t = .ok r) :
    ∀ v ∈ r.data, P v := by
  unfold Tensor.mapNumel at h
  obtain ⟨out, h1, h2⟩ := bind_eq_ok _ _ _ h
  have hinit : ∀ v ∈ out.data, P v := by
    unfold Tensor.ofShape at h1
    split at h1
    · cases h1
    · simp only [Except.ok.injEq] at h1
      subst h1
      intro v hv
      rw [List.eq_of_mem_replicate hv]
      exact h0
  exact forRange_inv_ok _ (fun (u : Tensor α) => ∀ v ∈ u.data, P v)
    (fun j s s' hP hs' => by
      obtain ⟨x, _, hs'⟩ := bind_eq_ok _ _ _ hs'
      unfold Tensor.indexSet at hs'
      split at hs'
      · cases hs'
      · split at hs'
        · simp only [Except.ok.injEq] at hs'
          subst hs'
          intro v hv
          rcases List.mem_or_eq_of_mem_set hv with h1 | h1
          · exact hP v h1
          · rw [h1]
            exact hf x
        · cases hs') _ out r hinit h2

/-- Whatever `ReLu::forward` returns satisfies the size invariant and has no
negative element. -/
theorem ReLu.forward_nonneg {α : Type} [LinearOrderedField α] (x y : Tensor α)
    (h : ReLu.forward x = .ok y) : y.Sized ∧ ∀ v ∈ y.data, 0 ≤ v := by
  unfold ReLu.forward at h
  refine ⟨(mapNumel_ok_sized _ x y h).1, ?_⟩
  exact mapNumel_ok_all (fun v : α => stdMax 0 v) (fun v : α => (0 : α) ≤ v) (le_refl (0 : α))
    (fun v => by
      show (0 : α) ≤ stdMax 0 v
      rw [stdMax_eq_max]
      exact le_max_left 0 v) x y h

/-- The logistic function of a non-negative number lies in `[1/2, 1)`. -/
theorem Sigmoid.value_range {α : Type} [LinearOrderedField α] (sexp : α → α)
    (hpos : ∀ x, 0 < sexp x) (hle : ∀ x, x ≤ 0 → sexp x ≤ 1) (v : α) (hv : 0 ≤ v) :
    1 / 2 ≤ Sigmoid.value sexp v ∧ Sigmoid.value sexp v < 1 := by
  unfold Sigmoid.value
  have h1 : 0 < sexp (-v) := hpos (-v)
  have h2 : sexp (-v) ≤ 1 := hle (-v) (by linarith)
  have h3 : (0 : α) < 1 + sexp (-v) := by linarith
  constructor
  · exact one_div_le_one_div_of_le h3 (by linarith)
  · rw [div_lt_one h3]
    linarith

/-- The output of a ReLU stage followed by a Sigmoid stage. -/
theorem Sigmoid.after_relu_range {α : Type} [LinearOrderedField α] (sexp : α → α)
    (hpos : ∀ x, 0 < sexp x) (hle : ∀ x, x ≤ 0 → sexp x ≤ 1) (x y z : Tensor α)
    (h1 : ReLu.forward x = .ok y) (h2 : Sigmoid.forward sexp y = .ok z) :
    ∀ v ∈ z.data, 1 / 2 ≤ v ∧ v < 1 := by
  obtain ⟨hs, hn⟩ := ReLu.forward_nonneg x y h1
  rw [Sigmoid.sigmoid_forward_eq sexp y hs] at h2
  simp only [Except.ok.injEq] at h2
  subst h2
  intro v hv
  simp only [Tensor.mapData, List.mem_map] at hv
  obtain ⟨u, hu, rfl⟩ := hv
  exact Sigmoid.value_range sexp hpos hle u (hn u hu)

/-- The last two outputs of a trace whose last two stages are ReLU and
Sigmoid. -/
theorem NeuralNetwork.forwardTrace_tail {α : Type} [Zero α] [One α] [Add α] [Mul α] [Div α] [Neg α] [LT α]
    [DecidableRel (fun a b : α => a < b)] (sexp : α → α)
    (layers : List (Dense α)) (a b : Int) :
    ∀ (pre : List LayerInfo) (x : Tensor α) (ys : List (Tensor α)),
      NeuralNetwork.forwardTrace sexp layers
          (pre ++ [⟨LayerType.RELU, a⟩, ⟨LayerType.SIGMOID, b⟩]) x = .ok ys →
      ∃ u y z, ReLu.forward u = .ok y ∧ Sigmoid.forward sexp y = .ok z ∧ ys.getLastD x = z
  | [], x, ys, h => by
    simp only [List.nil_append, NeuralNetwork.forwardTrace, NeuralNetwork.stageOutput] at h
    obtain ⟨y, h1, h⟩ := bind_eq_ok _ _ _ h
    obtain ⟨zs, h2, h⟩ := bind_eq_ok _ _ _ h
    obtain ⟨z, h3, h2⟩ := bind_eq_ok _ _ _ h2
    simp only [ok_bind, Except.ok.injEq] at h2 h
    subst h2 h
    exact ⟨x, y, z, h1, h3, rfl⟩
  | info :: pre, x, ys, h => by
    rw [List.cons_append] at h
    unfold NeuralNetwork.forwardTrace at h
    obtain ⟨y0, _, h⟩ := bind_eq_ok _ _ _ h
    obtain ⟨zs, h2, h⟩ := bind_eq_ok _ _ _ h
    simp only [Except.ok.injEq] at h
    subst h
    obtain ⟨u, y, z, q1, q2, q3⟩ := NeuralNetwork.forwardTrace_tail sexp layers a b pre y0 zs h2
    refine ⟨u, y, z, q1, q2, ?_⟩
    have hl := NeuralNetwork.forwardTrace_length sexp layers _ y0 zs h2
    cases zs with
    | nil => simp at hl
    | cons w ws =>
      rw [← q3]
      simp [List.getLastD]

/-! ## The output range of the ReLU → Sigmoid tail in exact arithmetic -/

/-- In exact arithmetic (a linearly ordered field in place of `double`), for
every network whose last two stages are ReLU followed by Sigmoid, every
parameter setting and every input, each element of the tensor that `forward`
(and so `predict`) returns is `≥ 1/2` and `< 1`.  The exponential enters
through `0 < exp x` and `exp x ≤ 1` for `x ≤ 0`. -/
theorem NeuralNetwork.relu_sigmoid_field {α : Type} [LinearOrderedField α] (sexp : α → α)
    (hpos : ∀ x, 0 < sexp x) (hle : ∀ x, x ≤ 0 → sexp x ≤ 1)
    (N N1 : NeuralNetwork α) (pre : List LayerInfo) (a b : Int) (input out : Tensor α)
    (hl : N.layer_order = pre ++ [⟨LayerType.RELU, a⟩, ⟨LayerType.SIGMOID, b⟩])
    (h : N.forward sexp input = .ok (N1, out)) :
    (∀ v ∈ out.data, 1 / 2 ≤ v ∧ v < 1) ∧ N.predict sexp input = .ok (N1, out) := by
  refine ⟨?_, h⟩
  obtain ⟨ys, ht, ho, _⟩ := NeuralNetwork.forward_ok_trace sexp N N1 input out h
  rw [hl] at ht
  obtain ⟨u, y, z, q1, q2, q3⟩ :=
    NeuralNetwork.forwardTrace_tail sexp N.dense_layers a b pre input ys ht
  rw [ho, q3]
  exact Sigmoid.after_relu_range sexp hpos hle u y z q1 q2

/-- Over the real numbers and the real exponential, the network
`ReLU → Sigmoid` on the input `[-1, 2]` returns, and both outputs lie in
`[1/2, 1)`. -/
theorem NeuralNetwork.relu_sigmoid_field_real :
    ∃ N1 out,
      (⟨[], [⟨LayerType.RELU, -1⟩, ⟨LayerType.SIGMOID, -1⟩], [], [], [], 1 / 10⟩ :
          NeuralNetwork ℝ).forward Real.exp ⟨[-1, 2], [2], [1], false⟩ = .ok (N1, out)
      ∧ ∀ v ∈ out.data, 1 / 2 ≤ v ∧ v < 1 := by
  have hr : ReLu.forward (⟨[-1, 2], [2], [1], false⟩ : Tensor ℝ)
      = .ok (Tensor.mapData (fun v => stdMax 0 v) ⟨[-1, 2], [2], [1], false⟩) := by
    unfold ReLu.forward
    exact mapNumel_eq _ _ rfl
  have hs : Sigmoid.forward Real.exp
      (Tensor.mapData (fun v => stdMax 0 v) (⟨[-1, 2], [2], [1], false⟩ : Tensor ℝ))
      = .ok (Tensor.mapData (Sigmoid.value Real.exp)
          (Tensor.mapData (fun v => stdMax 0 v) ⟨[-1, 2], [2], [1], false⟩)) :=
    Sigmoid.sigmoid_forward_eq Real.exp _ (mapData_sized _ _ rfl)
  have ht : NeuralNetwork.forwardTrace Real.exp ([] : List (Dense ℝ))
      [⟨LayerType.RELU, -1⟩, ⟨LayerType.SIGMOID, -1⟩] (⟨[-1, 2], [2], [1], false⟩ : Tensor ℝ)
      = .ok [Tensor.mapData (fun v => stdMax 0 v) ⟨[-1, 2], [2], [1], false⟩,
             Tensor.mapData (Sigmoid.value Real.exp)
               (Tensor.mapData (fun v => stdMax 0 v) ⟨[-1, 2], [2], [1], false⟩)] := by
    simp only [NeuralNetwork.forwardTrace, NeuralNetwork.stageOutput, hr, hs, ok_bind]
  obtain ⟨N1, h1, _⟩ := (NeuralNetwork.forward_eq_trace Real.exp
    (⟨[], [⟨LayerType.RELU, -1⟩, ⟨LayerType.SIGMOID, -1⟩], [], [], [], 1 / 10⟩ :
      NeuralNetwork ℝ) ⟨[-1, 2], [2], [1], false⟩).1 _ ht
  exact ⟨N1, _, h1, (NeuralNetwork.relu_sigmoid_field Real.exp Real.exp_pos
    (fun x hx => Real.exp_le_one_iff.mpr hx) _ N1 [] (-1) (-1) _ _ rfl h1).1⟩

/-! ## Training with an inactive ReLU -/

theorem mapData_matrix {α : Type} (f : α → α) (m n : ℕ) (F : ℕ → ℕ → α) :
    Tensor.mapData f (matrix m n F) = matrix m n (fun i j => f (F i j)) := by
  unfold Tensor.mapData matrix
  simp only [strides_pair, List.map_map]
  rfl

theorem mapData_zero_vector {α : Type} [Zero α] (f : α → α) (hf : f 0 = 0) (n : ℕ) :
    Tensor.mapData f (vector n (fun _ => (0 : α))) = vector n (fun _ => 0) := by
  unfold Tensor.mapData vector
  simp only [strides_single, List.map_map]
  congr 1
  apply List.map_congr_left
  intro a _
  exact hf

theorem zipData_zero_matrix {α : Type} [Zero α] (f : α → α → α) (hf : f 0 0 = 0) (m n : ℕ) :
    Tensor.zipData f (matrix m n (fun _ _ => (0 : α))) (matrix m n (fun _ _ => 0))
      = matrix m n (fun _ _ => 0) := by
  unfold Tensor.zipData matrix
  simp only [strides_pair, zipWith_same, List.map_map]
  congr 1
  apply List.map_congr_left
  intro a _
  exact hf

theorem zipData_zero_vector {α : Type} [Zero α] (f : α → α → α) (hf : f 0 0 = 0) (n : ℕ) :
    Tensor.zipData f (vector n (fun _ => (0 : α))) (vector n (fun _ => 0))
      = vector n (fun _ => 0) := by
  unfold Tensor.zipData vector
  simp only [strides_single, zipWith_same, List.map_map]
  congr 1
  apply List.map_congr_left
  intro a _
  exact hf

theorem matrix_zero_mem {α : Type} [Zero α] (m n : ℕ) :
    ∀ g ∈ (matrix m n (fun _ _ => (0 : α))).data, g = 0 := by
  intro g hg
  simp only [matrix, List.mem_map] at hg
  obtain ⟨_, _, rfl⟩ := hg
  rfl

theorem vector_zero_mem {α : Type} [Zero α] (n : ℕ) :
    ∀ g ∈ (vector n (fun _ => (0 : α))).data, g = 0 := by
  intro g hg
  simp only [vector, List.mem_map] at hg
  obtain ⟨_, _, rfl⟩ := hg
  rfl

theorem adam.mValue_zero {α : Type} [LinearOrderedField α] (beta : α) :
    adam.mValue beta 0 0 = 0 := by
  unfold adam.mValue
  rw [mul_zero, mul_zero, add_zero]

theorem adam.vValue_zero {α : Type} [LinearOrderedField α] (beta : α) :
    adam.vValue beta 0 0 = 0 := by
  unfold adam.vValue
  rw [mul_zero, mul_zero, mul_zero, add_zero]

theorem adam.newParam_zero_data {α : Type} [LinearOrderedField α] (ssqrt : α → α)
    (lr eps k1 k2 : α) :
    ∀ l z : List α, (∀ x ∈ z, x = 0) → l.length ≤ z.length →
      List.zipWith (fun p q => p - q) l
        (List.zipWith (fun a b => a / b) (z.map (fun x => lr * (x / k1)))
          (z.map (fun x => ssqrt (x / k2) + eps))) = l
  | [], _, _, _ => by simp
  | _ :: _, [], _, h => by simp at h
  | p :: l, x :: z, hz, h => by
    have hx : x = 0 := hz x (List.mem_cons_self _ _)
    subst hx
    simp only [List.map_cons, List.zipWith_cons_cons]
    rw [adam.newParam_zero_data ssqrt lr eps k1 k2 l z
      (fun y hy => hz y (List.mem_cons_of_mem _ hy)) (by simpa using h),
      zero_div, mul_zero, zero_div, sub_zero]

/-- The Adam step of a parameter tensor on zero moments: unchanged. -/
theorem adam.newParam_zero {α : Type} [LinearOrderedField α] (ssqrt : α → α)
    (lr eps k1 k2 : α) (w z : Tensor α) (h : ∀ x ∈ z.data, x = 0)
    (hl : w.data.length ≤ z.data.length) :
    adam.newParam ssqrt lr eps k1 k2 w z z = w := by
  unfold adam.newParam
  rw [adam.newParam_zero_data ssqrt lr eps k1 k2 w.data z.data h hl]

/-- `update` with zero bias and zero gradients, on an optimizer that has seen
only zero gradients: the weight and the bias come back unchanged. -/
theorem adam.update_on_zero {α : Type} [LinearOrderedField α] (ssqrt : α → α) (A : adam α)
    (m n k : ℕ) (W : ℕ → ℕ → α)
    (hA : A.OnZero (matrix m n (fun _ _ => (0 : α))) (vector k (fun _ => (0 : α)))) :
    A.update ssqrt (matrix m n W) (matrix m n (fun _ _ => 0))
        (vector k (fun _ => 0)) (vector k (fun _ => 0))
      = .ok (A.zeroNext (matrix m n (fun _ _ => 0)) (vector k (fun _ => 0)),
             matrix m n W, vector k (fun _ => 0)) := by
  have sw : (matrix m n W).Sized := matrix_sized m n _
  have sz : (matrix m n (fun _ _ => (0 : α))).Sized := matrix_sized m n _
  have sb : (vector k (fun _ => (0 : α))).Sized := vector_sized k _
  have aw : (matrix m n W).Alike (matrix m n (fun _ _ => (0 : α))) := ⟨rfl, sw, sz⟩
  have ab : (vector k (fun _ => (0 : α))).Alike (vector k (fun _ => (0 : α))) := ⟨rfl, sb, sb⟩
  have hent : (A.atEntry (matrix m n W) (vector k (fun _ => (0 : α))))
      = { A with m_bobot := matrix m n (fun _ _ => 0), v_bobot := matrix m n (fun _ _ => 0),
                 m_bias := vector k (fun _ => 0), v_bias := vector k (fun _ => 0),
                 inisialisasi := true } := by
    unfold adam.atEntry
    rcases hA with h | ⟨h, h1, h2, h3, h4⟩
    · simp only [h, Bool.false_eq_true, if_false]
      rw [mapData_matrix (fun _ => (0 : α)), mapData_zero_vector (fun _ => (0 : α)) rfl]
    · simp only [h, if_true]
      obtain ⟨a1, a2, a3, a4, a5, a6, a7, a8, a9, a10⟩ := A
      simp only at h h1 h2 h3 h4
      subst h h1 h2 h3 h4
      rfl
  rw [adam.update_eq ssqrt A _ _ _ _ aw ab (by
    intro hi
    rcases hA with h | ⟨_, h1, h2, h3, h4⟩
    · rw [h] at hi
      cases hi
    · rw [h1, h2, h3, h4]
      exact ⟨aw, aw, ab, ab⟩)]
  rw [hent]
  simp only [zipData_zero_matrix _ (adam.mValue_zero _), zipData_zero_matrix _ (adam.vValue_zero _),
    zipData_zero_vector _ (adam.mValue_zero _), zipData_zero_vector _ (adam.vValue_zero _),
    adam.newParam_zero ssqrt _ _ _ _ (matrix m n W) _ (matrix_zero_mem m n)
      (by simp [matrix]),
    adam.newParam_zero ssqrt _ _ _ _ (vector k (fun _ => (0 : α))) _ (vector_zero_mem k)
      (le_refl _)]
  rfl

theorem adam.zeroNext_onZero {α : Type} (A : adam α) (w b : Tensor α) :
    (A.zeroNext w b).OnZero w b :=
  Or.inr ⟨rfl, rfl, rfl, rfl, rfl⟩

theorem plainLayer_zero_grad {α : Type} [LinearOrderedField α] (inF outF : ℕ)
    (W : ℕ → ℕ → α) (c : Tensor α) :
    (plainLayer inF outF W c).zero_grad = .ok (plainLayer inF outF W c) := by
  unfold Dense.zero_grad plainLayer
  simp only [zeros_pair, zeros_single, ok_bind, if_true]

theorem plainLayer_forward {α : Type} [LinearOrderedField α] (inF outF batch : ℕ)
    (W : ℕ → ℕ → α) (c : Tensor α) (X : ℕ → ℕ → α) :
    (plainLayer inF outF W c).forward (matrix batch inF X)
      = .ok (plainLayer inF outF W (matrix batch inF X),
             matrix batch outF (Dense.forwardValue true inF X W (fun _ => 0))) :=
  Dense.forward_matrix (plainLayer inF outF W c) batch inF outF X W (fun _ => 0)
    rfl rfl rfl (fun _ => rfl)

/-- `backward` of a layer on a zero output gradient leaves zero gradients and
returns a zero input gradient. -/
theorem plainLayer_backward {α : Type} [LinearOrderedField α] (inF outF batch : ℕ)
    (W X : ℕ → ℕ → α) :
    (plainLayer inF outF W (matrix batch inF X)).backward (matrix batch outF (fun _ _ => 0))
      = .ok (plainLayer inF outF W (matrix batch inF X), matrix batch inF (fun _ _ => 0)) := by
  rw [Dense.backward_matrix (plainLayer inF outF W (matrix batch inF X)) batch inF outF X
    W (fun _ _ => 0) rfl rfl rfl rfl]
  have e1 : matrix outF inF (fun o i => ∑ b in Finset.range batch,
      (fun _ _ => (0 : α)) b o * X b i) = matrix outF inF (fun _ _ => 0) := by
    apply matrix_congr
    intro i j _ _
    simp
  have e2 : Dense.biasGradAfter (plainLayer inF outF W (matrix batch inF X)).gunakan_bias outF
      (fun _ _ => (0 : α)) (plainLayer inF outF W (matrix batch inF X)).grad_bias batch
      = vector outF (fun _ => 0) := by
    show vector outF _ = _
    apply vector_congr
    intro i _
    simp
  have e3 : matrix batch inF (fun b i => ∑ o in Finset.range outF,
      (fun _ _ => (0 : α)) b o * W o i) = matrix batch inF (fun _ _ => 0) := by
    apply matrix_congr
    intro i j _ _
    simp
  rw [e1, e2, e3]
  rfl

/-- `ReLu::forward` of a matrix without positive entry is the zero matrix. -/
theorem relu_forward_nonpos {α : Type} [LinearOrderedField α] (m n : ℕ) (F : ℕ → ℕ → α)
    (hF : ∀ i j, i < m → j < n → F i j ≤ 0) :
    ReLu.forward (matrix m n F) = .ok (matrix m n (fun _ _ => 0)) := by
  unfold ReLu.forward
  rw [mapNumel_eq _ _ (matrix_sized m n _), mapData_matrix]
  congr 1
  apply matrix_congr
  intro i j hi hj
  rw [stdMax_eq_max]
  exact max_eq_left (hF i j hi hj)

/-- `ReLu::backward` of a matrix without positive entry is the zero matrix. -/
theorem relu_backward_nonpos {α : Type} [LinearOrderedField α] (m n : ℕ) (F : ℕ → ℕ → α)
    (hF : ∀ i j, i < m → j < n → F i j ≤ 0) :
    ReLu.backward (matrix m n F) = .ok (matrix m n (fun _ _ => 0)) := by
  unfold ReLu.backward
  rw [mapNumel_eq _ _ (matrix_sized m n _), mapData_matrix]
  congr 1
  apply matrix_congr
  intro i j hi hj
  exact if_neg (not_lt.mpr (hF i j hi hj))

theorem sigmoid_forward_zero {α : Type} [LinearOrderedField α] (sexp : α → α) (m n : ℕ) :
    Sigmoid.forward sexp (matrix m n (fun _ _ => (0 : α)))
      = .ok (matrix m n (fun _ _ => Sigmoid.value sexp 0)) := by
  rw [Sigmoid.sigmoid_forward_eq sexp _ (matrix_sized m n _), mapData_matrix]

/-- The product of a well-formed `m × n` tensor with the zero matrix. -/
theorem mul_zero_matrix {α : Type} [LinearOrderedField α] (m n : ℕ) (T : Tensor α)
    (hb : T.bentuk = [(m : Int), (n : Int)])
    (hs : T.strides = [(n : Int), 1]) (hr : T.requires_grad = false)
    (hl : T.data.length = m * n) :
    Tensor.mul T (matrix m n (fun _ _ => 0)) = .ok (matrix m n (fun _ _ => 0)) := by
  rw [mul_eq T _ hb (by simp [matrix, hl])]
  obtain ⟨data, bentuk, strides, rg⟩ := T
  simp only at hb hs hr hl
  subst hb hs hr
  unfold matrix
  simp only [Except.ok.injEq, Tensor.mk.injEq, and_true]
  apply List.ext_getElem?
  intro i
  by_cases hi : i < m * n
  · simp [List.getElem?_zipWith, hi, hl]
  · rw [List.getElem?_eq_none (by simp [hl]; omega), List.getElem?_eq_none (by simp; omega)]

theorem xorNet_zero_grad {α : Type} [LinearOrderedField α] (lr : α) (W1 W2 : ℕ → ℕ → α)
    (c1 c2 : Tensor α) (A1 A2 : adam α) (acts pres : List (Tensor α)) :
    (xorNet lr W1 W2 c1 c2 A1 A2 acts pres).zero_grad
      = .ok (xorNet lr W1 W2 c1 c2 A1 A2 acts pres) := by
  unfold NeuralNetwork.zero_grad
  have hm : (xorNet lr W1 W2 c1 c2 A1 A2 acts pres).dense_layers.mapM Dense.zero_grad
      = .ok [plainLayer 2 4 W1 c1, plainLayer 4 1 W2 c2] := by
    show [plainLayer 2 4 W1 c1, plainLayer 4 1 W2 c2].mapM Dense.zero_grad = _
    rw [List.mapM_cons, plainLayer_zero_grad, List.mapM_cons, plainLayer_zero_grad]
    rfl
  rw [hm]
  rfl

/-- `forward` of the demo network on the `4 × 2` input `X`, when the second
dense layer outputs no positive value: the ReLU stage returns zeros and the
output is the constant `1/(1 + exp(-0))`. -/
theorem xorNet_forward {α : Type} [LinearOrderedField α] (sexp : α → α) (lr : α)
    (W1 W2 : ℕ → ℕ → α) (c1 c2 : Tensor α) (A1 A2 : adam α) (acts pres : List (Tensor α))
    (X : ℕ → ℕ → α) (hdead : xorDead X W1 W2) :
    (xorNet lr W1 W2 c1 c2 A1 A2 acts pres).forward sexp (matrix 4 2 X)
      = .ok (xorNet lr W1 W2 (matrix 4 2 X) (matrix 4 4 (xorHidden X W1)) A1 A2
              [matrix 4 2 X, matrix 4 4 (xorHidden X W1), matrix 4 1 (xorPre X W1 W2),
               matrix 4 1 (fun _ _ => 0), matrix 4 1 (fun _ _ => Sigmoid.value sexp 0)]
              [matrix 4 2 X, matrix 4 4 (xorHidden X W1), matrix 4 1 (xorPre X W1 W2),
               matrix 4 1 (fun _ _ => 0)],
             matrix 4 1 (fun _ _ => Sigmoid.value sexp 0)) := by
  have hv0 : ∀ a b : Dense α, vecGet [a, b] 0 = .ok a := fun _ _ => rfl
  have hv1 : ∀ a b : Dense α, vecGet [a, b] 1 = .ok b := fun _ _ => rfl
  have hs0 : ∀ a b c : Dense α, vecSet [a, b] 0 c = .ok [c, b] := fun _ _ _ => rfl
  have hs1 : ∀ a b c : Dense α, vecSet [a, b] 1 c = .ok [a, c] := fun _ _ _ => rfl
  have f1 : (plainLayer 2 4 W1 c1).forward (matrix 4 2 X)
      = .ok (plainLayer 2 4 W1 (matrix 4 2 X), matrix 4 4 (xorHidden X W1)) :=
    plainLayer_forward 2 4 4 W1 c1 X
  have f2 : (plainLayer 4 1 W2 c2).forward (matrix 4 4 (xorHidden X W1))
      = .ok (plainLayer 4 1 W2 (matrix 4 4 (xorHidden X W1)), matrix 4 1 (xorPre X W1 W2)) :=
    plainLayer_forward 4 1 4 W2 c2 (xorHidden X W1)
  have fr := relu_forward_nonpos 4 1 (xorPre X W1 W2) hdead
  simp only [NeuralNetwork.forward, xorNet, xorStages, List.length_cons, List.length_nil,
    forLoop, NeuralNetwork.forwardStep, List.getElem?_cons_zero, List.getElem?_cons_succ,
    hv0, hv1, hs0, hs1, f1, f2, fr, sigmoid_forward_zero, ok_bind, zero_add,
    List.nil_append, List.singleton_append, List.cons_append]

/-- `backward` after that `forward`: the ReLU stage passes the zero gradient,
and both dense layers are left with zero gradients. -/
theorem xorNet_backward {α : Type} [LinearOrderedField α] (sexp : α → α) (lr : α)
    (W1 W2 : ℕ → ℕ → α) (A1 A2 : adam α) (X : ℕ → ℕ → α) (Y : Tensor α)
    (hY : 4 ≤ Y.data.length) (hdead : xorDead X W1 W2) :
    (xorNet lr W1 W2 (matrix 4 2 X) (matrix 4 4 (xorHidden X W1)) A1 A2
        [matrix 4 2 X, matrix 4 4 (xorHidden X W1), matrix 4 1 (xorPre X W1 W2),
               matrix 4 1 (fun _ _ => 0), matrix 4 1 (fun _ _ => Sigmoid.value sexp 0)]
        [matrix 4 2 X, matrix 4 4 (xorHidden X W1), matrix 4 1 (xorPre X W1 W2),
               matrix 4 1 (fun _ _ => 0)]).backward
        (matrix 4 1 (fun _ _ => Sigmoid.value sexp 0)) Y
      = .ok (xorNet lr W1 W2 (matrix 4 2 X) (matrix 4 4 (xorHidden X W1)) A1 A2
              [matrix 4 2 X, matrix 4 4 (xorHidden X W1), matrix 4 1 (xorPre X W1 W2),
               matrix 4 1 (fun _ _ => 0), matrix 4 1 (fun _ _ => Sigmoid.value sexp 0)]
              [matrix 4 2 X, matrix 4 4 (xorHidden X W1), matrix 4 1 (xorPre X W1 W2),
               matrix 4 1 (fun _ _ => 0)],
             matrix 4 2 (fun _ _ => 0)) := by
  have hv0 : ∀ a b : Dense α, vecGet [a, b] 0 = .ok a := fun _ _ => rfl
  have hv1 : ∀ a b : Dense α, vecGet [a, b] 1 = .ok b := fun _ _ => rfl
  have hs0 : ∀ a b c : Dense α, vecSet [a, b] 0 c = .ok [c, b] := fun _ _ _ => rfl
  have hs1 : ∀ a b c : Dense α, vecSet [a, b] 1 c = .ok [a, c] := fun _ _ _ => rfl
  have ha : ∀ a b c d e : Tensor α, vecGet [a, b, c, d, e] (((3 : ℕ) : Int) + 1) = .ok e :=
    fun _ _ _ _ _ => rfl
  have hp : ∀ a b c d : Tensor α, vecGet [a, b, c, d] ((2 : ℕ) : Int) = .ok c :=
    fun _ _ _ _ => rfl
  have hPl : (matrix 4 1 (fun _ _ => Sigmoid.value sexp 0)).data.length = 4 := by
    simp [matrix]
  have hG := BinaryCrossEnrtopy.bce_backward_eq (matrix 4 1 (fun _ _ => Sigmoid.value sexp 0)) Y
    (matrix_sized 4 1 _) (by rw [hPl]; exact hY)
  have hSB := Sigmoid.sigmoid_backward_eq (matrix 4 1 (fun _ _ => Sigmoid.value sexp 0))
    (matrix_sized 4 1 _)
  have hG0l : (Tensor.zipData BinaryCrossEnrtopy.gradValue
      (matrix 4 1 (fun _ _ => Sigmoid.value sexp 0)) Y).data.length = 4 := by
    simp only [Tensor.zipData, List.length_zipWith, hPl]
    omega
  have hM1 := mul_eq (Tensor.zipData BinaryCrossEnrtopy.gradValue
      (matrix 4 1 (fun _ _ => Sigmoid.value sexp 0)) Y)
    { matrix 4 1 (fun _ _ => Sigmoid.value sexp 0) with
      data := (matrix 4 1 (fun _ _ => Sigmoid.value sexp 0)).data.map (fun v => v * (1 - v)) }
    rfl (by simp only [List.length_map, hG0l, hPl]; exact le_refl 4)
  have hM2 := mul_zero_matrix 4 1
    { Tensor.zipData BinaryCrossEnrtopy.gradValue
        (matrix 4 1 (fun _ _ => Sigmoid.value sexp 0)) Y with
      data := List.zipWith (· * ·)
        (Tensor.zipData BinaryCrossEnrtopy.gradValue
          (matrix 4 1 (fun _ _ => Sigmoid.value sexp 0)) Y).data
        ((matrix 4 1 (fun _ _ => Sigmoid.value sexp 0)).data.map (fun v => v * (1 - v))) }
    rfl (strides_pair 4 1) rfl
    (by simp only [List.length_zipWith, List.length_map, hG0l, hPl]; rfl)
  have br := relu_backward_nonpos 4 1 (xorPre X W1 W2) hdead
  have b2 := plainLayer_backward 4 1 4 W2 (xorHidden X W1)
  have b1 := plainLayer_backward 2 4 4 W1 X
  unfold NeuralNetwork.backward
  rw [hG, ok_bind]
  simp only [xorNet, xorStages, List.length_cons, List.length_nil, forDown,
    NeuralNetwork.backwardStep, List.getElem?_cons_zero, List.getElem?_cons_succ,
    hv0, hv1, hs0, hs1, ha, hp, hSB, hM1, hM2, br, b1, b2, ok_bind, zero_add]

theorem xorNet_optimisasi {α : Type} [LinearOrderedField α] (ssqrt : α → α) (lr : α)
    (W1 W2 : ℕ → ℕ → α) (c1 c2 : Tensor α) (A1 A2 : adam α) (acts pres : List (Tensor α))
    (h1 : A1.OnZero (matrix 4 2 (fun _ _ => (0 : α))) (vector 4 (fun _ => (0 : α))))
    (h2 : A2.OnZero (matrix 1 4 (fun _ _ => (0 : α))) (vector 1 (fun _ => (0 : α)))) :
    (xorNet lr W1 W2 c1 c2 A1 A2 acts pres).optimisasi ssqrt
      = .ok (xorNet lr W1 W2 c1 c2
          (A1.zeroNext (matrix 4 2 (fun _ _ => 0)) (vector 4 (fun _ => 0)))
          (A2.zeroNext (matrix 1 4 (fun _ _ => 0)) (vector 1 (fun _ => 0))) acts pres) := by
  have s0 := NeuralNetwork.optimisasiStep_eq ssqrt 0 (xorNet lr W1 W2 c1 c2 A1 A2 acts pres)
    (plainLayer 2 4 W1 c1) A1 _ rfl rfl (adam.update_on_zero ssqrt A1 4 2 4 W1 h1)
  have s1 := NeuralNetwork.optimisasiStep_eq ssqrt 1
    (xorNet lr W1 W2 c1 c2 (A1.zeroNext (matrix 4 2 (fun _ _ => 0)) (vector 4 (fun _ => 0))) A2
      acts pres)
    (plainLayer 4 1 W2 c2) A2 _ rfl rfl (adam.update_on_zero ssqrt A2 1 4 1 W2 h2)
  unfold NeuralNetwork.optimisasi
  show forLoop _ 2 0 _ = _
  rw [forLoop_succ, s0, ok_bind]
  show forLoop _ 1 1 (xorNet lr W1 W2 c1 c2
    (A1.zeroNext (matrix 4 2 (fun _ _ => 0)) (vector 4 (fun _ => 0))) A2 acts pres) = _
  rw [forLoop_succ, s1, ok_bind]
  rfl

/-- One training step of the demo network with an inactive ReLU: it returns
the mean of the element losses of the constant prediction `1/(1 + exp(-0))`,
and leaves the weights and biases as they were, the optimizers one step
further. -/
theorem xorNet_train_step {α : Type} [LinearOrderedField α] (sexp slog ssqrt : α → α)
    (lr : α) (W1 W2 : ℕ → ℕ → α) (c1 c2 : Tensor α) (A1 A2 : adam α)
    (acts pres : List (Tensor α)) (X : ℕ → ℕ → α) (Y : Tensor α) (hY : 4 ≤ Y.data.length)
    (hdead : xorDead X W1 W2)
    (h1 : A1.OnZero (matrix 4 2 (fun _ _ => (0 : α))) (vector 4 (fun _ => (0 : α))))
    (h2 : A2.OnZero (matrix 1 4 (fun _ _ => (0 : α))) (vector 1 (fun _ => (0 : α)))) :
    (xorNet lr W1 W2 c1 c2 A1 A2 acts pres).train_step sexp slog ssqrt (matrix 4 2 X) Y
      = .ok (xorNet lr W1 W2 (matrix 4 2 X) (matrix 4 4 (xorHidden X W1))
              (A1.zeroNext (matrix 4 2 (fun _ _ => 0)) (vector 4 (fun _ => 0)))
              (A2.zeroNext (matrix 1 4 (fun _ _ => 0)) (vector 1 (fun _ => 0)))
              [matrix 4 2 X, matrix 4 4 (xorHidden X W1), matrix 4 1 (xorPre X W1 W2),
               matrix 4 1 (fun _ _ => 0), matrix 4 1 (fun _ _ => Sigmoid.value sexp 0)]
              [matrix 4 2 X, matrix 4 4 (xorHidden X W1), matrix 4 1 (xorPre X W1 W2),
               matrix 4 1 (fun _ _ => 0)],
             (Tensor.zipData (BinaryCrossEnrtopy.lossValue slog)
                (matrix 4 1 (fun _ _ => Sigmoid.value sexp 0)) Y).data.sum
              / (((Tensor.zipData (BinaryCrossEnrtopy.lossValue slog)
                (matrix 4 1 (fun _ _ => Sigmoid.value sexp 0)) Y).data.length : ℕ) : α)) := by
  have hPl : (matrix 4 1 (fun _ _ => Sigmoid.value sexp 0)).data.length = 4 := by
    simp [matrix]
  have hL := BinaryCrossEnrtopy.bce_forward_eq slog
    (matrix 4 1 (fun _ _ => Sigmoid.value sexp 0)) Y (matrix_sized 4 1 _)
    (by rw [hPl]; exact hY)
  have hLs : (Tensor.zipData (BinaryCrossEnrtopy.lossValue slog)
      (matrix 4 1 (fun _ _ => Sigmoid.value sexp 0)) Y).Sized := by
    have hl : (Tensor.zipData (BinaryCrossEnrtopy.lossValue slog)
        (matrix 4 1 (fun _ _ => Sigmoid.value sexp 0)) Y).data.length = 4 := by
      simp only [Tensor.zipData, List.length_zipWith, hPl]
      omega
    unfold Tensor.Sized
    rw [hl]
    rfl
  have hM := NeuralNetwork.meanLoss_eq _ hLs
  unfold NeuralNetwork.train_step
  rw [xorNet_zero_grad, ok_bind, xorNet_forward sexp lr W1 W2 c1 c2 A1 A2 acts pres X hdead,
    ok_bind]
  simp only []
  rw [hL, ok_bind, hM, ok_bind, xorNet_backward sexp lr W1 W2 A1 A2 X Y hY hdead, ok_bind]
  simp only []
  rw [xorNet_optimisasi ssqrt lr W1 W2 _ _ A1 A2 _ _ h1 h2, ok_bind]

/-- Any number of training steps of the demo network with an inactive ReLU:
the weights and biases never change, and every step returns the same loss. -/
theorem xorNet_train {α : Type} [LinearOrderedField α] (sexp slog ssqrt : α → α)
    (lr : α) (W1 W2 : ℕ → ℕ → α) (c1 c2 : Tensor α) (A1 A2 : adam α)
    (acts pres : List (Tensor α)) (X : ℕ → ℕ → α) (Y : Tensor α) (hY : 4 ≤ Y.data.length)
    (hdead : xorDead X W1 W2)
    (h1 : A1.OnZero (matrix 4 2 (fun _ _ => (0 : α))) (vector 4 (fun _ => (0 : α))))
    (h2 : A2.OnZero (matrix 1 4 (fun _ _ => (0 : α))) (vector 1 (fun _ => (0 : α))))
    (n : ℕ) (hn : 1 ≤ n) :
    ∃ d1 d2 B1 B2 acts' pres',
      (xorNet lr W1 W2 c1 c2 A1 A2 acts pres).train sexp slog ssqrt (matrix 4 2 X) Y (n : Int)
        = .ok (xorNet lr W1 W2 d1 d2 B1 B2 acts' pres',
             (Tensor.zipData (BinaryCrossEnrtopy.lossValue slog)
                (matrix 4 1 (fun _ _ => Sigmoid.value sexp 0)) Y).data.sum
              / (((Tensor.zipData (BinaryCrossEnrtopy.lossValue slog)
                (matrix 4 1 (fun _ _ => Sigmoid.value sexp 0)) Y).data.length : ℕ) : α)) := by
  obtain ⟨st, hst, ⟨d1, d2, B1, B2, acts', pres', e, _, _⟩, hloss⟩ := forLoop_total_idx
    (fun _ (st : NeuralNetwork α × α) =>
      NeuralNetwork.train_step sexp slog ssqrt st.1 (matrix 4 2 X) Y)
    (fun k (st : NeuralNetwork α × α) =>
      (∃ d1 d2 B1 B2 acts' pres', st.1 = xorNet lr W1 W2 d1 d2 B1 B2 acts' pres'
        ∧ B1.OnZero (matrix 4 2 (fun _ _ => (0 : α))) (vector 4 (fun _ => (0 : α)))
        ∧ B2.OnZero (matrix 1 4 (fun _ _ => (0 : α))) (vector 1 (fun _ => (0 : α))))
      ∧ (0 < k → st.2 =
          (Tensor.zipData (BinaryCrossEnrtopy.lossValue slog)
                (matrix 4 1 (fun _ _ => Sigmoid.value sexp 0)) Y).data.sum
              / (((Tensor.zipData (BinaryCrossEnrtopy.lossValue slog)
                (matrix 4 1 (fun _ _ => Sigmoid.value sexp 0)) Y).data.length : ℕ) : α)))
    n 0 (xorNet lr W1 W2 c1 c2 A1 A2 acts pres, 0)
    (fun j t _ _ hP => by
      obtain ⟨⟨d1, d2, B1, B2, acts', pres', e, q1, q2⟩, _⟩ := hP
      have hs := xorNet_train_step sexp slog ssqrt lr W1 W2 d1 d2 B1 B2 acts' pres' X Y hY
        hdead q1 q2
      rw [← e] at hs
      exact ⟨_, hs, ⟨_, _, _, _, _, _, rfl, adam.zeroNext_onZero B1 _ _,
        adam.zeroNext_onZero B2 _ _⟩, fun _ => rfl⟩)
    ⟨⟨c1, c2, A1, A2, acts, pres, rfl, h1, h2⟩, fun h => absurd h (lt_irrefl 0)⟩
  refine ⟨d1, d2, B1, B2, acts', pres', ?_⟩
  unfold NeuralNetwork.train forRange
  rw [Int.toNat_ofNat, hst]
  congr 1
  rw [Nat.zero_add] at hloss
  exact Prod.ext e (hloss (by omega))

/-- The four construction calls of the demo driver, the drawn weights being
`W1` and `W2`, build the network with these weights, zero biases, fresh
optimizers and empty caches. -/
theorem xorCalls_builds {α : Type} [LinearOrderedField α] (lr : α) (W1 W2 : ℕ → ℕ → α) :
    (NeuralNetwork.new lr).calls (xorCalls W1 W2)
      = .ok (xorNet lr W1 W2 Tensor.default Tensor.default (adam.newDefault lr)
          (adam.newDefault lr) [] []) := by
  have n1 : Dense.new 2 4 true (matrix 4 2 W1)
      = .ok (plainLayer 2 4 W1 Tensor.default) := by
    have z1 : (dl.zeros [(4 : Int)] : Except Err (Tensor α)) = .ok (vector 4 (fun _ => 0)) :=
      zeros_single 4
    have z2 : (dl.zeros [(4 : Int), (2 : Int)] : Except Err (Tensor α))
        = .ok (matrix 4 2 (fun _ _ => 0)) := zeros_pair 4 2
    simp only [Dense.new, if_true, z1, z2, ok_bind]
    rfl
  have n2 : Dense.new 4 1 true (matrix 1 4 W2)
      = .ok (plainLayer 4 1 W2 Tensor.default) := by
    have z1 : (dl.zeros [(1 : Int)] : Except Err (Tensor α)) = .ok (vector 1 (fun _ => 0)) :=
      zeros_single 1
    have z2 : (dl.zeros [(1 : Int), (4 : Int)] : Except Err (Tensor α))
        = .ok (matrix 1 4 (fun _ _ => 0)) := zeros_pair 1 4
    simp only [Dense.new, if_true, z1, z2, ok_bind]
    rfl
  simp only [xorCalls, NeuralNetwork.calls, NeuralNetwork.call, NeuralNetwork.tambah_dense,
    n1, n2, ok_bind]
  rfl

/-- With non-negative inputs, non-negative first-layer weights and
non-positive second-layer weights, the second dense layer outputs no positive
value: the ReLU stage is inactive. -/
theorem xorDead_of_signs {α : Type} [LinearOrderedField α] (X W1 W2 : ℕ → ℕ → α)
    (hX : ∀ i j, 0 ≤ X i j) (h1 : ∀ i j, 0 ≤ W1 i j) (h2 : ∀ i j, W2 i j ≤ 0) :
    xorDead X W1 W2 := by
  intro b o _ _
  have hH : ∀ k, 0 ≤ xorHidden X W1 b k := by
    intro k
    simp only [xorHidden, Dense.forwardValue, if_true, add_zero]
    exact Finset.sum_nonneg (fun j _ => mul_nonneg (hX b j) (h1 k j))
  simp only [xorPre, Dense.forwardValue, if_true, add_zero]
  exact Finset.sum_nonpos (fun k _ => mul_nonpos_of_nonneg_of_nonpos (hH k) (h2 o k))

/-- The entries of the training inputs are not negative. -/
theorem xorX_nonneg {α : Type} [LinearOrderedField α] (i j : ℕ) :
    (0 : α) ≤ xorRows i j := by
  show (0 : α) ≤ (xorX : Tensor α).data.getD (i * 2 + j) 0
  have hm : ∀ v ∈ (xorX : Tensor α).data, (0 : α) ≤ v := by
    intro v hv
    simp only [xorX, List.mem_cons, List.mem_singleton, List.mem_nil_iff, or_false] at hv
    rcases hv with h | h | h | h | h | h | h | h <;> rw [h] <;> norm_num
  rw [List.getD_eq_getElem?_getD]
  cases hq : (xorX : Tensor α).data[i * 2 + j]? with
  | none => exact le_refl 0
  | some v => exact hm v (List.getElem?_mem hq)

/-- The loss that every training step returns on the XOR targets when the
prediction is the constant `1/(1 + exp(-0))` and `exp 0 = 1`: `-log(1/2)`. -/
theorem xorLoss_eq {α : Type} [LinearOrderedField α] (sexp slog : α → α) (h0 : sexp 0 = 1) :
    (Tensor.zipData (BinaryCrossEnrtopy.lossValue slog)
        (matrix 4 1 (fun _ _ => Sigmoid.value sexp 0)) (xorY : Tensor α)).data.sum
      / (((Tensor.zipData (BinaryCrossEnrtopy.lossValue slog)
        (matrix 4 1 (fun _ _ => Sigmoid.value sexp 0)) (xorY : Tensor α)).data.length : ℕ) : α)
      = -(slog (1 / 2)) := by
  have hv : Sigmoid.value sexp 0 = 1 / 2 := by
    unfold Sigmoid.value
    rw [neg_zero, h0]
    norm_num
  have e1 : min (1 - 1 / 10 ^ 7) (1 / 2 : α) = 1 / 2 := min_eq_right (by norm_num)
  have e2 : max (1 / 10 ^ 7) (1 / 2 : α) = 1 / 2 := max_eq_right (by norm_num)
  have e3 : (1 : α) - 1 / 2 = 1 / 2 := by norm_num
  have hd : (Tensor.zipData (BinaryCrossEnrtopy.lossValue slog)
      (matrix 4 1 (fun _ _ => Sigmoid.value sexp 0)) (xorY : Tensor α)).data
      = [-(slog (1 / 2)), -(slog (1 / 2)), -(slog (1 / 2)), -(slog (1 / 2))] := by
    rw [hv]
    simp only [Tensor.zipData, matrix, xorY, List.range_succ, List.range_zero, List.nil_append,
      List.cons_append, List.map_cons, List.map_nil, List.zipWith_cons_cons,
      List.zipWith_nil_right, BinaryCrossEnrtopy.lossValue, e1, e2, e3, Nat.mul_one,
      Nat.reduceMul, List.append_nil, List.singleton_append]
    simp only [zero_mul, one_mul, sub_zero, sub_self, zero_add, add_zero]
  rw [hd]
  simp only [List.sum_cons, List.sum_nil, List.length_cons, List.length_nil]
  norm_num
  ring
theorem xorX_eq_rows {α : Type} [LinearOrderedField α] :
    (xorX : Tensor α) = matrix 4 2 xorRows :=
  eq_matrix xorX 4 2 rfl rfl rfl rfl

/-! ## C22: end-to-end training -/

/-- The claim C22 fails on the code: the network `Dense(2,4) → Dense(4,1) →
ReLU → Sigmoid` built with every first-layer weight `1` and every second-layer
weight `-1` (biases zero) and learning rate `0.1`, trained on
`X = [[0,0],[0,1],[1,0],[1,1]]`, `y = [0,1,1,0]` over the real `exp`, `log`,
`sqrt`: the first `train_step` returns the loss `-log(1/2)`, and so does the
100th (the loss `train` holds after 100 epochs), which is therefore not
strictly less. -/
theorem NeuralNetwork.training_counterexample :
    (NeuralNetwork.new (1 / 10 : ℝ)).calls (xorCalls exOnesW exNegW)
      = .ok (xorNet (1 / 10) exOnesW exNegW Tensor.default Tensor.default
          (adam.newDefault (1 / 10)) (adam.newDefault (1 / 10)) [] [])
    ∧ ((xorNet (1 / 10 : ℝ) exOnesW exNegW Tensor.default Tensor.default
          (adam.newDefault (1 / 10)) (adam.newDefault (1 / 10)) [] []).train_step
          Real.exp Real.log Real.sqrt xorX xorY).map Prod.snd = .ok (-Real.log (1 / 2))
    ∧ ((xorNet (1 / 10 : ℝ) exOnesW exNegW Tensor.default Tensor.default
          (adam.newDefault (1 / 10)) (adam.newDefault (1 / 10)) [] []).train
          Real.exp Real.log Real.sqrt xorX xorY 100).map Prod.snd = .ok (-Real.log (1 / 2))
    ∧ ¬ (-Real.log (1 / 2) < -Real.log (1 / 2)) := by
  have hdead : xorDead (xorRows : ℕ → ℕ → ℝ) exOnesW exNegW :=
    xorDead_of_signs _ _ _ xorX_nonneg (fun _ _ => zero_le_one)
      (fun _ _ => neg_nonpos.mpr zero_le_one)
  have hc := xorLoss_eq Real.exp Real.log Real.exp_zero
  have hs := xorNet_train_step Real.exp Real.log Real.sqrt (1 / 10 : ℝ) exOnesW exNegW
    Tensor.default Tensor.default (adam.newDefault (1 / 10)) (adam.newDefault (1 / 10)) [] []
    xorRows xorY (le_refl 4) hdead (Or.inl rfl) (Or.inl rfl)
  obtain ⟨d1, d2, B1, B2, acts', pres', ht⟩ := xorNet_train Real.exp Real.log Real.sqrt
    (1 / 10 : ℝ) exOnesW exNegW Tensor.default Tensor.default (adam.newDefault (1 / 10))
    (adam.newDefault (1 / 10)) [] [] xorRows xorY
    (le_refl 4) hdead (Or.inl rfl) (Or.inl rfl) 100 (by norm_num)
  rw [← xorX_eq_rows, hc] at hs ht
  simp only [Nat.cast_ofNat] at ht
  refine ⟨xorCalls_builds _ _ _, ?_, ?_, lt_irrefl _⟩
  · rw [hs]
    rfl
  · rw [ht]
    rfl

/-- C22, amended. Training does not always lower the loss.  For the network
`Dense(2,4) → Dense(4,1) → ReLU → Sigmoid` built with initial weights `W1`,
`W2` (biases zero) for which the second dense layer outputs no positive value
on the four rows of `X = [[0,0],[0,1],[1,0],[1,1]]`, for every learning rate and
every number `n ≥ 1` of full-batch `train_step` calls on `X`, `y = [0,1,1,0]`:
every call returns, the loss returned by the `n`-th step equals the loss
returned by the 1st step (`-log(1/2)` when `exp 0 = 1`), and the weights are
still `W1`, `W2` and the biases zero.  The ReLU stage outputs `0` on every row
and passes the derivative `0`, so every gradient is zero and `optimisasi`
changes no parameter. -/
theorem NeuralNetwork.training_amended {α : Type} [LinearOrderedField α]
    (sexp slog ssqrt : α → α) (lr : α) (W1 W2 : ℕ → ℕ → α) (n : ℕ)
    (hdead : xorDead xorRows W1 W2) (hn : 1 ≤ n) :
    (NeuralNetwork.new lr).calls (xorCalls W1 W2)
      = .ok (xorNet lr W1 W2 Tensor.default Tensor.default (adam.newDefault lr)
          (adam.newDefault lr) [] [])
    ∧ ∃ N1 Nn c,
        (xorNet lr W1 W2 Tensor.default Tensor.default (adam.newDefault lr)
            (adam.newDefault lr) [] []).train_step sexp slog ssqrt xorX xorY = .ok (N1, c)
        ∧ (xorNet lr W1 W2 Tensor.default Tensor.default (adam.newDefault lr)
            (adam.newDefault lr) [] []).train sexp slog ssqrt xorX xorY (n : Int)
            = .ok (Nn, c)
        ∧ Nn.dense_layers.map (fun L => (L.bobot, L.bias))
            = [(matrix 4 2 W1, vector 4 (fun _ => 0)),
               (matrix 1 4 W2, vector 1 (fun _ => 0))]
        ∧ (sexp 0 = 1 → c = -(slog (1 / 2))) := by
  have hs := xorNet_train_step sexp slog ssqrt lr W1 W2 Tensor.default
    Tensor.default (adam.newDefault lr) (adam.newDefault lr) [] []
    xorRows xorY (le_refl 4) hdead (Or.inl rfl) (Or.inl rfl)
  obtain ⟨d1, d2, B1, B2, acts', pres', ht⟩ := xorNet_train sexp slog ssqrt
    lr W1 W2 Tensor.default Tensor.default (adam.newDefault lr)
    (adam.newDefault lr) [] [] xorRows xorY
    (le_refl 4) hdead (Or.inl rfl) (Or.inl rfl) n hn
  rw [← xorX_eq_rows] at hs ht
  exact ⟨xorCalls_builds lr W1 W2, _, _, _, hs, ht, rfl, fun h0 => xorLoss_eq sexp slog h0⟩

/-- Witness of C22, amended: all-zero initial weights, 100 epochs with
learning rate `0.001` over the real `exp`, `log`, `sqrt`. -/
theorem NeuralNetwork.training_amended_witness :
    xorDead (xorRows : ℕ → ℕ → ℝ) (fun _ _ => 0) (fun _ _ => 0)
    ∧ 1 ≤ 100
    ∧ ∃ N1 Nn c,
      (xorNet (1 / 1000 : ℝ) (fun _ _ => 0) (fun _ _ => 0) Tensor.default Tensor.default
          (adam.newDefault (1 / 1000)) (adam.newDefault (1 / 1000)) [] []).train_step
          Real.exp Real.log Real.sqrt xorX xorY = .ok (N1, c)
      ∧ (xorNet (1 / 1000 : ℝ) (fun _ _ => 0) (fun _ _ => 0) Tensor.default Tensor.default
          (adam.newDefault (1 / 1000)) (adam.newDefault (1 / 1000)) [] []).train
          Real.exp Real.log Real.sqrt xorX xorY ((100 : ℕ) : Int) = .ok (Nn, c)
      ∧ c = -(Real.log (1 / 2)) := by
  have hdead : xorDead (xorRows : ℕ → ℕ → ℝ) (fun _ _ => 0) (fun _ _ => 0) :=
    xorDead_of_signs _ _ _ xorX_nonneg (fun _ _ => le_refl 0) (fun _ _ => le_refl 0)
  obtain ⟨_, N1, Nn, c, h1, h2, _, h4⟩ := NeuralNetwork.training_amended Real.exp Real.log
    Real.sqrt (1 / 1000 : ℝ) (fun _ _ => 0) (fun _ _ => 0) 100 hdead (by norm_num)
  exact ⟨hdead, by norm_num, N1, Nn, c, h1, h2, h4 Real.exp_zero⟩

/-! ## Row-major offsets -/

theorem numelOf_eq_prod (shape : List Int) : Tensor.numelOf shape = shape.prod := by
  unfold Tensor.numelOf
  rw [List.prod_eq_foldl]

/-- The strides of `d :: ds` are the number of elements of `ds`, then the
strides of `ds`. -/
theorem strides_cons (d : Int) (ds : List Int) :
    Tensor.perhitungan_strides (d :: ds) = ds.prod :: Tensor.perhitungan_strides ds := by
  rw [strides_eq_suffix_prod, strides_eq_suffix_prod, List.length_cons, List.range_succ_eq_map,
    List.map_cons, List.map_map]
  rfl

theorem inBounds_nil (indices : List Int) :
    Tensor.InBounds indices [] ↔ indices = [] := by
  constructor
  · intro h
    exact List.length_eq_zero.mp h.1
  · intro h
    subst h
    exact ⟨rfl, fun k hk => absurd hk (Nat.not_lt_zero k)⟩

theorem inBounds_cons (indices : List Int) (d : Int) (ds : List Int) :
    Tensor.InBounds indices (d :: ds)
      ↔ ∃ i is, indices = i :: is ∧ 0 ≤ i ∧ i < d ∧ Tensor.InBounds is ds := by
  constructor
  · rintro ⟨hl, hk⟩
    cases indices with
    | nil => simp at hl
    | cons i is =>
      refine ⟨i, is, rfl, (hk 0 (by simp)).1, (hk 0 (by simp)).2, by simpa using hl, ?_⟩
      intro k hk'
      have := hk (k + 1) (by simpa using hk')
      simpa using this
  · rintro ⟨i, is, rfl, h0, h1, hl, hk⟩
    refine ⟨by simpa using hl, ?_⟩
    intro k hk'
    cases k with
    | zero => exact ⟨h0, h1⟩
    | succ k =>
      have := hk k (by simpa using hk')
      simpa using this

theorem prod_pos_of_pos (shape : List Int) (hpos : ∀ d ∈ shape, 0 < d) : 0 < shape.prod := by
  induction shape with
  | nil => simp
  | cons d ds ih =>
    rw [List.prod_cons]
    exact mul_pos (hpos d (List.mem_cons_self d ds))
      (ih (fun e he => hpos e (List.mem_cons_of_mem d he)))

/-- The row-major offset of a multi-index within a shape lies in
`[0, numel)`. -/
theorem offset_bounds :
    ∀ (shape indices : List Int), (∀ d ∈ shape, 0 < d) → Tensor.InBounds indices shape →
      0 ≤ (List.zipWith (· * ·) indices (Tensor.perhitungan_strides shape)).sum
      ∧ (List.zipWith (· * ·) indices (Tensor.perhitungan_strides shape)).sum < shape.prod
  | [], indices, _, h => by
    rw [(inBounds_nil indices).mp h]
    simp
  | d :: ds, indices, hpos, h => by
    obtain ⟨i, is, rfl, h0, h1, hr⟩ := (inBounds_cons indices d ds).mp h
    have hP := prod_pos_of_pos ds (fun e he => hpos e (List.mem_cons_of_mem d he))
    obtain ⟨r0, r1⟩ := offset_bounds ds is (fun e he => hpos e (List.mem_cons_of_mem d he)) hr
    rw [strides_cons, List.zipWith_cons_cons, List.sum_cons, List.prod_cons]
    constructor
    · exact add_nonneg (mul_nonneg h0 (le_of_lt hP)) r0
    · have h2 : (i + 1) * ds.prod ≤ d * ds.prod :=
        mul_le_mul_of_nonneg_right (by omega) (le_of_lt hP)
      have h3 : (i + 1) * ds.prod = i * ds.prod + ds.prod := by ring
      omega

/-- Quotient and remainder are unique: `i * P + r` with `0 ≤ r < P` determines
`i` and `r`. -/
theorem divmod_unique (P i j r s : Int) (hr0 : 0 ≤ r) (hr : r < P) (hs0 : 0 ≤ s) (hs : s < P)
    (h : i * P + r = j * P + s) : i = j ∧ r = s := by
  have hij : i = j := by
    rcases lt_trichotomy i j with hlt | heq | hgt
    · exfalso
      have h2 : (i + 1) * P ≤ j * P := mul_le_mul_of_nonneg_right (by omega) (by omega)
      have h3 : (i + 1) * P = i * P + P := by ring
      omega
    · exact heq
    · exfalso
      have h2 : (j + 1) * P ≤ i * P := mul_le_mul_of_nonneg_right (by omega) (by omega)
      have h3 : (j + 1) * P = j * P + P := by ring
      omega
  subst hij
  exact ⟨rfl, by omega⟩

/-- Two multi-indices within a shape that have the same row-major offset are
equal. -/
theorem offset_injective :
    ∀ (shape a b : List Int), (∀ d ∈ shape, 0 < d) → Tensor.InBounds a shape →
      Tensor.InBounds b shape →
      (List.zipWith (· * ·) a (Tensor.perhitungan_strides shape)).sum
        = (List.zipWith (· * ·) b (Tensor.perhitungan_strides shape)).sum → a = b
  | [], a, b, _, ha, hb, _ => by
    rw [(inBounds_nil a).mp ha, (inBounds_nil b).mp hb]
  | d :: ds, a, b, hpos, ha, hb, h => by
    obtain ⟨i, is, rfl, _, _, hra⟩ := (inBounds_cons a d ds).mp ha
    obtain ⟨j, js, rfl, _, _, hrb⟩ := (inBounds_cons b d ds).mp hb
    have hpos' : ∀ e ∈ ds, 0 < e := fun e he => hpos e (List.mem_cons_of_mem d he)
    obtain ⟨a0, a1⟩ := offset_bounds ds is hpos' hra
    obtain ⟨b0, b1⟩ := offset_bounds ds js hpos' hrb
    rw [strides_cons, List.zipWith_cons_cons, List.sum_cons, List.zipWith_cons_cons,
      List.sum_cons] at h
    obtain ⟨e1, e2⟩ := divmod_unique ds.prod i j _ _ a0 a1 b0 b1 h
    rw [e1, offset_injective ds is js hpos' hra hrb e2]

/-! ## The derivative of the binary cross-entropy -/

/-- Strictly between the two clamp bounds, the per-element gradient is the
derivative of the per-element loss with respect to the prediction. -/
theorem hasDerivAt_lossValue (p y : ℝ) (h0 : 1 / 10 ^ 7 < p) (h1 : p < 1 - 1 / 10 ^ 7) :
    HasDerivAt (fun q : ℝ => BinaryCrossEnrtopy.lossValue Real.log q y)
      (BinaryCrossEnrtopy.gradValue p y) p := by
  have hp0 : (0 : ℝ) < p := lt_trans (by norm_num) h0
  have hp1 : p < 1 := lt_trans h1 (by norm_num)
  have hc : max (1 / 10 ^ 7) (min (1 - 1 / 10 ^ 7) p) = p := by
    rw [min_eq_right (le_of_lt h1), max_eq_right (le_of_lt h0)]
  have d1 : HasDerivAt (fun q : ℝ => Real.log q) p⁻¹ p := Real.hasDerivAt_log (ne_of_gt hp0)
  have d2 : HasDerivAt (fun q : ℝ => Real.log (1 - q)) (-1 / (1 - p)) p := by
    have h := ((hasDerivAt_id p).const_sub 1).log (by simp only [id]; linarith)
    simpa using h
  have d3 : HasDerivAt (fun q : ℝ => -(y * Real.log q + (1 - y) * Real.log (1 - q)))
      (-(y * p⁻¹ + (1 - y) * (-1 / (1 - p)))) p :=
    ((d1.const_mul y).add (d2.const_mul (1 - y))).neg
  have hev : (fun q : ℝ => BinaryCrossEnrtopy.lossValue Real.log q y)
      =ᶠ[nhds p] (fun q : ℝ => -(y * Real.log q + (1 - y) * Real.log (1 - q))) := by
    filter_upwards [Ioo_mem_nhds h0 h1] with q hq
    unfold BinaryCrossEnrtopy.lossValue
    rw [min_eq_right (le_of_lt hq.2), max_eq_right (le_of_lt hq.1)]
  have hv : BinaryCrossEnrtopy.gradValue p y = -(y * p⁻¹ + (1 - y) * (-1 / (1 - p))) := by
    unfold BinaryCrossEnrtopy.gradValue
    rw [hc]
    have a1 : p ≠ 0 := ne_of_gt hp0
    have a2 : 1 - p ≠ 0 := by linarith
    field_simp
    ring
  rw [hv]
  exact d3.congr_of_eventuallyEq hev

/-! ## C34: `BinaryCrossEnrtopy::backward` is the derivative of `forward` -/

/-- C34. For every real target `y`, the element of `forward([q],[y])` is a
function `q ↦ ℓ(q)` of the prediction; for every prediction `p` with
`eps < p < 1 - eps` (`eps = 1e-7`), `ℓ` is differentiable at `p` and the element
of `backward([p],[y])` equals the derivative of `ℓ` at `p`, which is
`(p - y) / (p (1 - p))`. -/
theorem BinaryCrossEnrtopy.backward_is_loss_derivative (p y : ℝ)
    (h0 : 1 / 10 ^ 7 < p) (h1 : p < 1 - 1 / 10 ^ 7) :
    (∀ q : ℝ, BinaryCrossEnrtopy.forward Real.log ⟨[q], [1], [1], false⟩ ⟨[y], [1], [1], false⟩
        = .ok ⟨[BinaryCrossEnrtopy.lossValue Real.log q y], [1], [1], false⟩)
    ∧ DifferentiableAt ℝ (fun q : ℝ => BinaryCrossEnrtopy.lossValue Real.log q y) p
    ∧ BinaryCrossEnrtopy.backward ⟨[p], [1], [1], false⟩ ⟨[y], [1], [1], false⟩
        = .ok ⟨[deriv (fun q : ℝ => BinaryCrossEnrtopy.lossValue Real.log q y) p],
            [1], [1], false⟩
    ∧ deriv (fun q : ℝ => BinaryCrossEnrtopy.lossValue Real.log q y) p
        = (p - y) / (p * (1 - p)) := by
  have hd := hasDerivAt_lossValue p y h0 h1
  have hc : max (1 / 10 ^ 7) (min (1 - 1 / 10 ^ 7) p) = p := by
    rw [min_eq_right (le_of_lt h1), max_eq_right (le_of_lt h0)]
  refine ⟨fun q => ?_, hd.differentiableAt, ?_, ?_⟩
  · rw [BinaryCrossEnrtopy.bce_forward_eq Real.log (⟨[q], [1], [1], false⟩ : Tensor ℝ)
      ⟨[y], [1], [1], false⟩ rfl (le_refl 1)]
    simp [Tensor.zipData, strides_single]
  · rw [BinaryCrossEnrtopy.bce_backward_eq (⟨[p], [1], [1], false⟩ : Tensor ℝ)
      ⟨[y], [1], [1], false⟩ rfl (le_refl 1), hd.deriv]
    simp [Tensor.zipData, strides_single]
  · rw [hd.deriv]
    unfold BinaryCrossEnrtopy.gradValue
    rw [hc]

/-- Witness of C34: at `p = 1/2`, `y = 1` the derivative of the loss element
is `-2`, and `backward([1/2],[1])` returns it. -/
theorem BinaryCrossEnrtopy.backward_is_loss_derivative_witness :
    ((1 : ℝ) / 10 ^ 7 < 1 / 2) ∧ ((1 : ℝ) / 2 < 1 - 1 / 10 ^ 7)
    ∧ BinaryCrossEnrtopy.backward (⟨[1 / 2], [1], [1], false⟩ : Tensor ℝ)
        ⟨[1], [1], [1], false⟩
        = .ok ⟨[deriv (fun q : ℝ => BinaryCrossEnrtopy.lossValue Real.log q 1) (1 / 2)],
            [1], [1], false⟩
    ∧ deriv (fun q : ℝ => BinaryCrossEnrtopy.lossValue Real.log q 1) (1 / 2) = -2 := by
  have a0 : (1 : ℝ) / 10 ^ 7 < 1 / 2 := by norm_num
  have a1 : (1 : ℝ) / 2 < 1 - 1 / 10 ^ 7 := by norm_num
  have h := BinaryCrossEnrtopy.backward_is_loss_derivative (1 / 2) 1 a0 a1
  refine ⟨a0, a1, h.2.2.1, ?_⟩
  rw [h.2.2.2]
  norm_num

/-! ## Sums over the entries of a matrix -/

theorem sum_map_range {α : Type} [LinearOrderedField α] (N : ℕ) (f : ℕ → α) :
    ((List.range N).map f).sum = ∑ k in Finset.range N, f k := by
  induction N with
  | zero => simp
  | succ N ih =>
    rw [List.range_succ, List.map_append, List.sum_append, ih, Finset.sum_range_succ]
    simp

/-- A sum over the flat offsets of an `m × n` matrix is the sum over its rows
of the sums over the columns. -/
theorem sum_range_flat {α : Type} [LinearOrderedField α] (m n : ℕ) (f : ℕ → ℕ → α) :
    ∑ k in Finset.range (m * n), f (k / n) (k % n)
      = ∑ i in Finset.range m, ∑ j in Finset.range n, f i j := by
  induction m with
  | zero => simp
  | succ m ih =>
    rw [Nat.succ_mul, Finset.sum_range_add, ih, Finset.sum_range_succ]
    congr 1
    apply Finset.sum_congr rfl
    intro j hj
    have hj' : j < n := Finset.mem_range.mp hj
    rw [flat_div hj', flat_mod hj']

/-- The `dot` of two matrices of one shape, entry by entry. -/
theorem dot_matrix {α : Type} [LinearOrderedField α] (m n : ℕ) (A B : ℕ → ℕ → α) :
    Tensor.dot (matrix m n A) (matrix m n B)
      = ∑ i in Finset.range m, ∑ j in Finset.range n, A i j * B i j := by
  unfold Tensor.dot matrix
  simp only []
  rw [List.zipWith_map, zipWith_same, sum_map_range,
    ← sum_range_flat m n (fun i j => A i j * B i j)]

/-- The three contractions of `G`, `X` and `W` agree. -/
theorem adjoint_sums {α : Type} [LinearOrderedField α] (batch inF outF : ℕ)
    (X W G : ℕ → ℕ → α) :
    (∑ b in Finset.range batch, ∑ o in Finset.range outF,
        G b o * ∑ k in Finset.range inF, X b k * W o k)
      = (∑ b in Finset.range batch, ∑ i in Finset.range inF,
        X b i * ∑ o in Finset.range outF, G b o * W o i)
    ∧ (∑ b in Finset.range batch, ∑ i in Finset.range inF,
        X b i * ∑ o in Finset.range outF, G b o * W o i)
      = (∑ o in Finset.range outF, ∑ i in Finset.range inF,
        W o i * ∑ b in Finset.range batch, G b o * X b i) := by
  have h12 : (∑ b in Finset.range batch, ∑ o in Finset.range outF,
        G b o * ∑ k in Finset.range inF, X b k * W o k)
      = (∑ b in Finset.range batch, ∑ i in Finset.range inF,
        X b i * ∑ o in Finset.range outF, G b o * W o i) := by
    apply Finset.sum_congr rfl
    intro b _
    simp only [Finset.mul_sum]
    rw [Finset.sum_comm]
    apply Finset.sum_congr rfl
    intro i _
    apply Finset.sum_congr rfl
    intro o _
    ring
  have h13 : (∑ b in Finset.range batch, ∑ o in Finset.range outF,
        G b o * ∑ k in Finset.range inF, X b k * W o k)
      = (∑ o in Finset.range outF, ∑ i in Finset.range inF,
        W o i * ∑ b in Finset.range batch, G b o * X b i) := by
    rw [Finset.sum_comm]
    apply Finset.sum_congr rfl
    intro o _
    simp only [Finset.mul_sum]
    rw [Finset.sum_comm]
    apply Finset.sum_congr rfl
    intro i _
    apply Finset.sum_congr rfl
    intro b _
    ring
  exact ⟨h12, h12.symm.trans h13⟩

/-! ## C35: `Dense::backward` is the adjoint of `Dense::forward` over the real numbers -/

/-- C35, amended. Over the real numbers (exact arithmetic in place of
`double`): for every dense layer with bias disabled (weight of shape
`[out, in]`), every input `x` of shape `[batch, in]` and every `g` of shape
`[batch, out]`: `forward(x)` returns `out`, `backward(g)` then returns
`grad_input` and leaves `weight_grad`, and
`sum over b,o of g[b][o]*out[b][o] = sum over b,i of x[b][i]*grad_input[b][i]
 = sum over o,i of weight[o][i]*weight_grad[o][i]`. -/
theorem Dense.backward_adjoint_amended (L : Dense ℝ)
    (batch inF outF : ℕ) (X W G : ℕ → ℕ → ℝ)
    (hin : L.in_features = (inF : Int)) (hout : L.out_features = (outF : Int))
    (hW : L.bobot = matrix outF inF W) (hbias : L.gunakan_bias = false) :
    ∃ L1 out L2 grad_input,
      L.forward (matrix batch inF X) = .ok (L1, out)
      ∧ L1.backward (matrix batch outF G) = .ok (L2, grad_input)
      ∧ L2.bobot = L.bobot
      ∧ Tensor.dot (matrix batch outF G) out = Tensor.dot (matrix batch inF X) grad_input
      ∧ Tensor.dot (matrix batch inF X) grad_input = Tensor.dot L2.bobot L2.grad_bobot := by
  have hf := Dense.forward_matrix L batch inF outF X W (fun _ => 0) hin hout hW
    (fun h => by rw [hbias] at h; cases h)
  have hb := Dense.backward_matrix { L with cached_input := matrix batch inF X }
    batch inF outF X W G hin hout hW rfl
  obtain ⟨s12, s23⟩ := adjoint_sums batch inF outF X W G
  refine ⟨_, _, _, _, hf, hb, rfl, ?_, ?_⟩
  · rw [dot_matrix, dot_matrix, hbias]
    simp only [Dense.forwardValue, Bool.false_eq_true, if_false]
    exact s12
  · show Tensor.dot _ _ = Tensor.dot L.bobot _
    rw [hW, dot_matrix, dot_matrix]
    exact s23

/-- Witness of C35, amended: identity weight, `x = [[3, 4]]`, `g = [[1, 1]]`:
the three sums are equal. -/
theorem Dense.backward_adjoint_amended_witness :
    ∃ L1 out L2 grad_input,
      (⟨2, 2, ⟨[1, 0, 0, 1], [2, 2], [2, 1], false⟩, Tensor.default,
          ⟨[0, 0, 0, 0], [2, 2], [2, 1], false⟩, Tensor.default, Tensor.default, false⟩ :
        Dense ℝ).forward ⟨[3, 4], [1, 2], [2, 1], false⟩ = .ok (L1, out)
      ∧ L1.backward ⟨[1, 1], [1, 2], [2, 1], false⟩ = .ok (L2, grad_input)
      ∧ Tensor.dot (⟨[1, 1], [1, 2], [2, 1], false⟩ : Tensor ℝ) out
          = Tensor.dot (⟨[3, 4], [1, 2], [2, 1], false⟩ : Tensor ℝ) grad_input
      ∧ Tensor.dot (⟨[3, 4], [1, 2], [2, 1], false⟩ : Tensor ℝ) grad_input
          = Tensor.dot L2.bobot L2.grad_bobot := by
  have hx : (⟨[3, 4], [1, 2], [2, 1], false⟩ : Tensor ℝ)
      = matrix 1 2 (fun _ k => if k = 0 then 3 else 4) := by
    simp [matrix, List.range_succ]
  have hg : (⟨[1, 1], [1, 2], [2, 1], false⟩ : Tensor ℝ) = matrix 1 2 (fun _ _ => 1) := by
    simp [matrix, List.range_succ]
  have hw : (⟨[1, 0, 0, 1], [2, 2], [2, 1], false⟩ : Tensor ℝ)
      = matrix 2 2 (fun o k => if o = k then 1 else 0) := by
    simp [matrix, List.range_succ]
  obtain ⟨L1, out, L2, gi, h1, h2, _, h4, h5⟩ := Dense.backward_adjoint_amended
    (⟨2, 2, ⟨[1, 0, 0, 1], [2, 2], [2, 1], false⟩, Tensor.default,
        ⟨[0, 0, 0, 0], [2, 2], [2, 1], false⟩, Tensor.default, Tensor.default, false⟩ : Dense ℝ)
    1 2 2 (fun _ k => if k = 0 then 3 else 4) (fun o k => if o = k then 1 else 0) (fun _ _ => 1)
    rfl rfl hw rfl
  rw [← hx] at h1 h4 h5
  rw [← hg] at h2 h4
  exact ⟨L1, out, L2, gi, h1, h2, h4, h5⟩

/-! ## The first Adam step on any gradient -/

/-- The data of the parameter after the first Adam step from zero moments:
the entry with gradient `g` moves by `-lr * g / (|g| + epsilon)`. -/
theorem adam.signStep_data {α : Type} [LinearOrderedField α] (ssqrt : α → α)
    (hsq : ∀ x : α, ssqrt (x * x) = |x|) (lr b1 b2 eps : α) (hb1 : b1 ≠ 1) (hb2 : b2 ≠ 1) :
    ∀ (l gs : List α),
      List.zipWith (fun p q => p - q) l
        (List.zipWith (fun a b => a / b)
          ((List.zipWith (adam.mValue b1) (l.map (fun _ => (0 : α))) gs).map
            (fun x => lr * (x / (1 - b1 ^ ((0 : Int) + 1)))))
          ((List.zipWith (adam.vValue b2) (l.map (fun _ => (0 : α))) gs).map
            (fun x => ssqrt (x / (1 - b2 ^ ((0 : Int) + 1))) + eps)))
        = List.zipWith (fun p g => p - lr * g / (|g| + eps)) l gs
  | [], _ => rfl
  | p :: l, [] => by simp
  | p :: l, g :: gs => by
    have ih := adam.signStep_data ssqrt hsq lr b1 b2 eps hb1 hb2 l gs
    have h1 : (1 : α) - b1 ≠ 0 := sub_ne_zero.mpr (Ne.symm hb1)
    have h2 : (1 : α) - b2 ≠ 0 := sub_ne_zero.mpr (Ne.symm hb2)
    have e1 : adam.mValue b1 0 g / (1 - b1 ^ ((0 : Int) + 1)) = g := by
      unfold adam.mValue
      rw [zero_add, zpow_one, mul_zero, zero_add, mul_div_assoc, mul_comm, div_mul_cancel₀ _ h1]
    have e2 : adam.vValue b2 0 g / (1 - b2 ^ ((0 : Int) + 1)) = g * g := by
      unfold adam.vValue
      rw [zero_add, zpow_one, mul_zero, zero_add, mul_div_assoc, mul_comm,
        div_mul_cancel₀ _ h2]
    simp only [List.map_cons, List.zipWith_cons_cons]
    rw [ih, e1, e2, hsq]

/-- The first `update` of an optimizer at step 0 whose moment buffers are not
allocated yet. -/
theorem adam.update_first {α : Type} [LinearOrderedField α] (ssqrt : α → α)
    (hsq : ∀ x : α, ssqrt (x * x) = |x|) (A : adam α) (ht : A.t = 0)
    (hinit : A.inisialisasi = false) (hb1 : A.beta1 ≠ 1) (hb2 : A.beta2 ≠ 1)
    (bobot grad_bobot bias grad_bias : Tensor α)
    (hgw : bobot.Alike grad_bobot) (hgb : bias.Alike grad_bias) :
    ∃ A' : adam α,
      A.update ssqrt bobot grad_bobot bias grad_bias =
        .ok (A',
          { bobot with
            data := List.zipWith (fun p g => p - A.lr * g / (|g| + A.epsilon))
                      bobot.data grad_bobot.data },
          { bias with
            data := List.zipWith (fun p g => p - A.lr * g / (|g| + A.epsilon))
                      bias.data grad_bias.data })
      ∧ A'.t = 1 := by
  obtain ⟨lr, b1, b2, eps, t, mb, vb, mbi, vbi, ini⟩ := A
  simp only at ht hinit hb1 hb2
  subst ht hinit
  rw [adam.update_eq ssqrt _ bobot grad_bobot bias grad_bias hgw hgb (by intro h; cases h)]
  have dw := adam.signStep_data ssqrt hsq lr b1 b2 eps hb1 hb2 bobot.data grad_bobot.data
  have db := adam.signStep_data ssqrt hsq lr b1 b2 eps hb1 hb2 bias.data grad_bias.data
  refine ⟨_, congrArg Except.ok (Prod.ext rfl (Prod.ext ?_ ?_)), rfl⟩
  · show ({ bobot with data := _ } : Tensor α) = _
    congr 1
  · show ({ bias with data := _ } : Tensor α) = _
    congr 1

/-- Element `i` of the parameter after the first Adam step. -/
theorem adam.signStep_get {α : Type} [LinearOrderedField α] (lr eps : α) (heps : 0 < eps)
    (param grad : Tensor α) (i : ℕ) (p g : α)
    (hp : param.data[i]? = some p) (hg : grad.data[i]? = some g) :
    0 < |g| + eps
    ∧ ∃ q, ({ param with
              data := List.zipWith (fun p g => p - lr * g / (|g| + eps))
                        param.data grad.data } : Tensor α).data[i]? = some q
        ∧ q - p = -lr * g / (|g| + eps) ∧ (g = 0 → q = p) := by
  refine ⟨add_pos_of_nonneg_of_pos (abs_nonneg g) heps, p - lr * g / (|g| + eps), ?_, ?_, ?_⟩
  · simp [List.getElem?_zipWith, hp, hg]
  · ring
  · intro h0
    rw [h0, mul_zero, zero_div, sub_zero]

/-! ## C33: the first Adam step is a sign step over the real numbers -/

/-- C33, amended. Over the real numbers with the real square root (exact
arithmetic in place of `double` and `std::sqrt`): for an optimizer at step 0
whose moments are not allocated yet, with `beta1 ≠ 1`, `beta2 ≠ 1` and
`epsilon > 0`, the first `update` returns, sets the step counter
to 1, keeps the shapes, and changes every weight and bias element by exactly
`-lr*g/(|g| + epsilon)` for its gradient element `g` (the divisor is positive),
hence by `0` where `g = 0`; every other such optimizer with the same `lr` and
`epsilon`, whatever its `beta1` and `beta2`, returns the same weight and bias. -/
theorem adam.first_step_sign_amended (A : adam ℝ) (ht : A.t = 0)
    (hinit : A.inisialisasi = false) (hb1 : A.beta1 ≠ 1) (hb2 : A.beta2 ≠ 1)
    (heps : 0 < A.epsilon) (bobot grad_bobot bias grad_bias : Tensor ℝ)
    (hgw : bobot.Alike grad_bobot) (hgb : bias.Alike grad_bias) :
    ∃ A' bobot1 bias1,
      A.update Real.sqrt bobot grad_bobot bias grad_bias = .ok (A', bobot1, bias1)
      ∧ A'.t = 1
      ∧ (bobot1.bentuk = bobot.bentuk ∧ bias1.bentuk = bias.bentuk)
      ∧ (bobot1.data.length = bobot.data.length ∧ bias1.data.length = bias.data.length)
      ∧ (∀ (i : ℕ) p g, bobot.data[i]? = some p → grad_bobot.data[i]? = some g →
          0 < |g| + A.epsilon
          ∧ ∃ q, bobot1.data[i]? = some q
              ∧ q - p = -A.lr * g / (|g| + A.epsilon) ∧ (g = 0 → q = p))
      ∧ (∀ (i : ℕ) p g, bias.data[i]? = some p → grad_bias.data[i]? = some g →
          0 < |g| + A.epsilon
          ∧ ∃ q, bias1.data[i]? = some q
              ∧ q - p = -A.lr * g / (|g| + A.epsilon) ∧ (g = 0 → q = p))
      ∧ (∀ B : adam ℝ, B.t = 0 → B.inisialisasi = false → B.beta1 ≠ 1 → B.beta2 ≠ 1 →
          B.lr = A.lr → B.epsilon = A.epsilon →
          (B.update Real.sqrt bobot grad_bobot bias grad_bias).map (fun r => r.2)
            = .ok (bobot1, bias1)) := by
  obtain ⟨A', hA, hA1⟩ := adam.update_first Real.sqrt Real.sqrt_mul_self_eq_abs A ht hinit hb1
    hb2 bobot grad_bobot bias grad_bias hgw hgb
  have hlw := alike_length _ _ hgw
  have hlb := alike_length _ _ hgb
  refine ⟨A', _, _, hA, hA1, ⟨rfl, rfl⟩, ⟨?_, ?_⟩, ?_, ?_, ?_⟩
  · simp only [List.length_zipWith]
    omega
  · simp only [List.length_zipWith]
    omega
  · intro i p g hp hg
    exact adam.signStep_get A.lr A.epsilon heps bobot grad_bobot i p g hp hg
  · intro i p g hp hg
    exact adam.signStep_get A.lr A.epsilon heps bias grad_bias i p g hp hg
  · intro B hBt hBi hB1 hB2 hlr he
    obtain ⟨B', hB, _⟩ := adam.update_first Real.sqrt Real.sqrt_mul_self_eq_abs B hBt hBi hB1
      hB2 bobot grad_bobot bias grad_bias hgw hgb
    rw [hB, hlr, he]
    rfl

/-- Witness of C33, amended: over the real numbers and the real square root,
`lr = 0.1`, the default `beta1`, `beta2`, `epsilon`, the weight `[2, 3]` on the
gradient `[4, 0]` and the bias `[7]` on the gradient `[-1]`: the first weight
moves by `-0.1*4/(|4| + 1e-8)`, the second stays `3`, the bias moves by
`-0.1*(-1)/(|-1| + 1e-8)`. -/
theorem adam.first_step_sign_amended_witness :
    ∃ (A' : adam ℝ) (bobot1 bias1 : Tensor ℝ),
      (adam.newDefault (1 / 10)).update Real.sqrt
          ⟨[2, 3], [2], [1], false⟩ ⟨[4, 0], [2], [1], false⟩
          ⟨[7], [1], [1], false⟩ ⟨[-1], [1], [1], false⟩ = .ok (A', bobot1, bias1)
      ∧ (∃ q : ℝ, bobot1.data[0]? = some q ∧ q - 2 = -(1 / 10) * 4 / (|4| + 1 / 10 ^ 8))
      ∧ bobot1.data[1]? = some 3
      ∧ (∃ q : ℝ, bias1.data[0]? = some q ∧ q - 7 = -(1 / 10) * (-1) / (|(-1)| + 1 / 10 ^ 8)) := by
  obtain ⟨A', bobot1, bias1, h, _, _, _, hw, hb, _⟩ := adam.first_step_sign_amended
    (adam.newDefault (1 / 10) : adam ℝ) rfl rfl
    (by show (9 / 10 : ℝ) ≠ 1; norm_num) (by show (999 / 1000 : ℝ) ≠ 1; norm_num)
    (by show (0 : ℝ) < 1 / 10 ^ 8; norm_num)
    ⟨[2, 3], [2], [1], false⟩ ⟨[4, 0], [2], [1], false⟩
    ⟨[7], [1], [1], false⟩ ⟨[-1], [1], [1], false⟩ ⟨rfl, rfl, rfl⟩ ⟨rfl, rfl, rfl⟩
  obtain ⟨_, q0, hq0, hd0, _⟩ := hw 0 2 4 rfl rfl
  obtain ⟨_, q1, hq1, _, hz1⟩ := hw 1 3 0 rfl rfl
  obtain ⟨_, q2, hq2, hd2, _⟩ := hb 0 7 (-1) rfl rfl
  refine ⟨A', bobot1, bias1, h, ⟨q0, hq0, hd0⟩, ?_, ⟨q2, hq2, hd2⟩⟩
  rw [hq1, hz1 rfl]

/-! ## Element-wise operations on matrices -/

theorem zipData_matrix {α : Type} (f : α → α → α) (m n : ℕ) (A B : ℕ → ℕ → α) :
    Tensor.zipData f (matrix m n A) (matrix m n B)
      = matrix m n (fun i j => f (A i j) (B i j)) := by
  unfold Tensor.zipData matrix
  simp only [strides_pair, List.zipWith_map, zipWith_same]

theorem mul_matrix {α : Type} [LinearOrderedField α] (m n : ℕ) (A B : ℕ → ℕ → α) :
    Tensor.mul (matrix m n A) (matrix m n B) = .ok (matrix m n (fun i j => A i j * B i j)) := by
  rw [mul_eq (matrix m n A) (matrix m n B) rfl (by simp [matrix])]
  unfold matrix
  simp only [List.zipWith_map, zipWith_same]

theorem sigmoid_forward_matrix {α : Type} [LinearOrderedField α] (sexp : α → α) (m n : ℕ)
    (Z : ℕ → ℕ → α) :
    Sigmoid.forward sexp (matrix m n Z)
      = .ok (matrix m n (fun i j => Sigmoid.value sexp (Z i j))) := by
  rw [Sigmoid.sigmoid_forward_eq sexp (matrix m n Z) (matrix_sized m n Z), mapData_matrix]

theorem sigmoid_backward_matrix {α : Type} [LinearOrderedField α] (m n : ℕ) (P : ℕ → ℕ → α) :
    Sigmoid.backward (matrix m n P) = .ok (matrix m n (fun i j => P i j * (1 - P i j))) := by
  rw [Sigmoid.sigmoid_backward_eq (matrix m n P) (matrix_sized m n P)]
  unfold matrix
  simp only [List.map_map]
  rfl

theorem bce_backward_matrix {α : Type} [LinearOrderedField α] (m n : ℕ) (P Y : ℕ → ℕ → α) :
    BinaryCrossEnrtopy.backward (matrix m n P) (matrix m n Y)
      = .ok (matrix m n (fun i j => BinaryCrossEnrtopy.gradValue (P i j) (Y i j))) := by
  rw [BinaryCrossEnrtopy.bce_backward_eq (matrix m n P) (matrix m n Y) (matrix_sized m n P)
    (by simp [matrix]), zipData_matrix]

/-- Between the clamp bounds, the gradient of the loss times the derivative
of the logistic function is `p - y`. -/
theorem gradValue_mul_slope {α : Type} [LinearOrderedField α] (p y : α)
    (h0 : 1 / 10 ^ 7 ≤ p) (h1 : p ≤ 1 - 1 / 10 ^ 7) :
    BinaryCrossEnrtopy.gradValue p y * (p * (1 - p)) = p - y := by
  have hp0 : (0 : α) < p := lt_of_lt_of_le (by norm_num) h0
  have hp1 : (0 : α) < 1 - p := by
    have : (0 : α) < 1 / 10 ^ 7 := by norm_num
    linarith
  have hne : p * (1 - p) ≠ 0 := ne_of_gt (mul_pos hp0 hp1)
  unfold BinaryCrossEnrtopy.gradValue
  rw [min_eq_right h1, max_eq_right h0, div_mul_cancel₀ _ hne]

/-! ## The network `Dense → Sigmoid` -/

/-- `forward` of a network `Dense → Sigmoid` with bias on a `batch × in` input. -/
theorem logit_forward {α : Type} [LinearOrderedField α] (sexp : α → α) (N : NeuralNetwork α)
    (L : Dense α) (batch inF outF : ℕ) (X W : ℕ → ℕ → α) (B : ℕ → α)
    (hlayers : N.dense_layers = [L]) (horder : N.layer_order = logitStages)
    (hin : L.in_features = (inF : Int)) (hout : L.out_features = (outF : Int))
    (hW : L.bobot = matrix outF inF W) (hbias : L.gunakan_bias = true)
    (hB : L.bias = vector outF B) :
    N.forward sexp (matrix batch inF X)
      = .ok ({ N with
                dense_layers := [{ L with cached_input := matrix batch inF X }],
                activations := [matrix batch inF X,
                  matrix batch outF (Dense.forwardValue true inF X W B),
                  matrix batch outF (logitValue sexp inF X W B)],
                pre_activations := [matrix batch inF X,
                  matrix batch outF (Dense.forwardValue true inF X W B)] },
             matrix batch outF (logitValue sexp inF X W B)) := by
  obtain ⟨layers, order, opts, acts, pres, lr⟩ := N
  simp only at hlayers horder
  subst hlayers horder
  have hv0 : ∀ a : Dense α, vecGet [a] 0 = .ok a := fun _ => rfl
  have hs0 : ∀ a c : Dense α, vecSet [a] 0 c = .ok [c] := fun _ _ => rfl
  have f1 : L.forward (matrix batch inF X)
      = .ok ({ L with cached_input := matrix batch inF X },
             matrix batch outF (Dense.forwardValue true inF X W B)) := by
    rw [Dense.forward_matrix L batch inF outF X W B hin hout hW (fun _ => hB), hbias]
  have f2 := sigmoid_forward_matrix sexp batch outF (Dense.forwardValue true inF X W B)
  simp only [NeuralNetwork.forward, logitStages, List.length_cons, List.length_nil,
    forLoop, NeuralNetwork.forwardStep, List.getElem?_cons_zero, List.getElem?_cons_succ,
    hv0, hs0, f1, f2, ok_bind, zero_add, List.nil_append, List.singleton_append,
    List.cons_append]
  rfl

/-- `backward` of a network `Dense → Sigmoid` after a `forward` whose
prediction lies between the clamp bounds. -/
theorem logit_backward {α : Type} [LinearOrderedField α] (N : NeuralNetwork α)
    (L : Dense α) (batch inF outF : ℕ) (X W P Y : ℕ → ℕ → α) (pre : Tensor α)
    (hlayers : N.dense_layers = [L]) (horder : N.layer_order = logitStages)
    (hacts : N.activations = [matrix batch inF X, pre, matrix batch outF P])
    (hin : L.in_features = (inF : Int)) (hout : L.out_features = (outF : Int))
    (hW : L.bobot = matrix outF inF W) (hbias : L.gunakan_bias = true)
    (hX : L.cached_input = matrix batch inF X)
    (hrange : ∀ b o, b < batch → o < outF → 1 / 10 ^ 7 ≤ P b o ∧ P b o ≤ 1 - 1 / 10 ^ 7) :
    N.backward (matrix batch outF P) (matrix batch outF Y)
      = .ok ({ N with
                dense_layers := [{ L with
                  grad_bobot := matrix outF inF
                    (fun o i => ∑ b in Finset.range batch, (P b o - Y b o) * X b i),
                  grad_bias := vector outF
                    (fun o => ∑ b in Finset.range batch, (P b o - Y b o)) }] },
             matrix batch inF
              (fun b i => ∑ o in Finset.range outF, (P b o - Y b o) * W o i)) := by
  obtain ⟨layers, order, opts, acts, pres, lr⟩ := N
  simp only at hlayers horder hacts
  subst hlayers horder hacts
  have hv0 : ∀ a : Dense α, vecGet [a] 0 = .ok a := fun _ => rfl
  have hs0 : ∀ a c : Dense α, vecSet [a] 0 c = .ok [c] := fun _ _ => rfl
  have ha : ∀ a b c : Tensor α, vecGet [a, b, c] (((1 : ℕ) : Int) + 1) = .ok c :=
    fun _ _ _ => rfl
  have hG : matrix batch outF (fun b o =>
      BinaryCrossEnrtopy.gradValue (P b o) (Y b o) * (P b o * (1 - P b o)))
      = matrix batch outF (fun b o => P b o - Y b o) :=
    matrix_congr batch outF _ _ (fun b o hb ho =>
      gradValue_mul_slope (P b o) (Y b o) (hrange b o hb ho).1 (hrange b o hb ho).2)
  have hBce := bce_backward_matrix batch outF P Y
  have hSB := sigmoid_backward_matrix batch outF P
  have hM := mul_matrix batch outF (fun b o => BinaryCrossEnrtopy.gradValue (P b o) (Y b o))
    (fun b o => P b o * (1 - P b o))
  rw [hG] at hM
  have hD : L.backward (matrix batch outF (fun b o => P b o - Y b o))
      = .ok ({ L with
                grad_bobot := matrix outF inF
                  (fun o i => ∑ b in Finset.range batch, (P b o - Y b o) * X b i),
                grad_bias := vector outF
                  (fun o => ∑ b in Finset.range batch, (P b o - Y b o)) },
             matrix batch inF
              (fun b i => ∑ o in Finset.range outF, (P b o - Y b o) * W o i)) := by
    rw [Dense.backward_matrix L batch inF outF X W (fun b o => P b o - Y b o) hin hout hW hX,
      hbias]
    rfl
  unfold NeuralNetwork.backward
  rw [hBce, ok_bind]
  simp only [logitStages, List.length_cons, List.length_nil, forDown,
    NeuralNetwork.backwardStep, List.getElem?_cons_zero, List.getElem?_cons_succ,
    hv0, hs0, ha, hSB, hM, hD, ok_bind, zero_add]

/-! ## C32: the gradient of logistic regression over the real numbers -/

/-- C32, amended. Over the real numbers with the real exponential (exact
arithmetic in place of `double` and `std::exp`): for a network consisting of
one dense layer with bias (weight of shape `[out, in]`,
bias of shape `[out]`) followed by Sigmoid, every input `x` of shape
`[batch, in]` and target `y` of shape `[batch, out]`: `forward(x)` returns `p`,
and if every element of `p` lies in `[eps, 1 - eps]` (`eps = 1e-7`) then
`backward(p, y)` returns and leaves
`weight_grad[o][i] = sum over b of (p[b][o] - y[b][o]) * x[b][i]` and
`bias_grad[o] = sum over b of (p[b][o] - y[b][o])`. -/
theorem NeuralNetwork.logistic_gradient_amended
    (N : NeuralNetwork ℝ) (L : Dense ℝ) (batch inF outF : ℕ) (X W Y : ℕ → ℕ → ℝ) (B : ℕ → ℝ)
    (hlayers : N.dense_layers = [L]) (horder : N.layer_order = logitStages)
    (hin : L.in_features = (inF : Int)) (hout : L.out_features = (outF : Int))
    (hW : L.bobot = matrix outF inF W) (hbias : L.gunakan_bias = true)
    (hB : L.bias = vector outF B)
    (hrange : ∀ b o, b < batch → o < outF →
      1 / 10 ^ 7 ≤ logitValue Real.exp inF X W B b o
      ∧ logitValue Real.exp inF X W B b o ≤ 1 - 1 / 10 ^ 7) :
    ∃ N1 N2 grad_input L2,
      N.forward Real.exp (matrix batch inF X)
        = .ok (N1, matrix batch outF (logitValue Real.exp inF X W B))
      ∧ N1.backward (matrix batch outF (logitValue Real.exp inF X W B)) (matrix batch outF Y)
        = .ok (N2, grad_input)
      ∧ N2.dense_layers = [L2]
      ∧ L2.grad_bobot = matrix outF inF (fun o i =>
          ∑ b in Finset.range batch, (logitValue Real.exp inF X W B b o - Y b o) * X b i)
      ∧ L2.grad_bias = vector outF (fun o =>
          ∑ b in Finset.range batch, (logitValue Real.exp inF X W B b o - Y b o)) := by
  have hf := logit_forward Real.exp N L batch inF outF X W B hlayers horder hin hout hW hbias hB
  have hb := logit_backward
    { N with
      dense_layers := [{ L with cached_input := matrix batch inF X }],
      activations := [matrix batch inF X,
        matrix batch outF (Dense.forwardValue true inF X W B),
        matrix batch outF (logitValue Real.exp inF X W B)],
      pre_activations := [matrix batch inF X,
        matrix batch outF (Dense.forwardValue true inF X W B)] }
    { L with cached_input := matrix batch inF X } batch inF outF X W
    (logitValue Real.exp inF X W B) Y (matrix batch outF (Dense.forwardValue true inF X W B))
    rfl horder rfl hin hout hW hbias rfl hrange
  exact ⟨_, _, _, _, hf, hb, rfl, rfl, rfl⟩

/-- Witness of C32, amended: the network `Dense(2, 1) → Sigmoid` with weight
`[[1, -1]]` and bias `[0]` over the real numbers and the real exponential, on
`x = [[1, 1]]` and `y = [[1]]`: the prediction is `[[1/2]]`, the weight gradient
`[[-1/2, -1/2]]` and the bias gradient `[-1/2]`. -/
theorem NeuralNetwork.logistic_gradient_amended_witness :
    ∃ (N1 N2 : NeuralNetwork ℝ) (grad_input : Tensor ℝ) (L2 : Dense ℝ),
      (exLogit : NeuralNetwork ℝ).forward Real.exp ⟨[1, 1], [1, 2], [2, 1], false⟩
        = .ok (N1, ⟨[1 / 2], [1, 1], [1, 1], false⟩)
      ∧ (1 / 10 ^ 7 ≤ (1 / 2 : ℝ) ∧ (1 / 2 : ℝ) ≤ 1 - 1 / 10 ^ 7)
      ∧ N1.backward ⟨[1 / 2], [1, 1], [1, 1], false⟩ ⟨[1], [1, 1], [1, 1], false⟩
        = .ok (N2, grad_input)
      ∧ N2.dense_layers = [L2]
      ∧ L2.grad_bobot = ⟨[-(1 / 2), -(1 / 2)], [1, 2], [2, 1], false⟩
      ∧ L2.grad_bias = ⟨[-(1 / 2)], [1], [1], false⟩ := by
  have hp : ∀ b o : ℕ, logitValue Real.exp 2 (fun _ _ => (1 : ℝ))
      (fun _ k => if k = 0 then 1 else -1) (fun _ => 0) b o = 1 / 2 := by
    intro b o
    simp only [logitValue, Sigmoid.value, Dense.forwardValue, if_true, Finset.sum_range_succ,
      Finset.sum_range_zero]
    norm_num
  have hx : (⟨[1, 1], [1, 2], [2, 1], false⟩ : Tensor ℝ) = matrix 1 2 (fun _ _ => 1) := by
    simp [matrix, List.range_succ]
  have hP : (⟨[1 / 2], [1, 1], [1, 1], false⟩ : Tensor ℝ)
      = matrix 1 1 (logitValue Real.exp 2 (fun _ _ => (1 : ℝ))
          (fun _ k => if k = 0 then 1 else -1) (fun _ => 0)) := by
    simp only [matrix, hp]
    simp [List.range_succ]
  have hy : (⟨[1], [1, 1], [1, 1], false⟩ : Tensor ℝ) = matrix 1 1 (fun _ _ => 1) := by
    simp [matrix, List.range_succ]
  have hw : (exLogitLayer : Dense ℝ).bobot = matrix 1 2 (fun _ k => if k = 0 then 1 else -1) := by
    simp [exLogitLayer, matrix, List.range_succ]
  have hbv : (exLogitLayer : Dense ℝ).bias = vector 1 (fun _ => 0) := by
    simp [exLogitLayer, vector, List.range_succ]
  have hr : (1 / 10 ^ 7 ≤ (1 / 2 : ℝ) ∧ (1 / 2 : ℝ) ≤ 1 - 1 / 10 ^ 7) := by
    constructor <;> norm_num
  obtain ⟨N1, N2, gi, L2, h1, h2, h3, h4, h5⟩ := NeuralNetwork.logistic_gradient_amended
    (exLogit : NeuralNetwork ℝ) exLogitLayer 1 2 1 (fun _ _ => 1)
    (fun _ k => if k = 0 then 1 else -1) (fun _ _ => 1) (fun _ => 0) rfl rfl rfl rfl hw rfl hbv
    (fun b o _ _ => by rw [hp b o]; exact hr)
  rw [← hx, ← hP] at h1
  rw [← hP, ← hy] at h2
  refine ⟨N1, N2, gi, L2, h1, hr, h2, h3, ?_, ?_⟩
  · rw [h4]
    simp only [matrix, hp]
    simp [List.range_succ]
    norm_num
  · rw [h5]
    simp only [vector, hp]
    simp [List.range_succ]
    norm_num

/-! ## 32-bit arithmetic on `int` -/

theorem wrap32_of_fits (x : Int) (h : Int32.Fits x) : wrap32 x = x := by
  unfold Int32.Fits at h
  unfold wrap32
  omega

theorem wrap32_fits (x : Int) : Int32.Fits (wrap32 x) := by
  unfold Int32.Fits wrap32
  omega

theorem wrap32_add_left (x y : Int) : wrap32 (wrap32 x + y) = wrap32 (x + y) := by
  unfold wrap32
  omega

theorem wrap32_add_right (x y : Int) : wrap32 (x + wrap32 y) = wrap32 (x + y) := by
  unfold wrap32
  omega

theorem Int32.suffixProd_drop (l : List Int) (k : ℕ) (hk : k < l.length) :
    Int32.suffixProd (l.drop k)
      = wrap32 (Int32.suffixProd (l.drop (k + 1)) * l.getD k 0) := by
  rw [List.drop_eq_getElem_cons hk, getD_of_lt l 0 k hk]
  rfl

/-- The loop of `Int32.perhitungan_strides`, started with the entries from `m`
on already final, ends with every entry final. -/
theorem Int32.strides_wrap_loop (bentuk : List Int) :
    ∀ m, m + 1 ≤ bentuk.length →
      (List.range m).reverse.foldl
        (fun s i => s.set i (wrap32 (s.getD (i + 1) 0 * bentuk.getD (i + 1) 0)))
        ((List.range bentuk.length).map
          (fun k => if m ≤ k then Int32.suffixProd (bentuk.drop (k + 1)) else 0))
      = (List.range bentuk.length).map (fun k => Int32.suffixProd (bentuk.drop (k + 1)))
  | 0, _ => by simp
  | m + 1, h => by
    rw [List.range_succ, List.reverse_append, List.reverse_singleton, List.singleton_append,
      List.foldl_cons]
    have hstep : ((List.range bentuk.length).map
          (fun k => if m + 1 ≤ k then Int32.suffixProd (bentuk.drop (k + 1)) else 0)).set m
        (wrap32 (((List.range bentuk.length).map
          (fun k => if m + 1 ≤ k then Int32.suffixProd (bentuk.drop (k + 1)) else 0)).getD
            (m + 1) 0 * bentuk.getD (m + 1) 0))
        = (List.range bentuk.length).map
          (fun k => if m ≤ k then Int32.suffixProd (bentuk.drop (k + 1)) else 0) := by
      rw [getD_map_range _ _ _ _ (by omega), set_map_range]
      apply map_range_congr
      intro i _
      by_cases h1 : i = m
      · subst h1
        simp only [if_true, le_refl]
        rw [Int32.suffixProd_drop bentuk (i + 1) (by omega)]
      · by_cases h2 : m + 1 ≤ i
        · have h3 : m ≤ i := by omega
          simp [h1, h2, h3]
        · have h3 : ¬ (m ≤ i) := by omega
          simp [h1, h2, h3]
    rw [hstep]
    exact Int32.strides_wrap_loop bentuk m (by omega)

/-- Entry `k` of `Int32.perhitungan_strides` is the 32-bit product of the
dimensions after `k`. -/
theorem Int32.strides_eq_suffixProd (bentuk : List Int) :
    Int32.perhitungan_strides bentuk
      = (List.range bentuk.length).map (fun k => Int32.suffixProd (bentuk.drop (k + 1))) := by
  unfold Int32.perhitungan_strides
  by_cases hn : 0 < bentuk.length
  · simp only [hn, if_true]
    have h0 : (List.replicate bentuk.length (0 : Int)).set (bentuk.length - 1) 1
        = (List.range bentuk.length).map
          (fun k => if bentuk.length - 1 ≤ k then Int32.suffixProd (bentuk.drop (k + 1))
            else 0) := by
      rw [replicate_eq_map_range, set_map_range]
      apply map_range_congr
      intro i hi
      by_cases h1 : i = bentuk.length - 1
      · have h2 : bentuk.length - 1 ≤ i := by omega
        have h3 : bentuk.length ≤ i + 1 := by omega
        rw [if_pos h1, if_pos h2, List.drop_eq_nil_of_le h3]
        rfl
      · have h2 : ¬ (bentuk.length - 1 ≤ i) := by omega
        simp [h1, h2]
    rw [h0]
    exact Int32.strides_wrap_loop bentuk (bentuk.length - 1) (by omega)
  · have h0 : bentuk.length = 0 := by omega
    simp [hn, h0]

/-! ## C12: stride derivation -/

/-- The claim C12 fails on the code: for the shape `[2, 65536, 65536]` the
product `65536 * 65536` does not fit in an `int`, `perhitungan_strides` returns
`[0, 65536, 1]`, and its entry `0` is not `strides[1] * shape[1] = 4294967296`. -/
theorem Int32.perhitungan_strides_counterexample :
    Int32.perhitungan_strides [2, 65536, 65536] = [0, 65536, 1]
    ∧ (0 : Int) ≠ 65536 * 65536 := by
  constructor
  · decide
  · decide

/-- C12, amended. For every shape, `perhitungan_strides` returns a list of the
length of the shape whose last entry is `1` and whose entry `i` is the 32-bit
`int` product `strides[i+1] * shape[i+1]` for every `i` below the last: that
product reduced modulo `2^32` into `[-2^31, 2^31)`, hence the product itself
whenever it fits in an `int`; the empty shape gives the empty list, and the
shape `[4,2,3]` gives `[6,3,1]`. -/
theorem Int32.perhitungan_strides_amended (bentuk : List Int) :
    (Int32.perhitungan_strides bentuk).length = bentuk.length
    ∧ (0 < bentuk.length →
        (Int32.perhitungan_strides bentuk)[bentuk.length - 1]? = some 1)
    ∧ (∀ i, i + 1 < bentuk.length →
        ∃ s d, (Int32.perhitungan_strides bentuk)[i + 1]? = some s
          ∧ bentuk[i + 1]? = some d
          ∧ (Int32.perhitungan_strides bentuk)[i]? = some (wrap32 (s * d))
          ∧ (Int32.Fits (s * d) → (Int32.perhitungan_strides bentuk)[i]? = some (s * d)))
    ∧ Int32.perhitungan_strides [] = []
    ∧ Int32.perhitungan_strides [4, 2, 3] = [6, 3, 1] := by
  refine ⟨?_, ?_, ?_, rfl, by decide⟩
  · rw [Int32.strides_eq_suffixProd]
    simp
  · intro hn
    rw [Int32.strides_eq_suffixProd, getElem?_map_range _ _ _ (by omega)]
    have h3 : bentuk.length ≤ bentuk.length - 1 + 1 := by omega
    rw [List.drop_eq_nil_of_le h3]
    rfl
  · intro i hi
    have e0 : (Int32.perhitungan_strides bentuk)[i]?
        = some (wrap32 (Int32.suffixProd (bentuk.drop (i + 1 + 1)) * bentuk.getD (i + 1) 0)) := by
      rw [Int32.strides_eq_suffixProd, getElem?_map_range _ _ _ (by omega),
        Int32.suffixProd_drop bentuk (i + 1) hi]
    refine ⟨Int32.suffixProd (bentuk.drop (i + 1 + 1)), bentuk.getD (i + 1) 0, ?_, ?_, e0, ?_⟩
    · rw [Int32.strides_eq_suffixProd, getElem?_map_range _ _ _ hi]
    · rw [getD_of_lt bentuk 0 (i + 1) hi, List.getElem?_eq_getElem hi]
    · intro hf
      rw [e0, wrap32_of_fits _ hf]

/-- Witness of C12, amended: in the strides `[6,3,1]` of the shape `[4,2,3]`,
entry `0` is entry `1` times `shape[1]`, a product that fits in an `int`. -/
theorem Int32.perhitungan_strides_amended_witness :
    ∃ s d, (Int32.perhitungan_strides [4, 2, 3])[1]? = some s
      ∧ ([4, 2, 3] : List Int)[1]? = some d
      ∧ Int32.Fits (s * d)
      ∧ (Int32.perhitungan_strides [4, 2, 3])[0]? = some (s * d) := by
  obtain ⟨s, d, h1, h2, h3, h4⟩ := (Int32.perhitungan_strides_amended [4, 2, 3]).2.2.1 0
    (by decide)
  have hs : s = 3 := by
    have e : (Int32.perhitungan_strides [4, 2, 3])[1]? = some 3 := by decide
    rw [e] at h1
    exact (Option.some.inj h1).symm
  have hd : d = 2 := by
    have e : ([4, 2, 3] : List Int)[1]? = some 2 := rfl
    rw [e] at h2
    exact (Option.some.inj h2).symm
  have hf : Int32.Fits (s * d) := by
    rw [hs, hd]
    unfold Int32.Fits
    decide
  exact ⟨s, d, h1, h2, hf, h4 hf⟩

/-! ## Offsets in 32-bit arithmetic -/

theorem Int32.flatten_wrap_loop :
    ∀ (indices strides : List Int) (acc : Int), indices.length ≤ strides.length →
      Int32.flatten_index.loop indices strides (wrap32 acc)
        = .ok (wrap32 (acc + (List.zipWith (· * ·) indices strides).sum))
  | [], _, acc, _ => by simp [Int32.flatten_index.loop]
  | i :: is, [], _, h => by simp at h
  | i :: is, s :: ss, acc, h => by
    simp only [Int32.flatten_index.loop, List.zipWith_cons_cons, List.sum_cons]
    rw [wrap32_add_left, wrap32_add_right,
      Int32.flatten_wrap_loop is ss (acc + i * s) (by simpa using h), add_assoc]

/-- `flatten_index` in 32-bit arithmetic returns the sum of the products
reduced into the range of `int`. -/
theorem Int32.flatten_index_wrap (indices strides : List Int)
    (h : indices.length ≤ strides.length) :
    Int32.flatten_index indices strides
      = .ok (wrap32 (List.zipWith (· * ·) indices strides).sum) := by
  unfold Int32.flatten_index
  have h0 : (0 : Int) = wrap32 0 := by decide
  conv_lhs => rw [h0]
  rw [Int32.flatten_wrap_loop indices strides 0 h, zero_add]

theorem prod_drop_pos (l : List Int) (hpos : ∀ d ∈ l, 0 < d) (k : ℕ) : 0 < (l.drop k).prod :=
  prod_pos_of_pos _ (fun d hd => hpos d (List.mem_of_mem_drop hd))

theorem prod_drop_le (l : List Int) (hpos : ∀ d ∈ l, 0 < d) (k : ℕ) :
    (l.drop k).prod ≤ l.prod := by
  have h1 : 0 < (l.take k).prod :=
    prod_pos_of_pos _ (fun d hd => hpos d (List.mem_of_mem_take hd))
  have h2 := prod_drop_pos l hpos k
  have e : l.prod = (l.take k).prod * (l.drop k).prod := by
    rw [← List.prod_append, List.take_append_drop]
  rw [e]
  have h3 : 1 * (l.drop k).prod ≤ (l.take k).prod * (l.drop k).prod :=
    mul_le_mul_of_nonneg_right (by omega) (le_of_lt h2)
  rw [one_mul] at h3
  exact h3

/-- For positive dimensions whose product fits in an `int`, the 32-bit product
is the product. -/
theorem Int32.suffixProd_eq_prod :
    ∀ (l : List Int), (∀ d ∈ l, 0 < d) → l.prod < 2147483648 → Int32.suffixProd l = l.prod
  | [], _, _ => rfl
  | d :: ds, hpos, hfit => by
    have hpos' : ∀ e ∈ ds, 0 < e := fun e he => hpos e (List.mem_cons_of_mem d he)
    have hd : 0 < d := hpos d (List.mem_cons_self d ds)
    have hP := prod_pos_of_pos ds hpos'
    rw [List.prod_cons] at hfit
    have h1 : 1 * ds.prod ≤ d * ds.prod := mul_le_mul_of_nonneg_right (by omega) (le_of_lt hP)
    rw [one_mul] at h1
    have ih := Int32.suffixProd_eq_prod ds hpos' (by omega)
    have h2 : 0 < d * ds.prod := mul_pos hd hP
    show wrap32 (Int32.suffixProd ds * d) = (d :: ds).prod
    rw [ih, List.prod_cons, mul_comm ds.prod d]
    exact wrap32_of_fits _ ⟨by omega, hfit⟩

/-- For positive dimensions whose product fits in an `int`, the strides
computed in 32-bit arithmetic are the strides computed without wrap-around. -/
theorem Int32.strides_eq_of_fits (shape : List Int) (hpos : ∀ d ∈ shape, 0 < d)
    (hfit : shape.prod < 2147483648) :
    Int32.perhitungan_strides shape = Tensor.perhitungan_strides shape := by
  rw [Int32.strides_eq_suffixProd, strides_eq_suffix_prod]
  apply map_range_congr
  intro k _
  exact Int32.suffixProd_eq_prod _ (fun d hd => hpos d (List.mem_of_mem_drop hd))
    (lt_of_le_of_lt (prod_drop_le shape hpos (k + 1)) hfit)

theorem Int32.numel_loop :
    ∀ (l : List Int) (acc : Int), (∀ d ∈ l, 0 < d) → 0 < acc → acc * l.prod < 2147483648 →
      l.foldl (fun acc d => wrap32 (acc * d)) acc = acc * l.prod
  | [], acc, _, _, _ => by simp
  | d :: ds, acc, hpos, hacc, hfit => by
    have hpos' : ∀ e ∈ ds, 0 < e := fun e he => hpos e (List.mem_cons_of_mem d he)
    have hd : 0 < d := hpos d (List.mem_cons_self d ds)
    have hP := prod_pos_of_pos ds hpos'
    rw [List.prod_cons, ← mul_assoc] at hfit
    have had : 0 < acc * d := mul_pos hacc hd
    have h1 : (acc * d) * 1 ≤ (acc * d) * ds.prod :=
      mul_le_mul_of_nonneg_left (by omega) (le_of_lt had)
    rw [mul_one] at h1
    have hw : wrap32 (acc * d) = acc * d := wrap32_of_fits _ ⟨by omega, by omega⟩
    rw [List.foldl_cons, hw, Int32.numel_loop ds (acc * d) hpos' had hfit, List.prod_cons,
      mul_assoc]

/-- For positive dimensions whose product fits in an `int`, `numel` is the
product. -/
theorem Int32.numel_eq_prod (shape : List Int) (hpos : ∀ d ∈ shape, 0 < d)
    (hfit : shape.prod < 2147483648) : Int32.numel shape = shape.prod := by
  unfold Int32.numel
  rw [Int32.numel_loop shape 1 hpos one_pos (by rw [one_mul]; exact hfit), one_mul]

/-! ## C13: multi-index access -/

/-- The claim C13 fails on the code: on the `2 × 3` tensor holding `10 .. 15`
(strides `[3, 1]`), for the index list `(1431655766, 0)` the sum of
`indices[i] * strides[i]` is `4294967298`, a position outside the buffer, while
the product computed as an `int` is `2` and `at` reads the element `12` at
flat offset `2`. -/
theorem Int32.at_flat_offset_counterexample :
    ([1431655766, 0] : List Int).length = exGrid.bentuk.length
    ∧ (List.zipWith (· * ·) [1431655766, 0] exGrid.strides).sum = 4294967298
    ∧ exGrid.index 4294967298 = .error .outOfBounds
    ∧ Int32.flatten_index [1431655766, 0] exGrid.strides = .ok 2
    ∧ Int32.at exGrid [1431655766, 0] = .ok 12 := by
  refine ⟨rfl, by decide, rfl, rfl, rfl⟩

/-- C13, amended. For every tensor whose strides are those of its shape and
every index list of the length of the shape, `flatten_index` returns the sum
over `i` of `indices[i] * strides[i]` reduced modulo `2^32` into
`[-2^31, 2^31)` (the value of the `int` that accumulates it) and `at(indices)`
addresses that flat offset, which is the sum itself whenever the sum fits in an
`int`; for the shape `[2,3]` the index `(1,2)` maps to `5` and `(0,0)` to `0`. -/
theorem Int32.at_flat_offset_amended {α : Type} (t : Tensor α) (indices : List Int)
    (hs : t.strides = Int32.perhitungan_strides t.bentuk)
    (hi : indices.length = t.bentuk.length) :
    Int32.flatten_index indices t.strides
        = .ok (wrap32 (List.zipWith (· * ·) indices t.strides).sum)
    ∧ Int32.at t indices = t.index (wrap32 (List.zipWith (· * ·) indices t.strides).sum)
    ∧ (Int32.Fits (List.zipWith (· * ·) indices t.strides).sum →
        Int32.flatten_index indices t.strides
            = .ok (List.zipWith (· * ·) indices t.strides).sum
        ∧ Int32.at t indices = t.index (List.zipWith (· * ·) indices t.strides).sum)
    ∧ Int32.flatten_index [1, 2] (Int32.perhitungan_strides [2, 3]) = .ok 5
    ∧ Int32.flatten_index [0, 0] (Int32.perhitungan_strides [2, 3]) = .ok 0 := by
  have hl : indices.length ≤ t.strides.length := by
    rw [hs, Int32.strides_eq_suffixProd]
    simp [hi]
  have h1 := Int32.flatten_index_wrap indices t.strides hl
  have h2 : Int32.at t indices
      = t.index (wrap32 (List.zipWith (· * ·) indices t.strides).sum) := by
    unfold Int32.at
    rw [h1, ok_bind]
  refine ⟨h1, h2, ?_, rfl, rfl⟩
  intro hf
  rw [h1, h2, wrap32_of_fits _ hf]
  exact ⟨rfl, rfl⟩

/-- Witness of C13, amended: on the `2 × 3` tensor holding `10 .. 15`,
`at({1,2})` is the element at flat offset `5`. -/
theorem Int32.at_flat_offset_amended_witness :
    exGrid.strides = Int32.perhitungan_strides exGrid.bentuk
    ∧ Int32.Fits (List.zipWith (· * ·) [1, 2] exGrid.strides).sum
    ∧ Int32.at exGrid [1, 2] = exGrid.index 5 ∧ exGrid.index 5 = .ok 15 := by
  have hs : exGrid.strides = Int32.perhitungan_strides exGrid.bentuk := by decide
  have hf : Int32.Fits (List.zipWith (· * ·) [1, 2] exGrid.strides).sum := by
    unfold Int32.Fits
    decide
  have h := ((Int32.at_flat_offset_amended exGrid [1, 2] hs rfl).2.2.1 hf).2
  exact ⟨hs, hf, h, rfl⟩

/-! ## C31: row-major indexing -/

/-- The claim C31 fails on the code: the dimensions of the shape
`[2, 65536, 65536]` are positive, but its `2^33` elements do not fit in an
`int`: the strides are `[0, 65536, 1]`, `numel` is `0`, the two distinct
in-bounds multi-indices `(0,0,0)` and `(1,0,0)` both map to the offset `0`,
and `0` is not below `numel`. -/
theorem Int32.row_major_counterexample :
    (∀ d ∈ ([2, 65536, 65536] : List Int), 0 < d)
    ∧ Tensor.InBounds [0, 0, 0] [2, 65536, 65536]
    ∧ Tensor.InBounds [1, 0, 0] [2, 65536, 65536]
    ∧ ([0, 0, 0] : List Int) ≠ [1, 0, 0]
    ∧ Int32.flatten_index [0, 0, 0] (Int32.perhitungan_strides [2, 65536, 65536]) = .ok 0
    ∧ Int32.flatten_index [1, 0, 0] (Int32.perhitungan_strides [2, 65536, 65536]) = .ok 0
    ∧ Int32.numel [2, 65536, 65536] = 0
    ∧ ¬ ((0 : Int) < Int32.numel [2, 65536, 65536]) := by
  have ha : Tensor.InBounds [0, 0, 0] [2, 65536, 65536] := by
    unfold Tensor.InBounds
    decide
  have hb : Tensor.InBounds [1, 0, 0] [2, 65536, 65536] := by
    unfold Tensor.InBounds
    decide
  refine ⟨by decide, ha, hb, by decide, rfl, rfl, by decide, by decide⟩

/-- C31, amended. For every shape whose dimensions are all positive and whose
number of elements fits in an `int` (their product is below `2^31`), and every
multi-index `a` with `0 ≤ a[i] < shape[i]` for all `i`, `flatten_index` with
the strides derived from the shape returns an offset in `[0, numel(shape))`,
and a second such multi-index `b` distinct from `a` does not map to the same
offset; so `at(a)` reads inside the buffer of every tensor of that shape whose
buffer holds `numel(shape)` elements. -/
theorem Int32.row_major_amended (α : Type) (shape a b : List Int)
    (hpos : ∀ d ∈ shape, 0 < d) (hfit : shape.prod < 2147483648)
    (ha : Tensor.InBounds a shape) (hb : Tensor.InBounds b shape) :
    (∃ k, Int32.flatten_index a (Int32.perhitungan_strides shape) = .ok k
        ∧ 0 ≤ k ∧ k < Int32.numel shape)
    ∧ (a ≠ b → Int32.flatten_index a (Int32.perhitungan_strides shape)
        ≠ Int32.flatten_index b (Int32.perhitungan_strides shape))
    ∧ (∀ t : Tensor α, t.bentuk = shape → t.strides = Int32.perhitungan_strides shape →
        (t.data.length : Int) = Int32.numel shape → ∃ v, Int32.at t a = .ok v) := by
  have hst := Int32.strides_eq_of_fits shape hpos hfit
  have hnum := Int32.numel_eq_prod shape hpos hfit
  have hla : a.length ≤ (Tensor.perhitungan_strides shape).length := by
    rw [strides_eq_suffix_prod, List.length_map, List.length_range, ha.1]
  have hlb : b.length ≤ (Tensor.perhitungan_strides shape).length := by
    rw [strides_eq_suffix_prod, List.length_map, List.length_range, hb.1]
  obtain ⟨a0, a1⟩ := offset_bounds shape a hpos ha
  obtain ⟨b0, b1⟩ := offset_bounds shape b hpos hb
  have ea : Int32.flatten_index a (Tensor.perhitungan_strides shape)
      = .ok (List.zipWith (· * ·) a (Tensor.perhitungan_strides shape)).sum := by
    rw [Int32.flatten_index_wrap a _ hla, wrap32_of_fits _ ⟨by omega, by omega⟩]
  have eb : Int32.flatten_index b (Tensor.perhitungan_strides shape)
      = .ok (List.zipWith (· * ·) b (Tensor.perhitungan_strides shape)).sum := by
    rw [Int32.flatten_index_wrap b _ hlb, wrap32_of_fits _ ⟨by omega, by omega⟩]
  rw [hst, hnum]
  refine ⟨⟨_, ea, a0, a1⟩, ?_, ?_⟩
  · intro hne heq
    rw [ea, eb] at heq
    exact hne (offset_injective shape a b hpos ha hb (Except.ok.inj heq))
  · intro t hshape hstr hlen
    obtain ⟨n, hn⟩ := Int.eq_ofNat_of_zero_le a0
    have hlt : n < t.data.length := by omega
    refine ⟨t.data[n], ?_⟩
    unfold Int32.at
    rw [hstr, ea, ok_bind, hn]
    exact index_of_lt t n hlt

/-- Witness of C31, amended: in the shape `[2,3]` the multi-indices `(1,2)` and
`(0,1)` map to the offsets `5` and `1`, both below `numel = 6`, and `at({1,2})`
of the `2 × 3` tensor holding `10 .. 15` returns. -/
theorem Int32.row_major_amended_witness :
    (∀ d ∈ ([2, 3] : List Int), 0 < d) ∧ ([2, 3] : List Int).prod < 2147483648
    ∧ Tensor.InBounds [1, 2] [2, 3] ∧ Tensor.InBounds [0, 1] [2, 3]
    ∧ Int32.flatten_index [1, 2] (Int32.perhitungan_strides [2, 3]) = .ok 5
    ∧ Int32.flatten_index [0, 1] (Int32.perhitungan_strides [2, 3]) = .ok 1
    ∧ Int32.numel [2, 3] = 6
    ∧ Int32.flatten_index [1, 2] (Int32.perhitungan_strides [2, 3])
        ≠ Int32.flatten_index [0, 1] (Int32.perhitungan_strides [2, 3])
    ∧ ∃ v, Int32.at exGrid [1, 2] = .ok v := by
  have hpos : ∀ d ∈ ([2, 3] : List Int), 0 < d := by decide
  have hfit : ([2, 3] : List Int).prod < 2147483648 := by decide
  have ha : Tensor.InBounds [1, 2] [2, 3] := by
    unfold Tensor.InBounds
    decide
  have hb : Tensor.InBounds [0, 1] [2, 3] := by
    unfold Tensor.InBounds
    decide
  have h := Int32.row_major_amended ℚ [2, 3] [1, 2] [0, 1] hpos hfit ha hb
  exact ⟨hpos, hfit, ha, hb, rfl, rfl, by decide, h.2.1 (by decide),
    h.2.2 exGrid rfl (by decide) (by decide)⟩

/-! ## Rounding to binary64 -/

theorem F64.rne_of_lt (x : ℚ) (m : ℤ) (h1 : (m : ℚ) - 1 / 2 < x) (h2 : x < m + 1 / 2) :
    F64.rne x = m := by
  unfold F64.rne
  by_cases hx : (m : ℚ) ≤ x
  · have hf : ⌊x⌋ = m := Int.floor_eq_iff.mpr ⟨hx, by linarith⟩
    rw [hf, if_pos (by linarith)]
  · have hx' : x < m := not_le.mp hx
    have hf : ⌊x⌋ = m - 1 :=
      Int.floor_eq_iff.mpr ⟨by push_cast; linarith, by push_cast; linarith⟩
    rw [hf]
    push_cast
    rw [if_neg (by linarith), if_pos (by linarith)]
    ring

theorem F64.rne_tie (x : ℚ) (m : ℤ) (h : x = m + 1 / 2) :
    F64.rne x = if m % 2 = 0 then m else m + 1 := by
  unfold F64.rne
  have hf : ⌊x⌋ = m := Int.floor_eq_iff.mpr ⟨by linarith, by linarith⟩
  rw [hf, if_neg (by linarith), if_neg (by linarith)]

theorem F64.rne_intCast (k : ℤ) : F64.rne (k : ℚ) = k :=
  F64.rne_of_lt _ k (by linarith) (by linarith)

theorem F64.rne_mem (x : ℚ) : F64.rne x = ⌊x⌋ ∨ F64.rne x = ⌊x⌋ + 1 := by
  unfold F64.rne
  split
  · exact Or.inl rfl
  · split
    · exact Or.inr rfl
    · split
      · exact Or.inl rfl
      · exact Or.inr rfl

/-- Rounding to the nearest integer moves by at most one half. -/
theorem F64.abs_rne_sub_le (x : ℚ) : |(F64.rne x : ℚ) - x| ≤ 1 / 2 := by
  have h1 := Int.floor_le x
  have h2 := Int.lt_floor_add_one x
  unfold F64.rne
  by_cases c1 : x - ⌊x⌋ < 1 / 2
  · rw [if_pos c1, abs_le]
    constructor <;> linarith
  · rw [if_neg c1]
    by_cases c2 : 1 / 2 < x - ⌊x⌋
    · rw [if_pos c2, abs_le]
      push_cast
      constructor <;> linarith
    · rw [if_neg c2]
      have c3 : x - ⌊x⌋ = 1 / 2 := le_antisymm (not_lt.mp c2) (not_lt.mp c1)
      split
      · rw [abs_le]
        constructor <;> linarith
      · rw [abs_le]
        push_cast
        constructor <;> linarith

theorem F64.le_rne (x : ℚ) (k : ℤ) (h : (k : ℚ) ≤ x) : k ≤ F64.rne x := by
  have h1 : k ≤ ⌊x⌋ := Int.le_floor.mpr h
  rcases F64.rne_mem x with e | e <;> omega

theorem F64.rne_le (x : ℚ) (k : ℤ) (h : x ≤ (k : ℚ)) : F64.rne x ≤ k := by
  rcases eq_or_lt_of_le h with e | e
  · rw [e, F64.rne_intCast]
  · have h1 : ⌊x⌋ < k := Int.floor_lt.mpr e
    rcases F64.rne_mem x with e' | e' <;> omega

/-- The binade of a non-zero rational. -/
theorem F64.log_eq (q : ℚ) (n : ℤ) (h1 : (2 : ℚ) ^ n ≤ |q|) (h2 : |q| < (2 : ℚ) ^ (n + 1)) :
    Int.log 2 |q| = n := by
  have hq : (0 : ℚ) < |q| := lt_of_lt_of_le (by positivity) h1
  have a : n ≤ Int.log 2 |q| :=
    (Int.zpow_le_iff_le_log (by norm_num : 1 < 2) hq).mp (by exact_mod_cast h1)
  have b : Int.log 2 |q| < n + 1 :=
    (Int.lt_zpow_iff_log_lt (by norm_num : 1 < 2) hq).mp (by exact_mod_cast h2)
  omega

theorem F64.ulpExp_of_binade (q : ℚ) (n : ℤ) (hn : -1022 ≤ n) (h1 : (2 : ℚ) ^ n ≤ |q|)
    (h2 : |q| < (2 : ℚ) ^ (n + 1)) : F64.ulpExp q = n - 52 := by
  unfold F64.ulpExp
  rw [F64.log_eq q n h1 h2, max_eq_left hn]

theorem F64.ulpExp_of_small (q : ℚ) (h0 : q ≠ 0) (h : |q| < (2 : ℚ) ^ (-1022 : ℤ)) :
    F64.ulpExp q = -1074 := by
  unfold F64.ulpExp
  have hl : Int.log 2 |q| < -1022 :=
    (Int.lt_zpow_iff_log_lt (by norm_num : 1 < 2) (abs_pos.mpr h0)).mp (by exact_mod_cast h)
  rw [max_eq_right (le_of_lt hl)]
  norm_num

/-- A rational in the binade of `2^n` rounds to `m * 2^(n-52)` when it lies
within half a unit in the last place of it. -/
theorem F64.rnd_eq (q : ℚ) (n m : ℤ) (hn : -1022 ≤ n) (h1 : (2 : ℚ) ^ n ≤ |q|)
    (h2 : |q| < (2 : ℚ) ^ (n + 1)) (h3 : (m : ℚ) - 1 / 2 < q / 2 ^ (n - 52))
    (h4 : q / 2 ^ (n - 52) < m + 1 / 2) : F64.rnd q = m * 2 ^ (n - 52) := by
  unfold F64.rnd
  rw [F64.ulpExp_of_binade q n hn h1 h2, F64.rne_of_lt _ m h3 h4]

/-- A rational in the binade of `2^n` that lies half-way between two multiples
of the unit in the last place rounds to the even one. -/
theorem F64.rnd_eq_tie (q : ℚ) (n m : ℤ) (hn : -1022 ≤ n) (h1 : (2 : ℚ) ^ n ≤ |q|)
    (h2 : |q| < (2 : ℚ) ^ (n + 1)) (h3 : q / 2 ^ (n - 52) = m + 1 / 2) :
    F64.rnd q = ((if m % 2 = 0 then m else m + 1 : ℤ) : ℚ) * 2 ^ (n - 52) := by
  unfold F64.rnd
  rw [F64.ulpExp_of_binade q n hn h1 h2, F64.rne_tie _ m h3]

theorem F64.ulpExp_le (m e : ℤ) (h0 : m ≠ 0) (hm : |m| < 2 ^ 53) (he : -1074 ≤ e) :
    F64.ulpExp ((m : ℚ) * 2 ^ e) ≤ e := by
  unfold F64.ulpExp
  have hpos : (0 : ℚ) < |(m : ℚ) * 2 ^ e| :=
    abs_pos.mpr (mul_ne_zero (Int.cast_ne_zero.mpr h0) (by positivity))
  have hl : Int.log 2 |(m : ℚ) * 2 ^ e| ≤ 52 + e := by
    · have hlt : |(m : ℚ) * 2 ^ e| < ((2 : ℕ) : ℚ) ^ (52 + e + 1) := by
        rw [abs_mul, abs_of_pos (by positivity : (0 : ℚ) < 2 ^ e)]
        have hm' : |(m : ℚ)| < 2 ^ (53 : ℤ) := by
          have : ((|m| : ℤ) : ℚ) < ((2 ^ 53 : ℤ) : ℚ) := by exact_mod_cast hm
          rw [Int.cast_abs] at this
          norm_num at this ⊢
          exact this
        have e1 : ((2 : ℕ) : ℚ) ^ (52 + e + 1) = 2 ^ (53 : ℤ) * 2 ^ e := by
          rw [← zpow_add₀ (by norm_num : (2 : ℚ) ≠ 0)]
          norm_num
          ring_nf
        rw [e1]
        exact mul_lt_mul_of_pos_right hm' (by positivity)
      have := (Int.lt_zpow_iff_log_lt (by norm_num : 1 < 2) hpos).mp hlt
      omega
  have : max (Int.log 2 |(m : ℚ) * 2 ^ e|) (-1022) ≤ 52 + e := max_le hl (by omega)
  omega

/-- A multiple `m * 2^e` of a power of two with `|m| < 2^53` and `e ≥ -1074`
is its own rounding. -/
theorem F64.rnd_dyadic (m e : ℤ) (hm : |m| < 2 ^ 53) (he : -1074 ≤ e) :
    F64.rnd ((m : ℚ) * 2 ^ e) = (m : ℚ) * 2 ^ e := by
  by_cases h0 : m = 0
  · subst h0
    unfold F64.rnd
    simp [F64.rne]
  have hu := F64.ulpExp_le m e h0 hm he
  unfold F64.rnd
  obtain ⟨k, hk⟩ : ∃ k : ℕ, e - F64.ulpExp ((m : ℚ) * 2 ^ e) = (k : ℤ) :=
    Int.eq_ofNat_of_zero_le (by omega)
  have hdiv : (m : ℚ) * 2 ^ e / 2 ^ F64.ulpExp ((m : ℚ) * 2 ^ e) = ((m * 2 ^ k : ℤ) : ℚ) := by
    rw [mul_div_assoc, ← zpow_sub₀ (by norm_num : (2 : ℚ) ≠ 0), hk]
    push_cast
    rw [zpow_natCast]
  rw [hdiv, F64.rne_intCast]
  push_cast
  rw [mul_assoc, ← zpow_natCast, ← hk, ← zpow_add₀ (by norm_num : (2 : ℚ) ≠ 0)]
  congr 2
  ring

/-- The `double` returned for an exact result that is a `double`. -/
theorem F64.ofRat_dyadic (q : ℚ) (m e : ℤ) (hq : q = (m : ℚ) * 2 ^ e) (hm : |m| < 2 ^ 53)
    (he : -1074 ≤ e) (hr : |q| < 2 ^ 1024) : F64.ofRat q = F64.fin q := by
  unfold F64.ofRat
  have h := F64.rnd_dyadic m e hm he
  rw [← hq] at h
  rw [h, if_neg (not_le.mpr hr)]

theorem F64.rnd_zero : F64.rnd 0 = 0 := by
  unfold F64.rnd
  simp [F64.rne]

theorem F64.two_pow_ulpExp_le (q : ℚ) (h0 : q ≠ 0) :
    (2 : ℚ) ^ F64.ulpExp q ≤ 2 ^ (-52 : ℤ) * |q| + 2 ^ (-1074 : ℤ) := by
  have hq : (0 : ℚ) < |q| := abs_pos.mpr h0
  unfold F64.ulpExp
  by_cases hl : -1022 ≤ Int.log 2 |q|
  · rw [max_eq_left hl, sub_eq_add_neg, zpow_add₀ (by norm_num : (2 : ℚ) ≠ 0), mul_comm]
    have h1 : ((2 : ℕ) : ℚ) ^ Int.log 2 |q| ≤ |q| := Int.zpow_log_le_self (by norm_num) hq
    have h2 : (2 : ℚ) ^ Int.log 2 |q| ≤ |q| := by exact_mod_cast h1
    have h3 : (2 : ℚ) ^ (-52 : ℤ) * 2 ^ Int.log 2 |q| ≤ 2 ^ (-52 : ℤ) * |q| :=
      mul_le_mul_of_nonneg_left h2 (by positivity)
    have h4 : (0 : ℚ) < 2 ^ (-1074 : ℤ) := by positivity
    linarith
  · rw [max_eq_right (by omega)]
    have h3 : (0 : ℚ) ≤ 2 ^ (-52 : ℤ) * |q| := by positivity
    have e : (-1022 : ℤ) - 52 = -1074 := by norm_num
    rw [e]
    linarith

/-- The error of rounding to binary64: at most `2^-53` of the magnitude, plus
half the spacing `2^-1074` of the subnormal numbers. -/
theorem F64.abs_rnd_sub_le (q : ℚ) :
    |F64.rnd q - q| ≤ 2 ^ (-53 : ℤ) * |q| + 2 ^ (-1075 : ℤ) := by
  by_cases h0 : q = 0
  · subst h0
    rw [F64.rnd_zero]
    simp only [sub_self, abs_zero, mul_zero, zero_add]
    positivity
  have hu : (0 : ℚ) < 2 ^ F64.ulpExp q := by positivity
  have e : F64.rnd q - q
      = ((F64.rne (q / 2 ^ F64.ulpExp q) : ℚ) - q / 2 ^ F64.ulpExp q) * 2 ^ F64.ulpExp q := by
    unfold F64.rnd
    field_simp
  rw [e, abs_mul, abs_of_pos hu]
  have h1 := F64.abs_rne_sub_le (q / 2 ^ F64.ulpExp q)
  have h2 := F64.two_pow_ulpExp_le q h0
  have h3 : |(F64.rne (q / 2 ^ F64.ulpExp q) : ℚ) - q / 2 ^ F64.ulpExp q| * 2 ^ F64.ulpExp q
      ≤ 1 / 2 * 2 ^ F64.ulpExp q := mul_le_mul_of_nonneg_right h1 (le_of_lt hu)
  have e1 : (2 : ℚ) ^ (-53 : ℤ) * |q| + 2 ^ (-1075 : ℤ)
      = 1 / 2 * (2 ^ (-52 : ℤ) * |q| + 2 ^ (-1074 : ℤ)) := by
    have a1 : (2 : ℚ) ^ (-53 : ℤ) = 1 / 2 * 2 ^ (-52 : ℤ) := by norm_num
    have a2 : (2 : ℚ) ^ (-1075 : ℤ) = 1 / 2 * 2 ^ (-1074 : ℤ) := by norm_num
    rw [a1, a2]
    ring
  rw [e1]
  exact le_trans h3 (mul_le_mul_of_nonneg_left h2 (by norm_num))

/-- Rounding does not leave a binade: a rational in `[2^n, 2^(n+1)]` rounds
into `[2^n, 2^(n+1)]`. -/
theorem F64.rnd_mem_binade (q : ℚ) (n : ℤ) (hn : -1022 ≤ n) (h1 : (2 : ℚ) ^ n ≤ q)
    (h2 : q ≤ (2 : ℚ) ^ (n + 1)) : (2 : ℚ) ^ n ≤ F64.rnd q ∧ F64.rnd q ≤ (2 : ℚ) ^ (n + 1) := by
  have hq : (0 : ℚ) < q := lt_of_lt_of_le (by positivity) h1
  rcases eq_or_lt_of_le h2 with e | hlt
  · have hd := F64.rnd_dyadic 1 (n + 1) (by norm_num) (by omega)
    rw [Int.cast_one, one_mul] at hd
    rw [e, hd]
    exact ⟨by rw [← e]; exact h1, le_refl _⟩
  · have hu := F64.ulpExp_of_binade q n hn (by rw [abs_of_pos hq]; exact h1)
      (by rw [abs_of_pos hq]; exact hlt)
    have hp : (0 : ℚ) < 2 ^ (n - 52) := by positivity
    have k52 : ((2 ^ 52 : ℤ) : ℚ) = (2 : ℚ) ^ (52 : ℤ) := by norm_num
    have k53 : ((2 ^ 53 : ℤ) : ℚ) = (2 : ℚ) ^ (53 : ℤ) := by norm_num
    have e1 : (2 : ℚ) ^ n = ((2 ^ 52 : ℤ) : ℚ) * 2 ^ (n - 52) := by
      rw [k52, ← zpow_add₀ (by norm_num : (2 : ℚ) ≠ 0)]
      congr 1
      ring
    have e2 : (2 : ℚ) ^ (n + 1) = ((2 ^ 53 : ℤ) : ℚ) * 2 ^ (n - 52) := by
      rw [k53, ← zpow_add₀ (by norm_num : (2 : ℚ) ≠ 0)]
      congr 1
      ring
    have y1 : (((2 ^ 52 : ℤ)) : ℚ) ≤ q / 2 ^ (n - 52) := by
      rw [le_div_iff₀ hp, ← e1]
      exact h1
    have y2 : q / 2 ^ (n - 52) ≤ (((2 ^ 53 : ℤ)) : ℚ) := by
      rw [div_le_iff₀ hp, ← e2]
      exact h2
    have r1 := F64.le_rne _ _ y1
    have r2 := F64.rne_le _ _ y2
    unfold F64.rnd
    rw [hu]
    have c1 : ((2 ^ 52 : ℤ) : ℚ) ≤ (F64.rne (q / 2 ^ (n - 52)) : ℚ) := by exact_mod_cast r1
    have c2 : (F64.rne (q / 2 ^ (n - 52)) : ℚ) ≤ ((2 ^ 53 : ℤ) : ℚ) := by exact_mod_cast r2
    rw [e1, e2]
    exact ⟨mul_le_mul_of_nonneg_right c1 (le_of_lt hp),
      mul_le_mul_of_nonneg_right c2 (le_of_lt hp)⟩

/-- An exact result of magnitude at most `2^1024 - 2^971` does not overflow. -/
theorem F64.ofRat_of_le (q : ℚ) (h : |q| ≤ 2 ^ 1024 - 2 ^ 971) :
    F64.ofRat q = F64.fin (F64.rnd q) := by
  unfold F64.ofRat
  have h1 := F64.abs_rnd_sub_le q
  have h2 : |F64.rnd q| ≤ |F64.rnd q - q| + |q| := by
    have := abs_add (F64.rnd q - q) q
    rwa [sub_add_cancel] at this
  have h3 : (2 : ℚ) ^ (-53 : ℤ) * |q| ≤ 2 ^ (-53 : ℤ) * (2 ^ 1024 - 2 ^ 971) :=
    mul_le_mul_of_nonneg_left h (by positivity)
  have h4 : (2 : ℚ) ^ (-53 : ℤ) * (2 ^ 1024 - 2 ^ 971) + 2 ^ (-1075 : ℤ)
      + (2 ^ 1024 - 2 ^ 971) < 2 ^ 1024 := by
    norm_num
  rw [if_neg (not_le.mpr (by linarith))]

/-- The `double` returned for an exact result in the binade of `2^n` that lies
within half a unit in the last place of `m * 2^(n-52)`. -/
theorem F64.ofRat_eq (q v : ℚ) (n m : ℤ) (hn : -1022 ≤ n) (h1 : (2 : ℚ) ^ n ≤ |q|)
    (h2 : |q| < (2 : ℚ) ^ (n + 1)) (h3 : (m : ℚ) - 1 / 2 < q / 2 ^ (n - 52))
    (h4 : q / 2 ^ (n - 52) < m + 1 / 2) (hv : v = m * 2 ^ (n - 52)) (hr : |v| < 2 ^ 1024) :
    F64.ofRat q = F64.fin v := by
  unfold F64.ofRat
  rw [F64.rnd_eq q n m hn h1 h2 h3 h4, ← hv, if_neg (not_le.mpr hr)]

/-- The `double` returned for an exact result in the binade of `2^n` that lies
half-way between `m * 2^(n-52)` and `(m + 1) * 2^(n-52)`: the one of the two
whose multiplier `k` is even. -/
theorem F64.ofRat_eq_tie (q v : ℚ) (n m k : ℤ) (hn : -1022 ≤ n) (h1 : (2 : ℚ) ^ n ≤ |q|)
    (h2 : |q| < (2 : ℚ) ^ (n + 1)) (h3 : q / 2 ^ (n - 52) = m + 1 / 2)
    (hk : k = if m % 2 = 0 then m else m + 1) (hv : v = k * 2 ^ (n - 52))
    (hr : |v| < 2 ^ 1024) : F64.ofRat q = F64.fin v := by
  unfold F64.ofRat
  rw [F64.rnd_eq_tie q n m hn h1 h2 h3, ← hk, ← hv, if_neg (not_le.mpr hr)]

/-- An exact result `m * 2^e` of magnitude at least `2^1024` overflows. -/
theorem F64.ofRat_overflow (q : ℚ) (m e : ℤ) (hq : q = (m : ℚ) * 2 ^ e) (hm : |m| < 2 ^ 53)
    (he : -1074 ≤ e) (hr : 2 ^ 1024 ≤ |q|) : F64.ofRat q = F64.inf (decide (q < 0)) := by
  unfold F64.ofRat
  have h := F64.rnd_dyadic m e hm he
  rw [← hq] at h
  rw [h, if_pos hr]

/-- In binary64 without overflow, `(x + y) - y` is `x` up to rounding. -/
theorem F64.add_sub_close (x y : ℚ) (hx : |x| ≤ 2 ^ 1023) (hxy : |x + y| ≤ 2 ^ 1023) :
    ∃ z, (F64.fin x + F64.fin y) - F64.fin y = F64.fin z
      ∧ |z - x| ≤ 2 ^ (-52 : ℤ) * (|x| + |x + y|) + 2 ^ (-1073 : ℤ) := by
  have b1 : (2 : ℚ) ^ 1023 ≤ 2 ^ 1024 - 2 ^ 971 := by norm_num
  have e1 := F64.abs_rnd_sub_le (x + y)
  have hs : |F64.rnd (x + y) + -y| ≤ |x| + (2 ^ (-53 : ℤ) * |x + y| + 2 ^ (-1075 : ℤ)) := by
    have : F64.rnd (x + y) + -y = x + (F64.rnd (x + y) - (x + y)) := by ring
    rw [this]
    exact le_trans (abs_add _ _) (add_le_add (le_refl _) e1)
  have k1 : (2 : ℚ) ^ (-53 : ℤ) * |x + y| ≤ 2 ^ (-53 : ℤ) * 2 ^ 1023 :=
    mul_le_mul_of_nonneg_left hxy (by positivity)
  have b2 : (2 : ℚ) ^ 1023 + (2 ^ (-53 : ℤ) * 2 ^ 1023 + 2 ^ (-1075 : ℤ))
      ≤ 2 ^ 1024 - 2 ^ 971 := by norm_num
  have e2 := F64.abs_rnd_sub_le (F64.rnd (x + y) + -y)
  refine ⟨F64.rnd (F64.rnd (x + y) + -y), ?_, ?_⟩
  · show F64.add (F64.add (F64.fin x) (F64.fin y)) (F64.neg (F64.fin y)) = _
    show F64.add (F64.ofRat (x + y)) (F64.fin (-y)) = _
    rw [F64.ofRat_of_le _ (le_trans hxy b1)]
    show F64.ofRat (F64.rnd (x + y) + -y) = _
    rw [F64.ofRat_of_le _ (by linarith)]
  · have t : F64.rnd (F64.rnd (x + y) + -y) - x
        = (F64.rnd (F64.rnd (x + y) + -y) - (F64.rnd (x + y) + -y))
          + (F64.rnd (x + y) - (x + y)) := by ring
    rw [t]
    have h3 := abs_add (F64.rnd (F64.rnd (x + y) + -y) - (F64.rnd (x + y) + -y))
      (F64.rnd (x + y) - (x + y))
    have k2 : (2 : ℚ) ^ (-53 : ℤ) * |F64.rnd (x + y) + -y|
        ≤ 2 ^ (-53 : ℤ) * (|x| + (2 ^ (-53 : ℤ) * |x + y| + 2 ^ (-1075 : ℤ))) :=
      mul_le_mul_of_nonneg_left hs (by positivity)
    have n1 : (0 : ℚ) ≤ |x| := abs_nonneg x
    have n2 : (0 : ℚ) ≤ |x + y| := abs_nonneg _
    have c1 : (2 : ℚ) ^ (-53 : ℤ) = 1 / 2 * 2 ^ (-52 : ℤ) := by norm_num
    have c2 : (2 : ℚ) ^ (-53 : ℤ) * (2 ^ (-53 : ℤ) * |x + y|) ≤ 2 ^ (-53 : ℤ) * |x + y| := by
      have : (2 : ℚ) ^ (-53 : ℤ) * |x + y| ≤ 1 * |x + y| :=
        mul_le_mul_of_nonneg_right (by norm_num) n2
      have := mul_le_mul_of_nonneg_left this (by positivity : (0 : ℚ) ≤ 2 ^ (-53 : ℤ))
      linarith
    have c3 : (2 : ℚ) ^ (-53 : ℤ) * 2 ^ (-1075 : ℤ) + 2 ^ (-1075 : ℤ) + 2 ^ (-1075 : ℤ)
        ≤ 2 ^ (-1073 : ℤ) := by norm_num
    have d1 : (2 : ℚ) ^ (-53 : ℤ) * (|x| + (2 ^ (-53 : ℤ) * |x + y| + 2 ^ (-1075 : ℤ)))
        = 2 ^ (-53 : ℤ) * |x| + 2 ^ (-53 : ℤ) * (2 ^ (-53 : ℤ) * |x + y|)
          + 2 ^ (-53 : ℤ) * 2 ^ (-1075 : ℤ) := by ring
    have d2 : (2 : ℚ) ^ (-52 : ℤ) * (|x| + |x + y|)
        = 2 * (2 ^ (-53 : ℤ) * |x|) + 2 * (2 ^ (-53 : ℤ) * |x + y|) := by
      rw [c1]
      ring
    have n3 : (0 : ℚ) ≤ 2 ^ (-53 : ℤ) * |x| := mul_nonneg (by norm_num) n1
    rw [d1] at k2
    rw [d2]
    linarith

/-- In binary64 without overflow, `(x * y) / y` is `x` up to rounding, for a
divisor `y` that is not zero. -/
theorem F64.mul_div_close (x y : ℚ) (hx : |x| ≤ 2 ^ 1023) (hxy : |x * y| ≤ 2 ^ 1023)
    (hy : 2 ^ (-1074 : ℤ) ≤ |y|) :
    ∃ z, (F64.fin x * F64.fin y) / F64.fin y = F64.fin z
      ∧ |z - x| ≤ 2 ^ (-51 : ℤ) * |x| + 2 ^ (-1074 : ℤ) / |y| + 2 ^ (-1075 : ℤ) := by
  have hy0 : (0 : ℚ) < |y| := lt_of_lt_of_le (by positivity) hy
  have hyne : y ≠ 0 := abs_pos.mp hy0
  have b1 : (2 : ℚ) ^ 1023 ≤ 2 ^ 1024 - 2 ^ 971 := by norm_num
  have n1 : (0 : ℚ) ≤ |x| := abs_nonneg x
  have e1 := F64.abs_rnd_sub_le (x * y)
  have hD : |F64.rnd (x * y) / y - x| ≤ 2 ^ (-53 : ℤ) * |x| + 2 ^ (-1075 : ℤ) / |y| := by
    have : F64.rnd (x * y) / y - x = (F64.rnd (x * y) - x * y) / y := by
      rw [sub_div, mul_div_assoc, div_self hyne, mul_one]
    rw [this, abs_div, div_le_iff₀ hy0]
    have : (2 ^ (-53 : ℤ) * |x| + 2 ^ (-1075 : ℤ) / |y|) * |y|
        = 2 ^ (-53 : ℤ) * |x * y| + 2 ^ (-1075 : ℤ) := by
      rw [add_mul, div_mul_cancel₀ _ (ne_of_gt hy0), abs_mul, mul_assoc]
    rw [this]
    exact e1
  have hη : (2 : ℚ) ^ (-1075 : ℤ) / |y| ≤ 1 / 2 := by
    rw [div_le_iff₀ hy0]
    have : (2 : ℚ) ^ (-1075 : ℤ) = 1 / 2 * 2 ^ (-1074 : ℤ) := by norm_num
    rw [this]
    exact mul_le_mul_of_nonneg_left hy (by norm_num)
  have hη0 : (0 : ℚ) ≤ 2 ^ (-1075 : ℤ) / |y| := div_nonneg (by norm_num) (abs_nonneg y)
  have hs : |F64.rnd (x * y) / y| ≤ |x| + (2 ^ (-53 : ℤ) * |x| + 2 ^ (-1075 : ℤ) / |y|) := by
    have : F64.rnd (x * y) / y = x + (F64.rnd (x * y) / y - x) := by ring
    rw [this]
    exact le_trans (abs_add _ _) (add_le_add (le_refl _) hD)
  have k1 : (2 : ℚ) ^ (-53 : ℤ) * |x| ≤ 2 ^ (-53 : ℤ) * 2 ^ 1023 :=
    mul_le_mul_of_nonneg_left hx (by positivity)
  have b2 : (2 : ℚ) ^ 1023 + (2 ^ (-53 : ℤ) * 2 ^ 1023 + 1 / 2) ≤ 2 ^ 1024 - 2 ^ 971 := by
    norm_num
  have e2 := F64.abs_rnd_sub_le (F64.rnd (x * y) / y)
  refine ⟨F64.rnd (F64.rnd (x * y) / y), ?_, ?_⟩
  · show F64.div (F64.mul (F64.fin x) (F64.fin y)) (F64.fin y) = _
    show F64.div (F64.ofRat (x * y)) (F64.fin y) = _
    rw [F64.ofRat_of_le _ (le_trans hxy b1)]
    show (if y = 0 then _ else F64.ofRat (F64.rnd (x * y) / y)) = _
    rw [if_neg hyne, F64.ofRat_of_le _ (by linarith)]
  · have t : F64.rnd (F64.rnd (x * y) / y) - x
        = (F64.rnd (F64.rnd (x * y) / y) - F64.rnd (x * y) / y)
          + (F64.rnd (x * y) / y - x) := by ring
    rw [t]
    have h3 := abs_add (F64.rnd (F64.rnd (x * y) / y) - F64.rnd (x * y) / y)
      (F64.rnd (x * y) / y - x)
    have k2 : (2 : ℚ) ^ (-53 : ℤ) * |F64.rnd (x * y) / y|
        ≤ 2 ^ (-53 : ℤ) * (|x| + (2 ^ (-53 : ℤ) * |x| + 2 ^ (-1075 : ℤ) / |y|)) :=
      mul_le_mul_of_nonneg_left hs (by positivity)
    have n3 : (0 : ℚ) ≤ 2 ^ (-53 : ℤ) * |x| := mul_nonneg (by norm_num) n1
    have c2 : (2 : ℚ) ^ (-53 : ℤ) * (2 ^ (-53 : ℤ) * |x|) ≤ 2 ^ (-53 : ℤ) * |x| := by
      have : (2 : ℚ) ^ (-53 : ℤ) * (2 ^ (-53 : ℤ) * |x|) ≤ 1 * (2 ^ (-53 : ℤ) * |x|) :=
        mul_le_mul_of_nonneg_right (by norm_num) n3
      linarith
    have c3 : (2 : ℚ) ^ (-53 : ℤ) * (2 ^ (-1075 : ℤ) / |y|) ≤ 2 ^ (-1075 : ℤ) / |y| := by
      have : (2 : ℚ) ^ (-53 : ℤ) * (2 ^ (-1075 : ℤ) / |y|) ≤ 1 * (2 ^ (-1075 : ℤ) / |y|) :=
        mul_le_mul_of_nonneg_right (by norm_num) hη0
      linarith
    have d1 : (2 : ℚ) ^ (-53 : ℤ) * (|x| + (2 ^ (-53 : ℤ) * |x| + 2 ^ (-1075 : ℤ) / |y|))
        = 2 ^ (-53 : ℤ) * |x| + 2 ^ (-53 : ℤ) * (2 ^ (-53 : ℤ) * |x|)
          + 2 ^ (-53 : ℤ) * (2 ^ (-1075 : ℤ) / |y|) := by ring
    have d2 : (2 : ℚ) ^ (-51 : ℤ) * |x| = 4 * (2 ^ (-53 : ℤ) * |x|) := by
      have : (2 : ℚ) ^ (-51 : ℤ) = 4 * 2 ^ (-53 : ℤ) := by norm_num
      rw [this]
      ring
    have d3 : (2 : ℚ) ^ (-1074 : ℤ) / |y| = 2 * (2 ^ (-1075 : ℤ) / |y|) := by
      have : (2 : ℚ) ^ (-1074 : ℤ) = 2 * 2 ^ (-1075 : ℤ) := by norm_num
      rw [this]
      ring
    rw [d1] at k2
    rw [d2, d3]
    linarith

/-! ## Binary64: the operations on finite values -/

theorem F64.add_fin (a b : ℚ) : F64.fin a + F64.fin b = F64.ofRat (a + b) := rfl

theorem F64.sub_fin (a b : ℚ) : F64.fin a - F64.fin b = F64.ofRat (a + -b) := rfl

theorem F64.mul_fin (a b : ℚ) : F64.fin a * F64.fin b = F64.ofRat (a * b) := rfl

theorem F64.div_fin (a b : ℚ) (h : b ≠ 0) : F64.fin a / F64.fin b = F64.ofRat (a / b) := by
  show (if b = 0 then _ else F64.ofRat (a / b)) = _
  rw [if_neg h]

theorem F64.neg_fin (a : ℚ) : -F64.fin a = F64.fin (-a) := rfl

theorem F64.ofRat_of_isDouble (q : ℚ) (h : F64.IsDouble q) : F64.ofRat q = F64.fin q := by
  unfold F64.ofRat
  rw [h.1, if_neg (not_le.mpr h.2)]

/-- In binary64, `(x + y) - y` is `x` when `x` and the sum `x + y` are binary64
numbers. -/
theorem F64.add_sub_exact (x y : ℚ) (hx : F64.IsDouble x) (hxy : F64.IsDouble (x + y)) :
    (F64.fin x + F64.fin y) - F64.fin y = F64.fin x := by
  rw [F64.add_fin, F64.ofRat_of_isDouble _ hxy, F64.sub_fin]
  have e : x + y + -y = x := by ring
  rw [e, F64.ofRat_of_isDouble _ hx]

/-! ## Binary64: certificates for single operations -/

/-- An exact result `x = q = m * 2^e` that is a binary64 number is returned
unchanged. -/
theorem F64.round_exact (x q : ℚ) (m e : ℤ)
    (h : x = q ∧ q = (m : ℚ) * 2 ^ e ∧ |m| < 2 ^ 53 ∧ -1074 ≤ e ∧ |q| < 2 ^ 1024) :
    F64.ofRat x = F64.fin q := by
  obtain ⟨hx, hq, hm, he, hr⟩ := h
  rw [hx]
  exact F64.ofRat_dyadic q m e hq hm he hr

/-- An exact result `x = q` in the binade of `2^n` that is nearer to
`v = m * 2^(n-52)` than to any other multiple of `2^(n-52)` is rounded to `v`. -/
theorem F64.round_inexact (x q v : ℚ) (n m : ℤ)
    (h : x = q ∧ -1022 ≤ n ∧ (2 : ℚ) ^ n ≤ |q| ∧ |q| < (2 : ℚ) ^ (n + 1)
      ∧ (m : ℚ) - 1 / 2 < q / 2 ^ (n - 52) ∧ q / 2 ^ (n - 52) < m + 1 / 2
      ∧ v = m * 2 ^ (n - 52) ∧ |v| < 2 ^ 1024) :
    F64.ofRat x = F64.fin v := by
  obtain ⟨hx, hn, h1, h2, h3, h4, hv, hr⟩ := h
  rw [hx]
  exact F64.ofRat_eq q v n m hn h1 h2 h3 h4 hv hr

/-- An exact result `x = q` in the binade of `2^n` that is half-way between
`m * 2^(n-52)` and `(m + 1) * 2^(n-52)` is rounded to the one of the two,
`v = k * 2^(n-52)`, with `k` even. -/
theorem F64.round_tie (x q v : ℚ) (n m k : ℤ)
    (h : x = q ∧ -1022 ≤ n ∧ (2 : ℚ) ^ n ≤ |q| ∧ |q| < (2 : ℚ) ^ (n + 1)
      ∧ q / 2 ^ (n - 52) = m + 1 / 2 ∧ (k = m ∨ k = m + 1) ∧ k % 2 = 0
      ∧ v = k * 2 ^ (n - 52) ∧ |v| < 2 ^ 1024) :
    F64.ofRat x = F64.fin v := by
  obtain ⟨hx, hn, h1, h2, h3, hk, hk2, hv, hr⟩ := h
  rw [hx]
  refine F64.ofRat_eq_tie q v n m k hn h1 h2 h3 ?_ hv hr
  rcases hk with rfl | rfl
  · rw [if_pos hk2]
  · rw [if_neg (by omega)]

/-- An exact result `x = q = m * 2^e` of magnitude at least `2^1024`
overflows to the infinity of its sign. -/
theorem F64.round_overflow (x q : ℚ) (m e : ℤ) (s : Bool)
    (h : x = q ∧ q = (m : ℚ) * 2 ^ e ∧ |m| < 2 ^ 53 ∧ -1074 ≤ e ∧ 2 ^ 1024 ≤ |q|
      ∧ s = decide (q < 0)) :
    F64.ofRat x = F64.inf s := by
  obtain ⟨hx, hq, hm, he, hr, hs⟩ := h
  rw [hx, hs]
  exact F64.ofRat_overflow q m e hq hm he hr

theorem F64.zero_eq : (0 : F64) = F64.fin 0 := rfl

theorem F64.one_eq : (1 : F64) = F64.fin 1 := rfl

/-! ## C24: the add/subtract round trip -/

/-- The round trip `(t + s) - s` element by element, in any arithmetic. -/
theorem addSub_scalar_eq {α : Type} [Add α] [Sub α] (t : Tensor α) (s : α) :
    (t.addScalar s >>= fun u => u.subScalar s)
      = .ok { t with data := t.data.map (fun x => x + s - s) } := by
  rw [addScalar_eq, ok_bind]
  unfold Tensor.subScalar Tensor.subAssignScalar
  rw [compoundScalar_eq]
  simp only [List.map_map]
  rfl

theorem zipWith_zipWith_self {β : Type} (f g : β → β → β) :
    ∀ (l r : List β), List.zipWith g (List.zipWith f l r) r
      = List.zipWith (fun x y => g (f x y) y) l r
  | [], _ => by simp
  | _ :: _, [] => by simp
  | a :: l, b :: r => by
    simp only [List.zipWith_cons_cons]
    rw [zipWith_zipWith_self f g l r]

/-- The round trip `(a + b) - b` element by element, in any arithmetic. -/
theorem addSub_eq {α : Type} [Add α] [Sub α] (a b : Tensor α) (hs : a.bentuk = b.bentuk)
    (hl : a.data.length = b.data.length) :
    (a.add b >>= fun u => u.sub b)
      = .ok { a with data := List.zipWith (fun x y => x + y - y) a.data b.data } := by
  rw [add_eq a b hs (le_of_eq hl), ok_bind,
    sub_eq { a with data := List.zipWith (· + ·) a.data b.data } b hs (by simp [hl])]
  simp only [zipWith_zipWith_self]

theorem getElem?_zipWith_some {β γ δ : Type} (f : β → γ → δ) :
    ∀ (l : List β) (r : List γ) (i : ℕ) (x : β) (y : γ), l[i]? = some x → r[i]? = some y →
      (List.zipWith f l r)[i]? = some (f x y)
  | [], _, i, x, y, hx, _ => by simp at hx
  | _ :: _, [], i, x, y, _, hy => by simp at hy
  | a :: l, b :: r, 0, x, y, hx, hy => by
    simp only [List.getElem?_cons_zero, Option.some.injEq] at hx hy
    subst hx hy
    simp
  | a :: l, b :: r, i + 1, x, y, hx, hy => by
    simp only [List.getElem?_cons_succ] at hx hy
    simp only [List.zipWith_cons_cons, List.getElem?_cons_succ]
    exact getElem?_zipWith_some f l r i x y hx hy

theorem F64.isDouble_dyadic (q : ℚ) (m e : ℤ) (hq : q = (m : ℚ) * 2 ^ e) (hm : |m| < 2 ^ 53)
    (he : -1074 ≤ e) (hr : |q| < 2 ^ 1024) : F64.IsDouble q := by
  refine ⟨?_, hr⟩
  rw [hq]
  exact F64.rnd_dyadic m e hm he

/-- The two statements about one element of a round trip `(x + y) - y`. -/
theorem F64.add_sub_element (x y : ℚ) :
    (|x| ≤ 2 ^ 1023 → |x + y| ≤ 2 ^ 1023 →
      ∃ z, some ((F64.fin x + F64.fin y) - F64.fin y) = some (F64.fin z)
        ∧ |z - x| ≤ 2 ^ (-52 : ℤ) * (|x| + |x + y|) + 2 ^ (-1073 : ℤ))
    ∧ (F64.IsDouble x → F64.IsDouble (x + y) →
        some ((F64.fin x + F64.fin y) - F64.fin y) = some (F64.fin x)) := by
  constructor
  · intro hx hxy
    obtain ⟨z, h1, h2⟩ := F64.add_sub_close x y hx hxy
    exact ⟨z, congrArg some h1, h2⟩
  · intro hx hxy
    exact congrArg some (F64.add_sub_exact x y hx hxy)

/-- C24 does not hold in binary64: `([1, 2] + 1e16) - 1e16` and
`([1, 2] + [1e16, 1e16]) - [1e16, 1e16]` are `[0, 2]`, because `1 + 1e16` is
half-way between the binary64 numbers `1e16` and `1e16 + 2` and rounds to
`1e16`. -/
theorem Tensor.add_sub_counterexample :
    ((⟨[F64.fin 1, F64.fin 2], [2], [1], false⟩ : Tensor F64).addScalar (F64.fin (10 ^ 16))
        >>= fun u => u.subScalar (F64.fin (10 ^ 16)))
      = .ok ⟨[F64.fin 0, F64.fin 2], [2], [1], false⟩
    ∧ ((⟨[F64.fin 1, F64.fin 2], [2], [1], false⟩ : Tensor F64).add
          ⟨[F64.fin (10 ^ 16), F64.fin (10 ^ 16)], [2], [1], false⟩
        >>= fun u => u.sub ⟨[F64.fin (10 ^ 16), F64.fin (10 ^ 16)], [2], [1], false⟩)
      = .ok ⟨[F64.fin 0, F64.fin 2], [2], [1], false⟩
    ∧ F64.fin 0 ≠ F64.fin 1 := by
  have h1 : F64.fin 1 + F64.fin (10 ^ 16) = F64.fin (10 ^ 16) := by
    rw [F64.add_fin]
    exact F64.round_tie _ 10000000000000001 (10 ^ 16) 53 5000000000000000 5000000000000000
      (by norm_num [abs_div, abs_neg])
  have h2 : F64.fin (10 ^ 16) - F64.fin (10 ^ 16) = F64.fin 0 := by
    rw [F64.sub_fin]
    exact F64.round_exact _ 0 0 0 (by norm_num [abs_div, abs_neg])
  have h3 : (F64.fin 2 + F64.fin (10 ^ 16)) - F64.fin (10 ^ 16) = F64.fin 2 :=
    F64.add_sub_exact 2 (10 ^ 16)
      (F64.isDouble_dyadic 2 1 1 (by norm_num) (by norm_num) (by norm_num) (by norm_num))
      (F64.isDouble_dyadic _ 5000000000000001 1 (by norm_num) (by norm_num) (by norm_num)
        (by norm_num))
  refine ⟨?_, ?_, ?_⟩
  · rw [addSub_scalar_eq]
    simp only [List.map_cons, List.map_nil, h1, h2, h3]
  · rw [addSub_eq ⟨[F64.fin 1, F64.fin 2], [2], [1], false⟩
      ⟨[F64.fin (10 ^ 16), F64.fin (10 ^ 16)], [2], [1], false⟩ rfl rfl]
    simp only [List.zipWith_cons_cons, List.zipWith_nil_right, h1, h2, h3]
  · intro h
    have := F64.fin.inj h
    norm_num at this

/-- C24, amended. In binary64, for every tensor `t` and finite scalar `s`,
`(t + s) - s` returns a tensor with the shape, the strides and the length of
`t`; where `t[i]` is a finite `x`, element `i` of the result is finite and
within `2^-52 (|x| + |x + s|) + 2^-1073` of `x` as long as `|x|` and `|x + s|` do
not exceed `2^1023`, and it is `x` itself when `x` and `x + s` are binary64
numbers.  For two tensors `a`, `b` of equal shape that satisfy the size
invariant, `(a + b) - b` returns a tensor with the shape, the strides and the
length of `a`, with the same two statements about element `i` for `x = a[i]`
and `y = b[i]` in place of `s`. -/
theorem Tensor.add_sub_amended (t a b : Tensor F64) (s : ℚ) :
    (∃ r, (t.addScalar (F64.fin s) >>= fun u => u.subScalar (F64.fin s)) = .ok r
      ∧ r.bentuk = t.bentuk ∧ r.strides = t.strides ∧ r.data.length = t.data.length
      ∧ ∀ (i : ℕ) (x : ℚ), t.data[i]? = some (F64.fin x) →
          (|x| ≤ 2 ^ 1023 → |x + s| ≤ 2 ^ 1023 →
            ∃ z, r.data[i]? = some (F64.fin z)
              ∧ |z - x| ≤ 2 ^ (-52 : ℤ) * (|x| + |x + s|) + 2 ^ (-1073 : ℤ))
          ∧ (F64.IsDouble x → F64.IsDouble (x + s) → r.data[i]? = some (F64.fin x)))
    ∧ (a.bentuk = b.bentuk → a.Sized → b.Sized →
        ∃ r, (a.add b >>= fun u => u.sub b) = .ok r
          ∧ r.bentuk = a.bentuk ∧ r.strides = a.strides ∧ r.data.length = a.data.length
          ∧ ∀ (i : ℕ) (x y : ℚ), a.data[i]? = some (F64.fin x) → b.data[i]? = some (F64.fin y) →
              (|x| ≤ 2 ^ 1023 → |x + y| ≤ 2 ^ 1023 →
                ∃ z, r.data[i]? = some (F64.fin z)
                  ∧ |z - x| ≤ 2 ^ (-52 : ℤ) * (|x| + |x + y|) + 2 ^ (-1073 : ℤ))
              ∧ (F64.IsDouble x → F64.IsDouble (x + y) → r.data[i]? = some (F64.fin x))) := by
  constructor
  · refine ⟨_, addSub_scalar_eq t (F64.fin s), rfl, rfl, by simp, ?_⟩
    intro i x hx
    have e : (t.data.map (fun x => x + F64.fin s - F64.fin s))[i]?
        = some ((F64.fin x + F64.fin s) - F64.fin s) := by
      rw [List.getElem?_map, hx]
      rfl
    show (_ → _ → ∃ z, (t.data.map (fun x => x + F64.fin s - F64.fin s))[i]? = _ ∧ _)
      ∧ (_ → _ → (t.data.map (fun x => x + F64.fin s - F64.fin s))[i]? = _)
    rw [e]
    exact F64.add_sub_element x s
  · intro hs ha hb
    have hl := sized_length_eq a b ha hb hs
    refine ⟨_, addSub_eq a b hs hl, rfl, rfl, by simp [hl], ?_⟩
    intro i x y hx hy
    have e : (List.zipWith (fun x y : F64 => x + y - y) a.data b.data)[i]?
        = some ((F64.fin x + F64.fin y) - F64.fin y) :=
      getElem?_zipWith_some _ a.data b.data i _ _ hx hy
    show (_ → _ → ∃ z, (List.zipWith (fun x y : F64 => x + y - y) a.data b.data)[i]? = _ ∧ _)
      ∧ (_ → _ → (List.zipWith (fun x y : F64 => x + y - y) a.data b.data)[i]? = _)
    rw [e]
    exact F64.add_sub_element x y

/-- Witness of C24, amended: in `([1, 2] + 1e16) - 1e16` the element at `2` is
`2`, and the element at `1` is within the tolerance of `1`. -/
theorem Tensor.add_sub_amended_witness :
    ∃ r, ((⟨[F64.fin 1, F64.fin 2], [2], [1], false⟩ : Tensor F64).addScalar (F64.fin (10 ^ 16))
        >>= fun u => u.subScalar (F64.fin (10 ^ 16))) = .ok r
      ∧ r.bentuk = [2] ∧ r.data[1]? = some (F64.fin 2)
      ∧ ∃ z, r.data[0]? = some (F64.fin z)
          ∧ |z - 1| ≤ 2 ^ (-52 : ℤ) * (|1| + |1 + 10 ^ 16|) + 2 ^ (-1073 : ℤ) := by
  obtain ⟨r, h, hb, _, _, he⟩ := (Tensor.add_sub_amended ⟨[F64.fin 1, F64.fin 2], [2], [1], false⟩
    ⟨[], [], [], false⟩ ⟨[], [], [], false⟩ (10 ^ 16)).1
  refine ⟨r, h, hb, (he 1 2 rfl).2
      (F64.isDouble_dyadic 2 1 1 (by norm_num) (by norm_num) (by norm_num) (by norm_num))
      (F64.isDouble_dyadic _ 5000000000000001 1 (by norm_num) (by norm_num) (by norm_num)
        (by norm_num)), ?_⟩
  exact (he 0 1 rfl).1 (by norm_num) (by norm_num)

/-! ## C25: the multiply/divide round trip -/

/-- In binary64, `(x * y) / y` is `x` when `x` and the product `x * y` are
binary64 numbers and `y` is not zero. -/
theorem F64.mul_div_exact (x y : ℚ) (hy : y ≠ 0) (hx : F64.IsDouble x)
    (hxy : F64.IsDouble (x * y)) : (F64.fin x * F64.fin y) / F64.fin y = F64.fin x := by
  rw [F64.mul_fin, F64.ofRat_of_isDouble _ hxy, F64.div_fin _ _ hy, mul_div_assoc, div_self hy,
    mul_one, F64.ofRat_of_isDouble _ hx]

/-- The two statements about one element of a round trip `(x * y) / y`. -/
theorem F64.mul_div_element (x y : ℚ) :
    (|x| ≤ 2 ^ 1023 → |x * y| ≤ 2 ^ 1023 → 2 ^ (-1074 : ℤ) ≤ |y| →
      ∃ z, some ((F64.fin x * F64.fin y) / F64.fin y) = some (F64.fin z)
        ∧ |z - x| ≤ 2 ^ (-51 : ℤ) * |x| + 2 ^ (-1074 : ℤ) / |y| + 2 ^ (-1075 : ℤ))
    ∧ (y ≠ 0 → F64.IsDouble x → F64.IsDouble (x * y) →
        some ((F64.fin x * F64.fin y) / F64.fin y) = some (F64.fin x)) := by
  constructor
  · intro hx hxy hy
    obtain ⟨z, h1, h2⟩ := F64.mul_div_close x y hx hxy hy
    exact ⟨z, congrArg some h1, h2⟩
  · intro hy hx hxy
    exact congrArg some (F64.mul_div_exact x y hy hx hxy)

/-- The round trip `(a * b) / b` element by element, in any arithmetic. -/
theorem mulDiv_eq {α : Type} [Mul α] [Div α] (a b : Tensor α) (hs : a.bentuk = b.bentuk)
    (hl : a.data.length = b.data.length) :
    (a.mul b >>= fun u => u.div b)
      = .ok { a with data := List.zipWith (fun x y => x * y / y) a.data b.data } := by
  rw [mul_eq a b hs (le_of_eq hl), ok_bind,
    div_eq { a with data := List.zipWith (· * ·) a.data b.data } b hs (by simp [hl])]
  simp only [zipWith_zipWith_self]

/-- C25 does not hold in binary64: with `a = [0.1, 2^600]` and
`b = [3, 2^600]`, no element of `b` is zero and `(a * b) / b` is
`[0.10000000000000002, +∞]`.  The `double` `0.1` is `3602879701896397 / 2^55`;
its product with `3` is half-way between two binary64 numbers and rounds to
`0.30000000000000004`, whose third rounds to `7205759403792795 / 2^56`; the
product `2^600 * 2^600` overflows. -/
theorem Tensor.mul_div_counterexample :
    ((⟨[F64.fin (3602879701896397 / 36028797018963968), F64.fin (2 ^ 600)], [2], [1], false⟩ :
          Tensor F64).mul ⟨[F64.fin 3, F64.fin (2 ^ 600)], [2], [1], false⟩
        >>= fun u => u.div ⟨[F64.fin 3, F64.fin (2 ^ 600)], [2], [1], false⟩)
      = .ok ⟨[F64.fin (7205759403792795 / 72057594037927936), F64.inf false], [2], [1], false⟩
    ∧ F64.fin (7205759403792795 / 72057594037927936)
        ≠ F64.fin (3602879701896397 / 36028797018963968)
    ∧ F64.inf false ≠ F64.fin (2 ^ 600)
    ∧ F64.fin 3 ≠ 0 ∧ F64.fin (2 ^ 600) ≠ 0 := by
  have h1 : F64.fin (3602879701896397 / 36028797018963968) * F64.fin 3
      = F64.fin (1351079888211149 / 4503599627370496) := by
    rw [F64.mul_fin]
    exact F64.round_tie _ (10808639105689191 / 36028797018963968)
      (1351079888211149 / 4503599627370496) (-2) 5404319552844595 5404319552844596
      (by norm_num [abs_div, abs_neg])
  have h2 : F64.fin (1351079888211149 / 4503599627370496) / F64.fin 3
      = F64.fin (7205759403792795 / 72057594037927936) := by
    rw [F64.div_fin _ _ (by norm_num)]
    exact F64.round_inexact _ (1351079888211149 / 13510798882111488)
      (7205759403792795 / 72057594037927936) (-4) 7205759403792795
      (by norm_num [abs_div, abs_neg])
  have h3 : F64.fin (2 ^ 600) * F64.fin (2 ^ 600) = F64.inf false := by
    rw [F64.mul_fin]
    exact F64.round_overflow _ (2 ^ 1200) 1 1200 false (by norm_num [abs_div, abs_neg])
  have h4 : F64.inf false / F64.fin (2 ^ 600) = F64.inf false := by
    show F64.inf (xor false (decide ((2 : ℚ) ^ 600 < 0))) = _
    simp
  refine ⟨?_, ?_, ?_, ?_, ?_⟩
  · rw [mulDiv_eq ⟨[F64.fin (3602879701896397 / 36028797018963968), F64.fin (2 ^ 600)], [2], [1],
      false⟩ ⟨[F64.fin 3, F64.fin (2 ^ 600)], [2], [1], false⟩ rfl rfl]
    simp only [List.zipWith_cons_cons, List.zipWith_nil_right, h1, h2, h3, h4]
  · intro h
    have := F64.fin.inj h
    norm_num at this
  · intro h
    cases h
  · intro h
    have := F64.fin.inj h
    norm_num at this
  · intro h
    have := F64.fin.inj h
    norm_num at this

/-- C25, amended. In binary64, for every two tensors `a`, `b` of equal shape
that satisfy the size invariant, `(a * b) / b` returns a tensor with the shape,
the strides and the length of `a`.  Where `a[i]` is a finite `x` and `b[i]` a
finite `y`, element `i` of the result is finite and within
`2^-51 |x| + 2^-1074 / |y| + 2^-1075` of `x` as long as `|x|` and `|x y|` do not
exceed `2^1023` and `|y|` is at least `2^-1074` (the least positive binary64
number), and it is `x` itself when `y ≠ 0` and `x` and `x y` are binary64
numbers. -/
theorem Tensor.mul_div_amended (a b : Tensor F64) (hs : a.bentuk = b.bentuk) (ha : a.Sized)
    (hb : b.Sized) :
    ∃ r, (a.mul b >>= fun u => u.div b) = .ok r
      ∧ r.bentuk = a.bentuk ∧ r.strides = a.strides ∧ r.data.length = a.data.length
      ∧ ∀ (i : ℕ) (x y : ℚ), a.data[i]? = some (F64.fin x) → b.data[i]? = some (F64.fin y) →
          (|x| ≤ 2 ^ 1023 → |x * y| ≤ 2 ^ 1023 → 2 ^ (-1074 : ℤ) ≤ |y| →
            ∃ z, r.data[i]? = some (F64.fin z)
              ∧ |z - x| ≤ 2 ^ (-51 : ℤ) * |x| + 2 ^ (-1074 : ℤ) / |y| + 2 ^ (-1075 : ℤ))
          ∧ (y ≠ 0 → F64.IsDouble x → F64.IsDouble (x * y) →
              r.data[i]? = some (F64.fin x)) := by
  have hl := sized_length_eq a b ha hb hs
  refine ⟨_, mulDiv_eq a b hs hl, rfl, rfl, by simp [hl], ?_⟩
  intro i x y hx hy
  have e : (List.zipWith (fun x y : F64 => x * y / y) a.data b.data)[i]?
      = some ((F64.fin x * F64.fin y) / F64.fin y) :=
    getElem?_zipWith_some _ a.data b.data i _ _ hx hy
  show (_ → _ → _ → ∃ z, (List.zipWith (fun x y : F64 => x * y / y) a.data b.data)[i]? = _ ∧ _)
    ∧ (_ → _ → _ → (List.zipWith (fun x y : F64 => x * y / y) a.data b.data)[i]? = _)
  rw [e]
  exact F64.mul_div_element x y

/-- Witness of C25, amended: in `([0.1, 2] * [3, 4]) / [3, 4]` the element at
`2` is `2`, and the element at `0.1` is within the tolerance of `0.1`. -/
theorem Tensor.mul_div_amended_witness :
    ∃ r, ((⟨[F64.fin (3602879701896397 / 36028797018963968), F64.fin 2], [2], [1], false⟩ :
          Tensor F64).mul ⟨[F64.fin 3, F64.fin 4], [2], [1], false⟩
        >>= fun u => u.div ⟨[F64.fin 3, F64.fin 4], [2], [1], false⟩) = .ok r
      ∧ r.bentuk = [2] ∧ r.data[1]? = some (F64.fin 2)
      ∧ ∃ z, r.data[0]? = some (F64.fin z)
          ∧ |z - 3602879701896397 / 36028797018963968|
              ≤ 2 ^ (-51 : ℤ) * |3602879701896397 / 36028797018963968|
                + 2 ^ (-1074 : ℤ) / |3| + 2 ^ (-1075 : ℤ) := by
  obtain ⟨r, h, hb, _, _, he⟩ := Tensor.mul_div_amended
    ⟨[F64.fin (3602879701896397 / 36028797018963968), F64.fin 2], [2], [1], false⟩
    ⟨[F64.fin 3, F64.fin 4], [2], [1], false⟩ rfl rfl rfl
  refine ⟨r, h, hb, (he 1 2 4 rfl rfl).2 (by norm_num)
      (F64.isDouble_dyadic 2 1 1 (by norm_num) (by norm_num) (by norm_num) (by norm_num))
      (F64.isDouble_dyadic _ 1 3 (by norm_num) (by norm_num) (by norm_num) (by norm_num)), ?_⟩
  exact (he 0 _ 3 rfl rfl).1 (by norm_num [abs_of_pos]) (by norm_num [abs_of_pos])
    (by norm_num [abs_of_pos])

/-! ## C30: the output range of the ReLU → Sigmoid tail -/

/-- In binary64, `std::max(0.0, v)` is a finite number that is not negative, or
`+∞`; it is never NaN. -/
theorem F64.relu_value (v : F64) :
    (∃ q, stdMax 0 v = F64.fin q ∧ 0 ≤ q) ∨ stdMax 0 v = F64.inf false := by
  unfold stdMax
  cases v with
  | fin q =>
    by_cases h : (0 : ℚ) < q
    · left
      refine ⟨q, ?_, le_of_lt h⟩
      exact if_pos h
    · left
      refine ⟨0, ?_, le_refl 0⟩
      exact if_neg h
  | inf s =>
    cases s
    · right
      exact if_pos rfl
    · left
      refine ⟨0, ?_, le_refl 0⟩
      exact if_neg (by decide)
  | nan =>
    left
    refine ⟨0, ?_, le_refl 0⟩
    exact if_neg (fun h => h)

/-- In binary64, `1.0 / (1.0 + e)` for a finite `e` in `[0, 1]` is a finite
number in `[1/2, 1]`. -/
theorem F64.logistic_range (e : ℚ) (h0 : 0 ≤ e) (h1 : e ≤ 1) :
    ∃ q, (1 : F64) / (1 + F64.fin e) = F64.fin q ∧ 1 / 2 ≤ q ∧ q ≤ 1 := by
  have hs := F64.rnd_mem_binade (1 + e) 0 (by norm_num) (by norm_num; linarith)
    (by norm_num; linarith)
  have hs1 : (1 : ℚ) ≤ F64.rnd (1 + e) := by
    have := hs.1
    norm_num at this
    exact this
  have hs2 : F64.rnd (1 + e) ≤ 2 := by
    have := hs.2
    norm_num at this
    exact this
  have e1 : (1 : F64) + F64.fin e = F64.fin (F64.rnd (1 + e)) := by
    show F64.ofRat (1 + e) = _
    exact F64.ofRat_of_le _ (by rw [abs_of_nonneg (by linarith)]; norm_num; linarith)
  have hpos : (0 : ℚ) < F64.rnd (1 + e) := by linarith
  have hq1 : (1 : ℚ) / F64.rnd (1 + e) ≤ 1 := by
    rw [div_le_one hpos]
    exact hs1
  have hq2 : (1 : ℚ) / 2 ≤ 1 / F64.rnd (1 + e) := one_div_le_one_div_of_le hpos hs2
  have k1 : (2 : ℚ) ^ (-1 : ℤ) = 1 / 2 := by norm_num
  have k2 : (2 : ℚ) ^ ((-1 : ℤ) + 1) = 1 := by norm_num
  have hr := F64.rnd_mem_binade (1 / F64.rnd (1 + e)) (-1) (by norm_num)
    (by rw [k1]; exact hq2) (by rw [k2]; exact hq1)
  rw [k1, k2] at hr
  have b1 : (1 : ℚ) ≤ 2 ^ 1024 - 2 ^ 971 := by norm_num
  have e2 : (1 : F64) / F64.fin (F64.rnd (1 + e)) = F64.fin (F64.rnd (1 / F64.rnd (1 + e))) := by
    rw [show (1 : F64) = F64.fin 1 from rfl, F64.div_fin _ _ (ne_of_gt hpos)]
    exact F64.ofRat_of_le _ (by
      rw [abs_of_nonneg (le_trans (by norm_num) hq2)]
      exact le_trans hq1 b1)
  exact ⟨F64.rnd (1 / F64.rnd (1 + e)), by rw [e1, e2], hr.1, hr.2⟩

/-- In binary64, the logistic function of a finite number that is not negative,
or of `+∞`, is a finite number in `[1/2, 1]`, for an exponential that returns a
finite number in `[0, 1]` at every finite non-positive argument and at `-∞`. -/
theorem F64.sigmoid_value_range (sexp : F64 → F64)
    (hexp : ∀ q : ℚ, q ≤ 0 → ∃ e, sexp (F64.fin q) = F64.fin e ∧ 0 ≤ e ∧ e ≤ 1)
    (hinf : ∃ e, sexp (F64.inf true) = F64.fin e ∧ 0 ≤ e ∧ e ≤ 1) (u : F64)
    (hu : (∃ q, u = F64.fin q ∧ 0 ≤ q) ∨ u = F64.inf false) :
    ∃ q, Sigmoid.value sexp u = F64.fin q ∧ 1 / 2 ≤ q ∧ q ≤ 1 := by
  unfold Sigmoid.value
  rcases hu with ⟨q, rfl, hq⟩ | rfl
  · obtain ⟨e, he, h0, h1⟩ := hexp (-q) (by linarith)
    rw [F64.neg_fin, he]
    exact F64.logistic_range e h0 h1
  · obtain ⟨e, he, h0, h1⟩ := hinf
    rw [show -F64.inf false = F64.inf true from rfl, he]
    exact F64.logistic_range e h0 h1

/-- In binary64, whatever `ReLu::forward` returns satisfies the size invariant,
and each of its elements is a finite number that is not negative, or `+∞`. -/
theorem ReLu.forward_value (x y : Tensor F64) (h : ReLu.forward x = .ok y) :
    y.Sized ∧ ∀ v ∈ y.data, (∃ q, v = F64.fin q ∧ 0 ≤ q) ∨ v = F64.inf false := by
  unfold ReLu.forward at h
  refine ⟨(mapNumel_ok_sized _ x y h).1, ?_⟩
  exact mapNumel_ok_all (fun v : F64 => stdMax 0 v)
    (fun v : F64 => (∃ q, v = F64.fin q ∧ 0 ≤ q) ∨ v = F64.inf false)
    (Or.inl ⟨0, rfl, le_refl 0⟩) F64.relu_value x y h

/-- In binary64, the output of a ReLU stage followed by a Sigmoid stage. -/
theorem Sigmoid.after_relu_value (sexp : F64 → F64)
    (hexp : ∀ q : ℚ, q ≤ 0 → ∃ e, sexp (F64.fin q) = F64.fin e ∧ 0 ≤ e ∧ e ≤ 1)
    (hinf : ∃ e, sexp (F64.inf true) = F64.fin e ∧ 0 ≤ e ∧ e ≤ 1) (x y z : Tensor F64)
    (h1 : ReLu.forward x = .ok y) (h2 : Sigmoid.forward sexp y = .ok z) :
    ∀ v ∈ z.data, ∃ q, v = F64.fin q ∧ 1 / 2 ≤ q ∧ q ≤ 1 := by
  obtain ⟨hs, hn⟩ := ReLu.forward_value x y h1
  rw [Sigmoid.sigmoid_forward_eq sexp y hs] at h2
  simp only [Except.ok.injEq] at h2
  subst h2
  intro v hv
  simp only [Tensor.mapData, List.mem_map] at hv
  obtain ⟨u, hu, rfl⟩ := hv
  exact F64.sigmoid_value_range sexp hexp hinf u (hn u hu)

/-- The stand-in `exExp` returns a finite number in `[0, 1]` at every finite
non-positive argument and at `-∞`. -/
theorem exExp_range :
    (∀ q : ℚ, q ≤ 0 → ∃ e, exExp (F64.fin q) = F64.fin e ∧ 0 ≤ e ∧ e ≤ 1)
    ∧ ∃ e, exExp (F64.inf true) = F64.fin e ∧ 0 ≤ e ∧ e ≤ 1 := by
  refine ⟨fun q hq => ?_, 0, rfl, le_refl 0, by norm_num⟩
  have key : exExp (F64.fin q) = if q = 0 then F64.fin 1
      else if q = -3 then F64.fin (7175072721580207 / 2 ^ 57)
      else if q = -40 then F64.fin (1378669778355849 / 2 ^ 108)
      else if q < 0 then F64.fin 0 else F64.inf false := rfl
  rw [key]
  by_cases h0 : q = 0
  · exact ⟨1, if_pos h0, by norm_num, le_refl 1⟩
  · rw [if_neg h0]
    by_cases h3 : q = -3
    · exact ⟨_, if_pos h3, by norm_num, by norm_num⟩
    · rw [if_neg h3]
      by_cases h40 : q = -40
      · exact ⟨_, if_pos h40, by norm_num, by norm_num⟩
      · rw [if_neg h40, if_pos (lt_of_le_of_ne hq h0)]
        exact ⟨0, rfl, le_refl 0, by norm_num⟩

/-- The network `ReLU → Sigmoid` on a vector of two elements, in any
arithmetic. -/
theorem relu_sigmoid_pair {α : Type} [Zero α] [One α] [Add α] [Mul α] [Div α] [Neg α] [LT α]
    [DecidableRel (fun a b : α => a < b)] (sexp : α → α) (lr a b : α) :
    (⟨[], [⟨LayerType.RELU, -1⟩, ⟨LayerType.SIGMOID, -1⟩], [], [], [], lr⟩ :
        NeuralNetwork α).forward sexp ⟨[a, b], [2], [1], false⟩
      = .ok (⟨[], [⟨LayerType.RELU, -1⟩, ⟨LayerType.SIGMOID, -1⟩], [],
          [⟨[a, b], [2], [1], false⟩, ⟨[stdMax 0 a, stdMax 0 b], [2], [1], false⟩,
            ⟨[1 / (1 + sexp (-stdMax 0 a)), 1 / (1 + sexp (-stdMax 0 b))], [2], [1], false⟩],
          [⟨[a, b], [2], [1], false⟩, ⟨[stdMax 0 a, stdMax 0 b], [2], [1], false⟩], lr⟩,
        ⟨[1 / (1 + sexp (-stdMax 0 a)), 1 / (1 + sexp (-stdMax 0 b))], [2], [1], false⟩) := rfl

/-- C30 does not hold in binary64: the network `ReLU → Sigmoid` returns
`[0.5, 1]` on the input `[-1, 40]`.  The ReLU stage gives `[0, 40]`;
`exp(-40)` is `1378669778355849 / 2^108`, below `2^-54`, so that
`1.0 + exp(-40)` rounds to `1.0` and the output element is `1.0`, which is not
below `1`. -/
theorem NeuralNetwork.relu_sigmoid_counterexample :
    (∃ N1, (⟨[], [⟨LayerType.RELU, -1⟩, ⟨LayerType.SIGMOID, -1⟩], [], [], [], F64.fin (1 / 8)⟩ :
          NeuralNetwork F64).forward exExp ⟨[F64.fin (-1), F64.fin 40], [2], [1], false⟩
        = .ok (N1, ⟨[F64.fin (1 / 2), F64.fin 1], [2], [1], false⟩))
    ∧ exExp (F64.fin (-40)) = F64.fin (1378669778355849 / 2 ^ 108)
    ∧ exExp (F64.fin 0) = F64.fin 1
    ∧ ¬ ((1 : ℚ) < 1) := by
  have r1 : stdMax (0 : F64) (F64.fin (-1)) = F64.fin 0 := if_neg (by
    show ¬ ((0 : ℚ) < -1)
    norm_num)
  have r2 : stdMax (0 : F64) (F64.fin 40) = F64.fin 40 := if_pos (by
    show (0 : ℚ) < 40
    norm_num)
  have x1 : exExp (F64.fin 0) = F64.fin 1 := rfl
  have x2 : exExp (F64.fin (-40)) = F64.fin (1378669778355849 / 2 ^ 108) := by
    show (if (-40 : ℚ) = 0 then F64.fin 1
      else if (-40 : ℚ) = -3 then F64.fin (7175072721580207 / 2 ^ 57)
      else if (-40 : ℚ) = -40 then F64.fin (1378669778355849 / 2 ^ 108)
      else if (-40 : ℚ) < 0 then F64.fin 0 else F64.inf false) = _
    rw [if_neg (by norm_num), if_neg (by norm_num), if_pos rfl]
  have a1 : (1 : F64) + F64.fin 1 = F64.fin 2 := by
    rw [F64.one_eq, F64.add_fin]
    exact F64.round_exact _ 2 1 1 (by norm_num [abs_div, abs_neg])
  have a2 : (1 : F64) / F64.fin 2 = F64.fin (1 / 2) := by
    rw [F64.one_eq, F64.div_fin _ _ (by norm_num)]
    exact F64.round_exact _ (1 / 2) 1 (-1) (by norm_num [abs_div, abs_neg])
  have a3 : (1 : F64) + F64.fin (1378669778355849 / 2 ^ 108) = F64.fin 1 := by
    rw [F64.one_eq, F64.add_fin]
    exact F64.round_inexact _ (1 + 1378669778355849 / 2 ^ 108) 1 0 4503599627370496
      (by norm_num [abs_div, abs_neg])
  have a4 : (1 : F64) / F64.fin 1 = F64.fin 1 := by
    rw [F64.one_eq, F64.div_fin _ _ (by norm_num)]
    exact F64.round_exact _ 1 1 0 (by norm_num [abs_div, abs_neg])
  have n0 : F64.fin (-0) = F64.fin 0 := by rw [neg_zero]
  have hf := relu_sigmoid_pair exExp (F64.fin (1 / 8)) (F64.fin (-1)) (F64.fin 40)
  rw [r1, r2, F64.neg_fin, F64.neg_fin, n0, x1, x2, a1, a2, a3, a4] at hf
  exact ⟨⟨_, hf⟩, x2, x1, by norm_num⟩

/-- C30, amended. In binary64, for every network whose last two stages are
ReLU followed by Sigmoid, every parameter setting and every input, each element
of the tensor that `forward` (and so `predict`) returns is a finite number
`≥ 1/2` and `≤ 1`: the network never outputs a probability below `0.5`, and it
never outputs NaN, but it can output `1`.  The exponential enters through the
two facts that it returns a finite number in `[0, 1]` at every finite
non-positive argument and at `-∞`. -/
theorem NeuralNetwork.relu_sigmoid_amended (sexp : F64 → F64)
    (hexp : ∀ q : ℚ, q ≤ 0 → ∃ e, sexp (F64.fin q) = F64.fin e ∧ 0 ≤ e ∧ e ≤ 1)
    (hinf : ∃ e, sexp (F64.inf true) = F64.fin e ∧ 0 ≤ e ∧ e ≤ 1)
    (N N1 : NeuralNetwork F64) (pre : List LayerInfo) (a b : Int) (input out : Tensor F64)
    (hl : N.layer_order = pre ++ [⟨LayerType.RELU, a⟩, ⟨LayerType.SIGMOID, b⟩])
    (h : N.forward sexp input = .ok (N1, out)) :
    (∀ v ∈ out.data, ∃ q, v = F64.fin q ∧ 1 / 2 ≤ q ∧ q ≤ 1)
    ∧ N.predict sexp input = .ok (N1, out) := by
  refine ⟨?_, h⟩
  obtain ⟨ys, ht, ho, _⟩ := NeuralNetwork.forward_ok_trace sexp N N1 input out h
  rw [hl] at ht
  obtain ⟨u, y, z, q1, q2, q3⟩ :=
    NeuralNetwork.forwardTrace_tail sexp N.dense_layers a b pre input ys ht
  rw [ho, q3]
  exact Sigmoid.after_relu_value sexp hexp hinf u y z q1 q2

/-- Witness of C30, amended: the network `ReLU → Sigmoid` on the input
`[-1, 40]` returns, and both outputs are finite numbers in `[1/2, 1]`. -/
theorem NeuralNetwork.relu_sigmoid_amended_witness :
    ∃ N1 out,
      (⟨[], [⟨LayerType.RELU, -1⟩, ⟨LayerType.SIGMOID, -1⟩], [], [], [], F64.fin (1 / 8)⟩ :
          NeuralNetwork F64).forward exExp ⟨[F64.fin (-1), F64.fin 40], [2], [1], false⟩
        = .ok (N1, out)
      ∧ ∀ v ∈ out.data, ∃ q, v = F64.fin q ∧ 1 / 2 ≤ q ∧ q ≤ 1 :=
  ⟨_, _, relu_sigmoid_pair exExp (F64.fin (1 / 8)) (F64.fin (-1)) (F64.fin 40),
    (NeuralNetwork.relu_sigmoid_amended exExp exExp_range.1 exExp_range.2 _ _ [] (-1) (-1) _ _ rfl
      (relu_sigmoid_pair exExp (F64.fin (1 / 8)) (F64.fin (-1)) (F64.fin 40))).1⟩

/-! ## Binary64: operations with an infinite operand, integer powers -/

theorem F64.fin_mul_inf (a : ℚ) (s : Bool) (h : 0 < a) :
    F64.fin a * F64.inf s = F64.inf s := by
  show (if a = 0 then F64.nan else F64.inf (xor (decide (a < 0)) s)) = _
  rw [if_neg (ne_of_gt h), decide_eq_false (not_lt.mpr (le_of_lt h)), Bool.false_xor]

theorem F64.inf_div_fin (a : ℚ) (s : Bool) (h : 0 < a) :
    F64.inf s / F64.fin a = F64.inf s := by
  show F64.inf (xor s (decide (a < 0))) = _
  rw [decide_eq_false (not_lt.mpr (le_of_lt h)), Bool.xor_false]

theorem F64.zpow_fin (q : ℚ) (t : ℤ) (ht : t ≠ 0) (h : q ≠ 0) :
    F64.fin q ^ t = F64.ofRat (q ^ t) := by
  show (if t = 0 then F64.fin 1
    else if q = 0 ∧ t < 0 then F64.inf false else F64.ofRat (q ^ t)) = _
  rw [if_neg ht, if_neg (fun hh => h hh.1)]

/-! ## C35: `Dense::backward` and `Dense::forward` in binary64 -/

/-- The layer `Dense(2, 1)` without bias, on one row, in any arithmetic:
`forward` accumulates `0 + x0 * w0 + x1 * w1`. -/
theorem dense_row_forward {α : Type} [Zero α] [Add α] [Mul α] (w0 w1 x0 x1 : α) :
    (⟨2, 1, ⟨[w0, w1], [1, 2], [2, 1], false⟩, Tensor.default,
        ⟨[0, 0], [1, 2], [2, 1], false⟩, Tensor.default, Tensor.default, false⟩ :
      Dense α).forward ⟨[x0, x1], [1, 2], [2, 1], false⟩
      = .ok (⟨2, 1, ⟨[w0, w1], [1, 2], [2, 1], false⟩, Tensor.default,
          ⟨[0, 0], [1, 2], [2, 1], false⟩, Tensor.default,
          ⟨[x0, x1], [1, 2], [2, 1], false⟩, false⟩,
        ⟨[0 + x0 * w0 + x1 * w1], [1, 1], [1, 1], false⟩) := rfl

/-- The layer `Dense(2, 1)` without bias, on one row, in any arithmetic:
`backward` stores `0 + g * x0` and `0 + g * x1` in the weight gradient and
returns `0 + g * w0` and `0 + g * w1`. -/
theorem dense_row_backward {α : Type} [Zero α] [Add α] [Mul α] (w0 w1 x0 x1 g : α) :
    (⟨2, 1, ⟨[w0, w1], [1, 2], [2, 1], false⟩, Tensor.default,
        ⟨[0, 0], [1, 2], [2, 1], false⟩, Tensor.default,
        ⟨[x0, x1], [1, 2], [2, 1], false⟩, false⟩ :
      Dense α).backward ⟨[g], [1, 1], [1, 1], false⟩
      = .ok (⟨2, 1, ⟨[w0, w1], [1, 2], [2, 1], false⟩, Tensor.default,
          ⟨[0 + g * x0, 0 + g * x1], [1, 2], [2, 1], false⟩, Tensor.default,
          ⟨[x0, x1], [1, 2], [2, 1], false⟩, false⟩,
        ⟨[0 + g * w0, 0 + g * w1], [1, 2], [2, 1], false⟩) := rfl

/-- The sum of products of two buffers of one element, in any arithmetic. -/
theorem dot_single {α : Type} [Zero α] [Add α] [Mul α] (a c : α) (s1 s2 t1 t2 : List Int)
    (r1 r2 : Bool) : Tensor.dot ⟨[a], s1, t1, r1⟩ ⟨[c], s2, t2, r2⟩ = a * c + 0 := rfl

/-- The sum of products of two buffers of two elements, in any arithmetic. -/
theorem dot_pair {α : Type} [Zero α] [Add α] [Mul α] (a b c d : α) (s1 s2 t1 t2 : List Int)
    (r1 r2 : Bool) :
    Tensor.dot ⟨[a, b], s1, t1, r1⟩ ⟨[c, d], s2, t2, r2⟩ = a * c + (b * d + 0) := rfl

/-- C35 does not hold in binary64.  The layer `Dense(2, 1)` without bias and
with the weight `[[1, 1]]` returns `out = [[2^54]]` on `x = [[2^54, 1.5]]`,
because `2^54 + 1.5` rounds to `2^54`; `backward` on `g = [[3]]` then returns
`grad_input = [[3, 3]]` and leaves `weight_grad = [[3 * 2^54, 4.5]]`.  The sum
of `g * out` is `3 * 2^54`, the sums of `x * grad_input` and of
`weight * weight_grad` are `3 * 2^54 + 4.5`; added in binary64 the three sums
are `3 * 2^54`, `3 * 2^54 + 8` and `3 * 2^54 + 8`.  (`2^54` is
`18014398509481984` and `3 * 2^54` is `54043195528445952`.) -/
theorem Dense.backward_adjoint_counterexample :
    exWideLayer.gunakan_bias = false
    ∧ (∃ L1 L2,
        exWideLayer.forward exWideRow
            = .ok (L1, ⟨[F64.fin 18014398509481984], [1, 1], [1, 1], false⟩)
        ∧ L1.backward exWideGrad
            = .ok (L2, ⟨[F64.fin 3, F64.fin 3], [1, 2], [2, 1], false⟩)
        ∧ L2.bobot = ⟨[F64.fin 1, F64.fin 1], [1, 2], [2, 1], false⟩
        ∧ L2.grad_bobot
            = ⟨[F64.fin 54043195528445952, F64.fin (9 / 2)], [1, 2], [2, 1], false⟩)
    ∧ (3 : ℚ) * 18014398509481984 ≠ 18014398509481984 * 3 + 3 / 2 * 3
    ∧ (3 : ℚ) * 18014398509481984 ≠ 1 * 54043195528445952 + 1 * (9 / 2)
    ∧ Tensor.dot exWideGrad ⟨[F64.fin 18014398509481984], [1, 1], [1, 1], false⟩
        = F64.fin 54043195528445952
    ∧ Tensor.dot exWideRow ⟨[F64.fin 3, F64.fin 3], [1, 2], [2, 1], false⟩
        = F64.fin 54043195528445960
    ∧ Tensor.dot (⟨[F64.fin 1, F64.fin 1], [1, 2], [2, 1], false⟩ : Tensor F64)
          ⟨[F64.fin 54043195528445952, F64.fin (9 / 2)], [1, 2], [2, 1], false⟩
        = F64.fin 54043195528445960
    ∧ F64.fin 54043195528445952 ≠ F64.fin 54043195528445960 := by
  have h1 : F64.fin 18014398509481984 * F64.fin 1 = F64.fin 18014398509481984 := by
    rw [F64.mul_fin]
    exact F64.round_exact _ 18014398509481984 1 54 (by norm_num [abs_div, abs_neg])
  have h2 : F64.fin 0 + F64.fin 18014398509481984 = F64.fin 18014398509481984 := by
    rw [F64.add_fin]
    exact F64.round_exact _ 18014398509481984 1 54 (by norm_num [abs_div, abs_neg])
  have h3 : F64.fin (3 / 2) * F64.fin 1 = F64.fin (3 / 2) := by
    rw [F64.mul_fin]
    exact F64.round_exact _ (3 / 2) 3 (-1) (by norm_num [abs_div, abs_neg])
  have h4 : F64.fin 18014398509481984 + F64.fin (3 / 2) = F64.fin 18014398509481984 := by
    rw [F64.add_fin]
    exact F64.round_inexact _ (36028797018963971 / 2) 18014398509481984 54 4503599627370496
      (by norm_num [abs_div, abs_neg])
  have h5 : F64.fin 3 * F64.fin 18014398509481984 = F64.fin 54043195528445952 := by
    rw [F64.mul_fin]
    exact F64.round_exact _ 54043195528445952 3 54 (by norm_num [abs_div, abs_neg])
  have h6 : F64.fin 0 + F64.fin 54043195528445952 = F64.fin 54043195528445952 := by
    rw [F64.add_fin]
    exact F64.round_exact _ 54043195528445952 3 54 (by norm_num [abs_div, abs_neg])
  have h7 : F64.fin 3 * F64.fin (3 / 2) = F64.fin (9 / 2) := by
    rw [F64.mul_fin]
    exact F64.round_exact _ (9 / 2) 9 (-1) (by norm_num [abs_div, abs_neg])
  have h8 : F64.fin 0 + F64.fin (9 / 2) = F64.fin (9 / 2) := by
    rw [F64.add_fin]
    exact F64.round_exact _ (9 / 2) 9 (-1) (by norm_num [abs_div, abs_neg])
  have h9 : F64.fin 3 * F64.fin 1 = F64.fin 3 := by
    rw [F64.mul_fin]
    exact F64.round_exact _ 3 3 0 (by norm_num [abs_div, abs_neg])
  have h10 : F64.fin 0 + F64.fin 3 = F64.fin 3 := by
    rw [F64.add_fin]
    exact F64.round_exact _ 3 3 0 (by norm_num [abs_div, abs_neg])
  have h11 : F64.fin 54043195528445952 + F64.fin 0 = F64.fin 54043195528445952 := by
    rw [F64.add_fin]
    exact F64.round_exact _ 54043195528445952 3 54 (by norm_num [abs_div, abs_neg])
  have h12 : F64.fin 18014398509481984 * F64.fin 3 = F64.fin 54043195528445952 := by
    rw [F64.mul_fin]
    exact F64.round_exact _ 54043195528445952 3 54 (by norm_num [abs_div, abs_neg])
  have h13 : F64.fin (3 / 2) * F64.fin 3 = F64.fin (9 / 2) := by
    rw [F64.mul_fin]
    exact F64.round_exact _ (9 / 2) 9 (-1) (by norm_num [abs_div, abs_neg])
  have h14 : F64.fin (9 / 2) + F64.fin 0 = F64.fin (9 / 2) := by
    rw [F64.add_fin]
    exact F64.round_exact _ (9 / 2) 9 (-1) (by norm_num [abs_div, abs_neg])
  have h15 : F64.fin 54043195528445952 + F64.fin (9 / 2) = F64.fin 54043195528445960 := by
    rw [F64.add_fin]
    exact F64.round_inexact _ (108086391056891913 / 2) 54043195528445960 55 6755399441055745
      (by norm_num [abs_div, abs_neg])
  have h16 : F64.fin 1 * F64.fin 54043195528445952 = F64.fin 54043195528445952 := by
    rw [F64.mul_fin]
    exact F64.round_exact _ 54043195528445952 3 54 (by norm_num [abs_div, abs_neg])
  have h17 : F64.fin 1 * F64.fin (9 / 2) = F64.fin (9 / 2) := by
    rw [F64.mul_fin]
    exact F64.round_exact _ (9 / 2) 9 (-1) (by norm_num [abs_div, abs_neg])
  have hf := dense_row_forward (F64.fin 1) (F64.fin 1) (F64.fin 18014398509481984)
    (F64.fin (3 / 2))
  have hb := dense_row_backward (F64.fin 1) (F64.fin 1) (F64.fin 18014398509481984)
    (F64.fin (3 / 2)) (F64.fin 3)
  simp only [F64.zero_eq, h1, h2, h3, h4, h5, h6, h7, h8, h9, h10, h11, h12, h13, h14, h15,
    h16, h17]
    at hf hb
  refine ⟨rfl, ⟨_, _, ?_, hb, rfl, rfl⟩, by norm_num, by norm_num, ?_, ?_, ?_, ?_⟩
  · rw [exWideLayer, exWideRow]
    simp only [F64.zero_eq]
    exact hf
  · rw [exWideGrad, dot_single]
    simp only [F64.zero_eq, h1, h2, h3, h4, h5, h6, h7, h8, h9, h10, h11, h12, h13, h14, h15,
    h16, h17]
  · rw [exWideRow, dot_pair]
    simp only [F64.zero_eq, h1, h2, h3, h4, h5, h6, h7, h8, h9, h10, h11, h12, h13, h14, h15,
    h16, h17]
  · rw [dot_pair]
    simp only [F64.zero_eq, h1, h2, h3, h4, h5, h6, h7, h8, h9, h10, h11, h12, h13, h14, h15,
    h16, h17]
  · intro h
    have := F64.fin.inj h
    norm_num at this

/-! ## C33: the first Adam step in binary64 -/

/-- The first `update` of a fresh optimizer on a weight of two elements and a
bias of one element, in any arithmetic: every operation of the update in the
order in which the code applies it. -/
theorem adam_first_update {α : Type} [Zero α] [One α] [Add α] [Sub α] [Mul α] [Div α]
    [Pow α ℤ] (ssqrt : α → α) (lr b1 b2 eps p1 p2 g1 g2 c gc : α) :
    (adam.new lr b1 b2 eps).update ssqrt ⟨[p1, p2], [2], [1], false⟩ ⟨[g1, g2], [2], [1], false⟩
        ⟨[c], [1], [1], false⟩ ⟨[gc], [1], [1], false⟩
      = .ok (⟨lr, b1, b2, eps, 1,
          ⟨[b1 * 0 + (1 - b1) * g1, b1 * 0 + (1 - b1) * g2], [2], [1], false⟩,
          ⟨[b2 * 0 + (1 - b2) * (g1 * g1), b2 * 0 + (1 - b2) * (g2 * g2)], [2], [1], false⟩,
          ⟨[b1 * 0 + (1 - b1) * gc], [1], [1], false⟩,
          ⟨[b2 * 0 + (1 - b2) * (gc * gc)], [1], [1], false⟩, true⟩,
        ⟨[p1 - lr * ((b1 * 0 + (1 - b1) * g1) / (1 - b1 ^ (1 : ℤ)))
              / (ssqrt ((b2 * 0 + (1 - b2) * (g1 * g1)) / (1 - b2 ^ (1 : ℤ))) + eps),
          p2 - lr * ((b1 * 0 + (1 - b1) * g2) / (1 - b1 ^ (1 : ℤ)))
              / (ssqrt ((b2 * 0 + (1 - b2) * (g2 * g2)) / (1 - b2 ^ (1 : ℤ))) + eps)],
          [2], [1], false⟩,
        ⟨[c - lr * ((b1 * 0 + (1 - b1) * gc) / (1 - b1 ^ (1 : ℤ)))
              / (ssqrt ((b2 * 0 + (1 - b2) * (gc * gc)) / (1 - b2 ^ (1 : ℤ))) + eps)],
          [1], [1], false⟩) := rfl

/-- C33 does not hold in binary64.  A fresh optimizer with `lr = 1/8`,
`beta1 = beta2 = 1/2` and `epsilon = 1/1024` updates the weight `[1, 1]` on the
gradient `[1, 2^600]` (and the bias `[0]` on the gradient `[0]`).  At the
gradient `1` the step is `128/1025` rounded to binary64, and the new weight is
`1 - 128/1025` rounded once more: its distance from the old weight is not
`lr * g / (|g| + epsilon) = 128/1025`.  At the gradient `2^600` the square
`g * g` overflows to `+∞`, the denominator `sqrt(v_hat) + epsilon` is `+∞`, the
step is `0` and the weight stays `1`, although `lr * g / (|g| + epsilon)` is
about `1/8`: evaluated in binary64, `1 - lr * g / (|g| + epsilon)` is `7/8`. -/
theorem adam.first_step_sign_counterexample :
    (∃ A1, (adam.new (F64.fin (1 / 8)) (F64.fin (1 / 2)) (F64.fin (1 / 2))
          (F64.fin (1 / 1024))).update exSqrt
          ⟨[F64.fin 1, F64.fin 1], [2], [1], false⟩
          ⟨[F64.fin 1, F64.fin (2 ^ 600)], [2], [1], false⟩
          ⟨[F64.fin 0], [1], [1], false⟩ ⟨[F64.fin 0], [1], [1], false⟩
        = .ok (A1, ⟨[F64.fin (7882397786831873 / 9007199254740992), F64.fin 1], [2], [1], false⟩,
            ⟨[F64.fin 0], [1], [1], false⟩))
    ∧ ((7882397786831873 / 9007199254740992) : ℚ) - 1 ≠ -(1 / 8) * 1 / (|1| + 1 / 1024)
    ∧ (1 : ℚ) - 1 ≠ -(1 / 8) * 2 ^ 600 / (|2 ^ 600| + 1 / 1024)
    ∧ F64.fin 1 - F64.fin (1 / 8) * F64.fin (2 ^ 600) / (F64.fin (2 ^ 600) + F64.fin (1 / 1024))
        = F64.fin (7 / 8)
    ∧ F64.fin 1 ≠ F64.fin (7 / 8) := by
  have h1 : F64.fin (1 / 2) * F64.fin 0 = F64.fin 0 := by
    rw [F64.mul_fin]
    exact F64.round_exact _ 0 0 0 (by norm_num [abs_div, abs_neg])
  have h2 : F64.fin 1 - F64.fin (1 / 2) = F64.fin (1 / 2) := by
    rw [F64.sub_fin]
    exact F64.round_exact _ (1 / 2) 1 (-1) (by norm_num [abs_div, abs_neg])
  have h3 : F64.fin (1 / 2) * F64.fin 1 = F64.fin (1 / 2) := by
    rw [F64.mul_fin]
    exact F64.round_exact _ (1 / 2) 1 (-1) (by norm_num [abs_div, abs_neg])
  have h4 : F64.fin 0 + F64.fin (1 / 2) = F64.fin (1 / 2) := by
    rw [F64.add_fin]
    exact F64.round_exact _ (1 / 2) 1 (-1) (by norm_num [abs_div, abs_neg])
  have h5 : F64.fin (1 / 2) / F64.fin (1 / 2) = F64.fin 1 := by
    rw [F64.div_fin _ _ (by norm_num)]
    exact F64.round_exact _ 1 1 0 (by norm_num [abs_div, abs_neg])
  have h6 : F64.fin (1 / 8) * F64.fin 1 = F64.fin (1 / 8) := by
    rw [F64.mul_fin]
    exact F64.round_exact _ (1 / 8) 1 (-3) (by norm_num [abs_div, abs_neg])
  have h7 : F64.fin 1 * F64.fin 1 = F64.fin 1 := by
    rw [F64.mul_fin]
    exact F64.round_exact _ 1 1 0 (by norm_num [abs_div, abs_neg])
  have h8 : F64.fin 1 + F64.fin (1 / 1024) = F64.fin (1025 / 1024) := by
    rw [F64.add_fin]
    exact F64.round_exact _ (1025 / 1024) 1025 (-10) (by norm_num [abs_div, abs_neg])
  have h9 : F64.fin (1 / 8) / F64.fin (1025 / 1024)
      = F64.fin (1124801467909119 / 9007199254740992) := by
    rw [F64.div_fin _ _ (by norm_num)]
    exact F64.round_inexact _ (128 / 1025) (1124801467909119 / 9007199254740992) (-4)
      8998411743272952 (by norm_num [abs_div, abs_neg])
  have h10 : F64.fin 1 - F64.fin (1124801467909119 / 9007199254740992)
      = F64.fin (7882397786831873 / 9007199254740992) := by
    rw [F64.sub_fin]
    exact F64.round_exact _ (7882397786831873 / 9007199254740992) 7882397786831873 (-53)
      (by norm_num [abs_div, abs_neg])
  have h11 : F64.fin (1 / 2) * F64.fin (2 ^ 600) = F64.fin (2 ^ 599) := by
    rw [F64.mul_fin]
    exact F64.round_exact _ (2 ^ 599) 1 599 (by norm_num [abs_div, abs_neg])
  have h12 : F64.fin 0 + F64.fin (2 ^ 599) = F64.fin (2 ^ 599) := by
    rw [F64.add_fin]
    exact F64.round_exact _ (2 ^ 599) 1 599 (by norm_num [abs_div, abs_neg])
  have h13 : F64.fin (2 ^ 599) / F64.fin (1 / 2) = F64.fin (2 ^ 600) := by
    rw [F64.div_fin _ _ (by norm_num)]
    exact F64.round_exact _ (2 ^ 600) 1 600 (by norm_num [abs_div, abs_neg])
  have h14 : F64.fin (1 / 8) * F64.fin (2 ^ 600) = F64.fin (2 ^ 597) := by
    rw [F64.mul_fin]
    exact F64.round_exact _ (2 ^ 597) 1 597 (by norm_num [abs_div, abs_neg])
  have h15 : F64.fin 1 - F64.fin 0 = F64.fin 1 := by
    rw [F64.sub_fin]
    exact F64.round_exact _ 1 1 0 (by norm_num [abs_div, abs_neg])
  have h16 : F64.fin 0 + F64.fin 0 = F64.fin 0 := by
    rw [F64.add_fin]
    exact F64.round_exact _ 0 0 0 (by norm_num [abs_div, abs_neg])
  have h17 : F64.fin 0 / F64.fin (1 / 2) = F64.fin 0 := by
    rw [F64.div_fin _ _ (by norm_num)]
    exact F64.round_exact _ 0 0 0 (by norm_num [abs_div, abs_neg])
  have h18 : F64.fin (1 / 8) * F64.fin 0 = F64.fin 0 := by
    rw [F64.mul_fin]
    exact F64.round_exact _ 0 0 0 (by norm_num [abs_div, abs_neg])
  have h19 : F64.fin 0 * F64.fin 0 = F64.fin 0 := by
    rw [F64.mul_fin]
    exact F64.round_exact _ 0 0 0 (by norm_num [abs_div, abs_neg])
  have h20 : F64.fin 0 + F64.fin (1 / 1024) = F64.fin (1 / 1024) := by
    rw [F64.add_fin]
    exact F64.round_exact _ (1 / 1024) 1 (-10) (by norm_num [abs_div, abs_neg])
  have h21 : F64.fin 0 / F64.fin (1 / 1024) = F64.fin 0 := by
    rw [F64.div_fin _ _ (by norm_num)]
    exact F64.round_exact _ 0 0 0 (by norm_num [abs_div, abs_neg])
  have h22 : F64.fin 0 - F64.fin 0 = F64.fin 0 := by
    rw [F64.sub_fin]
    exact F64.round_exact _ 0 0 0 (by norm_num [abs_div, abs_neg])
  have h23 : F64.fin (2 ^ 600) + F64.fin (1 / 1024) = F64.fin (2 ^ 600) := by
    rw [F64.add_fin]
    exact F64.round_inexact _ (2 ^ 600 + 1 / 1024) (2 ^ 600) 600 4503599627370496
      (by norm_num [abs_div, abs_neg])
  have h24 : F64.fin (2 ^ 597) / F64.fin (2 ^ 600) = F64.fin (1 / 8) := by
    rw [F64.div_fin _ _ (by norm_num)]
    exact F64.round_exact _ (1 / 8) 1 (-3) (by norm_num [abs_div, abs_neg])
  have h25 : F64.fin 1 - F64.fin (1 / 8) = F64.fin (7 / 8) := by
    rw [F64.sub_fin]
    exact F64.round_exact _ (7 / 8) 7 (-3) (by norm_num [abs_div, abs_neg])
  have p1 : F64.fin (1 / 2) ^ (1 : ℤ) = F64.fin (1 / 2) := by
    rw [F64.zpow_fin _ _ (by norm_num) (by norm_num)]
    exact F64.round_exact _ (1 / 2) 1 (-1) (by norm_num [abs_div, abs_neg])
  have o1 : F64.fin (2 ^ 600) * F64.fin (2 ^ 600) = F64.inf false := by
    rw [F64.mul_fin]
    exact F64.round_overflow _ (2 ^ 1200) 1 1200 false (by norm_num [abs_div, abs_neg])
  have o2 : F64.fin (1 / 2) * F64.inf false = F64.inf false :=
    F64.fin_mul_inf _ _ (by norm_num)
  have o3 : F64.fin 0 + F64.inf false = F64.inf false := rfl
  have o4 : F64.inf false / F64.fin (1 / 2) = F64.inf false :=
    F64.inf_div_fin _ _ (by norm_num)
  have o5 : exSqrt (F64.inf false) = F64.inf false := rfl
  have o6 : F64.inf false + F64.fin (1 / 1024) = F64.inf false := rfl
  have o7 : F64.fin (2 ^ 597) / F64.inf false = F64.fin 0 := rfl
  have s0 : exSqrt (F64.fin 0) = F64.fin 0 := rfl
  have s1 : exSqrt (F64.fin 1) = F64.fin 1 := by
    show (if (1 : ℚ) = 0 then F64.fin 0 else if (1 : ℚ) = 1 then F64.fin 1 else F64.nan) = _
    rw [if_neg (by norm_num), if_pos rfl]
  have hu := adam_first_update exSqrt (F64.fin (1 / 8)) (F64.fin (1 / 2)) (F64.fin (1 / 2))
    (F64.fin (1 / 1024)) (F64.fin 1) (F64.fin 1) (F64.fin 1) (F64.fin (2 ^ 600)) (F64.fin 0)
    (F64.fin 0)
  simp only [F64.zero_eq, F64.one_eq, p1, h1, h2, h3, h4, h5, h6, h7, h8, h9,
    h10, h11, h12, h13, h14, h15, h16, h17, h18, h19, h20, h21, h22, h23, h24, h25,
    o1, o2, o3, o4, o5, o6, o7, s0, s1] at hu
  refine ⟨⟨_, hu⟩, ?_, ?_, ?_, ?_⟩
  · norm_num [abs_of_pos]
  · norm_num [abs_of_pos]
  · simp only [h1, h2, h3, h4, h5, h6, h7, h8, h9,
    h10, h11, h12, h13, h14, h15, h16, h17, h18, h19, h20, h21, h22, h23, h24, h25]
  · intro h
    have := F64.fin.inj h
    norm_num at this

/-! ## C32: the gradient of logistic regression in binary64 -/

/-- The network `Dense(1, 1) → Sigmoid` with bias on one sample, in any
arithmetic: `forward` returns `p = 1 / (1 + exp(-(0 + x * w + c)))`, and
`backward(p, y)` leaves the weight gradient `0 + g * x` and the bias gradient
`0 + g`, where `g = (q - y) / (q * (1 - q)) * (p * (1 - p))` for the clamped
prediction `q = max(eps, min(1 - eps, p))`. -/
theorem logit_cell {α : Type} [Zero α] [One α] [Add α] [Sub α] [Mul α] [Div α] [Neg α] [LT α]
    [DecidableRel (fun a b : α => a < b)] [NatCast α] [Pow α ℕ] (sexp : α → α)
    (opt : List (adam α)) (lr w c x y : α) :
    ∃ N1 N2 gin,
      (⟨[⟨1, 1, ⟨[w], [1, 1], [1, 1], false⟩, ⟨[c], [1], [1], false⟩,
            ⟨[0], [1, 1], [1, 1], false⟩, ⟨[0], [1], [1], false⟩, Tensor.default, true⟩],
          logitStages, opt, [], [], lr⟩ : NeuralNetwork α).forward sexp
          ⟨[x], [1, 1], [1, 1], false⟩
        = .ok (N1, ⟨[1 / (1 + sexp (-(0 + x * w + c)))], [1, 1], [1, 1], false⟩)
      ∧ N1.backward ⟨[1 / (1 + sexp (-(0 + x * w + c)))], [1, 1], [1, 1], false⟩
          ⟨[y], [1, 1], [1, 1], false⟩ = .ok (N2, gin)
      ∧ N2.dense_layers.map (fun L => (L.grad_bobot, L.grad_bias))
          = [(⟨[0 + (BinaryCrossEnrtopy.clamp (1 / (1 + sexp (-(0 + x * w + c)))) - y)
                    / (BinaryCrossEnrtopy.clamp (1 / (1 + sexp (-(0 + x * w + c))))
                        * (1 - BinaryCrossEnrtopy.clamp (1 / (1 + sexp (-(0 + x * w + c))))))
                  * (1 / (1 + sexp (-(0 + x * w + c)))
                      * (1 - 1 / (1 + sexp (-(0 + x * w + c))))) * x], [1, 1], [1, 1], false⟩,
              ⟨[0 + (BinaryCrossEnrtopy.clamp (1 / (1 + sexp (-(0 + x * w + c)))) - y)
                    / (BinaryCrossEnrtopy.clamp (1 / (1 + sexp (-(0 + x * w + c))))
                        * (1 - BinaryCrossEnrtopy.clamp (1 / (1 + sexp (-(0 + x * w + c))))))
                  * (1 / (1 + sexp (-(0 + x * w + c)))
                      * (1 - 1 / (1 + sexp (-(0 + x * w + c)))))], [1], [1], false⟩)] :=
  ⟨_, _, _, rfl, rfl, rfl⟩

/-- The constant `eps` of the loss, in any arithmetic. -/
theorem eps_unfold {α : Type} [One α] [Div α] [NatCast α] [Pow α ℕ] :
    (BinaryCrossEnrtopy.eps : α) = 1 / 10 ^ 7 := rfl

theorem pow_seven {α : Type} [One α] [Mul α] (x : α) (p : ℕ → α) (h0 : p 0 = 1)
    (hs : ∀ n, p (n + 1) = p n * x) : p 7 = 1 * x * x * x * x * x * x * x := by
  rw [hs 6, hs 5, hs 4, hs 3, hs 2, hs 1, hs 0, h0]

/-- The seventh power of a `double`, as `F64.npow` multiplies it out. -/
theorem F64.pow_seven_fin (x : F64) : x ^ 7 = F64.fin 1 * x * x * x * x * x * x * x :=
  pow_seven x (fun n => x ^ n) rfl (fun _ => rfl)

/-- C32 does not hold in binary64.  The network `Dense(1, 1) → Sigmoid` with
the weight `[[3]]` and the bias `[0]` returns `p = 0.9525741268224334` on
`x = [[1]]` (the logistic function of `3`, with `exp(-3)` as `std::exp`
returns it), which lies in `[eps, 1 - eps]`.  With the target `y = [[0]]`,
`backward(p, y)` leaves the weight gradient and the bias gradient
`0.9525741268224333`: the loss gradient `(p - y) / (p (1 - p))` and the product
`p (1 - p)` of the Sigmoid stage are rounded, and their product is one unit in
the last place below `p - y = p`, that is below `(p - y) * x`. -/
theorem NeuralNetwork.logistic_gradient_counterexample :
    (∃ N1 N2 gin,
      exLogitCell.forward exExp ⟨[F64.fin 1], [1, 1], [1, 1], false⟩
        = .ok (N1, ⟨[F64.fin (8580024965200573 / 9007199254740992)], [1, 1], [1, 1], false⟩)
      ∧ N1.backward ⟨[F64.fin (8580024965200573 / 9007199254740992)], [1, 1], [1, 1], false⟩
          ⟨[F64.fin 0], [1, 1], [1, 1], false⟩ = .ok (N2, gin)
      ∧ N2.dense_layers.map (fun L => (L.grad_bobot, L.grad_bias))
          = [(⟨[F64.fin (2145006241300143 / 2251799813685248)], [1, 1], [1, 1], false⟩,
              ⟨[F64.fin (2145006241300143 / 2251799813685248)], [1], [1], false⟩)])
    ∧ exExp (F64.fin (-3)) = F64.fin (7175072721580207 / 2 ^ 57)
    ∧ ((1 : ℚ) / 10 ^ 7 ≤ (8580024965200573 / 9007199254740992)
        ∧ ((8580024965200573 / 9007199254740992) : ℚ) ≤ 1 - 1 / 10 ^ 7)
    ∧ ((2145006241300143 / 2251799813685248) : ℚ)
        ≠ ((8580024965200573 / 9007199254740992) - 0) * 1
    ∧ (F64.fin (8580024965200573 / 9007199254740992) - F64.fin 0) * F64.fin 1
        = F64.fin (8580024965200573 / 9007199254740992)
    ∧ F64.fin (2145006241300143 / 2251799813685248)
        ≠ F64.fin (8580024965200573 / 9007199254740992) := by
  have h1 : F64.fin 1 * F64.fin 3 = F64.fin 3 := by
    rw [F64.mul_fin]
    exact F64.round_exact _ 3 3 0 (by norm_num [abs_div, abs_neg])
  have h2 : F64.fin 0 + F64.fin 3 = F64.fin 3 := by
    rw [F64.add_fin]
    exact F64.round_exact _ 3 3 0 (by norm_num [abs_div, abs_neg])
  have h3 : F64.fin 3 + F64.fin 0 = F64.fin 3 := by
    rw [F64.add_fin]
    exact F64.round_exact _ 3 3 0 (by norm_num [abs_div, abs_neg])
  have h4 : F64.fin 1 + F64.fin (7175072721580207 / 144115188075855872)
      = F64.fin (4727820649919877 / 4503599627370496) := by
    rw [F64.add_fin]
    exact F64.round_inexact _ (151290260797436079 / 144115188075855872)
      (4727820649919877 / 4503599627370496) 0 4727820649919877 (by norm_num [abs_div, abs_neg])
  have h5 : F64.fin 1 / F64.fin (4727820649919877 / 4503599627370496)
      = F64.fin (8580024965200573 / 9007199254740992) := by
    rw [F64.div_fin _ _ (by norm_num)]
    exact F64.round_inexact _ (4503599627370496 / 4727820649919877)
      (8580024965200573 / 9007199254740992) (-1) 8580024965200573 (by norm_num [abs_div, abs_neg])
  have h6 : F64.fin 1 * F64.fin 10 = F64.fin 10 := by
    rw [F64.mul_fin]
    exact F64.round_exact _ 10 5 1 (by norm_num [abs_div, abs_neg])
  have h7 : F64.fin 10 * F64.fin 10 = F64.fin 100 := by
    rw [F64.mul_fin]
    exact F64.round_exact _ 100 25 2 (by norm_num [abs_div, abs_neg])
  have h8 : F64.fin 100 * F64.fin 10 = F64.fin 1000 := by
    rw [F64.mul_fin]
    exact F64.round_exact _ 1000 125 3 (by norm_num [abs_div, abs_neg])
  have h9 : F64.fin 1000 * F64.fin 10 = F64.fin 10000 := by
    rw [F64.mul_fin]
    exact F64.round_exact _ 10000 625 4 (by norm_num [abs_div, abs_neg])
  have h10 : F64.fin 10000 * F64.fin 10 = F64.fin 100000 := by
    rw [F64.mul_fin]
    exact F64.round_exact _ 100000 3125 5 (by norm_num [abs_div, abs_neg])
  have h11 : F64.fin 100000 * F64.fin 10 = F64.fin 1000000 := by
    rw [F64.mul_fin]
    exact F64.round_exact _ 1000000 15625 6 (by norm_num [abs_div, abs_neg])
  have h12 : F64.fin 1000000 * F64.fin 10 = F64.fin 10000000 := by
    rw [F64.mul_fin]
    exact F64.round_exact _ 10000000 78125 7 (by norm_num [abs_div, abs_neg])
  have h13 : F64.fin 1 / F64.fin 10000000 = F64.fin (944473296573929 / 9444732965739290427392) := by
    rw [F64.div_fin _ _ (by norm_num)]
    exact F64.round_inexact _ (1 / 10000000) (944473296573929 / 9444732965739290427392) (-24)
      7555786372591432 (by norm_num [abs_div, abs_neg])
  have h14 : F64.fin 1 - F64.fin (944473296573929 / 9444732965739290427392)
      = F64.fin (9007198354021067 / 9007199254740992) := by
    rw [F64.sub_fin]
    exact F64.round_inexact _ (9444732021265993853463 / 9444732965739290427392)
      (9007198354021067 / 9007199254740992) (-1) 9007198354021067 (by norm_num [abs_div, abs_neg])
  have h15 : F64.fin (8580024965200573 / 9007199254740992) - F64.fin 0
      = F64.fin (8580024965200573 / 9007199254740992) := by
    rw [F64.sub_fin]
    exact F64.round_exact _ (8580024965200573 / 9007199254740992) 8580024965200573 (-53)
      (by norm_num [abs_div, abs_neg])
  have h16 : F64.fin 1 - F64.fin (8580024965200573 / 9007199254740992)
      = F64.fin (427174289540419 / 9007199254740992) := by
    rw [F64.sub_fin]
    exact F64.round_exact _ (427174289540419 / 9007199254740992) 427174289540419 (-53)
      (by norm_num [abs_div, abs_neg])
  have h17 : F64.fin (8580024965200573 / 9007199254740992) * F64.fin
      (427174289540419 / 9007199254740992) = F64.fin (6510642813759327 / 144115188075855872) := by
    rw [F64.mul_fin]
    exact F64.round_inexact _ (3665166068748613025336325460087 / 81129638414606681695789005144064)
      (6510642813759327 / 144115188075855872) (-5) 6510642813759327 (by norm_num [abs_div, abs_neg])
  have h18 : F64.fin (8580024965200573 / 9007199254740992) / F64.fin
      (6510642813759327 / 144115188075855872) = F64.fin (741881376798243 / 35184372088832) := by
    rw [F64.div_fin _ _ (by norm_num)]
    exact F64.round_inexact _ (137280399443209168 / 6510642813759327)
      (741881376798243 / 35184372088832) 4 5935051014385944 (by norm_num [abs_div, abs_neg])
  have h19 : F64.fin (741881376798243 / 35184372088832) * F64.fin
      (6510642813759327 / 144115188075855872) = F64.fin (2145006241300143 / 2251799813685248) := by
    rw [F64.mul_fin]
    exact F64.round_inexact _ (4830124654513356299177638462461 / 5070602400912917605986812821504)
      (2145006241300143 / 2251799813685248) (-1) 8580024965200572 (by norm_num [abs_div, abs_neg])
  have h20 : F64.fin (2145006241300143 / 2251799813685248) * F64.fin 1
      = F64.fin (2145006241300143 / 2251799813685248) := by
    rw [F64.mul_fin]
    exact F64.round_exact _ (2145006241300143 / 2251799813685248) 2145006241300143 (-51)
      (by norm_num [abs_div, abs_neg])
  have h21 : F64.fin 0 + F64.fin (2145006241300143 / 2251799813685248)
      = F64.fin (2145006241300143 / 2251799813685248) := by
    rw [F64.add_fin]
    exact F64.round_exact _ (2145006241300143 / 2251799813685248) 2145006241300143 (-51)
      (by norm_num [abs_div, abs_neg])
  have h22 : F64.fin (8580024965200573 / 9007199254740992) * F64.fin 1
      = F64.fin (8580024965200573 / 9007199254740992) := by
    rw [F64.mul_fin]
    exact F64.round_exact _ (8580024965200573 / 9007199254740992) 8580024965200573 (-53)
      (by norm_num [abs_div, abs_neg])
  have x3 : exExp (F64.fin (-3)) = F64.fin (7175072721580207 / 144115188075855872) := by
    show (if (-3 : ℚ) = 0 then F64.fin 1
      else if (-3 : ℚ) = -3 then F64.fin (7175072721580207 / 2 ^ 57)
      else if (-3 : ℚ) = -40 then F64.fin (1378669778355849 / 2 ^ 108)
      else if (-3 : ℚ) < 0 then F64.fin 0 else F64.inf false) = _
    rw [if_neg (by norm_num), if_pos rfl]
    exact congrArg F64.fin (by norm_num)
  have ten : (10 : F64) = F64.fin 10 := by
    show F64.ofRat ((10 : ℕ) : ℚ) = _
    exact F64.round_exact _ 10 5 1 (by norm_num [abs_div, abs_neg])
  have ee : (BinaryCrossEnrtopy.eps : F64) = F64.fin (944473296573929 / 9444732965739290427392) := by
    rw [eps_unfold, F64.one_eq, ten, F64.pow_seven_fin]
    simp only [h1, h2, h3, h4, h5, h6, h7, h8, h9,
    h10, h11, h12, h13, h14, h15, h16, h17, h18, h19, h20, h21, h22]
  have c1 : stdMin (F64.fin (9007198354021067 / 9007199254740992))
        (F64.fin (8580024965200573 / 9007199254740992))
      = F64.fin (8580024965200573 / 9007199254740992) := if_pos (by
    show ((8580024965200573 / 9007199254740992) : ℚ) < (9007198354021067 / 9007199254740992)
    norm_num)
  have c2 : stdMax (F64.fin (944473296573929 / 9444732965739290427392))
        (F64.fin (8580024965200573 / 9007199254740992))
      = F64.fin (8580024965200573 / 9007199254740992) := if_pos (by
    show ((944473296573929 / 9444732965739290427392) : ℚ) < (8580024965200573 / 9007199254740992)
    norm_num)
  have cl : BinaryCrossEnrtopy.clamp (F64.fin (8580024965200573 / 9007199254740992))
      = F64.fin (8580024965200573 / 9007199254740992) := by
    unfold BinaryCrossEnrtopy.clamp
    simp only [ee, F64.one_eq, h1, h2, h3, h4, h5, h6, h7, h8, h9,
    h10, h11, h12, h13, h14, h15, h16, h17, h18, h19, h20, h21, h22, c1, c2]
  obtain ⟨N1, N2, gin, hf, hb, hg⟩ := logit_cell exExp [adam.newDefault (F64.fin (1 / 8))]
    (F64.fin (1 / 8)) (F64.fin 3) (F64.fin 0) (F64.fin 1) (F64.fin 0)
  simp only [F64.zero_eq, F64.one_eq, F64.neg_fin, h1, h2, h3, h4, h5, h6, h7, h8, h9,
    h10, h11, h12, h13, h14, h15, h16, h17, h18, h19, h20, h21, h22, x3, cl] at hf hb hg
  refine ⟨⟨N1, N2, gin, ?_, hb, hg⟩, ?_, ⟨by norm_num, by norm_num⟩, by norm_num, ?_, ?_⟩
  · rw [exLogitCell]
    exact hf
  · exact x3.trans (congrArg F64.fin (by norm_num))
  · simp only [h1, h2, h3, h4, h5, h6, h7, h8, h9,
    h10, h11, h12, h13, h14, h15, h16, h17, h18, h19, h20, h21, h22]
  · intro h
    have := F64.fin.inj h
    norm_num at this

end Deeplearning
